import Mathlib

/-!
# BittyBuzz virtual machine: embedding of `bbzvm.c`

The definitions follow `src/bittybuzz/bbzvm.c` function by function and keep
its names; the append functions of `src/bittybuzz/bbzoutmsg.c` and the host
function `printIntVal` of `src/testing/testvm.c` are embedded as well.  The
headers of the repository (`bbzvm.h`, `bbzheap.h`, `bbztype.h`,
`bbzdarray.h`, `bbztable.h`, `bbzringbuf.h`, `bbzmsg.h`) are not part of the
sources at hand; what the code uses from them is modelled from the
specification and marked as such.

Machine integers are `Int`/`Nat` with explicit reductions: `int16` is the
conversion to `int16_t`, `uint16` the conversion to `uint16_t`.  The `int`
of the C compiler is taken to be at least 32 bits wide, so that the
arithmetic on promoted 16-bit operands is exact before the conversion.
-/

namespace BittyBuzz

/-! ## Machine integers -/

/-- Conversion of an integer to `int16_t`: reduction modulo 2^16 into the
range -32768 .. 32767. -/
def int16 (x : Int) : Int := (x + 32768) % 65536 - 32768

/-- Conversion of an integer to `uint16_t`: reduction modulo 2^16 into the
range 0 .. 65535. -/
def uint16 (x : Int) : Int := x % 65536

/-- The constant `INT16_MIN` of `stdint.h`. -/
def INT16_MIN : Int := -32768

/-! ## Arithmetic, logic and comparison operators (`bbzvm.c`, lines 438-454, 570-571, 641-646) -/

/-- Source: `int16_t add(int16_t lhs, int16_t rhs) { return lhs + rhs; }` -/
def add (lhs rhs : Int) : Int := int16 (lhs + rhs)

/-- Source: `int16_t sub(int16_t lhs, int16_t rhs) { return lhs - rhs; }` -/
def sub (lhs rhs : Int) : Int := int16 (lhs - rhs)

/-- Source: `int16_t mul(int16_t lhs, int16_t rhs) { return lhs * rhs; }` -/
def mul (lhs rhs : Int) : Int := int16 (lhs * rhs)

/-- Source: `int16_t div(int16_t lhs, int16_t rhs) { return lhs / rhs; }`: the C
division truncates toward zero.  Division by zero is undefined in C; the
model returns what `Int.tdiv` returns there (0). -/
def div (lhs rhs : Int) : Int := int16 (Int.tdiv lhs rhs)

/-- Source: `int16_t mod(int16_t lhs, int16_t rhs) { return lhs % rhs; }`: the C
remainder has the sign of the dividend.  A zero divisor is undefined in C;
the model returns what `Int.tmod` returns there (`lhs`). -/
def mod (lhs rhs : Int) : Int := int16 (Int.tmod lhs rhs)

/-- The loop of `bbzpow`: `for (uint16_t i = 0; i < rhs; ++i) res *= lhs;`
with `res` a `uint16_t`; the first argument counts the remaining rounds. -/
def bbzpow_loop : Nat → Int → Int → Int
  | 0, _, res => res
  | n + 1, lhs, res => bbzpow_loop n lhs (uint16 (res * lhs))

/-- The function `bbzpow`: `res` starts at 1, is multiplied `rhs` times by
`lhs` when `rhs >= 0`, is `INT16_MIN` otherwise, and is returned as an
`int16_t`. -/
def bbzpow (lhs rhs : Int) : Int :=
  if rhs ≥ 0 then int16 (bbzpow_loop rhs.toNat lhs 1)
  else int16 (uint16 INT16_MIN)

/-- Source: `uint8_t bbzand(uint8_t lhs, uint8_t rhs) { return lhs & rhs; }` -/
def bbzand (lhs rhs : Nat) : Nat := lhs &&& rhs

/-- Source: `uint8_t bbzor (uint8_t lhs, uint8_t rhs) { return lhs | rhs; }` -/
def bbzor (lhs rhs : Nat) : Nat := lhs ||| rhs

/-- Source: `uint8_t bbzeq (int8_t cmp) { return cmp == 0; }` -/
def bbzeq (cmp : Int) : Nat := if cmp = 0 then 1 else 0

/-- Source: `uint8_t bbzneq(int8_t cmp) { return cmp != 0; }` -/
def bbzneq (cmp : Int) : Nat := if cmp ≠ 0 then 1 else 0

/-- Source: `uint8_t bbzgt (int8_t cmp) { return cmp >  0; }` -/
def bbzgt (cmp : Int) : Nat := if cmp > 0 then 1 else 0

/-- Source: `uint8_t bbzgte(int8_t cmp) { return cmp >= 0; }` -/
def bbzgte (cmp : Int) : Nat := if cmp ≥ 0 then 1 else 0

/-- Source: `uint8_t bbzlt (int8_t cmp) { return cmp <  0; }` -/
def bbzlt (cmp : Int) : Nat := if cmp < 0 then 1 else 0

/-- Source: `uint8_t bbzlte(int8_t cmp) { return cmp <= 0; }` -/
def bbzlte (cmp : Int) : Nat := if cmp ≤ 0 then 1 else 0

/-! ## States, errors, opcodes -/

/-- Modelled from the spec: the enumeration `bbzvm_state` of the absent
`bbzvm.h` (section 4.4, state machine). -/
inductive bbzvm_state
  | BBZVM_STATE_NOCODE
  | BBZVM_STATE_READY
  | BBZVM_STATE_DONE
  | BBZVM_STATE_ERROR
  deriving DecidableEq, Repr

/-- Modelled from the spec: the enumeration `bbzvm_error` of the absent
`bbzvm.h` (section 7).  `bbzvm.c` itself raises `INSTR`, `STACK`, `PC`,
`FLIST` and `TYPE`. -/
inductive bbzvm_error
  | BBZVM_ERROR_NONE
  | BBZVM_ERROR_INSTR
  | BBZVM_ERROR_STACK
  | BBZVM_ERROR_PC
  | BBZVM_ERROR_FLIST
  | BBZVM_ERROR_TYPE
  | BBZVM_ERROR_MEM
  | BBZVM_ERROR_RET
  deriving DecidableEq, Repr

/-- Modelled from the spec: the enumeration `bbzvm_instr` of the absent
`bbzvm.h`, in the order of section 6 ("Opcode numbering"). -/
inductive bbzvm_instr
  | NOP | DONE | PUSHNIL | DUP | POP | RET0 | RET1
  | ADD | SUB | MUL | DIV | MOD | POW | UNM
  | AND | OR | NOT
  | EQ | NEQ | GT | GTE | LT | LTE
  | GLOAD | GSTORE | PUSHT | TPUT | TGET | CALLC | CALLS
  | PUSHF | PUSHI | PUSHS | PUSHCN | PUSHCC | PUSHL
  | LLOAD | LSTORE | JUMP | JUMPZ | JUMPNZ
  deriving DecidableEq, Repr

/-- The opcodes in numbering order: the opcode byte `n` is entry `n`. -/
def bbzvm_instr.all : List bbzvm_instr :=
  [.NOP, .DONE, .PUSHNIL, .DUP, .POP, .RET0, .RET1,
   .ADD, .SUB, .MUL, .DIV, .MOD, .POW, .UNM,
   .AND, .OR, .NOT,
   .EQ, .NEQ, .GT, .GTE, .LT, .LTE,
   .GLOAD, .GSTORE, .PUSHT, .TPUT, .TGET, .CALLC, .CALLS,
   .PUSHF, .PUSHI, .PUSHS, .PUSHCN, .PUSHCC, .PUSHL,
   .LLOAD, .LSTORE, .JUMP, .JUMPZ, .JUMPNZ]

/-- Decoding of an opcode byte; `none` is the `default:` arm of the
`switch` of `bbzvm_exec_instr`. -/
def bbzvm_instr.decode (b : Nat) : Option bbzvm_instr := bbzvm_instr.all[b]?

/-- The opcode byte of an instruction. -/
def bbzvm_instr.code (i : bbzvm_instr) : Nat := bbzvm_instr.all.indexOf i

/-! ## Objects and heap -/

/-- Modelled from the spec: the tagged object `bbzobj_t` of the absent
`bbztype.h` (section 3, "Heap slot").  A table carries the index of its
first segment and the two flags of dynamic arrays (`darray`, `swarm`); a
closure carries the tag bit `native`, its reference and its activation
record (`0xFF` for the default one).  The float payload is opaque. -/
inductive bbzobj_t
  | nil
  | int (value : Int)
  | float (value : Nat)
  | string (value : Nat)
  | table (value : Nat) (darray : Bool) (swarm : Bool)
  | closure (native : Bool) (ref : Int) (actrec : Nat)
  | userdata (value : Nat)
  deriving DecidableEq, Repr

/-- The type tags, numbered as in the table `bbztype_desc` of `testvm.c`:
nil, integer, float, string, table, closure, userdata, native closure. -/
def BBZTYPE_NIL : Nat := 0
def BBZTYPE_INT : Nat := 1
def BBZTYPE_FLOAT : Nat := 2
def BBZTYPE_STRING : Nat := 3
def BBZTYPE_TABLE : Nat := 4
def BBZTYPE_CLOSURE : Nat := 5
def BBZTYPE_USERDATA : Nat := 6
def BBZTYPE_NCLOSURE : Nat := 7

/-- Modelled from the spec: the macro `bbztype` of the absent `bbztype.h`,
the tag of an object. -/
def bbztype : bbzobj_t → Nat
  | .nil => BBZTYPE_NIL
  | .int _ => BBZTYPE_INT
  | .float _ => BBZTYPE_FLOAT
  | .string _ => BBZTYPE_STRING
  | .table _ _ _ => BBZTYPE_TABLE
  | .closure false _ _ => BBZTYPE_CLOSURE
  | .userdata _ => BBZTYPE_USERDATA
  | .closure true _ _ => BBZTYPE_NCLOSURE

/-- Modelled from the spec: the macro `bbztype_isint`. -/
def bbztype_isint (o : bbzobj_t) : Bool := bbztype o == BBZTYPE_INT

/-- Modelled from the spec: the macro `bbztype_isclosure`; both closure tags
are closures. -/
def bbztype_isclosure : bbzobj_t → Bool
  | .closure _ _ _ => true
  | _ => false

/-- Modelled from the spec: the macro `bbzclosure_isnative`, the tag bit of
a closure. -/
def bbzclosure_isnative : bbzobj_t → Bool
  | .closure true _ _ => true
  | _ => false

/-- A heap slot: the `Valid` flag of the metadata byte and the object.  The
`Marked` flag is read by the collector only, which clears it first; the
model keeps the marked indices inside `bbzheap_gc`. -/
structure bbzheap_slot where
  valid : Bool
  obj : bbzobj_t
  deriving DecidableEq, Repr

/-- Modelled from the spec: a table segment (section 3): key/value cells of
heap indices, each with its validity (`none` is an invalid cell), and the
link to the next segment of the chain. -/
structure bbzheap_tseg_t where
  valid : Bool
  cells : List (Option (Nat × Nat))
  next : Option Nat
  deriving DecidableEq, Repr

/-- Modelled from the spec: the heap (section 4.1).  `objs` are the object
slots below the object frontier, `tsegs` the segments beyond the segment
frontier; `size`, `objsz` and `tsegsz` are the byte sizes of the region, of
a slot and of a segment, `elems` the number of cells of a segment. -/
structure bbzheap_t where
  objs : List bbzheap_slot
  tsegs : List bbzheap_tseg_t
  size : Nat
  objsz : Nat
  tsegsz : Nat
  elems : Nat
  deriving DecidableEq, Repr

/-- The macro `bbzheap_obj_at`: the object of slot `i`.  An index beyond
the frontier is undefined in C and reads as nil here. -/
def bbzheap_obj_at (h : bbzheap_t) (i : Nat) : bbzobj_t :=
  (h.objs.getD i ⟨false, .nil⟩).obj

/-- Validity of slot `i`. -/
def bbzheap_obj_isvalid (h : bbzheap_t) (i : Nat) : Bool :=
  (h.objs.getD i ⟨false, .nil⟩).valid

/-- Replaces the object of slot `i`, keeping its validity. -/
def bbzheap_obj_write (h : bbzheap_t) (i : Nat) (o : bbzobj_t) : bbzheap_t :=
  { h with objs := h.objs.set i ⟨bbzheap_obj_isvalid h i, o⟩ }

/-- The index of the first invalid slot of a list of slots, counted from
`i`. -/
def bbzheap_first_free : List bbzheap_slot → Nat → Option Nat
  | [], _ => none
  | s :: rest, i => if s.valid then bbzheap_first_free rest (i + 1) else some i

/-- The index of the first invalid segment, counted from `i`. -/
def bbzheap_tseg_first_free : List bbzheap_tseg_t → Nat → Option Nat
  | [], _ => none
  | s :: rest, i => if s.valid then bbzheap_tseg_first_free rest (i + 1) else some i

/-- Whether the two frontiers leave `n` more bytes. -/
def bbzheap_room (h : bbzheap_t) (n : Nat) : Bool :=
  h.objs.length * h.objsz + h.tsegs.length * h.tsegsz + n ≤ h.size

/-- Modelled from the spec: `bbzheap_tseg_alloc` of the absent `bbzheap.c`
(section 4.1: "allocation of a segment is symmetric at the high end"): the
first invalid segment is reused, otherwise the segment frontier advances
when there is room.  The new segment has all cells invalid and no
successor. -/
def bbzheap_tseg_alloc (h : bbzheap_t) : Option (bbzheap_t × Nat) :=
  let fresh : bbzheap_tseg_t := ⟨true, List.replicate h.elems none, none⟩
  match bbzheap_tseg_first_free h.tsegs 0 with
  | some i => some ({ h with tsegs := h.tsegs.set i fresh }, i)
  | none =>
    if bbzheap_room h h.tsegsz then
      some ({ h with tsegs := h.tsegs ++ [fresh] }, h.tsegs.length)
    else none

/-- The object a freshly allocated slot of tag `t` holds: the tag with a
cleared payload; a closure starts with the default activation record. -/
def bbzobj_fresh (t : Nat) (seg : Nat) : bbzobj_t :=
  if t = BBZTYPE_INT then .int 0
  else if t = BBZTYPE_FLOAT then .float 0
  else if t = BBZTYPE_STRING then .string 0
  else if t = BBZTYPE_TABLE then .table seg false false
  else if t = BBZTYPE_CLOSURE then .closure false 0 0xFF
  else if t = BBZTYPE_USERDATA then .userdata 0
  else if t = BBZTYPE_NCLOSURE then .closure true 0 0xFF
  else .nil

/-- Modelled from the spec: the slot search of `bbzheap_obj_alloc`
(section 4.1): the first slot with `Valid = 0` below the frontier,
otherwise the frontier itself when one more slot fits. -/
def bbzheap_obj_slot (h : bbzheap_t) : Option Nat :=
  match bbzheap_first_free h.objs 0 with
  | some i => some i
  | none => if bbzheap_room h h.objsz then some h.objs.length else none

/-- Stores a valid object in slot `i`, advancing the frontier when `i` is
the frontier. -/
def bbzheap_obj_place (h : bbzheap_t) (i : Nat) (o : bbzobj_t) : bbzheap_t :=
  if i < h.objs.length then { h with objs := h.objs.set i ⟨true, o⟩ }
  else { h with objs := h.objs ++ [⟨true, o⟩] }

/-- Modelled from the spec: `bbzheap_obj_alloc` of the absent `bbzheap.c`
(section 4.1).  A table is allocated together with its first segment.
`none` is the failure of the allocator. -/
def bbzheap_obj_alloc (h : bbzheap_t) (t : Nat) : Option (bbzheap_t × Nat) :=
  match bbzheap_obj_slot h with
  | none => none
  | some i =>
    if t = BBZTYPE_TABLE then
      match bbzheap_tseg_alloc (bbzheap_obj_place h i .nil) with
      | none => none
      | some (h1, seg) => some (bbzheap_obj_write h1 i (bbzobj_fresh t seg), i)
    else some (bbzheap_obj_place h i (bbzobj_fresh t 0), i)

/-- Modelled from the spec: `bbzheap_obj_copy(src, dst)` of the absent
`bbzheap.h`: slot `dst` receives the tag and the payload of slot `src`. -/
def bbzheap_obj_copy (h : bbzheap_t) (src dst : Nat) : bbzheap_t :=
  bbzheap_obj_write h dst (bbzheap_obj_at h src)


/-! ## Tables -/

/-- The macro `bbzheap_tseg_at`: segment `s`; an index outside the segment
region reads as an invalid empty segment. -/
def bbzheap_tseg_at (h : bbzheap_t) (s : Nat) : bbzheap_tseg_t :=
  h.tsegs.getD s ⟨false, [], none⟩

/-- The segment indices of the chain that starts at `s`, in chain order.
The first argument bounds the walk by the number of segments, so that a
cyclic chain ends. -/
def bbzheap_chain (h : bbzheap_t) : Nat → Option Nat → List Nat
  | 0, _ => []
  | _ + 1, none => []
  | n + 1, some s => s :: bbzheap_chain h n (bbzheap_tseg_at h s).next

/-- The segments of the table object in slot `t` (none when the slot holds
no table). -/
def bbztable_segs (h : bbzheap_t) (t : Nat) : List Nat :=
  match bbzheap_obj_at h t with
  | .table seg _ _ => bbzheap_chain h h.tsegs.length (some seg)
  | _ => []

/-- The cells of one segment with their position: `(s, p, cell)`. -/
def bbzheap_tseg_cells (h : bbzheap_t) (s : Nat) : List (Nat × Nat × Option (Nat × Nat)) :=
  (bbzheap_tseg_at h s).cells.enum.map fun pc => (s, pc.1, pc.2)

/-- All cells of table `t` in chain order. -/
def bbztable_cells (h : bbzheap_t) (t : Nat) : List (Nat × Nat × Option (Nat × Nat)) :=
  (bbztable_segs h t).flatMap (bbzheap_tseg_cells h)

/-- The valid key/value pairs of table `t` in chain order. -/
def bbztable_pairs (h : bbzheap_t) (t : Nat) : List (Nat × Nat) :=
  (bbztable_cells h t).filterMap fun c => c.2.2

/-- Three-way comparison of two integers: -1, 0 or 1. -/
def cmp3 (x y : Int) : Int := if x < y then -1 else if x > y then 1 else 0

/-- The major type of an object: its tag, the two closure tags counting as
one. -/
def bbztype_major : bbzobj_t → Nat
  | .closure _ _ _ => BBZTYPE_CLOSURE
  | o => bbztype o

/-- Modelled from the spec: `bbztype_cmp` of the absent `bbztype.c`
(section 4.2): objects of different major types compare by tag order;
within a type, numbers compare by value, strings by interned id, nil equals
nil, and tables, closures and userdata compare by identity (heap index).
The two objects are given by their heap indices. -/
def bbztype_cmp (h : bbzheap_t) (a b : Nat) : Int :=
  let oa := bbzheap_obj_at h a
  let ob := bbzheap_obj_at h b
  if bbztype_major oa ≠ bbztype_major ob then
    cmp3 (bbztype_major oa) (bbztype_major ob)
  else
    match oa, ob with
    | .nil, .nil => 0
    | .int x, .int y => cmp3 x y
    | .float x, .float y => cmp3 x y
    | .string x, .string y => cmp3 x y
    | _, _ => cmp3 a b

/-- Rewrites cell `p` of segment `s`. -/
def bbzheap_tseg_setcell (h : bbzheap_t) (s p : Nat) (c : Option (Nat × Nat)) : bbzheap_t :=
  let seg := bbzheap_tseg_at h s
  { h with tsegs := h.tsegs.set s { seg with cells := seg.cells.set p c } }

/-- Places the pair `(k, v)` in the first empty cell of table `t`; when
every cell of every segment is full a new segment is allocated and linked
behind the last one.  A failed segment allocation leaves the heap as it
is. -/
def bbztable_insert (h : bbzheap_t) (t k v : Nat) : bbzheap_t :=
  match (bbztable_cells h t).find? fun c => c.2.2.isNone with
  | some (s, p, _) => bbzheap_tseg_setcell h s p (some (k, v))
  | none =>
    match (bbztable_segs h t).getLast? with
    | none => h
    | some last =>
      match bbzheap_tseg_alloc h with
      | none => h
      | some (h1, s) =>
        let seg := bbzheap_tseg_at h1 last
        bbzheap_tseg_setcell { h1 with tsegs := h1.tsegs.set last { seg with next := some s } }
          s 0 (some (k, v))

/-- Modelled from the spec: `bbztable_get` of the absent `bbztable.c`
(section 4.2): walks the chain and returns the value index of the cell
whose key compares equal to `k`. -/
def bbztable_get (h : bbzheap_t) (t k : Nat) : Option Nat :=
  ((bbztable_pairs h t).find? fun kv => bbztype_cmp h kv.1 k == 0).map Prod.snd

/-- Modelled from the spec: `bbztable_set` of the absent `bbztable.c`
(section 4.2): a cell whose key compares equal to `k` has its value
overwritten, or is invalidated when `v` is nil; otherwise the pair goes to
the first empty cell, a new segment being allocated when all are full. -/
def bbztable_set (h : bbzheap_t) (t k v : Nat) : bbzheap_t :=
  match (bbztable_cells h t).find? fun c =>
      match c.2.2 with
      | some kv => bbztype_cmp h kv.1 k == 0
      | none => false with
  | some (s, p, some (k0, _)) =>
    if bbztype (bbzheap_obj_at h v) = BBZTYPE_NIL then bbzheap_tseg_setcell h s p none
    else bbzheap_tseg_setcell h s p (some (k0, v))
  | _ => bbztable_insert h t k v

/-- Modelled from the spec: `bbztable_size` (section 4.2): the number of
valid cells of the chain. -/
def bbztable_size (h : bbzheap_t) (t : Nat) : Nat := (bbztable_pairs h t).length

/-! ## Garbage collector -/

/-- The heap indices an object refers to (section 4.1, step 3): a table
refers to each valid key and value of its chain, a closure to its
activation record unless that is the default one. -/
def bbzheap_children (h : bbzheap_t) (i : Nat) : List Nat :=
  match bbzheap_obj_at h i with
  | .table _ _ _ => (bbztable_pairs h i).flatMap fun kv => [kv.1, kv.2]
  | .closure _ _ actrec => if actrec = 0xFF then [] else [actrec]
  | _ => []

/-- One round of tracing: the marked indices and their referents. -/
def bbzheap_mark_round (h : bbzheap_t) (m : List Nat) : List Nat :=
  (m.flatMap (bbzheap_children h)) ∪ m

/-- Tracing for `n` rounds. -/
def bbzheap_mark (h : bbzheap_t) : Nat → List Nat → List Nat
  | 0, m => m
  | n + 1, m => bbzheap_mark h n (bbzheap_mark_round h m)

/-- Sweep of the object slots, counted from `i`: a valid slot that is not
marked is freed. -/
def bbzheap_sweep_objs (m : List Nat) : List bbzheap_slot → Nat → List bbzheap_slot
  | [], _ => []
  | s :: rest, i =>
    (if s.valid && !(m.contains i) then { s with valid := false } else s)
      :: bbzheap_sweep_objs m rest (i + 1)

/-- Sweep of the segments, counted from `i`: a segment whose cells are all
invalid and which is not reachable is freed. -/
def bbzheap_sweep_tsegs (r : List Nat) : List bbzheap_tseg_t → Nat → List bbzheap_tseg_t
  | [], _ => []
  | s :: rest, i =>
    (if s.cells.all Option.isNone && !(r.contains i) then { s with valid := false } else s)
      :: bbzheap_sweep_tsegs r rest (i + 1)

/-- Modelled from the spec: `bbzheap_gc(stack, n)` of the absent
`bbzheap.c` (section 4.1, steps 2-4): the first `n` entries of the stack
are the roots; marking traces from them, one round per slot being enough to
reach every referent; the sweep frees the valid slots left unmarked and the
empty unreachable segments.  Payloads are never touched. -/
def bbzheap_gc (h : bbzheap_t) (stack : List Nat) (n : Nat) : bbzheap_t :=
  let m := bbzheap_mark h h.objs.length (stack.take n)
  let r := m.flatMap (bbztable_segs h)
  { h with objs := bbzheap_sweep_objs m h.objs 0
           tsegs := bbzheap_sweep_tsegs r h.tsegs 0 }


/-! ## Dynamic arrays -/

/-- Sets the two flags of the table object in slot `d`. -/
def bbzdarray_setflags (h : bbzheap_t) (d : Nat) (darray swarm : Bool) : bbzheap_t :=
  match bbzheap_obj_at h d with
  | .table seg _ _ => bbzheap_obj_write h d (.table seg darray swarm)
  | _ => h

/-- Modelled from the spec: `bbzdarray_new` of the absent `bbzdarray.c`
(section 3): a dynamic array is a table flagged as array. -/
def bbzdarray_new (h : bbzheap_t) : Option (bbzheap_t × Nat) :=
  match bbzheap_obj_alloc h BBZTYPE_TABLE with
  | none => none
  | some (h1, d) => some (bbzdarray_setflags h1 d true false, d)

/-- Modelled from the spec: `bbzdarray_size` (section 4.2): with the keys
`0 .. n-1` all present, the number of valid cells. -/
def bbzdarray_size (h : bbzheap_t) (d : Nat) : Nat := bbztable_size h d

/-- Modelled from the spec: `bbzdarray_isempty`. -/
def bbzdarray_isempty (h : bbzheap_t) (d : Nat) : Bool := bbzdarray_size h d == 0

/-- Modelled from the spec: `bbzdarray_get(d, i)`: the value stored under
the integer key `i`, if any. -/
def bbzdarray_get (h : bbzheap_t) (d : Nat) (i : Int) : Option Nat :=
  ((bbztable_pairs h d).find? fun kv => bbzheap_obj_at h kv.1 == .int i).map Prod.snd

/-- Modelled from the spec: `bbzdarray_last`: the element of index
`size - 1`. -/
def bbzdarray_last (h : bbzheap_t) (d : Nat) : Option Nat :=
  bbzdarray_get h d ((bbzdarray_size h d : Int) - 1)

/-- Modelled from the spec: `bbzdarray_push` (section 4.2): appends at
index `size`; the integer key is a new Int object.  A failed allocation
leaves the heap as it is. -/
def bbzdarray_push (h : bbzheap_t) (d v : Nat) : bbzheap_t :=
  match bbzheap_obj_alloc h BBZTYPE_INT with
  | none => h
  | some (h1, k) =>
    bbztable_insert (bbzheap_obj_write h1 k (.int (bbzdarray_size h d))) d k v

/-- Modelled from the spec: `bbzdarray_pop` (section 4.2): removes index
`size - 1` by invalidating its cell. -/
def bbzdarray_pop (h : bbzheap_t) (d : Nat) : bbzheap_t :=
  match (bbztable_cells h d).find? fun c =>
      match c.2.2 with
      | some kv => bbzheap_obj_at h kv.1 == .int ((bbzdarray_size h d : Int) - 1)
      | none => false with
  | some (s, p, _) => bbzheap_tseg_setcell h s p none
  | none => h

/-- Appends `n` new nil objects to the array. -/
def bbzdarray_fill : Nat → bbzheap_t → Nat → bbzheap_t
  | 0, h, _ => h
  | n + 1, h, d =>
    match bbzheap_obj_alloc h BBZTYPE_NIL with
    | none => h
    | some (h1, o) => bbzdarray_fill n (bbzdarray_push h1 d o) d

/-- Modelled from the spec: `bbzdarray_set(d, i, v)` (section 4.2):
overwrites index `i`, extending the array with nils when `i >= size`. -/
def bbzdarray_set (h : bbzheap_t) (d i v : Nat) : bbzheap_t :=
  match (bbztable_cells h d).find? fun c =>
      match c.2.2 with
      | some kv => bbzheap_obj_at h kv.1 == .int i
      | none => false with
  | some (s, p, some (k, _)) => bbzheap_tseg_setcell h s p (some (k, v))
  | _ => bbzdarray_push (bbzdarray_fill (i - bbzdarray_size h d) h d) d v

/-- Whether the array in slot `d` carries the swarm flag. -/
def bbzdarray_isswarm (h : bbzheap_t) (d : Nat) : Bool :=
  match bbzheap_obj_at h d with
  | .table _ _ swarm => swarm
  | _ => false

/-- Modelled from the spec: `bbzdarray_mark_swarm`: sets the swarm flag of
the underlying table. -/
def bbzdarray_mark_swarm (h : bbzheap_t) (d : Nat) : bbzheap_t :=
  match bbzheap_obj_at h d with
  | .table seg darray _ => bbzheap_obj_write h d (.table seg darray true)
  | _ => h

/-- Modelled from the spec: `bbzdarray_clone(d, &n)`: a new array with the
elements of `d` in order and the swarm flag of `d`. -/
def bbzdarray_clone (h : bbzheap_t) (d : Nat) : Option (bbzheap_t × Nat) :=
  match bbzdarray_new h with
  | none => none
  | some (h1, n) =>
    let h2 := (List.range (bbzdarray_size h d)).foldl
      (fun acc i =>
        match bbzdarray_get h d i with
        | some v => bbzdarray_push acc n v
        | none => acc) h1
    some (bbzdarray_setflags h2 n true (bbzdarray_isswarm h d), n)

/-- Modelled from the spec: `bbzdarray_lambda_alloc`: the clone taken for a
closure capture. -/
def bbzdarray_lambda_alloc (h : bbzheap_t) (d : Nat) : Option (bbzheap_t × Nat) :=
  bbzdarray_clone h d

/-- Modelled from the spec: `bbzdarray_destroy` (section 4.3, "popped and
destroyed"): frees the slot of the array and the segments of its chain. -/
def bbzdarray_destroy (h : bbzheap_t) (d : Nat) : bbzheap_t :=
  let segs := bbztable_segs h d
  { h with
    objs := h.objs.set d ⟨false, bbzheap_obj_at h d⟩
    tsegs := segs.foldl (fun ts s => ts.set s { (ts.getD s ⟨false, [], none⟩) with valid := false })
      h.tsegs }

/-! ## The virtual machine -/

/-- Modelled from the spec: the structure `bbzvm_t` of the absent `bbzvm.h`,
with the fields `bbzvm.c` uses.  `bcode_fetch_fun` gives the byte of the
bytecode at an offset.  `error_notifier_fun` tells whether a notifier is
registered and `notified` records its calls.  `pc` is a `uint16_t`.
`garbage` is what a read of an unwritten local index or of a stack cell
outside the array yields (unspecified in C). -/
structure bbzvm_t where
  bcode_fetch_fun : Nat → Nat
  bcode_size : Nat
  pc : Nat
  state : bbzvm_state
  error : bbzvm_error
  error_notifier_fun : Bool
  notified : List bbzvm_error
  heap : bbzheap_t
  stack : List Nat
  stackptr : Int
  blockptr : Int
  lsyms : Nat
  lsymts : Nat
  gsyms : Nat
  nil : Nat
  dflt_actrec : Nat
  flist : Nat
  robot : Nat
  garbage : Nat

open bbzvm_state bbzvm_error

/-- The capacity `BBZSTACK_SIZE` of the operand stack: the length of the
array `vm->stack`. -/
def BBZSTACK_SIZE (vm : bbzvm_t) : Int := vm.stack.length

/-- The function `bbzvm_seterror` (lines 80-88): state Error, the error
code, and a call of the notifier when one is registered. -/
def bbzvm_seterror (vm : bbzvm_t) (errcode : bbzvm_error) : bbzvm_t :=
  { vm with
    state := BBZVM_STATE_ERROR
    error := errcode
    notified := if vm.error_notifier_fun then vm.notified ++ [errcode] else vm.notified }

/-- Modelled from the spec: the macro `bbzvm_stack_size` of the absent
`bbzvm.h`: `stackptr + 1`. -/
def bbzvm_stack_size (vm : bbzvm_t) : Int := vm.stackptr + 1

/-- Modelled from the spec: the macro `bbzvm_stack_at(idx)`:
`vm->stack[vm->stackptr - idx]`, index 0 being the top. -/
def bbzvm_stack_at (vm : bbzvm_t) (idx : Int) : Nat :=
  if 0 ≤ vm.stackptr - idx then vm.stack.getD (vm.stackptr - idx).toNat vm.garbage
  else vm.garbage

/-- Modelled from the spec: the macro `bbzvm_obj_at`. -/
def bbzvm_obj_at (vm : bbzvm_t) (i : Nat) : bbzobj_t := bbzheap_obj_at vm.heap i

/-- Reading `o->i.value`: the value of an Int, and the first payload field
of any other object taken as an `int16_t`. -/
def bbzobj_ivalue : bbzobj_t → Int
  | .nil => 0
  | .int v => v
  | .float v => int16 v
  | .string v => int16 v
  | .table v _ _ => int16 v
  | .closure _ r _ => int16 r
  | .userdata v => int16 v

/-- Writing the first payload field of an object (`i.value`, `f.value`,
`s.value`, `c.value.ref`, `u.value`); the tag stays. -/
def bbzobj_setvalue : bbzobj_t → Int → bbzobj_t
  | .nil, _ => .nil
  | .int _, x => .int x
  | .float _, x => .float x.toNat
  | .string _, x => .string x.toNat
  | .table _ d s, x => .table x.toNat d s
  | .closure n _ a, x => .closure n x a
  | .userdata _, x => .userdata x.toNat

/-- The assignment `bbzvm_obj_at(i)->X.value = x`. -/
def bbzvm_obj_setvalue (vm : bbzvm_t) (i : Nat) (x : Int) : bbzvm_t :=
  { vm with heap := bbzheap_obj_write vm.heap i (bbzobj_setvalue (bbzvm_obj_at vm i) x) }

/-- The call `bbzheap_obj_alloc(t, &idx)` as `bbzvm.c` makes it: the return
status is ignored everywhere.  Modelled from the spec: a failure of the
allocator raises OutOfMemory (section 7); the index is then left unwritten
and reads as `garbage`. -/
def bbzvm_obj_alloc (vm : bbzvm_t) (t : Nat) : bbzvm_t × Nat :=
  match bbzheap_obj_alloc vm.heap t with
  | some (h, i) => ({ vm with heap := h }, i)
  | none => (bbzvm_seterror vm BBZVM_ERROR_MEM, vm.garbage)

/-- The function `bbzvm_pop` (lines 905-913). -/
def bbzvm_pop (vm : bbzvm_t) : bbzvm_t :=
  if bbzvm_stack_size vm > 0 then { vm with stackptr := vm.stackptr - 1 }
  else bbzvm_seterror vm BBZVM_ERROR_STACK

/-- The function `bbzvm_push` (lines 935-942). -/
def bbzvm_push (vm : bbzvm_t) (v : Nat) : bbzvm_t :=
  if bbzvm_stack_size vm ≥ BBZSTACK_SIZE vm then bbzvm_seterror vm BBZVM_ERROR_STACK
  else
    { vm with
      stackptr := vm.stackptr + 1
      stack := vm.stack.set (vm.stackptr + 1).toNat v }

/-- Modelled from the spec: the macro `bbzvm_done` of the absent `bbzvm.h`
(section 4.4, `DONE`): sets the state to Done. -/
def bbzvm_done (vm : bbzvm_t) : bbzvm_t := { vm with state := BBZVM_STATE_DONE }

/-- The function `bbzvm_pushnil` (lines 958-961). -/
def bbzvm_pushnil (vm : bbzvm_t) : bbzvm_t := bbzvm_push vm vm.nil

/-- The function `bbzvm_dup` (lines 918-930). -/
def bbzvm_dup (vm : bbzvm_t) : bbzvm_t :=
  let stack_size := uint16 (bbzvm_stack_size vm)
  if stack_size > 0 ∧ stack_size < BBZSTACK_SIZE vm then
    let (vm1, idx) := bbzvm_obj_alloc vm BBZTYPE_NIL
    let vm2 := { vm1 with heap := bbzheap_obj_copy vm1.heap (bbzvm_stack_at vm1 0) idx }
    bbzvm_push vm2 idx
  else bbzvm_seterror vm BBZVM_ERROR_STACK


/-! ## Arithmetic, logic and comparison opcodes -/

/-- The function `bbzvm_binary_op_arith` (lines 416-436).  `lhs` and `rhs`
are pointers into the heap: the types are read before the allocation of the
result, the values after it. -/
def bbzvm_binary_op_arith (op : Int → Int → Int) (vm : bbzvm_t) : bbzvm_t :=
  if bbzvm_stack_size vm < 2 then bbzvm_seterror vm BBZVM_ERROR_STACK
  else
    let rhs := bbzvm_stack_at vm 0
    let lhs := bbzvm_stack_at vm 1
    let vm1 := bbzvm_pop (bbzvm_pop vm)
    let ok := bbztype_isint (bbzvm_obj_at vm1 lhs) && bbztype_isint (bbzvm_obj_at vm1 rhs)
    if ok then
      let (vm2, idx) := bbzvm_obj_alloc vm1 BBZTYPE_INT
      let vm3 := bbzvm_obj_setvalue vm2 idx
        (op (bbzobj_ivalue (bbzvm_obj_at vm2 lhs)) (bbzobj_ivalue (bbzvm_obj_at vm2 rhs)))
      bbzvm_push vm3 idx
    else bbzvm_seterror vm1 BBZVM_ERROR_TYPE

/-- The function `bbzvm_add` (lines 459-461). -/
def bbzvm_add (vm : bbzvm_t) : bbzvm_t := bbzvm_binary_op_arith add vm

/-- The function `bbzvm_sub` (lines 466-468). -/
def bbzvm_sub (vm : bbzvm_t) : bbzvm_t := bbzvm_binary_op_arith sub vm

/-- The function `bbzvm_mul` (lines 473-475). -/
def bbzvm_mul (vm : bbzvm_t) : bbzvm_t := bbzvm_binary_op_arith mul vm

/-- The function `bbzvm_div` (lines 480-482). -/
def bbzvm_div (vm : bbzvm_t) : bbzvm_t := bbzvm_binary_op_arith div vm

/-- The function `bbzvm_mod` (lines 487-489). -/
def bbzvm_mod (vm : bbzvm_t) : bbzvm_t := bbzvm_binary_op_arith mod vm

/-- The function `bbzvm_pow` (lines 494-496). -/
def bbzvm_pow (vm : bbzvm_t) : bbzvm_t := bbzvm_binary_op_arith bbzpow vm

/-- The function `bbzvm_unm` (lines 503-521). -/
def bbzvm_unm (vm : bbzvm_t) : bbzvm_t :=
  if bbzvm_stack_size vm < 1 then bbzvm_seterror vm BBZVM_ERROR_STACK
  else
    let operand := bbzvm_stack_at vm 0
    let vm1 := bbzvm_pop vm
    let ok := bbztype_isint (bbzvm_obj_at vm1 operand)
    if ok then
      let (vm2, idx) := bbzvm_obj_alloc vm1 BBZTYPE_INT
      let vm3 := bbzvm_obj_setvalue vm2 idx (int16 (-(bbzobj_ivalue (bbzvm_obj_at vm2 operand))))
      bbzvm_push vm3 idx
    else bbzvm_seterror vm1 BBZVM_ERROR_TYPE

/-- The two `switch` statements of `bbzvm_binary_op_logic` (lines 551-560):
the truth value of an Int or of nil; `none` is the `default:` arm. -/
def bbzvm_logic_bool : bbzobj_t → Option Nat
  | .int v => some (if v ≠ 0 then 1 else 0)
  | .nil => some 0
  | _ => none

/-- The function `bbzvm_binary_op_logic` (lines 542-568). -/
def bbzvm_binary_op_logic (op : Nat → Nat → Nat) (vm : bbzvm_t) : bbzvm_t :=
  if bbzvm_stack_size vm < 2 then bbzvm_seterror vm BBZVM_ERROR_STACK
  else
    let rhs := bbzvm_stack_at vm 0
    let lhs := bbzvm_stack_at vm 1
    let vm1 := bbzvm_pop (bbzvm_pop vm)
    match bbzvm_logic_bool (bbzvm_obj_at vm1 lhs) with
    | none => bbzvm_seterror vm1 BBZVM_ERROR_TYPE
    | some lhs_bool =>
      match bbzvm_logic_bool (bbzvm_obj_at vm1 rhs) with
      | none => bbzvm_seterror vm1 BBZVM_ERROR_TYPE
      | some rhs_bool =>
        let (vm2, idx) := bbzvm_obj_alloc vm1 BBZTYPE_INT
        let vm3 := bbzvm_obj_setvalue vm2 idx (op lhs_bool rhs_bool)
        bbzvm_push vm3 idx

/-- The function `bbzvm_and` (lines 576-578). -/
def bbzvm_and (vm : bbzvm_t) : bbzvm_t := bbzvm_binary_op_logic bbzand vm

/-- The function `bbzvm_or` (lines 583-585). -/
def bbzvm_or (vm : bbzvm_t) : bbzvm_t := bbzvm_binary_op_logic bbzor vm

/-- The function `bbzvm_not` (lines 590-602): the operand is popped, an Int
is allocated and written, and the function returns; there is no call of
`bbzvm_push`.  The type of the operand is read after the allocation. -/
def bbzvm_not (vm : bbzvm_t) : bbzvm_t :=
  if bbzvm_stack_size vm < 1 then bbzvm_seterror vm BBZVM_ERROR_STACK
  else
    let operand := bbzvm_stack_at vm 0
    let vm1 := bbzvm_pop vm
    let (vm2, idx) := bbzvm_obj_alloc vm1 BBZTYPE_INT
    match bbzvm_obj_at vm2 operand with
    | .int v => bbzvm_obj_setvalue vm2 idx (if v ≠ 0 then 1 else 0)
    | .nil => bbzvm_obj_setvalue vm2 idx 0
    | _ => bbzvm_seterror vm2 BBZVM_ERROR_TYPE

/-- The function `bbzvm_binary_op_cmp` (lines 624-639). -/
def bbzvm_binary_op_cmp (op : Int → Nat) (vm : bbzvm_t) : bbzvm_t :=
  if bbzvm_stack_size vm < 2 then bbzvm_seterror vm BBZVM_ERROR_STACK
  else
    let rhs := bbzvm_stack_at vm 0
    let lhs := bbzvm_stack_at vm 1
    let vm1 := bbzvm_pop (bbzvm_pop vm)
    let cmp := bbztype_cmp vm1.heap lhs rhs
    let (vm2, idx) := bbzvm_obj_alloc vm1 BBZTYPE_INT
    let vm3 := bbzvm_obj_setvalue vm2 idx (op cmp)
    bbzvm_push vm3 idx

/-- The function `bbzvm_eq` (lines 651-653). -/
def bbzvm_eq (vm : bbzvm_t) : bbzvm_t := bbzvm_binary_op_cmp bbzeq vm

/-- The function `bbzvm_neq` (lines 658-660). -/
def bbzvm_neq (vm : bbzvm_t) : bbzvm_t := bbzvm_binary_op_cmp bbzneq vm

/-- The function `bbzvm_gt` (lines 665-667). -/
def bbzvm_gt (vm : bbzvm_t) : bbzvm_t := bbzvm_binary_op_cmp bbzgt vm

/-- The function `bbzvm_gte` (lines 672-674). -/
def bbzvm_gte (vm : bbzvm_t) : bbzvm_t := bbzvm_binary_op_cmp bbzgte vm

/-- The function `bbzvm_lt` (lines 679-681). -/
def bbzvm_lt (vm : bbzvm_t) : bbzvm_t := bbzvm_binary_op_cmp bbzlt vm

/-- The function `bbzvm_lte` (lines 686-688). -/
def bbzvm_lte (vm : bbzvm_t) : bbzvm_t := bbzvm_binary_op_cmp bbzlte vm

/-! ## Jumps -/

/-- The test of the macro `assert_pc(IDX)` (line 133): whether `IDX` lies
outside the bytecode. -/
def bbzvm_pc_out (vm : bbzvm_t) (idx : Int) : Bool := idx < 0 || idx ≥ vm.bcode_size

/-- The function `bbzvm_jump` (lines 727-731). -/
def bbzvm_jump (vm : bbzvm_t) (offset : Nat) : bbzvm_t :=
  let vm1 := { vm with pc := offset }
  if bbzvm_pc_out vm1 vm1.pc then bbzvm_seterror vm1 BBZVM_ERROR_PC else vm1

/-- The function `bbzvm_jumpz` (lines 736-748). -/
def bbzvm_jumpz (vm : bbzvm_t) (offset : Nat) : bbzvm_t :=
  if bbzvm_stack_size vm < 1 then bbzvm_seterror vm BBZVM_ERROR_STACK
  else
    match bbzvm_obj_at vm (bbzvm_stack_at vm 0) with
    | .int v =>
      let vm1 := if v = 0 then { vm with pc := offset } else vm
      if bbzvm_pc_out vm1 vm1.pc then bbzvm_seterror vm1 BBZVM_ERROR_PC else bbzvm_pop vm1
    | .nil =>
      let vm1 := { vm with pc := offset }
      if bbzvm_pc_out vm1 vm1.pc then bbzvm_seterror vm1 BBZVM_ERROR_PC else bbzvm_pop vm1
    | _ => bbzvm_seterror vm BBZVM_ERROR_TYPE

/-- The function `bbzvm_jumpnz` (lines 753-764). -/
def bbzvm_jumpnz (vm : bbzvm_t) (offset : Nat) : bbzvm_t :=
  if bbzvm_stack_size vm < 1 then bbzvm_seterror vm BBZVM_ERROR_STACK
  else
    match bbzvm_obj_at vm (bbzvm_stack_at vm 0) with
    | .int v =>
      let vm1 := if v ≠ 0 then { vm with pc := offset } else vm
      if bbzvm_pc_out vm1 vm1.pc then bbzvm_seterror vm1 BBZVM_ERROR_PC else bbzvm_pop vm1
    | .nil => bbzvm_pop vm
    | _ => bbzvm_seterror vm BBZVM_ERROR_TYPE

/-! ## Pushes -/

/-- The function `bbzvm_pushc` (lines 966-972): the tag is
`BBZTYPE_CLOSURE | ((nat & 1) << 1)`. -/
def bbzvm_pushc (vm : bbzvm_t) (rfrnc : Int) (nat : Nat) : bbzvm_t :=
  let (vm1, o) := bbzvm_obj_alloc vm (BBZTYPE_CLOSURE ||| ((nat &&& 1) <<< 1))
  let vm2 := bbzvm_obj_setvalue vm1 o rfrnc
  bbzvm_push vm2 o

/-- Modelled from the spec: the macro `bbzvm_pushcn` of the absent
`bbzvm.h` (section 4.4, `PUSHCN`): a closure with the native tag bit. -/
def bbzvm_pushcn (vm : bbzvm_t) (rfrnc : Int) : bbzvm_t := bbzvm_pushc vm rfrnc 1

/-- Modelled from the spec: the macro `bbzvm_pushcc` of the absent
`bbzvm.h` (section 4.4, `PUSHCC`): a closure without the native tag bit. -/
def bbzvm_pushcc (vm : bbzvm_t) (rfrnc : Int) : bbzvm_t := bbzvm_pushc vm rfrnc 0

/-- The function `bbzvm_pushi` (lines 977-983). -/
def bbzvm_pushi (vm : bbzvm_t) (v : Int) : bbzvm_t :=
  let (vm1, o) := bbzvm_obj_alloc vm BBZTYPE_INT
  let vm2 := bbzvm_obj_setvalue vm1 o v
  bbzvm_push vm2 o

/-- The value of the `float` whose IEEE 754 binary32 representation is
`bits` (a sign bit, 8 exponent bits, 23 fraction bits), truncated toward
zero: the integer a conversion of that `float` to an integer type yields.
Zeros and subnormal numbers give 0; for an infinity or a NaN the conversion
is undefined in C and the number of the formula is taken. -/
def float_trunc (bits : Nat) : Int :=
  let s := bits / 2147483648 % 2
  let e := bits / 8388608 % 256
  let m := bits % 8388608
  let mag : Nat :=
    if e = 0 then 0
    else if 150 ≤ e then (8388608 + m) * 2 ^ (e - 150)
    else (8388608 + m) / 2 ^ (150 - e)
  if s = 1 then -(mag : Int) else (mag : Int)

/-- The function `bbzvm_pushf` (lines 988-993).  `v` is the binary32
representation of the `float` argument.  The assignment to `f.value`, a
`bbzfloat` (`uint16_t` in `bbzfloat.h`), converts the `float` to an integer
by truncation: 1.0f stores 1 and 2.5f stores 2.  A value outside the range
of `uint16_t` is undefined in C and is reduced modulo 2^16 here. -/
def bbzvm_pushf (vm : bbzvm_t) (v : Nat) : bbzvm_t :=
  let (vm1, o) := bbzvm_obj_alloc vm BBZTYPE_FLOAT
  let vm2 := bbzvm_obj_setvalue vm1 o (uint16 (float_trunc v))
  bbzvm_push vm2 o

/-- The function `bbzvm_pushs` (lines 999-1005). -/
def bbzvm_pushs (vm : bbzvm_t) (strid : Nat) : bbzvm_t :=
  let (vm1, o) := bbzvm_obj_alloc vm BBZTYPE_STRING
  let vm2 := bbzvm_obj_setvalue vm1 o strid
  bbzvm_push vm2 o

/-- Writing `c.value.actrec` of the closure in slot `o`. -/
def bbzvm_obj_setactrec (vm : bbzvm_t) (o a : Nat) : bbzvm_t :=
  match bbzvm_obj_at vm o with
  | .closure n r _ => { vm with heap := bbzheap_obj_write vm.heap o (.closure n r a) }
  | _ => vm

/-- The function `bbzvm_pushl` (lines 1010-1019). -/
def bbzvm_pushl (vm : bbzvm_t) (addr : Int) : bbzvm_t :=
  let (vm1, o) := bbzvm_obj_alloc vm BBZTYPE_NCLOSURE
  let vm2 := bbzvm_obj_setvalue vm1 o addr
  let vm3 :=
    if vm2.lsyms ≠ 0 then
      match bbzdarray_lambda_alloc vm2.heap vm2.lsyms with
      | some (h, a) => bbzvm_obj_setactrec { vm2 with heap := h } o a
      | none => vm2
    else vm2
  bbzvm_push vm3 o

/-- The function `bbzvm_pusht` (lines 693-699). -/
def bbzvm_pusht (vm : bbzvm_t) : bbzvm_t :=
  let (vm1, idx) := bbzvm_obj_alloc vm BBZTYPE_TABLE
  bbzvm_push vm1 idx


/-! ## Symbols and tables -/

/-- Modelled from the spec: the test of the macro `bbzvm_type_assert(idx,
tpe)` of the absent `bbzvm.h`: the object at stack position `idx` has tag
`tpe`; for `BBZTYPE_CLOSURE` either closure tag is accepted. -/
def bbzvm_type_ok (vm : bbzvm_t) (idx : Int) (tpe : Nat) : Bool :=
  let o := bbzvm_obj_at vm (bbzvm_stack_at vm idx)
  bbztype o == tpe || (tpe == BBZTYPE_CLOSURE && bbztype_isclosure o)

/-- The function `bbzvm_lload` (lines 704-709); when the array has no such
index `id` stays unwritten. -/
def bbzvm_lload (vm : bbzvm_t) (idx : Nat) : bbzvm_t :=
  bbzvm_push vm ((bbzdarray_get vm.heap vm.lsyms idx).getD vm.garbage)

/-- The loop `while (size++ < idx) bbzdarray_push(vm->lsyms, vm->nil);` of
`bbzvm_lstore`, for `n` rounds. -/
def bbzvm_lstore_fill : Nat → bbzvm_t → bbzvm_t
  | 0, vm => vm
  | n + 1, vm => bbzvm_lstore_fill n { vm with heap := bbzdarray_push vm.heap vm.lsyms vm.nil }

/-- The function `bbzvm_lstore` (lines 714-722): it reads the top of the
stack and does not pop it. -/
def bbzvm_lstore (vm : bbzvm_t) (idx : Nat) : bbzvm_t :=
  let o := bbzvm_stack_at vm 0
  let size := bbzdarray_size vm.heap vm.lsyms
  let vm1 := bbzvm_lstore_fill (idx - size) vm
  { vm1 with heap := bbzdarray_set vm1.heap vm1.lsyms idx o }

/-- The function `bbzvm_tput` (lines 1024-1045). -/
def bbzvm_tput (vm : bbzvm_t) : bbzvm_t :=
  if bbzvm_stack_size vm < 3 then bbzvm_seterror vm BBZVM_ERROR_STACK
  else if !bbzvm_type_ok vm 3 BBZTYPE_TABLE then bbzvm_seterror vm BBZVM_ERROR_TYPE
  else
    let v := bbzvm_stack_at vm 0
    let k := bbzvm_stack_at vm 1
    let t := bbzvm_stack_at vm 2
    let vm1 := bbzvm_pop (bbzvm_pop (bbzvm_pop vm))
    if bbztype_isclosure (bbzvm_obj_at vm1 v) then vm1
    else { vm1 with heap := bbztable_set vm1.heap t k v }

/-- The function `bbzvm_tget` (lines 1050-1069). -/
def bbzvm_tget (vm : bbzvm_t) : bbzvm_t :=
  if bbzvm_stack_size vm < 2 then bbzvm_seterror vm BBZVM_ERROR_STACK
  else if !bbzvm_type_ok vm 2 BBZTYPE_TABLE then bbzvm_seterror vm BBZVM_ERROR_TYPE
  else
    let k := bbzvm_stack_at vm 0
    let t := bbzvm_stack_at vm 1
    let vm1 := bbzvm_pop (bbzvm_pop vm)
    match bbztable_get vm1.heap t k with
    | some idx => bbzvm_push vm1 idx
    | none => bbzvm_pushnil vm1

/-- The function `bbzvm_gload` (lines 1074-1090). -/
def bbzvm_gload (vm : bbzvm_t) : bbzvm_t :=
  if bbzvm_stack_size vm < 1 then bbzvm_seterror vm BBZVM_ERROR_STACK
  else if !bbzvm_type_ok vm 1 BBZTYPE_STRING then bbzvm_seterror vm BBZVM_ERROR_TYPE
  else
    let str := bbzvm_stack_at vm 0
    let vm1 := bbzvm_pop vm
    match bbztable_get vm1.heap vm1.gsyms str with
    | some o => bbzvm_push vm1 o
    | none => bbzvm_pushnil vm1

/-- The function `bbzvm_gstore` (lines 1095-1107). -/
def bbzvm_gstore (vm : bbzvm_t) : bbzvm_t :=
  if bbzvm_stack_size vm < 2 then bbzvm_seterror vm BBZVM_ERROR_STACK
  else if !bbzvm_type_ok vm 2 BBZTYPE_STRING then bbzvm_seterror vm BBZVM_ERROR_TYPE
  else
    let str := bbzvm_stack_at vm 1
    let o := bbzvm_stack_at vm 0
    let vm1 := bbzvm_pop (bbzvm_pop vm)
    { vm1 with heap := bbztable_set vm1.heap vm1.gsyms str o }

/-! ## Calls and returns -/

/-- The loop of `bbzvm_call` that moves the arguments to the local symbols
(lines 878-881): each round appends the top of the stack and lowers the
stack pointer. -/
def bbzvm_call_args : Nat → bbzvm_t → bbzvm_t
  | 0, vm => vm
  | n + 1, vm =>
    bbzvm_call_args n
      { vm with
        heap := bbzdarray_push vm.heap vm.lsyms (bbzvm_stack_at vm 0)
        stackptr := vm.stackptr - 1 }

/-- The function `bbzvm_call` (lines 846-900).  `host p` is the host
function behind the userdata pointer `p`.  `c` is a pointer into the heap
and is read where the C reads it. -/
def bbzvm_call (host : Nat → bbzvm_t → bbzvm_t) (isswrm : Bool) (vm : bbzvm_t) : bbzvm_t :=
  if bbzvm_stack_size vm < 1 then bbzvm_seterror vm BBZVM_ERROR_STACK
  else if !bbzvm_type_ok vm 0 BBZTYPE_INT then bbzvm_seterror vm BBZVM_ERROR_TYPE
  else
    let argn := uint16 (bbzobj_ivalue (bbzvm_obj_at vm (bbzvm_stack_at vm 0)))
    let vm1 := bbzvm_pop vm
    if bbzvm_stack_size vm1 < argn + 1 then bbzvm_seterror vm1 BBZVM_ERROR_STACK
    else if !bbzvm_type_ok vm1 argn BBZTYPE_CLOSURE then bbzvm_seterror vm1 BBZVM_ERROR_TYPE
    else
      let c := bbzvm_stack_at vm1 argn
      let cref : bbzvm_t → Int := fun m =>
        match bbzvm_obj_at m c with
        | .closure _ r _ => r
        | o => bbzobj_ivalue o
      let cactrec : Nat :=
        match bbzvm_obj_at vm1 c with
        | .closure _ _ a => a
        | _ => 0xFF
      if !bbzclosure_isnative (bbzvm_obj_at vm1 c)
          && cref vm1 ≥ bbzdarray_size vm1.heap vm1.flist then
        bbzvm_seterror vm1 BBZVM_ERROR_FLIST
      else
        let vm2 :=
          match bbzdarray_clone vm1.heap (if cactrec = 0xFF then vm1.dflt_actrec else cactrec) with
          | some (h, l) => { vm1 with heap := h, lsyms := l }
          | none => vm1
        let vm3 :=
          if isswrm then { vm2 with heap := bbzdarray_mark_swarm vm2.heap vm2.lsyms } else vm2
        let vm4 := { vm3 with heap := bbzdarray_push vm3.heap vm3.lsymts vm3.lsyms }
        let vm5 := bbzvm_call_args (int16 argn).toNat vm4
        let vm6 := { vm5 with stackptr := vm5.stackptr - 1 }
        let vm7 := bbzvm_pushi vm6 (int16 vm6.pc)
        let vm8 := bbzvm_pushi vm7 (int16 vm7.blockptr)
        let vm9 := { vm8 with blockptr := vm8.stackptr }
        if bbzclosure_isnative (bbzvm_obj_at vm9 c) then
          { vm9 with pc := (uint16 (cref vm9)).toNat }
        else
          match bbzdarray_get vm9.heap vm9.flist (cref vm9) with
          | some udfunc =>
            (match bbzvm_obj_at vm9 udfunc with
             | .userdata p => host p vm9
             | o => host (uint16 (bbzobj_ivalue o)).toNat vm9)
          | none => host vm9.garbage vm9

/-- Modelled from the spec: the macro `bbzvm_callc` of the absent `bbzvm.h`
(section 4.4, `CALLC`): a call that is not a swarm call. -/
def bbzvm_callc (host : Nat → bbzvm_t → bbzvm_t) (vm : bbzvm_t) : bbzvm_t :=
  bbzvm_call host false vm

/-- Modelled from the spec: the macro `bbzvm_calls` of the absent `bbzvm.h`
(section 4.4, `CALLS`): the swarm variant of the call. -/
def bbzvm_calls (host : Nat → bbzvm_t → bbzvm_t) (vm : bbzvm_t) : bbzvm_t :=
  bbzvm_call host true vm

/-- The common start of `bbzvm_ret0` and `bbzvm_ret1` (lines 1113-1126):
the local symbols are popped off `lsymts` and destroyed, and `lsyms` is set
to the last array of `lsymts`, or to 0. -/
def bbzvm_ret_lsyms (vm : bbzvm_t) : bbzvm_t :=
  let h1 := bbzdarray_pop vm.heap vm.lsymts
  let h2 := bbzdarray_destroy h1 vm.lsyms
  let vm1 := { vm with heap := h2 }
  if !bbzdarray_isempty vm1.heap vm1.lsymts then
    { vm1 with lsyms := (bbzdarray_last vm1.heap vm1.lsymts).getD vm1.lsyms }
  else { vm1 with lsyms := 0 }

/-- The part shared by the two returns (lines 1128-1138 and 1164-1174): the
stack is cut at the block pointer, the block pointer is read back, the
saved program counter is checked, read and popped. -/
def bbzvm_ret_frame (vm : bbzvm_t) : bbzvm_t :=
  let vm1 := { vm with stackptr := vm.blockptr }
  let vm2 := { vm1 with blockptr := bbzobj_ivalue (bbzvm_obj_at vm1 (bbzvm_stack_at vm1 0)) }
  let vm3 := bbzvm_pop vm2
  if bbzvm_stack_size vm3 < 1 then bbzvm_seterror vm3 BBZVM_ERROR_STACK
  else if !bbzvm_type_ok vm3 0 BBZTYPE_INT then bbzvm_seterror vm3 BBZVM_ERROR_TYPE
  else
    let vm4 :=
      { vm3 with pc := (uint16 (bbzobj_ivalue (bbzvm_obj_at vm3 (bbzvm_stack_at vm3 0)))).toNat }
    bbzvm_pop vm4

/-- The function `bbzvm_ret0` (lines 1112-1139). -/
def bbzvm_ret0 (vm : bbzvm_t) : bbzvm_t := bbzvm_ret_frame (bbzvm_ret_lsyms vm)

/-- The function `bbzvm_ret1` (lines 1144-1177); the final `bbzvm_push` is
reached only when none of the assertions returned. -/
def bbzvm_ret1 (vm : bbzvm_t) : bbzvm_t :=
  let vm1 := bbzvm_ret_lsyms vm
  if bbzvm_stack_size vm1 < 1 then bbzvm_seterror vm1 BBZVM_ERROR_STACK
  else
    let ret := bbzvm_stack_at vm1 0
    let vm2 := { vm1 with stackptr := vm1.blockptr }
    let vm3 := { vm2 with blockptr := bbzobj_ivalue (bbzvm_obj_at vm2 (bbzvm_stack_at vm2 0)) }
    let vm4 := bbzvm_pop vm3
    if bbzvm_stack_size vm4 < 1 then bbzvm_seterror vm4 BBZVM_ERROR_STACK
    else if !bbzvm_type_ok vm4 0 BBZTYPE_INT then bbzvm_seterror vm4 BBZVM_ERROR_TYPE
    else
      let vm5 :=
        { vm4 with pc := (uint16 (bbzobj_ivalue (bbzvm_obj_at vm4 (bbzvm_stack_at vm4 0)))).toNat }
      bbzvm_push (bbzvm_pop vm5) ret


/-! ## Interpreter -/

/-- The function `bbzvm_gc` (lines 144-158): nothing is done and 0 is
returned when fewer than six stack cells are free; otherwise the six roots
are pushed, the collector runs on the stack, and the six roots are
popped. -/
def bbzvm_gc (vm : bbzvm_t) : Bool × bbzvm_t :=
  if BBZSTACK_SIZE vm - bbzvm_stack_size vm < 6 then (false, vm)
  else
    let vm1 := bbzvm_push vm vm.lsyms
    let vm2 := bbzvm_push vm1 vm1.lsymts
    let vm3 := bbzvm_push vm2 vm2.gsyms
    let vm4 := bbzvm_push vm3 vm3.nil
    let vm5 := bbzvm_push vm4 vm4.dflt_actrec
    let vm6 := bbzvm_push vm5 vm5.flist
    let vm7 := { vm6 with heap := bbzheap_gc vm6.heap vm6.stack (bbzvm_stack_size vm6).toNat }
    (true, bbzvm_pop (bbzvm_pop (bbzvm_pop (bbzvm_pop (bbzvm_pop (bbzvm_pop vm7))))))

/-- The four bytes at `pc` as a little-endian 32-bit word (the value
`get_arg` reads). -/
def bbzvm_fetch_arg (vm : bbzvm_t) : Nat :=
  vm.bcode_fetch_fun vm.pc % 256
    + 256 * (vm.bcode_fetch_fun (vm.pc + 1) % 256)
    + 65536 * (vm.bcode_fetch_fun (vm.pc + 2) % 256)
    + 16777216 * (vm.bcode_fetch_fun (vm.pc + 3) % 256)

/-- The end of `bbzvm_exec_instr` (lines 362-368): when the state is not
Ready the program counter goes back to the instruction. -/
def bbzvm_exec_end (instrOffset : Nat) (vm : bbzvm_t) : bbzvm_t :=
  if vm.state ≠ BBZVM_STATE_READY then { vm with pc := instrOffset } else vm

/-- The macro `get_arg` (line 137) followed by the opcode `k` and the end
of `bbzvm_exec_instr`: when `pc + 4` is outside the bytecode the PC error is
raised and `bbzvm_exec_instr` returns at once. -/
def bbzvm_exec_arg (instrOffset : Nat) (vm : bbzvm_t) (k : bbzvm_t → Nat → bbzvm_t) : bbzvm_t :=
  if bbzvm_pc_out vm (vm.pc + 4) then bbzvm_seterror vm BBZVM_ERROR_PC
  else bbzvm_exec_end instrOffset (k { vm with pc := (vm.pc + 4) % 65536 } (bbzvm_fetch_arg vm))

/-- The arms of `RET0`, `RET1`, `CALLC` and `CALLS` after the opcode ran
(lines 190-203, 288-301): in state Ready the new `pc` is asserted, and a
failure returns from `bbzvm_exec_instr` at once. -/
def bbzvm_exec_chk (instrOffset : Nat) (vm : bbzvm_t) : bbzvm_t :=
  if vm.state = BBZVM_STATE_READY ∧ bbzvm_pc_out vm vm.pc then bbzvm_seterror vm BBZVM_ERROR_PC
  else bbzvm_exec_end instrOffset vm

/-- The `switch` of `bbzvm_exec_instr` (lines 170-360) with the end of the
function (lines 362-368), on the decoded opcode; `vm` is the machine after
`inc_pc()`. -/
def bbzvm_exec_switch (host : Nat → bbzvm_t → bbzvm_t) (instrOffset : Nat) (vm : bbzvm_t) :
    Option bbzvm_instr → bbzvm_t
  | some .NOP => bbzvm_exec_end instrOffset vm
  | some .DONE => bbzvm_exec_end instrOffset (bbzvm_done vm)
  | some .PUSHNIL => bbzvm_exec_end instrOffset (bbzvm_pushnil vm)
  | some .DUP => bbzvm_exec_end instrOffset (bbzvm_dup vm)
  | some .POP => bbzvm_exec_end instrOffset (bbzvm_pop vm)
  | some .RET0 => bbzvm_exec_chk instrOffset (bbzvm_ret0 vm)
  | some .RET1 => bbzvm_exec_chk instrOffset (bbzvm_ret1 vm)
  | some .ADD => bbzvm_exec_end instrOffset (bbzvm_add vm)
  | some .SUB => bbzvm_exec_end instrOffset (bbzvm_sub vm)
  | some .MUL => bbzvm_exec_end instrOffset (bbzvm_mul vm)
  | some .DIV => bbzvm_exec_end instrOffset (bbzvm_div vm)
  | some .MOD => bbzvm_exec_end instrOffset (bbzvm_mod vm)
  | some .POW => bbzvm_exec_end instrOffset (bbzvm_pow vm)
  | some .UNM => bbzvm_exec_end instrOffset (bbzvm_unm vm)
  | some .AND => bbzvm_exec_end instrOffset (bbzvm_and vm)
  | some .OR => bbzvm_exec_end instrOffset (bbzvm_or vm)
  | some .NOT => bbzvm_exec_end instrOffset (bbzvm_not vm)
  | some .EQ => bbzvm_exec_end instrOffset (bbzvm_eq vm)
  | some .NEQ => bbzvm_exec_end instrOffset (bbzvm_neq vm)
  | some .GT => bbzvm_exec_end instrOffset (bbzvm_gt vm)
  | some .GTE => bbzvm_exec_end instrOffset (bbzvm_gte vm)
  | some .LT => bbzvm_exec_end instrOffset (bbzvm_lt vm)
  | some .LTE => bbzvm_exec_end instrOffset (bbzvm_lte vm)
  | some .GLOAD => bbzvm_exec_end instrOffset (bbzvm_gload vm)
  | some .GSTORE => bbzvm_exec_end instrOffset (bbzvm_gstore vm)
  | some .PUSHT => bbzvm_exec_end instrOffset (bbzvm_pusht vm)
  | some .TPUT => bbzvm_exec_end instrOffset (bbzvm_tput vm)
  | some .TGET => bbzvm_exec_end instrOffset (bbzvm_tget vm)
  | some .CALLC => bbzvm_exec_chk instrOffset (bbzvm_callc host vm)
  | some .CALLS => bbzvm_exec_chk instrOffset (bbzvm_calls host vm)
  | some .PUSHF => bbzvm_exec_arg instrOffset vm fun m arg => bbzvm_pushf m arg
  | some .PUSHI => bbzvm_exec_arg instrOffset vm fun m arg => bbzvm_pushi m (int16 arg)
  | some .PUSHS => bbzvm_exec_arg instrOffset vm fun m arg => bbzvm_pushs m (arg % 65536)
  | some .PUSHCN => bbzvm_exec_arg instrOffset vm fun m arg => bbzvm_pushcn m (int16 arg)
  | some .PUSHCC => bbzvm_exec_arg instrOffset vm fun m arg => bbzvm_pushcc m (int16 arg)
  | some .PUSHL => bbzvm_exec_arg instrOffset vm fun m arg => bbzvm_pushl m (int16 arg)
  | some .LLOAD => bbzvm_exec_arg instrOffset vm fun m arg => bbzvm_lload m (arg % 65536)
  | some .LSTORE => bbzvm_exec_arg instrOffset vm fun m arg => bbzvm_lstore m (arg % 65536)
  | some .JUMP => bbzvm_exec_arg instrOffset vm fun m arg => bbzvm_jump m (arg % 65536)
  | some .JUMPZ => bbzvm_exec_arg instrOffset vm fun m arg => bbzvm_jumpz m (arg % 65536)
  | some .JUMPNZ => bbzvm_exec_arg instrOffset vm fun m arg => bbzvm_jumpnz m (arg % 65536)
  | none => bbzvm_exec_end instrOffset (bbzvm_seterror vm BBZVM_ERROR_INSTR)

/-- The function `bbzvm_exec_instr` (lines 165-369): the program counter is
saved, the opcode byte is fetched, `inc_pc()` advances and asserts the
program counter (a failure returns at once), and the `switch` runs. -/
def bbzvm_exec_instr (host : Nat → bbzvm_t → bbzvm_t) (vm0 : bbzvm_t) : bbzvm_t :=
  let instrOffset := vm0.pc
  let instr := vm0.bcode_fetch_fun vm0.pc % 256
  let vm := { vm0 with pc := (vm0.pc + 1) % 65536 }
  if bbzvm_pc_out vm vm.pc then bbzvm_seterror vm BBZVM_ERROR_PC
  else bbzvm_exec_switch host instrOffset vm (bbzvm_instr.decode instr)

/-- The function `bbzvm_step` (lines 371-381): in state Ready the collector
runs; when it returns 0 the step raises the Stack error and returns,
otherwise one instruction is executed.  In any other state nothing
happens. -/
def bbzvm_step (host : Nat → bbzvm_t → bbzvm_t) (vm : bbzvm_t) : bbzvm_t :=
  if vm.state = BBZVM_STATE_READY then
    match bbzvm_gc vm with
    | (false, vm1) => bbzvm_seterror vm1 BBZVM_ERROR_STACK
    | (true, vm1) => bbzvm_exec_instr host vm1
  else vm


/-! ## Conditions used by the statements -/

/-- The machine is about to execute the opcode `i` stored at `pc`: it is
Ready with no error recorded, the opcode byte at `pc` is the one of `i`,
the address after the opcode lies inside the bytecode (whose size is a
`uint16_t`), and at least six stack cells are free, so that the collector
can stage its roots. -/
structure bbzvm_at (vm : bbzvm_t) (i : bbzvm_instr) : Prop where
  ready : vm.state = BBZVM_STATE_READY
  noerr : vm.error = BBZVM_ERROR_NONE
  opcode : vm.bcode_fetch_fun vm.pc % 256 = i.code
  next : vm.pc + 1 < vm.bcode_size
  size : vm.bcode_size ≤ 65535
  sp_min : -1 ≤ vm.stackptr
  sp_max : vm.stackptr + 7 ≤ vm.stack.length

/-- The state of the VM after a call of `bbzvm_gc` that ran the collector:
only the heap and the stack cells above the stack pointer differ; the
payload of every slot is kept, no slot becomes valid, the slots the stack
refers to stay valid, and a heap with a free slot keeps one. -/
structure bbzvm_gc_frame (vm G : bbzvm_t) : Prop where
  rest : G = { vm with stack := G.stack, heap := G.heap }
  len : G.stack.length = vm.stack.length
  below : ∀ i : Nat, (i : Int) ≤ vm.stackptr → G.stack[i]? = vm.stack[i]?
  obj : ∀ i, bbzheap_obj_at G.heap i = bbzheap_obj_at vm.heap i
  valid_mono : ∀ i, bbzheap_obj_isvalid G.heap i = true → bbzheap_obj_isvalid vm.heap i = true
  valid_root : ∀ i : Nat, (i : Int) ≤ vm.stackptr → ∀ g,
    bbzheap_obj_isvalid vm.heap (vm.stack.getD i g) = true →
    bbzheap_obj_isvalid G.heap (vm.stack.getD i g) = true
  slot : (bbzheap_obj_slot vm.heap).isSome = true → (bbzheap_obj_slot G.heap).isSome = true

/-- The heap after the allocation of an Int in slot `i` and the assignment
of `x` to it. -/
def bbzheap_with_int (h : bbzheap_t) (i : Nat) (x : Int) : bbzheap_t :=
  bbzheap_obj_write (bbzheap_obj_place h i (.int 0)) i (.int x)


/-- The shape of the machine after a step that replaced the two top
entries of the stack by a new Int `val`: only the program counter, the
heap and the stack differ; the new top `idx` holds `val`, the entries below
the operands and all other objects are as before. -/
def bbzvm_pushed_int (vm vm' : bbzvm_t) (val : Int) : Prop :=
  ∃ (idx : Nat) (stk : List Nat) (hp : bbzheap_t),
    vm' = { vm with pc := vm.pc + 1, heap := hp, stack := stk, stackptr := vm.stackptr - 1 } ∧
    stk[(vm.stackptr - 1).toNat]? = some idx ∧
    (∀ k : Nat, (k : Int) < vm.stackptr - 1 → stk[k]? = vm.stack[k]?) ∧
    bbzheap_obj_at hp idx = .int val ∧
    (∀ j, j ≠ idx → bbzheap_obj_at hp j = bbzheap_obj_at vm.heap j)

/-- The shape of the machine after a step that popped `n` entries and
raised the error `e`: state Error, the error code, the notifier called when
registered, the program counter on the instruction; only the validity of
slots and the stack cells above the stack pointer may differ otherwise. -/
def bbzvm_failed (vm vm' : bbzvm_t) (n : Int) (e : bbzvm_error) : Prop :=
  vm'.state = BBZVM_STATE_ERROR ∧ vm'.error = e ∧ vm'.pc = vm.pc ∧
  vm'.stackptr = vm.stackptr - n ∧
  vm'.notified = (if vm.error_notifier_fun then vm.notified ++ [e] else vm.notified) ∧
  (∀ k : Nat, (k : Int) ≤ vm.stackptr → vm'.stack[k]? = vm.stack[k]?) ∧
  (∀ j, bbzheap_obj_at vm'.heap j = bbzheap_obj_at vm.heap j) ∧
  (∀ k : Int, 0 ≤ k → k ≤ vm.stackptr →
    bbzheap_obj_isvalid vm.heap (bbzvm_stack_at vm k) = true →
    bbzheap_obj_isvalid vm'.heap (bbzvm_stack_at vm k) = true)

/-- The shape of the machine after a step on a conditional jump that
popped its operand and set the program counter to `p`. -/
def bbzvm_jumped (vm vm' : bbzvm_t) (p : Nat) : Prop :=
  vm'.state = BBZVM_STATE_READY ∧ vm'.error = BBZVM_ERROR_NONE ∧ vm'.pc = p ∧
  vm'.stackptr = vm.stackptr - 1 ∧
  (∀ k : Nat, (k : Int) ≤ vm.stackptr → vm'.stack[k]? = vm.stack[k]?) ∧
  (∀ j, bbzheap_obj_at vm'.heap j = bbzheap_obj_at vm.heap j)

/-! ## A concrete machine -/

/-- A heap in the state `testvm.c` builds before its step 15: the nil
singleton (slot 0), the default activation record holding nil under key 0
(slots 1 and 2), the arrays `lsymts` and `flist` (slots 3 and 4), the
global symbols (slot 5), two Int operands `a` and `b` (slots 6 and 7; the
test has -21244 and 8384), an Int 0 and an Int -1 (slots 8 and 9), a Float
(slot 10) and a freed slot (slot 11). -/
def test_heap (a b : Int) : bbzheap_t :=
  { objs :=
      [⟨true, .nil⟩, ⟨true, .table 0 true false⟩, ⟨true, .int 0⟩,
       ⟨true, .table 1 true false⟩, ⟨true, .table 2 true false⟩, ⟨true, .table 3 false false⟩,
       ⟨true, .int a⟩, ⟨true, .int b⟩, ⟨true, .int 0⟩, ⟨true, .int (-1)⟩,
       ⟨true, .float 15360⟩, ⟨false, .string 3⟩]
    tsegs :=
      [⟨true, [some (2, 0), none, none, none], none⟩, ⟨true, [none, none, none, none], none⟩,
       ⟨true, [none, none, none, none], none⟩, ⟨true, [none, none, none, none], none⟩]
    size := 256
    objsz := 3
    tsegsz := 18
    elems := 4 }

/-- A Ready machine over `test_heap a b` with the bytecode `code`, the
program counter at 0, the stack entries `stk` (the last one on top) in a
stack of 16 cells, and a registered error notifier. -/
def test_vm (a b : Int) (code : List Nat) (stk : List Nat) : bbzvm_t :=
  { bcode_fetch_fun := fun n => code.getD n 0
    bcode_size := code.length
    pc := 0
    state := BBZVM_STATE_READY
    error := BBZVM_ERROR_NONE
    error_notifier_fun := true
    notified := []
    heap := test_heap a b
    stack := stk ++ List.replicate (16 - stk.length) 0
    stackptr := (stk.length : Int) - 1
    blockptr := -1
    lsyms := 0
    lsymts := 3
    gsyms := 5
    nil := 0
    dflt_actrec := 1
    flist := 4
    robot := 0
    garbage := 0 }

/-- A host without functions: every call leaves the machine as it is. -/
def test_host : Nat → bbzvm_t → bbzvm_t := fun _ vm => vm

/-! ## Construction, calls and stack bounds -/

/-- A machine over `test_heap 2 8384` whose freed slot 11 holds a closure
with the tag bit set, the reference 3 and the default activation record:
the closure `bbzvm_call` runs by setting `pc` to its reference.  The Int 2
of slot 6 serves as an argument count. -/
def call_vm (code : List Nat) (stk : List Nat) : bbzvm_t :=
  { test_vm 2 8384 code stk with
    heap := bbzheap_obj_place (test_heap 2 8384) 11 (.closure true 3 0xFF) }

/-- Modelled from the spec: `bbzheap_clear` of the absent `bbzheap.c`
(section 4.1: the two frontiers start at the ends of the region): no object
slot and no segment is in use. -/
def bbzheap_clear (h : bbzheap_t) : bbzheap_t := { h with objs := [], tsegs := [] }

/-- The call `bbzdarray_new(&d)` as `bbzvm_construct` makes it, the status
being ignored: on failure the heap is as before and the index is left
unwritten. -/
def bbzvm_darray_new (vm : bbzvm_t) : bbzvm_t × Nat :=
  match bbzdarray_new vm.heap with
  | some (h, d) => ({ vm with heap := h }, d)
  | none => (vm, vm.garbage)

/-- The function `bbzvm_construct` (lines 35-66), on the memory `vm` of the
machine (which gives the stack array and the sizes of the heap region). -/
def bbzvm_construct (robot : Nat) (vm : bbzvm_t) : bbzvm_t :=
  let vm1 :=
    { vm with
      bcode_fetch_fun := fun _ => 0
      bcode_size := 0
      pc := 0
      state := BBZVM_STATE_NOCODE
      error := BBZVM_ERROR_NONE
      error_notifier_fun := false }
  let vm2 := { vm1 with heap := bbzheap_clear vm1.heap }
  let a := bbzvm_obj_alloc vm2 BBZTYPE_NIL
  let vm3 := { a.1 with nil := a.2 }
  let d := bbzvm_darray_new vm3
  let vm4 := { d.1 with dflt_actrec := d.2 }
  let vm5 := { vm4 with heap := bbzdarray_push vm4.heap vm4.dflt_actrec vm4.nil }
  let l := bbzvm_darray_new vm5
  let vm6 := { l.1 with lsymts := l.2 }
  let f := bbzvm_darray_new vm6
  let vm7 := { f.1 with flist := f.2 }
  let g := bbzvm_obj_alloc vm7 BBZTYPE_TABLE
  let vm8 := { g.1 with gsyms := g.2 }
  let vm9 := { vm8 with stackptr := -1 }
  let vm10 := { vm9 with blockptr := vm9.stackptr }
  { vm10 with lsyms := 0, robot := robot }

/-- The bounds of the stack pointer: `-1 <= sp < BBZSTACK_SIZE`. -/
def bbzvm_sp_ok (vm : bbzvm_t) : Prop := -1 ≤ vm.stackptr ∧ vm.stackptr < BBZSTACK_SIZE vm

/-- The machine `W` has the stack array and the block pointer of `V`, and
its stack pointer is within bounds when the one of `V` is. -/
def bbzvm_keeps (V W : bbzvm_t) : Prop :=
  W.stack.length = V.stack.length ∧ W.blockptr = V.blockptr ∧ (bbzvm_sp_ok V → bbzvm_sp_ok W)

/-- The lines 863-882 of `bbzvm_call`, after the checks: the machine `vm1`
has the argument count `argn` popped and `cactrec` is the activation record
of the closure.  The local symbols are cloned and pushed on `lsymts`, and
the arguments and the closure leave the stack. -/
def bbzvm_call_locals (isswrm : Bool) (vm1 : bbzvm_t) (argn : Int) (cactrec : Nat) : bbzvm_t :=
  let vm2 :=
    match bbzdarray_clone vm1.heap (if cactrec = 0xFF then vm1.dflt_actrec else cactrec) with
    | some (h, l) => { vm1 with heap := h, lsyms := l }
    | none => vm1
  let vm3 :=
    if isswrm then { vm2 with heap := bbzdarray_mark_swarm vm2.heap vm2.lsyms } else vm2
  let vm4 := { vm3 with heap := bbzdarray_push vm3.heap vm3.lsymts vm3.lsyms }
  let vm5 := bbzvm_call_args (int16 argn).toNat vm4
  { vm5 with stackptr := vm5.stackptr - 1 }

/-- The lines 883-886 of `bbzvm_call`: the return address and the block
pointer are pushed as Ints, and the block pointer is set to the stack
pointer. -/
def bbzvm_call_frame (vm6 : bbzvm_t) : bbzvm_t :=
  let vm7 := bbzvm_pushi vm6 (int16 vm6.pc)
  let vm8 := bbzvm_pushi vm7 (int16 vm7.blockptr)
  { vm8 with blockptr := vm8.stackptr }

/-- The lines 887-899 of `bbzvm_call`, on the machine with the frame laid
down: a closure with the tag bit set is entered by setting `pc`, any other
one runs the host function registered under its reference. -/
def bbzvm_call_run (host : Nat → bbzvm_t → bbzvm_t) (vm9 : bbzvm_t) (c : Nat) : bbzvm_t :=
  let cref : Int :=
    match bbzvm_obj_at vm9 c with
    | .closure _ r _ => r
    | o => bbzobj_ivalue o
  if bbzclosure_isnative (bbzvm_obj_at vm9 c) then { vm9 with pc := (uint16 cref).toNat }
  else
    match bbzdarray_get vm9.heap vm9.flist cref with
    | some udfunc =>
      (match bbzvm_obj_at vm9 udfunc with
       | .userdata p => host p vm9
       | o => host (uint16 (bbzobj_ivalue o)).toNat vm9)
    | none => host vm9.garbage vm9

/-- The heap `h'` extends `h`: every slot valid in `h` is valid in `h'` and
holds the same object. -/
def bbzheap_ext (h h' : bbzheap_t) : Prop :=
  ∀ i, bbzheap_obj_isvalid h i = true →
    bbzheap_obj_isvalid h' i = true ∧ bbzheap_obj_at h' i = bbzheap_obj_at h i

/-- The heap `h'` has the payloads and the tables of `h`: every slot holds
the same object and every segment the same cells and the same successor;
only validity flags may differ. -/
def bbzheap_same (h h' : bbzheap_t) : Prop :=
  h'.tsegs.length = h.tsegs.length ∧
  (∀ i, bbzheap_obj_at h' i = bbzheap_obj_at h i) ∧
  ∀ s, (bbzheap_tseg_at h' s).cells = (bbzheap_tseg_at h s).cells ∧
    (bbzheap_tseg_at h' s).next = (bbzheap_tseg_at h s).next

/-- The table in slot `d` is the dynamic array of the elements `xs`: its
valid cells, in chain order, hold the Int keys `0 .. n-1` with the elements
of `xs` as values. -/
def bbzdarray_is (h : bbzheap_t) (d : Nat) (xs : List Nat) : Prop :=
  (bbztable_pairs h d).map (fun kv => (bbzheap_obj_at h kv.1, kv.2))
    = xs.enum.map (fun iv => (bbzobj_t.int (iv.1 : Int), iv.2))

/-! ## Roots of a collection, host functions -/

/-- The stack on which `bbzvm_gc` runs the collector: the six roots
`lsyms`, `lsymts`, `gsyms`, `nil`, `dflt_actrec` and `flist` staged above
the entries of the stack. -/
def bbzvm_gc_stack (vm : bbzvm_t) : List Nat :=
  (((((vm.stack.set (vm.stackptr + 1).toNat vm.lsyms).set
    ((vm.stackptr + 1).toNat + 1) vm.lsymts).set
    ((vm.stackptr + 1).toNat + 2) vm.gsyms).set
    ((vm.stackptr + 1).toNat + 3) vm.nil).set
    ((vm.stackptr + 1).toNat + 4) vm.dflt_actrec).set
    ((vm.stackptr + 1).toNat + 5) vm.flist

/-- Runs `n` successive calls of `bbzvm_step`. -/
def bbzvm_steps (host : Nat → bbzvm_t → bbzvm_t) : Nat → bbzvm_t → bbzvm_t
  | 0, vm => vm
  | n + 1, vm => bbzvm_steps host n (bbzvm_step host vm)

/-- Reading `((bbzuserdata_t*)o)->value`: the pointer a Userdata wraps, and
the first payload field of any other object. -/
def bbzobj_uvalue : bbzobj_t → Nat
  | .userdata p => p
  | o => (uint16 (bbzobj_ivalue o)).toNat

/-- The function `bbzvm_function_cmp` (lines 814-818).  The comparator casts
each wrapped pointer to `uint16_t*` and dereferences it; `mem p` is the
`uint16_t` the memory of the host holds at the address `p`. -/
def bbzvm_function_cmp (mem : Nat → Nat) (a b : bbzobj_t) : Int :=
  if mem (bbzobj_uvalue a) % 65536 < mem (bbzobj_uvalue b) % 65536 then -1
  else if mem (bbzobj_uvalue a) % 65536 > mem (bbzobj_uvalue b) % 65536 then 1
  else 0

/-- Modelled from the spec: `bbzdarray_find(d, cmp, key)` of the absent
`bbzdarray.c` (section 4.2, `find(cmp,key)`): the index of the first element
of the array that compares equal to the object of slot `key`, and the size
of the array when there is none. -/
def bbzdarray_find (h : bbzheap_t) (d : Nat) (cmp : bbzobj_t → bbzobj_t → Int) (key : Nat) :
    Nat :=
  match (List.range (bbzdarray_size h d)).find? fun (i : Nat) =>
      match bbzdarray_get h d i with
      | some e => cmp (bbzheap_obj_at h e) (bbzheap_obj_at h key) == 0
      | none => false with
  | some i => i
  | none => bbzdarray_size h d

/-- Modelled from the spec: the macro `obj_makeinvalid` of the absent
`bbzheap.h` (section 4.1, flag `Valid`): the slot is no longer in use, its
payload stays. -/
def bbzheap_obj_makeinvalid (h : bbzheap_t) (i : Nat) : bbzheap_t :=
  { h with objs := h.objs.set i ⟨false, bbzheap_obj_at h i⟩ }

/-- The function `bbzvm_function_register` (lines 820-841), with the
returned id; `funp` is the function pointer. -/
def bbzvm_function_register (mem : Nat → Nat) (vm : bbzvm_t) (funp : Nat) : bbzvm_t × Nat :=
  let (vm1, objbuf) := bbzvm_obj_alloc vm BBZTYPE_USERDATA
  let vm2 := bbzvm_obj_setvalue vm1 objbuf funp
  let fpos := bbzdarray_find vm2.heap vm2.flist (bbzvm_function_cmp mem) objbuf % 65536
  let vm3 :=
    if fpos = bbzdarray_size vm2.heap vm2.flist then
      { vm2 with heap := bbzdarray_push vm2.heap vm2.flist objbuf }
    else { vm2 with heap := bbzheap_obj_makeinvalid vm2.heap objbuf }
  let vm4 := bbzvm_pushs vm3 fpos
  let vm5 := bbzvm_pushcc vm4 fpos
  let vm6 := bbzvm_gstore vm5
  (vm6, fpos)

/-! ## Calls made by the host -/

/-- The assignment `vm->stack[idx] = v` of a C caller: a write outside the
stack array is dropped. -/
def bbzvm_stack_put (vm : bbzvm_t) (idx : Int) (v : Nat) : bbzvm_t :=
  if 0 ≤ idx then { vm with stack := vm.stack.set idx.toNat v } else vm

/-- The rearrangement of `bbzvm_function_call` (lines 798-806): with
`argc > 0` the closure on top is remembered, round `i` of the loop copies
`bbzvm_stack_at(i + 1)` to `stack[stackptr - i]`, and the closure is written
to `stack[stackptr - argc]`. -/
def bbzvm_function_call_move (vm : bbzvm_t) (argc : Nat) : bbzvm_t :=
  if argc > 0 then
    let c := bbzvm_stack_at vm 0
    let vm1 := (List.range argc).foldl
      (fun m (i : Nat) =>
        bbzvm_stack_put m (m.stackptr - (i : Int)) (bbzvm_stack_at m ((i : Int) + 1))) vm
    bbzvm_stack_put vm1 (vm1.stackptr - argc) c
  else vm

/-- The loop `while(blockptr < vm->blockptr) if(bbzvm_step() != READY)
return` of `bbzvm_closure_call` (line 773), for at most `fuel` rounds; `none`
when the loop is still running after them. -/
def bbzvm_closure_call_loop (host : Nat → bbzvm_t → bbzvm_t) (blockptr : Int) :
    Nat → bbzvm_t → Option bbzvm_t
  | 0, vm => if blockptr < vm.blockptr then none else some vm
  | fuel + 1, vm =>
    if blockptr < vm.blockptr then
      let vm1 := bbzvm_step host vm
      if vm1.state ≠ BBZVM_STATE_READY then some vm1
      else bbzvm_closure_call_loop host blockptr fuel vm1
    else some vm

/-- The function `bbzvm_closure_call` (lines 769-775); `argc` is a
`uint16_t` and `bbzvm_pushi` takes an `int16_t`. -/
def bbzvm_closure_call (host : Nat → bbzvm_t → bbzvm_t) (fuel : Nat) (vm : bbzvm_t)
    (argc : Nat) : Option bbzvm_t :=
  let vm1 := bbzvm_pushi vm (int16 ((argc % 65536 : Nat) : Int))
  let blockptr := vm1.blockptr
  let vm2 := bbzvm_callc host vm1
  bbzvm_closure_call_loop host blockptr fuel vm2

/-- The function `bbzvm_function_call` (lines 780-809): a Done machine is
made Ready, the name is pushed and looked up in the globals, the result must
be a closure, the closure is moved below the arguments and called. -/
def bbzvm_function_call (host : Nat → bbzvm_t → bbzvm_t) (fuel : Nat) (vm : bbzvm_t)
    (fname argc : Nat) : Option bbzvm_t :=
  let vm0 := if vm.state = BBZVM_STATE_DONE then { vm with state := BBZVM_STATE_READY } else vm
  if vm0.state ≠ BBZVM_STATE_READY then some vm0
  else
    let vm1 := bbzvm_pushs vm0 fname
    if vm1.state ≠ BBZVM_STATE_READY then some vm1
    else
      let vm2 := bbzvm_gload vm1
      if !bbztype_isclosure (bbzvm_obj_at vm2 (bbzvm_stack_at vm2 0)) then
        some (bbzvm_seterror vm2 BBZVM_ERROR_TYPE)
      else bbzvm_closure_call host fuel (bbzvm_function_call_move vm2 argc) argc

/-- The host function `printIntVal` of `testvm.c` (lines 158-165), the
`printf` apart: the local symbol 1 is pushed and popped, and the function
returns through `bbzvm_ret0`. -/
def printIntVal (vm : bbzvm_t) : bbzvm_t :=
  bbzvm_ret0 (bbzvm_pop (bbzvm_lload vm 1))

/-- A host whose only function, at address 100, is `printIntVal`; a call
through any other pointer marks the machine by the robot id 999. -/
def print_host : Nat → bbzvm_t → bbzvm_t :=
  fun p vm => if p = 100 then printIntVal vm else { vm with robot := 999 }


/-! ## Loading a bytecode image -/

/-- The loop `do { c = fetch((charCount++) + 2, 1); } while(*c != 0);` of
`bbzvm_set_bcode` (lines 110-112), for at most `fuel` bytes: the value of
`charCount` (a `uint16_t`) after the terminator, `none` when no terminator
was met. -/
def bbzvm_set_bcode_scan (fetch : Nat → Nat) : Nat → Nat → Option Nat
  | 0, _ => none
  | fuel + 1, charCount =>
    if fetch ((charCount + 2) % 65536) % 256 = 0 then some ((charCount + 1) % 65536)
    else bbzvm_set_bcode_scan fetch fuel ((charCount + 1) % 65536)

/-- The body of the string loop after the scan (lines 113-118): a String
and an Int are allocated, both receive the value `i`, and the pair is stored
in the global symbols. -/
def bbzvm_set_bcode_intern (vm : bbzvm_t) (i : Nat) : bbzvm_t :=
  let (vm1, o) := bbzvm_obj_alloc vm BBZTYPE_STRING
  let (vm2, o2) := bbzvm_obj_alloc vm1 BBZTYPE_INT
  let vm3 := bbzvm_obj_setvalue vm2 o i
  let vm4 := bbzvm_obj_setvalue vm3 o2 i
  { vm4 with heap := bbztable_set vm4.heap vm4.gsyms o o2 }

/-- The loop `for (i = 0; i < strCount; ++i)` of `bbzvm_set_bcode` (lines
109-119), `n` rounds from the index `i`: the machine and `charCount` after
them. -/
def bbzvm_set_bcode_strings (fuel : Nat) : Nat → Nat → Nat → bbzvm_t → Option (bbzvm_t × Nat)
  | 0, _, charCount, vm => some (vm, charCount)
  | n + 1, i, charCount, vm =>
    match bbzvm_set_bcode_scan vm.bcode_fetch_fun fuel charCount with
    | none => none
    | some charCount1 =>
      bbzvm_set_bcode_strings fuel n (i + 1) charCount1 (bbzvm_set_bcode_intern vm i)

/-- The lines 94-121 of `bbzvm_set_bcode`: the machine is made Ready, the
string count is read as `*vm->bcode_fetch_fun(0, sizeof(uint16_t))`, the
dereference of a `const uint8_t*`, the strings are interned, and `pc` is set
after them. -/
def bbzvm_set_bcode_load (fuel : Nat) (vm : bbzvm_t) (bcode_fetch_fun : Nat → Nat)
    (bcode_size : Nat) : Option bbzvm_t :=
  let vm1 :=
    { vm with
      state := BBZVM_STATE_READY
      error := BBZVM_ERROR_NONE
      pc := 0
      bcode_fetch_fun := bcode_fetch_fun
      bcode_size := bcode_size % 65536 }
  let strCount := vm1.bcode_fetch_fun 0 % 256
  match bbzvm_set_bcode_strings fuel strCount 0 0 vm1 with
  | none => none
  | some (vm2, charCount) => some { vm2 with pc := (charCount + 2) % 65536 }

/-- The lines 122-127 of `bbzvm_set_bcode`, for at most `fuel` rounds of the
loop: steps are made while the byte at `pc` is not NOP, a step that leaves
the state Ready returns at once, and one more step is made on the NOP. -/
def bbzvm_set_bcode_prelude (host : Nat → bbzvm_t → bbzvm_t) : Nat → bbzvm_t → Option bbzvm_t
  | 0, _ => none
  | fuel + 1, vm =>
    if vm.bcode_fetch_fun vm.pc % 256 ≠ bbzvm_instr.NOP.code then
      let vm1 := bbzvm_step host vm
      if vm1.state ≠ BBZVM_STATE_READY then some vm1
      else bbzvm_set_bcode_prelude host fuel vm1
    else some (bbzvm_step host vm)

/-- The function `bbzvm_set_bcode` (lines 93-129). -/
def bbzvm_set_bcode (host : Nat → bbzvm_t → bbzvm_t) (fuel : Nat) (vm : bbzvm_t)
    (bcode_fetch_fun : Nat → Nat) (bcode_size : Nat) : Option bbzvm_t :=
  match bbzvm_set_bcode_load fuel vm bcode_fetch_fun bcode_size with
  | none => none
  | some vm1 => bbzvm_set_bcode_prelude host fuel vm1

/-! ## Machines for the loader and the allocator -/

/-- A machine constructed for robot 0 over a stack of 16 cells and a heap
region of 8192 bytes. -/
def fresh_vm : bbzvm_t :=
  bbzvm_construct 0 { test_vm 2 8384 [] [] with heap := { test_heap 2 8384 with size := 8192 } }

/-- A machine over `test_heap 2 8384` without its freed slot, in a region
of 105 bytes: the eleven slots (3 bytes each) and the four segments (18
bytes each) fill the region, so that the allocator has nothing to give when
every slot is referenced. -/
def full_vm (code : List Nat) (stk : List Nat) : bbzvm_t :=
  { test_vm 2 8384 code stk with
    heap := { test_heap 2 8384 with objs := (test_heap 2 8384).objs.take 11, size := 105 } }

/-! ## The queue of outgoing messages -/

/-- A message of the queue (`bbzmsg_t` of the absent `bbzmsg.h`) by the
fields the append functions of `bbzoutmsg.c` write: a broadcast (`rid`,
`topic`, `value`), a swarm chunk (`rid`, `lamport`, `swarms`) or a virtual
stigmergy message (`type`, `rid`, `lamport`, `key`, `data`); `blank` is a
slot never written. -/
inductive bbzmsg_t
  | blank
  | bc (rid topic value : Nat)
  | sw (rid lamport swarms : Nat)
  | vs (type rid lamport key data : Nat)
  deriving DecidableEq, Repr

/-- Modelled from the spec: the ring buffer of the absent `bbzringbuf.h`:
the slots, the capacity, and the slot indices of the first element
(`datastart`) and of the slot after the last element (`dataend`). -/
structure bbzringbuf_t where
  buffer : List bbzmsg_t
  capacity : Nat
  datastart : Nat
  dataend : Nat
  deriving DecidableEq, Repr

/-- Modelled from the spec: the slot `bbzringbuf_at(rb, idx)` points to:
`idx` is relative to `datastart`. -/
def bbzringbuf_at (rb : bbzringbuf_t) (idx : Nat) : Nat :=
  (rb.datastart + idx) % rb.capacity

/-- Modelled from the spec: the slot `bbzringbuf_rawat(rb, idx)` points to:
`idx` is an absolute slot index. -/
def bbzringbuf_rawat (rb : bbzringbuf_t) (idx : Nat) : Nat := idx % rb.capacity

/-- Modelled from the spec: `bbzringbuf_full`: the slot after the last
element is the first element. -/
def bbzringbuf_full (rb : bbzringbuf_t) : Bool :=
  (rb.dataend + 1) % rb.capacity == rb.datastart

/-- Modelled from the spec: `bbzringbuf_size`: the number of queued
elements. -/
def bbzringbuf_size (rb : bbzringbuf_t) : Nat :=
  (rb.dataend + rb.capacity - rb.datastart) % rb.capacity

/-- Modelled from the spec: `bbzringbuf_makeslot`: the slot `dataend`
becomes the last queued element; on a full buffer the first element is
given up. -/
def bbzringbuf_makeslot (rb : bbzringbuf_t) : bbzringbuf_t :=
  { rb with
    dataend := (rb.dataend + 1) % rb.capacity
    datastart := if bbzringbuf_full rb then (rb.datastart + 1) % rb.capacity else rb.datastart }

/-- The queued elements, first to last. -/
def bbzringbuf_elems (rb : bbzringbuf_t) : List bbzmsg_t :=
  (List.range (bbzringbuf_size rb)).map fun i => rb.buffer.getD (bbzringbuf_at rb i) .blank

/-- The lines 34-41, 55-62 and 81-88 of `bbzoutmsg.c`: the message was
written through the pointer to slot `m`; on a full queue it is copied to
slot `last`, otherwise `bbzringbuf_makeslot` runs. -/
def bbzoutmsg_queue_place (q : bbzringbuf_t) (m last : Nat) : bbzringbuf_t :=
  if bbzringbuf_full q then { q with buffer := q.buffer.set last (q.buffer.getD m .blank) }
  else bbzringbuf_makeslot q

/-- The function `bbzoutmsg_queue_append_broadcast` (lines 27-43) on the
queue `q` of the machine of robot `robot`; `sort` is the absent
`bbzmsg_sort_priority`.  The message is built at `bbzringbuf_at` and
replaces at `bbzringbuf_rawat`. -/
def bbzoutmsg_queue_append_broadcast (sort : bbzringbuf_t → bbzringbuf_t) (robot : Nat)
    (q : bbzringbuf_t) (topic value : Nat) : bbzringbuf_t :=
  let m := bbzringbuf_at q (q.dataend + q.capacity)
  let q1 := { q with buffer := q.buffer.set m (.bc robot topic value) }
  sort (bbzoutmsg_queue_place q1 m (bbzringbuf_rawat q1 (q1.dataend + q1.capacity - 1)))

/-- The function `bbzoutmsg_queue_append_swarm_chunk` (lines 48-64): the
message is built at `bbzringbuf_at` and replaces at `bbzringbuf_at`. -/
def bbzoutmsg_queue_append_swarm_chunk (sort : bbzringbuf_t → bbzringbuf_t)
    (q : bbzringbuf_t) (rid swarms lamport : Nat) : bbzringbuf_t :=
  let m := bbzringbuf_at q (q.dataend + q.capacity)
  let q1 := { q with buffer := q.buffer.set m (.sw rid lamport swarms) }
  sort (bbzoutmsg_queue_place q1 m (bbzringbuf_at q1 (q1.dataend + q1.capacity - 1)))

/-- The function `bbzoutmsg_queue_append_vstig` (lines 69-90): the message
is built at `bbzringbuf_rawat` and replaces at `bbzringbuf_at`. -/
def bbzoutmsg_queue_append_vstig (sort : bbzringbuf_t → bbzringbuf_t)
    (q : bbzringbuf_t) (type rid key value lamport : Nat) : bbzringbuf_t :=
  let m := bbzringbuf_rawat q (q.dataend + q.capacity)
  let q1 := { q with buffer := q.buffer.set m (.vs type rid lamport key value) }
  sort (bbzoutmsg_queue_place q1 m (bbzringbuf_at q1 (q1.dataend + q1.capacity - 1)))


/-! ## Errors raised between two machines -/

/-- Between `V` and `W` the errors `es` were raised, in this order, by
`bbzvm_seterror`: the notifier registration is the one of `V`, the record of
notifier calls grew by `es` when a notifier is registered, the error of `W`
is the last of `es` (the one of `V` when none was raised), and the state
follows (Error after an error, unless Done was set since).  A 16-bit
program counter stays one. -/
def bbzvm_notes (V W : bbzvm_t) : Prop :=
  W.error_notifier_fun = V.error_notifier_fun ∧
  (V.pc < 65536 → W.pc < 65536) ∧
  ∃ es : List bbzvm_error, BBZVM_ERROR_NONE ∉ es ∧
    W.notified = V.notified ++ (if V.error_notifier_fun then es else []) ∧
    (es = [] → W.error = V.error ∧ (W.state = V.state ∨ W.state = BBZVM_STATE_DONE)) ∧
    (es ≠ [] → es.getLast? = some W.error ∧
      (W.state = BBZVM_STATE_ERROR ∨ W.state = BBZVM_STATE_DONE))

/-! ## Lemmas on machine integers -/

theorem int16_range (x : Int) : -32768 ≤ int16 x ∧ int16 x ≤ 32767 := by
  unfold int16; omega

theorem int16_congr (x : Int) : (int16 x - x) % 65536 = 0 := by
  unfold int16; omega

theorem int16_of_range (x : Int) (h1 : -32768 ≤ x) (h2 : x ≤ 32767) : int16 x = x := by
  unfold int16; omega

theorem int16_uint16 (x : Int) : int16 (uint16 x) = int16 x := by
  unfold int16 uint16; omega

theorem tmod_natAbs (a b : Int) : (Int.tmod a b).natAbs = a.natAbs % b.natAbs := by
  cases a <;> cases b <;> simp [Int.tmod, Int.natAbs_ofNat, Int.natAbs_neg] <;> rfl

theorem tmod_nonpos (a b : Int) (h : a ≤ 0) : Int.tmod a b ≤ 0 := by
  have e : Int.tmod a b = -(Int.tmod (-a) b) := by
    rw [Int.tmod_def, Int.tmod_def, Int.neg_tdiv]
    ring
  rw [e]
  have := Int.tmod_nonneg b (show 0 ≤ -a by omega)
  omega

theorem tmod_abs_lt (a b : Int) (hb : b ≠ 0) : |Int.tmod a b| < |b| := by
  have h := tmod_natAbs a b
  have hlt : a.natAbs % b.natAbs < b.natAbs := Nat.mod_lt _ (by omega)
  rw [Int.abs_eq_natAbs, Int.abs_eq_natAbs]
  omega

theorem tdiv_range (a b : Int) (ha1 : -32768 ≤ a) (ha2 : a ≤ 32767)
    (hab : ¬ (a = -32768 ∧ b = -1)) :
    -32768 ≤ Int.tdiv a b ∧ Int.tdiv a b ≤ 32767 := by
  by_cases h0 : b = 0
  · subst h0; simp
  by_cases h1 : b = 1
  · subst h1; simp; omega
  by_cases h2 : b = -1
  · subst h2
    rw [Int.tdiv_neg, Int.tdiv_one]
    omega
  have hn := Int.natAbs_tdiv a b
  have h2b : 2 ≤ b.natAbs := by omega
  have : a.natAbs / b.natAbs ≤ a.natAbs / 2 := Nat.div_le_div_left h2b (by decide)
  have e : (a.natAbs).div (b.natAbs) = a.natAbs / b.natAbs := rfl
  rw [e] at hn
  omega

theorem mod_eq_tmod (a b : Int) (hb1 : -32768 ≤ b) (hb2 : b ≤ 32767) (hb : b ≠ 0) :
    mod a b = Int.tmod a b := by
  have h := tmod_abs_lt a b hb
  unfold mod
  apply int16_of_range
  · rw [abs_lt] at h
    have : |b| ≤ 32768 := by rw [abs_le]; omega
    omega
  · rw [abs_lt] at h
    have : |b| ≤ 32768 := by rw [abs_le]; omega
    omega

theorem bbzpow_loop_eq (n : Nat) (l res : Int) :
    uint16 (bbzpow_loop n l res) = uint16 (res * l ^ n) := by
  induction n generalizing res with
  | zero => simp [bbzpow_loop]
  | succ k ih =>
    rw [bbzpow_loop, ih]
    unfold uint16
    rw [pow_succ, Int.mul_emod, Int.emod_emod_of_dvd _ (dvd_refl _), ← Int.mul_emod]
    congr 1
    ring

/-! ## Lemmas on the heap -/

theorem bbzheap_sweep_objs_length (m : List Nat) (l : List bbzheap_slot) (i : Nat) :
    (bbzheap_sweep_objs m l i).length = l.length := by
  induction l generalizing i with
  | nil => rfl
  | cons s rest ih => simp [bbzheap_sweep_objs, ih]

theorem bbzheap_sweep_objs_obj (m : List Nat) (l : List bbzheap_slot) (i j : Nat)
    (d : bbzheap_slot) :
    ((bbzheap_sweep_objs m l i).getD j d).obj = (l.getD j d).obj := by
  induction l generalizing i j with
  | nil => rfl
  | cons s rest ih =>
    cases j with
    | zero =>
      simp only [bbzheap_sweep_objs, List.getD_cons_zero]
      split <;> rfl
    | succ k => simpa [bbzheap_sweep_objs] using ih (i + 1) k

theorem bbzheap_sweep_objs_valid_mono (m : List Nat) (l : List bbzheap_slot) (i j : Nat)
    (h : ((bbzheap_sweep_objs m l i).getD j ⟨false, .nil⟩).valid = true) :
    (l.getD j ⟨false, .nil⟩).valid = true := by
  induction l generalizing i j with
  | nil => simpa [bbzheap_sweep_objs] using h
  | cons s rest ih =>
    cases j with
    | zero =>
      simp only [bbzheap_sweep_objs, List.getD_cons_zero] at h ⊢
      split at h
      · simp at h
      · exact h
    | succ k =>
      simp only [bbzheap_sweep_objs, List.getD_cons_succ] at h ⊢
      exact ih (i + 1) k h

theorem bbzheap_sweep_objs_valid_keep (m : List Nat) (l : List bbzheap_slot) (i j : Nat)
    (h : (l.getD j ⟨false, .nil⟩).valid = true) (hm : i + j ∈ m) :
    ((bbzheap_sweep_objs m l i).getD j ⟨false, .nil⟩).valid = true := by
  induction l generalizing i j with
  | nil => simpa [bbzheap_sweep_objs] using h
  | cons s rest ih =>
    cases j with
    | zero =>
      simp only [bbzheap_sweep_objs, List.getD_cons_zero] at h ⊢
      have hm2 : i ∈ m := by simpa using hm
      simp [hm2, h]
    | succ k =>
      simp only [bbzheap_sweep_objs, List.getD_cons_succ] at h ⊢
      exact ih (i + 1) k h (by rw [show i + 1 + k = i + (k + 1) by omega]; exact hm)

theorem bbzheap_sweep_objs_first_free (m : List Nat) (l : List bbzheap_slot) (i j : Nat)
    (h : bbzheap_first_free (bbzheap_sweep_objs m l i) j = none) :
    bbzheap_first_free l j = none := by
  induction l generalizing i j with
  | nil => rfl
  | cons s rest ih =>
    simp only [bbzheap_sweep_objs, bbzheap_first_free] at h ⊢
    by_cases hv : s.valid = true
    · by_cases hc : i ∈ m
      · have e : (s.valid && !(m.contains i)) = false := by simp [hc]
        rw [e] at h
        simp only [Bool.false_eq_true, ↓reduceIte, hv] at h ⊢
        exact ih _ _ h
      · simp [hv, hc] at h
    · simp [hv] at h

theorem bbzheap_sweep_tsegs_length (r : List Nat) (l : List bbzheap_tseg_t) (i : Nat) :
    (bbzheap_sweep_tsegs r l i).length = l.length := by
  induction l generalizing i with
  | nil => rfl
  | cons s rest ih => simp [bbzheap_sweep_tsegs, ih]

theorem bbzheap_mark_round_mem (h : bbzheap_t) (m : List Nat) (x : Nat) (hx : x ∈ m) :
    x ∈ bbzheap_mark_round h m := by
  unfold bbzheap_mark_round
  exact List.mem_union_iff.mpr (Or.inr hx)

theorem bbzheap_mark_mem (h : bbzheap_t) (n : Nat) (m : List Nat) (x : Nat) (hx : x ∈ m) :
    x ∈ bbzheap_mark h n m := by
  induction n generalizing m with
  | zero => exact hx
  | succ k ih => exact ih _ (bbzheap_mark_round_mem h m x hx)

theorem bbzheap_gc_obj_at (h : bbzheap_t) (s : List Nat) (n i : Nat) :
    bbzheap_obj_at (bbzheap_gc h s n) i = bbzheap_obj_at h i := by
  simp only [bbzheap_obj_at, bbzheap_gc]
  exact bbzheap_sweep_objs_obj _ _ _ _ _

theorem bbzheap_gc_valid_mono (h : bbzheap_t) (s : List Nat) (n i : Nat)
    (hv : bbzheap_obj_isvalid (bbzheap_gc h s n) i = true) :
    bbzheap_obj_isvalid h i = true := by
  simp only [bbzheap_obj_isvalid, bbzheap_gc] at hv ⊢
  exact bbzheap_sweep_objs_valid_mono _ _ _ _ hv

theorem bbzheap_gc_valid_root (h : bbzheap_t) (s : List Nat) (n i : Nat)
    (hr : i ∈ s.take n) (hv : bbzheap_obj_isvalid h i = true) :
    bbzheap_obj_isvalid (bbzheap_gc h s n) i = true := by
  simp only [bbzheap_obj_isvalid, bbzheap_gc] at hv ⊢
  apply bbzheap_sweep_objs_valid_keep _ _ _ _ hv
  rw [Nat.zero_add]
  exact bbzheap_mark_mem _ _ _ _ hr

theorem bbzheap_gc_slot (h : bbzheap_t) (s : List Nat) (n : Nat)
    (hs : (bbzheap_obj_slot h).isSome = true) :
    (bbzheap_obj_slot (bbzheap_gc h s n)).isSome = true := by
  unfold bbzheap_obj_slot at hs ⊢
  cases hf : bbzheap_first_free (bbzheap_gc h s n).objs 0 with
  | some k => rfl
  | none =>
    have h0 : bbzheap_first_free h.objs 0 = none :=
      bbzheap_sweep_objs_first_free _ _ _ _ (by simpa [bbzheap_gc] using hf)
    rw [h0] at hs
    simpa only [bbzheap_room, bbzheap_gc, bbzheap_sweep_objs_length,
      bbzheap_sweep_tsegs_length] using hs



theorem bbzheap_first_free_spec (l : List bbzheap_slot) (i k : Nat)
    (h : bbzheap_first_free l i = some k) :
    i ≤ k ∧ k - i < l.length ∧ (l.getD (k - i) ⟨false, .nil⟩).valid = false := by
  induction l generalizing i with
  | nil => simp [bbzheap_first_free] at h
  | cons s rest ih =>
    simp only [bbzheap_first_free] at h
    by_cases hv : s.valid = true
    · simp only [hv, ↓reduceIte] at h
      obtain ⟨h1, h2, h3⟩ := ih _ h
      refine ⟨by omega, by simp; omega, ?_⟩
      rw [show k - i = (k - (i + 1)) + 1 by omega, List.getD_cons_succ]
      exact h3
    · simp only [hv, Bool.false_eq_true, ↓reduceIte, Option.some.injEq] at h
      subst h
      simp at hv
      simp [hv]

theorem bbzheap_obj_slot_spec (h : bbzheap_t) (i : Nat) (hs : bbzheap_obj_slot h = some i) :
    i ≤ h.objs.length ∧ bbzheap_obj_isvalid h i = false := by
  unfold bbzheap_obj_slot at hs
  cases hf : bbzheap_first_free h.objs 0 with
  | some k =>
    rw [hf] at hs
    simp only [Option.some.injEq] at hs
    subst hs
    obtain ⟨_, h2, h3⟩ := bbzheap_first_free_spec _ _ _ hf
    exact ⟨by omega, by simpa [bbzheap_obj_isvalid] using h3⟩
  | none =>
    rw [hf] at hs
    by_cases hr : bbzheap_room h h.objsz = true
    · simp only [hr, ↓reduceIte, Option.some.injEq] at hs
      subst hs
      exact ⟨le_refl _, by simp [bbzheap_obj_isvalid, List.getD_eq_getElem?_getD]⟩
    · simp [hr] at hs

theorem bbzheap_obj_place_at (h : bbzheap_t) (i j : Nat) (o : bbzobj_t)
    (hi : i ≤ h.objs.length) :
    bbzheap_obj_at (bbzheap_obj_place h i o) j = if j = i then o else bbzheap_obj_at h j := by
  unfold bbzheap_obj_place bbzheap_obj_at
  by_cases hlt : i < h.objs.length
  · simp only [hlt, ↓reduceIte, List.getD_eq_getElem?_getD, List.getElem?_set]
    by_cases hji : j = i
    · subst hji; simp [hlt]
    · simp [hji, Ne.symm hji]
  · have hil : i = h.objs.length := by omega
    simp only [hlt, ↓reduceIte, List.getD_eq_getElem?_getD]
    by_cases hji : j = i
    · subst hji; simp [hil]
    · simp only [hji, ↓reduceIte]
      by_cases hjl : j < h.objs.length
      · rw [List.getElem?_append_left hjl]
      · rw [List.getElem?_eq_none (by simp; omega), List.getElem?_eq_none (by omega)]

theorem bbzheap_obj_place_valid (h : bbzheap_t) (i j : Nat) (o : bbzobj_t)
    (hi : i ≤ h.objs.length) :
    bbzheap_obj_isvalid (bbzheap_obj_place h i o) j
      = if j = i then true else bbzheap_obj_isvalid h j := by
  unfold bbzheap_obj_place bbzheap_obj_isvalid
  by_cases hlt : i < h.objs.length
  · simp only [hlt, ↓reduceIte, List.getD_eq_getElem?_getD, List.getElem?_set]
    by_cases hji : j = i
    · subst hji; simp [hlt]
    · simp [hji, Ne.symm hji]
  · have hil : i = h.objs.length := by omega
    simp only [hlt, ↓reduceIte, List.getD_eq_getElem?_getD]
    by_cases hji : j = i
    · subst hji; simp [hil]
    · simp only [hji, ↓reduceIte]
      by_cases hjl : j < h.objs.length
      · rw [List.getElem?_append_left hjl]
      · rw [List.getElem?_eq_none (by simp; omega), List.getElem?_eq_none (by omega)]

theorem bbzheap_obj_place_length (h : bbzheap_t) (i : Nat) (o : bbzobj_t)
    (hi : i ≤ h.objs.length) : i < (bbzheap_obj_place h i o).objs.length := by
  unfold bbzheap_obj_place
  by_cases hlt : i < h.objs.length
  · simpa [hlt] using hlt
  · simp [hlt]; omega

theorem bbzheap_obj_write_at (h : bbzheap_t) (i j : Nat) (o : bbzobj_t)
    (hi : i < h.objs.length) :
    bbzheap_obj_at (bbzheap_obj_write h i o) j = if j = i then o else bbzheap_obj_at h j := by
  unfold bbzheap_obj_write bbzheap_obj_at
  simp only [List.getD_eq_getElem?_getD, List.getElem?_set]
  by_cases hji : j = i
  · subst hji; simp [hi]
  · simp [hji, Ne.symm hji]

theorem bbzheap_obj_write_valid (h : bbzheap_t) (i j : Nat) (o : bbzobj_t) :
    bbzheap_obj_isvalid (bbzheap_obj_write h i o) j = bbzheap_obj_isvalid h j := by
  unfold bbzheap_obj_write bbzheap_obj_isvalid
  simp only [List.getD_eq_getElem?_getD, List.getElem?_set]
  by_cases hji : i = j
  · subst hji
    by_cases hi : i < h.objs.length
    · simp [hi]
    · simp [hi, List.getElem?_eq_none (Nat.le_of_not_lt hi)]
  · simp [hji]

theorem bbzheap_obj_alloc_int (h : bbzheap_t) (i : Nat) (hs : bbzheap_obj_slot h = some i) :
    bbzheap_obj_alloc h BBZTYPE_INT = some (bbzheap_obj_place h i (.int 0), i) := by
  simp [bbzheap_obj_alloc, hs, BBZTYPE_INT, BBZTYPE_TABLE, bbzobj_fresh]



/-! ## Lemmas on the stack and the collector call -/

theorem bbzvm_push_ok (vm : bbzvm_t) (v : Nat) (h : vm.stackptr + 1 < vm.stack.length) :
    bbzvm_push vm v =
      { vm with stackptr := vm.stackptr + 1, stack := vm.stack.set (vm.stackptr + 1).toNat v } := by
  unfold bbzvm_push
  rw [if_neg]
  simp only [bbzvm_stack_size, BBZSTACK_SIZE]
  omega

theorem bbzvm_pop_ok (vm : bbzvm_t) (h : 0 ≤ vm.stackptr) :
    bbzvm_pop vm = { vm with stackptr := vm.stackptr - 1 } := by
  unfold bbzvm_pop
  rw [if_pos]
  simp only [bbzvm_stack_size]
  omega

theorem bbzvm_push_roots (vm : bbzvm_t) (v : Nat) :
    (bbzvm_push vm v).lsyms = vm.lsyms ∧ (bbzvm_push vm v).lsymts = vm.lsymts ∧
    (bbzvm_push vm v).gsyms = vm.gsyms ∧ (bbzvm_push vm v).nil = vm.nil ∧
    (bbzvm_push vm v).dflt_actrec = vm.dflt_actrec ∧ (bbzvm_push vm v).flist = vm.flist := by
  unfold bbzvm_push bbzvm_seterror
  split <;> simp

theorem bbzvm_gc_unfold (vm : bbzvm_t) (h : ¬ BBZSTACK_SIZE vm - bbzvm_stack_size vm < 6) :
    bbzvm_gc vm = (true,
      let P := bbzvm_push (bbzvm_push (bbzvm_push (bbzvm_push (bbzvm_push (bbzvm_push vm
        vm.lsyms) vm.lsymts) vm.gsyms) vm.nil) vm.dflt_actrec) vm.flist
      bbzvm_pop (bbzvm_pop (bbzvm_pop (bbzvm_pop (bbzvm_pop (bbzvm_pop
        { P with heap := bbzheap_gc P.heap P.stack (bbzvm_stack_size P).toNat })))))) := by
  unfold bbzvm_gc
  rw [if_neg h]
  simp only [(bbzvm_push_roots _ _).1, (bbzvm_push_roots _ _).2.1, (bbzvm_push_roots _ _).2.2.1,
    (bbzvm_push_roots _ _).2.2.2.1, (bbzvm_push_roots _ _).2.2.2.2.1,
    (bbzvm_push_roots _ _).2.2.2.2.2]

theorem bbzvm_pop6 (vm : bbzvm_t) (h : 5 ≤ vm.stackptr) :
    bbzvm_pop (bbzvm_pop (bbzvm_pop (bbzvm_pop (bbzvm_pop (bbzvm_pop vm)))))
      = { vm with stackptr := vm.stackptr - 6 } := by
  rw [bbzvm_pop_ok vm (by omega)]
  rw [bbzvm_pop_ok { vm with stackptr := vm.stackptr - 1 } (by simp only []; omega)]
  rw [bbzvm_pop_ok { vm with stackptr := vm.stackptr - 1 - 1 } (by simp only []; omega)]
  rw [bbzvm_pop_ok { vm with stackptr := vm.stackptr - 1 - 1 - 1 } (by simp only []; omega)]
  rw [bbzvm_pop_ok { vm with stackptr := vm.stackptr - 1 - 1 - 1 - 1 } (by simp only []; omega)]
  rw [bbzvm_pop_ok { vm with stackptr := vm.stackptr - 1 - 1 - 1 - 1 - 1 }
    (by simp only []; omega)]
  have e : vm.stackptr - 1 - 1 - 1 - 1 - 1 - 1 = vm.stackptr - 6 := by omega
  simp only [e]

theorem bbzvm_gc_ok (vm : bbzvm_t) (h0 : -1 ≤ vm.stackptr)
    (h1 : vm.stackptr + 7 ≤ vm.stack.length) :
    (bbzvm_gc vm).1 = true ∧ bbzvm_gc_frame vm (bbzvm_gc vm).2 := by
  obtain ⟨n, hn⟩ : ∃ n : Nat, vm.stackptr = (n : Int) - 1 := ⟨(vm.stackptr + 1).toNat, by omega⟩
  have hlen : n + 6 ≤ vm.stack.length := by omega
  rw [bbzvm_gc_unfold vm (by simp only [bbzvm_stack_size, BBZSTACK_SIZE]; omega)]
  refine ⟨rfl, ?_⟩
  simp only []
  rw [bbzvm_push_ok vm vm.lsyms (by omega)]
  rw [bbzvm_push_ok _ vm.lsymts (by simp only [List.length_set]; omega)]
  rw [bbzvm_push_ok _ vm.gsyms (by simp only [List.length_set]; omega)]
  rw [bbzvm_push_ok _ vm.nil (by simp only [List.length_set]; omega)]
  rw [bbzvm_push_ok _ vm.dflt_actrec (by simp only [List.length_set]; omega)]
  rw [bbzvm_push_ok _ vm.flist (by simp only [List.length_set]; omega)]
  rw [bbzvm_pop6 _ (by simp only []; omega)]
  simp only [bbzvm_stack_size]
  have e1 : (vm.stackptr + 1).toNat = n := by omega
  have e2 : (vm.stackptr + 1 + 1).toNat = n + 1 := by omega
  have e3 : (vm.stackptr + 1 + 1 + 1).toNat = n + 2 := by omega
  have e4 : (vm.stackptr + 1 + 1 + 1 + 1).toNat = n + 3 := by omega
  have e5 : (vm.stackptr + 1 + 1 + 1 + 1 + 1).toNat = n + 4 := by omega
  have e6 : (vm.stackptr + 1 + 1 + 1 + 1 + 1 + 1).toNat = n + 5 := by omega
  have e7 : (vm.stackptr + 1 + 1 + 1 + 1 + 1 + 1 + 1).toNat = n + 6 := by omega
  have e8 : vm.stackptr + 1 + 1 + 1 + 1 + 1 + 1 - 6 = vm.stackptr := by
    omega
  simp only [e1, e2, e3, e4, e5, e6, e7, e8]
  have hbelow : ∀ i : Nat, (i : Int) ≤ vm.stackptr →
      ((((((vm.stack.set n vm.lsyms).set (n + 1) vm.lsymts).set (n + 2) vm.gsyms).set (n + 3)
        vm.nil).set (n + 4) vm.dflt_actrec).set (n + 5) vm.flist)[i]? = vm.stack[i]? := by
    intro i hi
    have : i < n := by omega
    simp only [List.getElem?_set]
    rw [if_neg (by omega), if_neg (by omega), if_neg (by omega), if_neg (by omega),
      if_neg (by omega), if_neg (by omega)]
  constructor
  · rfl
  · simp
  · exact hbelow
  · intro i; exact bbzheap_gc_obj_at _ _ _ _
  · intro i hv; exact bbzheap_gc_valid_mono _ _ _ _ hv
  · intro i hi g hv
    apply bbzheap_gc_valid_root _ _ _ _ _ hv
    have hil : i < n := by omega
    have := hbelow i hi
    simp only [List.getD_eq_getElem?_getD]
    rw [← this]
    rw [List.mem_iff_getElem]
    refine ⟨i, by simp; omega, ?_⟩
    rw [List.getElem_take]
    rw [List.getElem?_eq_getElem (by simp; omega)]
    simp
  · intro hs; exact bbzheap_gc_slot _ _ _ hs



theorem bbzvm_obj_alloc_int (vm : bbzvm_t) (i : Nat) (hs : bbzheap_obj_slot vm.heap = some i) :
    bbzvm_obj_alloc vm BBZTYPE_INT
      = ({ vm with heap := bbzheap_obj_place vm.heap i (.int 0) }, i) := by
  unfold bbzvm_obj_alloc
  rw [bbzheap_obj_alloc_int _ _ hs]

theorem bbzheap_with_int_at (h : bbzheap_t) (i j : Nat) (x : Int)
    (hs : bbzheap_obj_slot h = some i) :
    bbzheap_obj_at (bbzheap_with_int h i x) j = if j = i then .int x else bbzheap_obj_at h j := by
  have hi := (bbzheap_obj_slot_spec h i hs).1
  unfold bbzheap_with_int
  rw [bbzheap_obj_write_at _ _ _ _ (bbzheap_obj_place_length h i _ hi)]
  by_cases hji : j = i
  · simp [hji]
  · simp only [hji, ↓reduceIte]
    rw [bbzheap_obj_place_at _ _ _ _ hi, if_neg hji]

theorem bbzheap_with_int_valid (h : bbzheap_t) (i j : Nat) (x : Int)
    (hs : bbzheap_obj_slot h = some i) :
    bbzheap_obj_isvalid (bbzheap_with_int h i x) j
      = if j = i then true else bbzheap_obj_isvalid h j := by
  have hi := (bbzheap_obj_slot_spec h i hs).1
  unfold bbzheap_with_int
  rw [bbzheap_obj_write_valid, bbzheap_obj_place_valid _ _ _ _ hi]

theorem bbzvm_alloc_set_int (vm : bbzvm_t) (i : Nat) (x : Int)
    (hs : bbzheap_obj_slot vm.heap = some i) :
    bbzvm_obj_setvalue { vm with heap := bbzheap_obj_place vm.heap i (.int 0) } i x
      = { vm with heap := bbzheap_with_int vm.heap i x } := by
  have hi := (bbzheap_obj_slot_spec vm.heap i hs).1
  unfold bbzvm_obj_setvalue bbzvm_obj_at bbzheap_with_int
  simp only []
  rw [bbzheap_obj_place_at _ _ _ _ hi]
  simp [bbzobj_setvalue]

theorem bbzvm_binary_op_arith_ok (op : Int → Int → Int) (V : bbzvm_t) (a b : Int) (i : Nat)
    (hsp : 1 ≤ V.stackptr) (hlen : V.stackptr < V.stack.length)
    (hl : bbzvm_obj_at V (bbzvm_stack_at V 1) = .int a)
    (hr : bbzvm_obj_at V (bbzvm_stack_at V 0) = .int b)
    (hvl : bbzheap_obj_isvalid V.heap (bbzvm_stack_at V 1) = true)
    (hvr : bbzheap_obj_isvalid V.heap (bbzvm_stack_at V 0) = true)
    (hs : bbzheap_obj_slot V.heap = some i) :
    bbzvm_binary_op_arith op V =
      { V with
        heap := bbzheap_with_int V.heap i (op a b)
        stackptr := V.stackptr - 1
        stack := V.stack.set (V.stackptr - 1).toNat i } := by
  have hinv := (bbzheap_obj_slot_spec V.heap i hs).2
  have hi := (bbzheap_obj_slot_spec V.heap i hs).1
  have hli : bbzvm_stack_at V 1 ≠ i := by
    intro e; rw [e, hinv] at hvl; exact absurd hvl (by simp)
  have hri : bbzvm_stack_at V 0 ≠ i := by
    intro e; rw [e, hinv] at hvr; exact absurd hvr (by simp)
  unfold bbzvm_binary_op_arith
  rw [if_neg (by simp only [bbzvm_stack_size]; omega)]
  simp only []
  rw [bbzvm_pop_ok V (by omega)]
  rw [bbzvm_pop_ok { V with stackptr := V.stackptr - 1 } (by simp only []; omega)]
  have hl2 : bbzvm_obj_at { V with stackptr := V.stackptr - 1 - 1 } (bbzvm_stack_at V 1)
      = .int a := hl
  have hr2 : bbzvm_obj_at { V with stackptr := V.stackptr - 1 - 1 } (bbzvm_stack_at V 0)
      = .int b := hr
  rw [hl2, hr2]
  simp only [bbztype_isint, bbztype, beq_self_eq_true, Bool.and_self, ↓reduceIte]
  rw [bbzvm_obj_alloc_int { V with stackptr := V.stackptr - 1 - 1 } i hs]
  simp only []
  have hl3 : bbzheap_obj_at (bbzheap_obj_place V.heap i (.int 0)) (bbzvm_stack_at V 1)
      = .int a := by
    rw [bbzheap_obj_place_at _ _ _ _ hi, if_neg hli]; exact hl
  have hr3 : bbzheap_obj_at (bbzheap_obj_place V.heap i (.int 0)) (bbzvm_stack_at V 0)
      = .int b := by
    rw [bbzheap_obj_place_at _ _ _ _ hi, if_neg hri]; exact hr
  simp only [bbzvm_obj_at, hl3, hr3, bbzobj_ivalue]
  rw [bbzvm_alloc_set_int { V with stackptr := V.stackptr - 1 - 1 } i (op a b) hs]
  rw [bbzvm_push_ok _ _ (by simp only []; omega)]
  have e : V.stackptr - 1 - 1 + 1 = V.stackptr - 1 := by omega
  simp only [e]


/-! ## Lemmas on `bbzvm_step` -/

theorem bbzvm_gc_frame_fields {vm G : bbzvm_t} (F : bbzvm_gc_frame vm G) :
    G.pc = vm.pc ∧ G.bcode_size = vm.bcode_size ∧ G.bcode_fetch_fun = vm.bcode_fetch_fun ∧
    G.state = vm.state ∧ G.error = vm.error ∧ G.stackptr = vm.stackptr ∧
    G.notified = vm.notified ∧ G.error_notifier_fun = vm.error_notifier_fun ∧
    G.nil = vm.nil ∧ G.garbage = vm.garbage ∧ G.blockptr = vm.blockptr := by
  rw [F.rest]
  exact ⟨rfl, rfl, rfl, rfl, rfl, rfl, rfl, rfl, rfl, rfl, rfl⟩

theorem bbzvm_step_exec (host : Nat → bbzvm_t → bbzvm_t) (vm : bbzvm_t) (i : bbzvm_instr)
    (h : bbzvm_at vm i) :
    ∃ G, bbzvm_gc_frame vm G ∧
      bbzvm_step host vm = bbzvm_exec_switch host vm.pc { G with pc := vm.pc + 1 } (some i) := by
  obtain ⟨hg1, hg2⟩ := bbzvm_gc_ok vm h.sp_min h.sp_max
  refine ⟨(bbzvm_gc vm).2, hg2, ?_⟩
  obtain ⟨hpc, hsz, hf, -⟩ := bbzvm_gc_frame_fields hg2
  have hnext := h.next
  have hsize := h.size
  unfold bbzvm_step
  rw [if_pos h.ready]
  have : bbzvm_gc vm = (true, (bbzvm_gc vm).2) := by
    rw [← hg1]
  rw [this]
  simp only []
  unfold bbzvm_exec_instr
  simp only [hpc, hf, hsz, h.opcode]
  rw [Nat.mod_eq_of_lt (by omega)]
  rw [if_neg (by simp [bbzvm_pc_out]; omega)]
  congr 1
  cases i <;> rfl


theorem bbzvm_gc_frame_stack_at {vm G : bbzvm_t} (F : bbzvm_gc_frame vm G) (k : Int)
    (hk : 0 ≤ k) (pc : Nat) :
    bbzvm_stack_at { G with pc := pc } k = bbzvm_stack_at vm k := by
  obtain ⟨-, -, -, -, -, hsp, -, -, -, hg, -⟩ := bbzvm_gc_frame_fields F
  unfold bbzvm_stack_at
  simp only [hsp, hg]
  by_cases h0 : 0 ≤ vm.stackptr - k
  · simp only [h0, ↓reduceIte, List.getD_eq_getElem?_getD]
    rw [F.below _ (by omega)]
  · simp only [h0, ↓reduceIte]

theorem bbzvm_stack_at_valid_root {vm G : bbzvm_t} (F : bbzvm_gc_frame vm G) (k : Int)
    (hk : 0 ≤ k) (hsp : k ≤ vm.stackptr)
    (hv : bbzheap_obj_isvalid vm.heap (bbzvm_stack_at vm k) = true) :
    bbzheap_obj_isvalid G.heap (bbzvm_stack_at vm k) = true := by
  unfold bbzvm_stack_at at hv ⊢
  rw [if_pos (by omega)] at hv ⊢
  exact F.valid_root _ (by omega) _ hv

theorem bbzvm_pushed_int_top {vm vm' : bbzvm_t} {val : Int} (h : bbzvm_pushed_int vm vm' val)
    (hsp : 1 ≤ vm.stackptr) :
    vm'.state = vm.state ∧ vm'.error = vm.error ∧ vm'.pc = vm.pc + 1 ∧
    vm'.stackptr = vm.stackptr - 1 ∧
    (∀ k : Nat, (k : Int) < vm.stackptr - 1 → vm'.stack[k]? = vm.stack[k]?) ∧
    bbzvm_obj_at vm' (bbzvm_stack_at vm' 0) = .int val := by
  obtain ⟨idx, stk, hp, rfl, htop, hbelow, hobj, -⟩ := h
  refine ⟨rfl, rfl, rfl, rfl, hbelow, ?_⟩
  unfold bbzvm_stack_at bbzvm_obj_at
  simp only []
  rw [if_pos (by omega), List.getD_eq_getElem?_getD]
  simp only [sub_zero, htop, Option.getD_some]
  exact hobj

/-- The end of a step whose opcode `f` replaced the two top entries by a
new Int in the free slot `idx`. -/
theorem bbzvm_step_push (host : Nat → bbzvm_t → bbzvm_t) (vm G : bbzvm_t) (i : bbzvm_instr)
    (f : bbzvm_t → bbzvm_t) (idx : Nat) (val : Int)
    (hop : ∀ o V, bbzvm_exec_switch host o V (some i) = bbzvm_exec_end o (f V))
    (hat : bbzvm_at vm i) (hsp : 1 ≤ vm.stackptr) (F : bbzvm_gc_frame vm G)
    (hstep : bbzvm_step host vm
      = bbzvm_exec_switch host vm.pc { G with pc := vm.pc + 1 } (some i))
    (hidx : bbzheap_obj_slot G.heap = some idx)
    (hf : f { G with pc := vm.pc + 1 } =
      { G with
        pc := vm.pc + 1
        heap := bbzheap_with_int G.heap idx val
        stackptr := G.stackptr - 1
        stack := G.stack.set (G.stackptr - 1).toNat idx }) :
    bbzvm_pushed_int vm (bbzvm_step host vm) val := by
  obtain ⟨hpc, hsz, hfe, hst, her, hspG, hno, hnf, hnil, hg, hbp⟩ := bbzvm_gc_frame_fields F
  have hsmax := hat.sp_max
  have hlen := F.len
  refine ⟨idx, G.stack.set (vm.stackptr - 1).toNat idx, bbzheap_with_int G.heap idx val,
    ?_, ?_, ?_, ?_, ?_⟩
  · rw [hstep, hop, hf]
    unfold bbzvm_exec_end
    rw [if_neg (by simp only [hst, hat.ready]; exact fun h => h rfl)]
    simp only [hspG]
    rw [F.rest]
  · rw [List.getElem?_set]
    simp only [↓reduceIte]
    rw [if_pos (by omega)]
  · intro k hk
    rw [List.getElem?_set, if_neg (by omega)]
    exact F.below k (by omega)
  · rw [bbzheap_with_int_at _ _ _ _ hidx, if_pos rfl]
  · intro j hj
    rw [bbzheap_with_int_at _ _ _ _ hidx, if_neg hj, F.obj]

/-- The result of a step on an arithmetic opcode whose two operands are
valid Ints `a` (below) and `b` (top). -/
theorem bbzvm_step_arith (host : Nat → bbzvm_t → bbzvm_t) (vm : bbzvm_t) (i : bbzvm_instr)
    (op : Int → Int → Int) (a b : Int)
    (hop : ∀ o V, bbzvm_exec_switch host o V (some i)
      = bbzvm_exec_end o (bbzvm_binary_op_arith op V))
    (hat : bbzvm_at vm i) (hsp : 1 ≤ vm.stackptr)
    (hl : bbzvm_obj_at vm (bbzvm_stack_at vm 1) = .int a)
    (hr : bbzvm_obj_at vm (bbzvm_stack_at vm 0) = .int b)
    (hvl : bbzheap_obj_isvalid vm.heap (bbzvm_stack_at vm 1) = true)
    (hvr : bbzheap_obj_isvalid vm.heap (bbzvm_stack_at vm 0) = true)
    (hfree : (bbzheap_obj_slot vm.heap).isSome = true) :
    bbzvm_pushed_int vm (bbzvm_step host vm) (op a b) := by
  obtain ⟨G, F, hstep⟩ := bbzvm_step_exec host vm i hat
  obtain ⟨hpc, hsz, hf, hst, her, hspG, hno, hnf, hnil, hg, hbp⟩ := bbzvm_gc_frame_fields F
  obtain ⟨idx, hidx⟩ := Option.isSome_iff_exists.mp (F.slot hfree)
  have hsmax := hat.sp_max
  have hlen := F.len
  have h1 := bbzvm_gc_frame_stack_at F 1 (by omega) (vm.pc + 1)
  have h0 := bbzvm_gc_frame_stack_at F 0 (by omega) (vm.pc + 1)
  have harith := bbzvm_binary_op_arith_ok op { G with pc := vm.pc + 1 } a b idx
    (by simp only [hspG]; exact hsp) (by simp only [hspG]; omega)
    (by rw [h1]; show bbzheap_obj_at G.heap _ = _; rw [F.obj]; exact hl)
    (by rw [h0]; show bbzheap_obj_at G.heap _ = _; rw [F.obj]; exact hr)
    (by rw [h1]; exact bbzvm_stack_at_valid_root F 1 (by omega) hsp hvl)
    (by rw [h0]; exact bbzvm_stack_at_valid_root F 0 (by omega) (by omega) hvr)
    hidx
  exact bbzvm_step_push host vm G i _ idx _ hop hat hsp F hstep hidx harith

theorem bbzvm_binary_op_arith_type (op : Int → Int → Int) (V : bbzvm_t)
    (hsp : 1 ≤ V.stackptr)
    (hty : (bbztype_isint (bbzvm_obj_at V (bbzvm_stack_at V 1))
      && bbztype_isint (bbzvm_obj_at V (bbzvm_stack_at V 0))) = false) :
    bbzvm_binary_op_arith op V
      = bbzvm_seterror { V with stackptr := V.stackptr - 2 } BBZVM_ERROR_TYPE := by
  unfold bbzvm_binary_op_arith
  rw [if_neg (by simp only [bbzvm_stack_size]; omega)]
  simp only []
  rw [bbzvm_pop_ok V (by omega)]
  rw [bbzvm_pop_ok { V with stackptr := V.stackptr - 1 } (by simp only []; omega)]
  have e : V.stackptr - 1 - 1 = V.stackptr - 2 := by omega
  simp only [e]
  have hty2 : (bbztype_isint (bbzvm_obj_at { V with stackptr := V.stackptr - 2 }
      (bbzvm_stack_at V 1)) && bbztype_isint (bbzvm_obj_at { V with stackptr := V.stackptr - 2 }
      (bbzvm_stack_at V 0))) = false := hty
  rw [hty2]
  simp

/-- The end of a step whose opcode `f` popped `n` entries and raised the
error `e`. -/
theorem bbzvm_step_fail (host : Nat → bbzvm_t → bbzvm_t) (vm G : bbzvm_t) (i : bbzvm_instr)
    (f : bbzvm_t → bbzvm_t) (n : Int) (e : bbzvm_error)
    (hop : ∀ o V, bbzvm_exec_switch host o V (some i) = bbzvm_exec_end o (f V))
    (F : bbzvm_gc_frame vm G)
    (hstep : bbzvm_step host vm
      = bbzvm_exec_switch host vm.pc { G with pc := vm.pc + 1 } (some i))
    (hf : f { G with pc := vm.pc + 1 } =
      bbzvm_seterror { G with pc := vm.pc + 1, stackptr := G.stackptr - n } e) :
    bbzvm_failed vm (bbzvm_step host vm) n e := by
  obtain ⟨hpc, hsz, hfe, hst, her, hspG, hno, hnf, hnil, hg, hbp⟩ := bbzvm_gc_frame_fields F
  rw [hstep, hop, hf]
  unfold bbzvm_exec_end bbzvm_seterror
  simp only [ne_eq, reduceCtorEq, not_false_eq_true, ↓reduceIte]
  refine ⟨rfl, rfl, rfl, by rw [hspG], by rw [hnf, hno], F.below, F.obj, ?_⟩
  intro k hk0 hk hv
  exact bbzvm_stack_at_valid_root F k hk0 hk hv

theorem bbzvm_binary_op_logic_ok (op : Nat → Nat → Nat) (V : bbzvm_t) (x y : Nat) (i : Nat)
    (hsp : 1 ≤ V.stackptr) (hlen : V.stackptr < V.stack.length)
    (hl : bbzvm_logic_bool (bbzvm_obj_at V (bbzvm_stack_at V 1)) = some x)
    (hr : bbzvm_logic_bool (bbzvm_obj_at V (bbzvm_stack_at V 0)) = some y)
    (hs : bbzheap_obj_slot V.heap = some i) :
    bbzvm_binary_op_logic op V =
      { V with
        heap := bbzheap_with_int V.heap i (op x y)
        stackptr := V.stackptr - 1
        stack := V.stack.set (V.stackptr - 1).toNat i } := by
  unfold bbzvm_binary_op_logic
  rw [if_neg (by simp only [bbzvm_stack_size]; omega)]
  simp only []
  rw [bbzvm_pop_ok V (by omega)]
  rw [bbzvm_pop_ok { V with stackptr := V.stackptr - 1 } (by simp only []; omega)]
  have hl2 : bbzvm_logic_bool (bbzvm_obj_at { V with stackptr := V.stackptr - 1 - 1 }
      (bbzvm_stack_at V 1)) = some x := hl
  have hr2 : bbzvm_logic_bool (bbzvm_obj_at { V with stackptr := V.stackptr - 1 - 1 }
      (bbzvm_stack_at V 0)) = some y := hr
  rw [hl2, hr2]
  simp only []
  rw [bbzvm_obj_alloc_int { V with stackptr := V.stackptr - 1 - 1 } i hs]
  simp only []
  rw [bbzvm_alloc_set_int { V with stackptr := V.stackptr - 1 - 1 } i _ hs]
  rw [bbzvm_push_ok _ _ (by simp only []; omega)]
  have e : V.stackptr - 1 - 1 + 1 = V.stackptr - 1 := by omega
  simp only [e]

theorem bbzvm_binary_op_logic_type (op : Nat → Nat → Nat) (V : bbzvm_t)
    (hsp : 1 ≤ V.stackptr)
    (hty : bbzvm_logic_bool (bbzvm_obj_at V (bbzvm_stack_at V 1)) = none ∨
      bbzvm_logic_bool (bbzvm_obj_at V (bbzvm_stack_at V 0)) = none) :
    bbzvm_binary_op_logic op V
      = bbzvm_seterror { V with stackptr := V.stackptr - 2 } BBZVM_ERROR_TYPE := by
  unfold bbzvm_binary_op_logic
  rw [if_neg (by simp only [bbzvm_stack_size]; omega)]
  simp only []
  rw [bbzvm_pop_ok V (by omega)]
  rw [bbzvm_pop_ok { V with stackptr := V.stackptr - 1 } (by simp only []; omega)]
  have e : V.stackptr - 1 - 1 = V.stackptr - 2 := by omega
  simp only [e]
  cases hl : bbzvm_logic_bool (bbzvm_obj_at V (bbzvm_stack_at V 1)) with
  | none =>
    have hl2 : bbzvm_logic_bool (bbzvm_obj_at { V with stackptr := V.stackptr - 2 }
        (bbzvm_stack_at V 1)) = none := hl
    rw [hl2]
  | some x =>
    have hl2 : bbzvm_logic_bool (bbzvm_obj_at { V with stackptr := V.stackptr - 2 }
        (bbzvm_stack_at V 1)) = some x := hl
    rw [hl2]
    simp only []
    rcases hty with h | h
    · rw [hl] at h; exact absurd h (by simp)
    · have hr2 : bbzvm_logic_bool (bbzvm_obj_at { V with stackptr := V.stackptr - 2 }
          (bbzvm_stack_at V 0)) = none := h
      rw [hr2]

theorem bbzvm_frame_logic_bool {vm G : bbzvm_t} (F : bbzvm_gc_frame vm G) (k : Int)
    (hk : 0 ≤ k) (pc : Nat) :
    bbzvm_obj_at { G with pc := pc } (bbzvm_stack_at { G with pc := pc } k)
      = bbzvm_obj_at vm (bbzvm_stack_at vm k) := by
  rw [bbzvm_gc_frame_stack_at F k hk pc]
  exact F.obj _

theorem bbztype_cmp_congr (h1 h2 : bbzheap_t) (a b : Nat)
    (h : ∀ i, bbzheap_obj_at h1 i = bbzheap_obj_at h2 i) :
    bbztype_cmp h1 a b = bbztype_cmp h2 a b := by
  unfold bbztype_cmp
  rw [h a, h b]

theorem bbzvm_binary_op_cmp_ok (op : Int → Nat) (V : bbzvm_t) (i : Nat)
    (hsp : 1 ≤ V.stackptr) (hlen : V.stackptr < V.stack.length)
    (hs : bbzheap_obj_slot V.heap = some i) :
    bbzvm_binary_op_cmp op V =
      { V with
        heap := bbzheap_with_int V.heap i
          (op (bbztype_cmp V.heap (bbzvm_stack_at V 1) (bbzvm_stack_at V 0)))
        stackptr := V.stackptr - 1
        stack := V.stack.set (V.stackptr - 1).toNat i } := by
  unfold bbzvm_binary_op_cmp
  rw [if_neg (by simp only [bbzvm_stack_size]; omega)]
  simp only []
  rw [bbzvm_pop_ok V (by omega)]
  rw [bbzvm_pop_ok { V with stackptr := V.stackptr - 1 } (by simp only []; omega)]
  rw [bbzvm_obj_alloc_int { V with stackptr := V.stackptr - 1 - 1 } i hs]
  simp only []
  rw [bbzvm_alloc_set_int { V with stackptr := V.stackptr - 1 - 1 } i _ hs]
  rw [bbzvm_push_ok _ _ (by simp only []; omega)]
  have e : V.stackptr - 1 - 1 + 1 = V.stackptr - 1 := by omega
  simp only [e]

/-- The result of a step on a comparison opcode: the new Int is `op`
applied to the comparison of the two operands. -/
theorem bbzvm_step_cmp (host : Nat → bbzvm_t → bbzvm_t) (vm : bbzvm_t) (i : bbzvm_instr)
    (op : Int → Nat)
    (hop : ∀ o V, bbzvm_exec_switch host o V (some i)
      = bbzvm_exec_end o (bbzvm_binary_op_cmp op V))
    (hat : bbzvm_at vm i) (hsp : 1 ≤ vm.stackptr)
    (hfree : (bbzheap_obj_slot vm.heap).isSome = true) :
    bbzvm_pushed_int vm (bbzvm_step host vm)
      (op (bbztype_cmp vm.heap (bbzvm_stack_at vm 1) (bbzvm_stack_at vm 0))) := by
  obtain ⟨G, F, hstep⟩ := bbzvm_step_exec host vm i hat
  obtain ⟨hpc, hsz, hf, hst, her, hspG, hno, hnf, hnil, hg, hbp⟩ := bbzvm_gc_frame_fields F
  obtain ⟨idx, hidx⟩ := Option.isSome_iff_exists.mp (F.slot hfree)
  have hsmax := hat.sp_max
  have hlen := F.len
  have h1 := bbzvm_gc_frame_stack_at F 1 (by omega) (vm.pc + 1)
  have h0 := bbzvm_gc_frame_stack_at F 0 (by omega) (vm.pc + 1)
  have hcmp := bbzvm_binary_op_cmp_ok op { G with pc := vm.pc + 1 } idx
    (by simp only [hspG]; exact hsp) (by simp only [hspG]; omega) hidx
  rw [h1, h0] at hcmp
  have hc : bbztype_cmp G.heap (bbzvm_stack_at vm 1) (bbzvm_stack_at vm 0)
      = bbztype_cmp vm.heap (bbzvm_stack_at vm 1) (bbzvm_stack_at vm 0) :=
    bbztype_cmp_congr _ _ _ _ F.obj
  simp only [hc] at hcmp
  exact bbzvm_step_push host vm G i _ idx _ hop hat hsp F hstep hidx hcmp

theorem bbzvm_step_arg (host : Nat → bbzvm_t → bbzvm_t) (vm : bbzvm_t) (i : bbzvm_instr)
    (k : bbzvm_t → Nat → bbzvm_t)
    (hop : ∀ o V, bbzvm_exec_switch host o V (some i) = bbzvm_exec_arg o V k)
    (hat : bbzvm_at vm i) (hfall : vm.pc + 5 < vm.bcode_size) :
    ∃ G, bbzvm_gc_frame vm G ∧
      bbzvm_step host vm = bbzvm_exec_end vm.pc
        (k { G with pc := vm.pc + 5 } (bbzvm_fetch_arg { vm with pc := vm.pc + 1 })) := by
  obtain ⟨G, F, hstep⟩ := bbzvm_step_exec host vm i hat
  obtain ⟨hpc, hsz, hf, hst, her, hspG, hno, hnf, hnil, hg, hbp⟩ := bbzvm_gc_frame_fields F
  refine ⟨G, F, ?_⟩
  have hsize := hat.size
  rw [hstep, hop]
  unfold bbzvm_exec_arg
  rw [if_neg (by simp [bbzvm_pc_out, hsz]; omega)]
  simp only []
  rw [Nat.mod_eq_of_lt (by omega)]
  have e : vm.pc + 1 + 4 = vm.pc + 5 := by omega
  rw [e]
  unfold bbzvm_fetch_arg
  simp only [hf]

theorem bbzvm_jump_pop (W : bbzvm_t) (p : Nat) (hp : p < W.bcode_size) (hsp : 0 ≤ W.stackptr) :
    (if bbzvm_pc_out { W with pc := p } p then bbzvm_seterror { W with pc := p } BBZVM_ERROR_PC
      else bbzvm_pop { W with pc := p }) = { W with pc := p, stackptr := W.stackptr - 1 } := by
  rw [if_neg (by simp [bbzvm_pc_out]; omega)]
  rw [bbzvm_pop_ok _ (by simp only []; exact hsp)]

theorem bbzvm_step_jumped (vm G W : bbzvm_t) (p : Nat) (F : bbzvm_gc_frame vm G)
    (hready : vm.state = BBZVM_STATE_READY) (hnoerr : vm.error = BBZVM_ERROR_NONE)
    (hw : W = { G with pc := p, stackptr := G.stackptr - 1 }) :
    bbzvm_jumped vm (bbzvm_exec_end vm.pc W) p := by
  obtain ⟨hpc, hsz, hf, hst, her, hspG, hno, hnf, hnil, hg, hbp⟩ := bbzvm_gc_frame_fields F
  subst hw
  unfold bbzvm_exec_end
  rw [if_neg (by simp only [hst, hready]; exact fun h => h rfl)]
  exact ⟨hst.trans hready, her.trans hnoerr, rfl, by simp only [hspG], F.below, F.obj⟩

/-! ## Claims -/

/-- C1: a step on ADD (resp. SUB, MUL) with a valid Int `a` below a valid
Int `b` on the stack pops both operands and pushes exactly one Int whose
value is `a + b` (resp. `a - b`, `a * b`) reduced modulo 2^16 into the
signed 16-bit range; the state stays Ready and the error None.  For
`a = -21244` and `b = 8384` the results are -12860, -29628 and 17152. -/
theorem c1_add_sub_mul (host : Nat → bbzvm_t → bbzvm_t) (vm : bbzvm_t) (i : bbzvm_instr)
    (a b : Int)
    (hi : i = .ADD ∨ i = .SUB ∨ i = .MUL)
    (hat : bbzvm_at vm i) (hsp : 1 ≤ vm.stackptr)
    (hl : bbzvm_obj_at vm (bbzvm_stack_at vm 1) = .int a)
    (hr : bbzvm_obj_at vm (bbzvm_stack_at vm 0) = .int b)
    (hvl : bbzheap_obj_isvalid vm.heap (bbzvm_stack_at vm 1) = true)
    (hvr : bbzheap_obj_isvalid vm.heap (bbzvm_stack_at vm 0) = true)
    (hfree : (bbzheap_obj_slot vm.heap).isSome = true) :
    (bbzvm_step host vm).state = BBZVM_STATE_READY ∧
    (bbzvm_step host vm).error = BBZVM_ERROR_NONE ∧
    (bbzvm_step host vm).stackptr = vm.stackptr - 1 ∧
    (∀ k : Nat, (k : Int) < vm.stackptr - 1 → (bbzvm_step host vm).stack[k]? = vm.stack[k]?) ∧
    ∃ v : Int,
      bbzvm_obj_at (bbzvm_step host vm) (bbzvm_stack_at (bbzvm_step host vm) 0) = .int v ∧
      -32768 ≤ v ∧ v ≤ 32767 ∧
      (i = .ADD → (v - (a + b)) % 65536 = 0) ∧
      (i = .SUB → (v - (a - b)) % 65536 = 0) ∧
      (i = .MUL → (v - a * b) % 65536 = 0) ∧
      (a = -21244 → b = 8384 →
        (i = .ADD → v = -12860) ∧ (i = .SUB → v = -29628) ∧ (i = .MUL → v = 17152)) := by
  obtain ⟨op, hop, hv⟩ : ∃ op : Int → Int → Int,
      (∀ o V, bbzvm_exec_switch host o V (some i)
        = bbzvm_exec_end o (bbzvm_binary_op_arith op V)) ∧
      ((i = .ADD → op a b = int16 (a + b)) ∧ (i = .SUB → op a b = int16 (a - b)) ∧
        (i = .MUL → op a b = int16 (a * b))) := by
    rcases hi with rfl | rfl | rfl
    · exact ⟨add, fun _ _ => rfl, fun _ => rfl, by simp, by simp⟩
    · exact ⟨sub, fun _ _ => rfl, by simp, fun _ => rfl, by simp⟩
    · exact ⟨mul, fun _ _ => rfl, by simp, by simp, fun _ => rfl⟩
  obtain ⟨h1, h2, -, h4, h5, h6⟩ := bbzvm_pushed_int_top
    (bbzvm_step_arith host vm i op a b hop hat hsp hl hr hvl hvr hfree) hsp
  refine ⟨h1.trans hat.ready, h2.trans hat.noerr, h4, h5, op a b, h6, ?_⟩
  · have hrange : -32768 ≤ op a b ∧ op a b ≤ 32767 := by
      rcases hi with rfl | rfl | rfl
      · rw [hv.1 rfl]; exact int16_range _
      · rw [hv.2.1 rfl]; exact int16_range _
      · rw [hv.2.2 rfl]; exact int16_range _
    refine ⟨hrange.1, hrange.2, ?_, ?_, ?_, ?_⟩
    · intro e; rw [hv.1 e]; exact int16_congr _
    · intro e; rw [hv.2.1 e]; exact int16_congr _
    · intro e; rw [hv.2.2 e]; exact int16_congr _
    · intro ha hb
      subst ha hb
      refine ⟨?_, ?_, ?_⟩
      · intro e; rw [hv.1 e]; decide
      · intro e; rw [hv.2.1 e]; decide
      · intro e; rw [hv.2.2 e]; decide

/-- Witness of C1: the machine of step 15 of `testvm.c` with MUL at `pc`
and the operands -21244 and 8384 meets every hypothesis. -/
theorem c1_add_sub_mul_witness :
    (bbzvm_step test_host (test_vm (-21244) 8384 [9, 0] [6, 7])).state = BBZVM_STATE_READY ∧
    (bbzvm_step test_host (test_vm (-21244) 8384 [9, 0] [6, 7])).stackptr = 0 ∧
    bbzvm_obj_at (bbzvm_step test_host (test_vm (-21244) 8384 [9, 0] [6, 7]))
      (bbzvm_stack_at (bbzvm_step test_host (test_vm (-21244) 8384 [9, 0] [6, 7])) 0) = .int 17152 := by
  have h := c1_add_sub_mul test_host (test_vm (-21244) 8384 [9, 0] [6, 7]) .MUL (-21244) 8384
    (Or.inr (Or.inr rfl))
    ⟨rfl, rfl, by decide, by decide, by decide, by decide, by decide⟩
    (by decide) (by decide) (by decide) (by decide) (by decide) (by decide)
  obtain ⟨h1, -, h3, -, v, h5, -, -, -, -, -, h6⟩ := h
  refine ⟨h1, h3, ?_⟩
  rw [h5, (h6 rfl rfl).2.2 rfl]



/-- C2 (amended): for signed 16-bit `a` and `b` with `b ≠ 0`, DIV pushes
the quotient of `a` by `b` truncated toward zero, reduced modulo 2^16 into
the signed 16-bit range: it is the quotient itself except for
`a = -32768`, `b = -1`.  MOD pushes the remainder, which carries the sign
of `a` and is smaller than `b` in absolute value.  The two results satisfy
`a = (a DIV b) * b + (a MOD b)` modulo 2^16.  For `a = -21244` and
`b = 8384` the results are -2 and -4476. -/
theorem c2_div_mod (host : Nat → bbzvm_t → bbzvm_t) (vm : bbzvm_t) (i : bbzvm_instr)
    (a b : Int)
    (hi : i = .DIV ∨ i = .MOD)
    (ha1 : -32768 ≤ a) (ha2 : a ≤ 32767) (hb1 : -32768 ≤ b) (hb2 : b ≤ 32767) (hb : b ≠ 0)
    (hat : bbzvm_at vm i) (hsp : 1 ≤ vm.stackptr)
    (hl : bbzvm_obj_at vm (bbzvm_stack_at vm 1) = .int a)
    (hr : bbzvm_obj_at vm (bbzvm_stack_at vm 0) = .int b)
    (hvl : bbzheap_obj_isvalid vm.heap (bbzvm_stack_at vm 1) = true)
    (hvr : bbzheap_obj_isvalid vm.heap (bbzvm_stack_at vm 0) = true)
    (hfree : (bbzheap_obj_slot vm.heap).isSome = true) :
    (bbzvm_step host vm).state = BBZVM_STATE_READY ∧
    (bbzvm_step host vm).error = BBZVM_ERROR_NONE ∧
    (bbzvm_step host vm).stackptr = vm.stackptr - 1 ∧
    (i = .DIV →
      bbzvm_obj_at (bbzvm_step host vm) (bbzvm_stack_at (bbzvm_step host vm) 0)
        = .int (div a b)) ∧
    (i = .MOD →
      bbzvm_obj_at (bbzvm_step host vm) (bbzvm_stack_at (bbzvm_step host vm) 0)
        = .int (mod a b)) ∧
    -32768 ≤ div a b ∧ div a b ≤ 32767 ∧ (div a b - Int.tdiv a b) % 65536 = 0 ∧
    (¬ (a = -32768 ∧ b = -1) → div a b = Int.tdiv a b) ∧
    mod a b = Int.tmod a b ∧
    (0 ≤ a → 0 ≤ mod a b) ∧ (a ≤ 0 → mod a b ≤ 0) ∧ |mod a b| < |b| ∧
    (a - (div a b * b + mod a b)) % 65536 = 0 ∧
    (a = -21244 → b = 8384 → div a b = -2 ∧ mod a b = -4476) := by
  obtain ⟨op, hop, hv⟩ : ∃ op : Int → Int → Int,
      (∀ o V, bbzvm_exec_switch host o V (some i)
        = bbzvm_exec_end o (bbzvm_binary_op_arith op V)) ∧
      ((i = .DIV → op a b = div a b) ∧ (i = .MOD → op a b = mod a b)) := by
    rcases hi with rfl | rfl
    · exact ⟨div, fun _ _ => rfl, fun _ => rfl, by simp⟩
    · exact ⟨mod, fun _ _ => rfl, by simp, fun _ => rfl⟩
  obtain ⟨h1, h2, -, h4, -, h6⟩ := bbzvm_pushed_int_top
    (bbzvm_step_arith host vm i op a b hop hat hsp hl hr hvl hvr hfree) hsp
  have hmod := mod_eq_tmod a b hb1 hb2 hb
  have hdr : -32768 ≤ div a b ∧ div a b ≤ 32767 := int16_range _
  have hdc : (div a b - Int.tdiv a b) % 65536 = 0 := int16_congr _
  refine ⟨h1.trans hat.ready, h2.trans hat.noerr, h4, ?_, ?_, hdr.1, hdr.2, hdc, ?_, hmod,
    ?_, ?_, ?_, ?_, ?_⟩
  · intro e; rw [h6, hv.1 e]
  · intro e; rw [h6, hv.2 e]
  · intro hne
    have := tdiv_range a b ha1 ha2 hne
    exact int16_of_range _ this.1 this.2
  · intro h0; rw [hmod]; exact Int.tmod_nonneg b h0
  · intro h0; rw [hmod]; exact tmod_nonpos a b h0
  · rw [hmod]; exact tmod_abs_lt a b hb
  · rw [hmod]
    have e := Int.tdiv_add_tmod' a b
    have hq : ∃ t : Int, div a b = Int.tdiv a b + 65536 * t := ⟨(div a b - Int.tdiv a b) / 65536, by omega⟩
    obtain ⟨t, ht⟩ := hq
    have e2 : a - (div a b * b + Int.tmod a b) = 65536 * (-(t * b)) := by
      rw [ht]
      have : a = Int.tdiv a b * b + Int.tmod a b := e.symm
      nth_rewrite 1 [this]
      ring
    rw [e2]
    exact Int.mul_emod_right _ _
  · intro ea eb
    subst ea eb
    decide

/-- Witness of C2: the machine of step 15 of `testvm.c` with DIV at `pc`
and the operands -21244 and 8384 meets every hypothesis; the step pushes
-2. -/
theorem c2_div_mod_witness :
    (bbzvm_step test_host (test_vm (-21244) 8384 [10, 0] [6, 7])).state = BBZVM_STATE_READY ∧
    bbzvm_obj_at (bbzvm_step test_host (test_vm (-21244) 8384 [10, 0] [6, 7]))
      (bbzvm_stack_at (bbzvm_step test_host (test_vm (-21244) 8384 [10, 0] [6, 7])) 0)
      = .int (-2) := by
  have h := c2_div_mod test_host (test_vm (-21244) 8384 [10, 0] [6, 7]) .DIV (-21244) 8384
    (Or.inl rfl) (by decide) (by decide) (by decide) (by decide) (by decide)
    ⟨rfl, rfl, by decide, by decide, by decide, by decide, by decide⟩
    (by decide) (by decide) (by decide) (by decide) (by decide) (by decide)
  exact ⟨h.1, (h.2.2.2.1 rfl).trans (by decide)⟩

/-- Counterexample to C2 as stated: with the operands -32768 and -1 the
step on DIV pushes -32768, which is not the quotient truncated toward zero
(32768). -/
theorem c2_div_counterexample :
    bbzvm_obj_at (bbzvm_step test_host (test_vm (-32768) (-1) [10, 0] [6, 7]))
      (bbzvm_stack_at (bbzvm_step test_host (test_vm (-32768) (-1) [10, 0] [6, 7])) 0)
      = .int (-32768) ∧
    Int.tdiv (-32768) (-1) = 32768 := by
  decide


/-- C3: for each of ADD, SUB, MUL, DIV, MOD and POW executed by a step with
at least two operands on the stack of which at least one is not an Int, the
VM ends in state Error with error kind Type; exactly the two operands are
popped and nothing is pushed; no object of the heap is modified and the two
operands stay valid; `pc` is the address of the faulting instruction. -/
theorem c3_arith_type_error (host : Nat → bbzvm_t → bbzvm_t) (vm : bbzvm_t) (i : bbzvm_instr)
    (hi : i = .ADD ∨ i = .SUB ∨ i = .MUL ∨ i = .DIV ∨ i = .MOD ∨ i = .POW)
    (hat : bbzvm_at vm i) (hsp : 1 ≤ vm.stackptr)
    (hty : bbztype (bbzvm_obj_at vm (bbzvm_stack_at vm 1)) ≠ BBZTYPE_INT ∨
      bbztype (bbzvm_obj_at vm (bbzvm_stack_at vm 0)) ≠ BBZTYPE_INT) :
    (bbzvm_step host vm).state = BBZVM_STATE_ERROR ∧
    (bbzvm_step host vm).error = BBZVM_ERROR_TYPE ∧
    (bbzvm_step host vm).stackptr = vm.stackptr - 2 ∧
    (∀ k : Nat, (k : Int) ≤ vm.stackptr - 2 → (bbzvm_step host vm).stack[k]? = vm.stack[k]?) ∧
    (∀ j, bbzheap_obj_at (bbzvm_step host vm).heap j = bbzheap_obj_at vm.heap j) ∧
    (bbzheap_obj_isvalid vm.heap (bbzvm_stack_at vm 1) = true →
      bbzheap_obj_isvalid (bbzvm_step host vm).heap (bbzvm_stack_at vm 1) = true) ∧
    (bbzheap_obj_isvalid vm.heap (bbzvm_stack_at vm 0) = true →
      bbzheap_obj_isvalid (bbzvm_step host vm).heap (bbzvm_stack_at vm 0) = true) ∧
    (bbzvm_step host vm).pc = vm.pc := by
  obtain ⟨op, hop⟩ : ∃ op : Int → Int → Int,
      ∀ o V, bbzvm_exec_switch host o V (some i)
        = bbzvm_exec_end o (bbzvm_binary_op_arith op V) := by
    rcases hi with rfl | rfl | rfl | rfl | rfl | rfl
    · exact ⟨add, fun _ _ => rfl⟩
    · exact ⟨sub, fun _ _ => rfl⟩
    · exact ⟨mul, fun _ _ => rfl⟩
    · exact ⟨div, fun _ _ => rfl⟩
    · exact ⟨mod, fun _ _ => rfl⟩
    · exact ⟨bbzpow, fun _ _ => rfl⟩
  obtain ⟨G, F, hstep⟩ := bbzvm_step_exec host vm i hat
  obtain ⟨hpc, hsz, hf, hst, her, hspG, hno, hnf, hnil, hg, hbp⟩ := bbzvm_gc_frame_fields F
  have h1 := bbzvm_gc_frame_stack_at F 1 (by omega) (vm.pc + 1)
  have h0 := bbzvm_gc_frame_stack_at F 0 (by omega) (vm.pc + 1)
  have hfail := bbzvm_step_fail host vm G i _ 2 BBZVM_ERROR_TYPE hop F hstep
    (bbzvm_binary_op_arith_type op { G with pc := vm.pc + 1 }
      (by simp only [hspG]; exact hsp)
      (by
        rw [h1, h0]
        show (bbztype_isint (bbzheap_obj_at G.heap _) && bbztype_isint (bbzheap_obj_at G.heap _))
          = false
        rw [F.obj, F.obj]
        unfold bbztype_isint
        rcases hty with h | h
        · have : (bbztype (bbzvm_obj_at vm (bbzvm_stack_at vm 1)) == BBZTYPE_INT) = false := by
            simpa using h
          unfold bbzvm_obj_at at this
          rw [this]; rfl
        · have : (bbztype (bbzvm_obj_at vm (bbzvm_stack_at vm 0)) == BBZTYPE_INT) = false := by
            simpa using h
          unfold bbzvm_obj_at at this
          rw [this]; simp))
  obtain ⟨f1, f2, f3, f4, -, f6, f7, f8⟩ := hfail
  exact ⟨f1, f2, f4, fun k hk => f6 k (by omega), f7, f8 1 (by omega) hsp,
    f8 0 (by omega) (by omega), f3⟩

/-- Witness of C3: ADD on a Float below an Int. -/
theorem c3_arith_type_error_witness :
    (bbzvm_step test_host (test_vm (-21244) 8384 [7, 0] [10, 7])).state = BBZVM_STATE_ERROR ∧
    (bbzvm_step test_host (test_vm (-21244) 8384 [7, 0] [10, 7])).error = BBZVM_ERROR_TYPE ∧
    (bbzvm_step test_host (test_vm (-21244) 8384 [7, 0] [10, 7])).stackptr = -1 ∧
    (bbzvm_step test_host (test_vm (-21244) 8384 [7, 0] [10, 7])).pc = 0 := by
  have h := c3_arith_type_error test_host (test_vm (-21244) 8384 [7, 0] [10, 7]) .ADD
    (Or.inl rfl) ⟨rfl, rfl, by decide, by decide, by decide, by decide, by decide⟩
    (by decide) (Or.inl (by decide))
  exact ⟨h.1, h.2.1, h.2.2.1, h.2.2.2.2.2.2.2⟩


/-- C4: `bbzpow l r` is `l ^ r` reduced modulo 2^16 into the signed 16-bit
range for every `r ≥ 0`, in particular 1 when `r = 0`, and is `INT16_MIN`
(-32768) for every `r < 0`, whatever `l` is. -/
theorem c4_bbzpow (l r : Int) :
    (0 ≤ r → -32768 ≤ bbzpow l r ∧ bbzpow l r ≤ 32767 ∧
      (bbzpow l r - l ^ r.toNat) % 65536 = 0) ∧
    (r = 0 → bbzpow l r = 1) ∧
    (r < 0 → bbzpow l r = INT16_MIN ∧ bbzpow l r = -32768) := by
  refine ⟨?_, ?_, ?_⟩
  · intro hr
    have e : bbzpow l r = int16 (l ^ r.toNat) := by
      unfold bbzpow
      rw [if_pos hr]
      have h1 := bbzpow_loop_eq r.toNat l 1
      rw [one_mul] at h1
      rw [← int16_uint16 (bbzpow_loop r.toNat l 1), h1, int16_uint16]
    rw [e]
    exact ⟨(int16_range _).1, (int16_range _).2, int16_congr _⟩
  · intro hr
    subst hr
    simp [bbzpow, bbzpow_loop, int16]
  · intro hr
    unfold bbzpow
    rw [if_neg (by omega)]
    decide

/-- Witness of C4: `3 ^ 5 = 243` and `2 ^ (-1)` gives -32768. -/
theorem c4_bbzpow_witness : bbzpow 3 5 = 243 ∧ bbzpow 2 (-1) = -32768 := by
  have h1 := (c4_bbzpow 3 5).1 (by decide)
  have h2 := (c4_bbzpow 2 (-1)).2.2 (by decide)
  refine ⟨?_, h2.2⟩
  decide

/-- C5: for two operands each of which is an Int or nil, AND pops both and
pushes Int 1 exactly when both are non-zero Ints and Int 0 otherwise, and
OR pops both and pushes Int 1 exactly when at least one is a non-zero Int
and Int 0 otherwise; the pushed value is always 0 or 1.  If either operand
has any other type the VM ends in Error with kind Type.  For Int -21244 and
Int 8384 both give 1. -/
theorem c5_and_or (host : Nat → bbzvm_t → bbzvm_t) (vm : bbzvm_t) (i : bbzvm_instr)
    (hi : i = .AND ∨ i = .OR)
    (hat : bbzvm_at vm i) (hsp : 1 ≤ vm.stackptr) :
    ((bbzvm_obj_at vm (bbzvm_stack_at vm 1) = .nil ∨
        ∃ x, bbzvm_obj_at vm (bbzvm_stack_at vm 1) = .int x) →
      (bbzvm_obj_at vm (bbzvm_stack_at vm 0) = .nil ∨
        ∃ y, bbzvm_obj_at vm (bbzvm_stack_at vm 0) = .int y) →
      (bbzheap_obj_slot vm.heap).isSome = true →
      (bbzvm_step host vm).state = BBZVM_STATE_READY ∧
      (bbzvm_step host vm).error = BBZVM_ERROR_NONE ∧
      (bbzvm_step host vm).stackptr = vm.stackptr - 1 ∧
      (∀ k : Nat, (k : Int) < vm.stackptr - 1 →
        (bbzvm_step host vm).stack[k]? = vm.stack[k]?) ∧
      ∃ v : Int,
        bbzvm_obj_at (bbzvm_step host vm) (bbzvm_stack_at (bbzvm_step host vm) 0) = .int v ∧
        (v = 0 ∨ v = 1) ∧
        (i = .AND → (v = 1 ↔
          (∃ x, bbzvm_obj_at vm (bbzvm_stack_at vm 1) = .int x ∧ x ≠ 0) ∧
          (∃ y, bbzvm_obj_at vm (bbzvm_stack_at vm 0) = .int y ∧ y ≠ 0))) ∧
        (i = .OR → (v = 1 ↔
          (∃ x, bbzvm_obj_at vm (bbzvm_stack_at vm 1) = .int x ∧ x ≠ 0) ∨
          (∃ y, bbzvm_obj_at vm (bbzvm_stack_at vm 0) = .int y ∧ y ≠ 0))) ∧
        (bbzvm_obj_at vm (bbzvm_stack_at vm 1) = .int (-21244) →
          bbzvm_obj_at vm (bbzvm_stack_at vm 0) = .int 8384 → v = 1)) ∧
    ((bbztype (bbzvm_obj_at vm (bbzvm_stack_at vm 1)) ≠ BBZTYPE_INT ∧
        bbztype (bbzvm_obj_at vm (bbzvm_stack_at vm 1)) ≠ BBZTYPE_NIL) ∨
      (bbztype (bbzvm_obj_at vm (bbzvm_stack_at vm 0)) ≠ BBZTYPE_INT ∧
        bbztype (bbzvm_obj_at vm (bbzvm_stack_at vm 0)) ≠ BBZTYPE_NIL) →
      (bbzvm_step host vm).state = BBZVM_STATE_ERROR ∧
      (bbzvm_step host vm).error = BBZVM_ERROR_TYPE) := by
  obtain ⟨op, hop, hv⟩ : ∃ op : Nat → Nat → Nat,
      (∀ o V, bbzvm_exec_switch host o V (some i)
        = bbzvm_exec_end o (bbzvm_binary_op_logic op V)) ∧
      ((i = .AND → op = bbzand) ∧ (i = .OR → op = bbzor)) := by
    rcases hi with rfl | rfl
    · exact ⟨bbzand, fun _ _ => rfl, fun _ => rfl, by simp⟩
    · exact ⟨bbzor, fun _ _ => rfl, by simp, fun _ => rfl⟩
  obtain ⟨G, F, hstep⟩ := bbzvm_step_exec host vm i hat
  obtain ⟨hpc, hsz, hf, hst, her, hspG, hno, hnf, hnil, hg, hbp⟩ := bbzvm_gc_frame_fields F
  have hsmax := hat.sp_max
  have hlen := F.len
  have h1 := bbzvm_frame_logic_bool F 1 (by omega) (vm.pc + 1)
  have h0 := bbzvm_frame_logic_bool F 0 (by omega) (vm.pc + 1)
  constructor
  · intro hl hr hfree
    obtain ⟨idx, hidx⟩ := Option.isSome_iff_exists.mp (F.slot hfree)
    obtain ⟨x, hx⟩ : ∃ x, bbzvm_logic_bool (bbzvm_obj_at vm (bbzvm_stack_at vm 1)) = some x := by
      rcases hl with h | ⟨x, h⟩ <;> rw [h] <;> exact ⟨_, rfl⟩
    obtain ⟨y, hy⟩ : ∃ y, bbzvm_logic_bool (bbzvm_obj_at vm (bbzvm_stack_at vm 0)) = some y := by
      rcases hr with h | ⟨y, h⟩ <;> rw [h] <;> exact ⟨_, rfl⟩
    have hlog := bbzvm_binary_op_logic_ok op { G with pc := vm.pc + 1 } x y idx
      (by simp only [hspG]; exact hsp) (by simp only [hspG]; omega)
      (by rw [h1]; exact hx) (by rw [h0]; exact hy) hidx
    obtain ⟨q1, q2, -, q4, q5, q6⟩ := bbzvm_pushed_int_top
      (bbzvm_step_push host vm G i _ idx _ hop hat hsp F hstep hidx hlog) hsp
    refine ⟨q1.trans hat.ready, q2.trans hat.noerr, q4, q5, ((op x y : Nat) : Int), q6, ?_⟩
    have hx01 : x = 0 ∨ x = 1 := by
      rcases hl with h | ⟨a, h⟩ <;> rw [h] at hx <;> simp only [bbzvm_logic_bool,
        Option.some.injEq] at hx
      · exact Or.inl hx.symm
      · by_cases ha : a = 0
        · simp [ha] at hx; exact Or.inl hx.symm
        · simp [ha] at hx; exact Or.inr hx.symm
    have hy01 : y = 0 ∨ y = 1 := by
      rcases hr with h | ⟨a, h⟩ <;> rw [h] at hy <;> simp only [bbzvm_logic_bool,
        Option.some.injEq] at hy
      · exact Or.inl hy.symm
      · by_cases ha : a = 0
        · simp [ha] at hy; exact Or.inl hy.symm
        · simp [ha] at hy; exact Or.inr hy.symm
    have hx1 : x = 1 ↔ ∃ a, bbzvm_obj_at vm (bbzvm_stack_at vm 1) = .int a ∧ a ≠ 0 := by
      rcases hl with h | ⟨a, h⟩ <;> rw [h] at hx ⊢ <;> simp only [bbzvm_logic_bool,
        Option.some.injEq] at hx
      · subst hx; simp
      · by_cases ha : a = 0
        · simp [ha] at hx; subst hx; simp [ha]
        · simp [ha] at hx; subst hx; simp [ha]
    have hy1 : y = 1 ↔ ∃ a, bbzvm_obj_at vm (bbzvm_stack_at vm 0) = .int a ∧ a ≠ 0 := by
      rcases hr with h | ⟨a, h⟩ <;> rw [h] at hy ⊢ <;> simp only [bbzvm_logic_bool,
        Option.some.injEq] at hy
      · subst hy; simp
      · by_cases ha : a = 0
        · simp [ha] at hy; subst hy; simp [ha]
        · simp [ha] at hy; subst hy; simp [ha]
    have hand : bbzand x y = 1 ↔ (x = 1 ∧ y = 1) := by
      rcases hx01 with rfl | rfl <;> rcases hy01 with rfl | rfl <;> decide
    have hor : bbzor x y = 1 ↔ (x = 1 ∨ y = 1) := by
      rcases hx01 with rfl | rfl <;> rcases hy01 with rfl | rfl <;> decide
    have h01 : ((op x y : Nat) : Int) = 0 ∨ ((op x y : Nat) : Int) = 1 := by
      rcases hi with rfl | rfl
      · rw [hv.1 rfl]
        rcases hx01 with rfl | rfl <;> rcases hy01 with rfl | rfl <;> decide
      · rw [hv.2 rfl]
        rcases hx01 with rfl | rfl <;> rcases hy01 with rfl | rfl <;> decide
    refine ⟨h01, ?_, ?_, ?_⟩
    · intro e
      rw [hv.1 e, ← hx1, ← hy1, ← hand]
      omega
    · intro e
      rw [hv.2 e, ← hx1, ← hy1, ← hor]
      omega
    · intro ea eb
      have hxe : x = 1 := hx1.mpr ⟨_, ea, by decide⟩
      have hye : y = 1 := hy1.mpr ⟨_, eb, by decide⟩
      subst hxe hye
      rcases hi with rfl | rfl
      · rw [hv.1 rfl]; decide
      · rw [hv.2 rfl]; decide
  · intro hty
    have hnone : bbzvm_logic_bool (bbzvm_obj_at vm (bbzvm_stack_at vm 1)) = none ∨
        bbzvm_logic_bool (bbzvm_obj_at vm (bbzvm_stack_at vm 0)) = none := by
      rcases hty with ⟨h, h'⟩ | ⟨h, h'⟩
      · left
        cases ho : bbzvm_obj_at vm (bbzvm_stack_at vm 1) <;> rw [ho] at h h' <;>
          first | rfl | exact absurd rfl h | exact absurd rfl h'
      · right
        cases ho : bbzvm_obj_at vm (bbzvm_stack_at vm 0) <;> rw [ho] at h h' <;>
          first | rfl | exact absurd rfl h | exact absurd rfl h'
    have hfail := bbzvm_step_fail host vm G i _ 2 BBZVM_ERROR_TYPE hop F hstep
      (bbzvm_binary_op_logic_type op { G with pc := vm.pc + 1 }
        (by simp only [hspG]; exact hsp) (by rw [h1, h0]; exact hnone))
    exact ⟨hfail.1, hfail.2.1⟩

/-- Witness of C5: AND on Int -21244 and Int 8384 pushes 1; AND on a Float
and an Int ends in a Type error. -/
theorem c5_and_or_witness :
    bbzvm_obj_at (bbzvm_step test_host (test_vm (-21244) 8384 [14, 0] [6, 7]))
      (bbzvm_stack_at (bbzvm_step test_host (test_vm (-21244) 8384 [14, 0] [6, 7])) 0)
      = .int 1 ∧
    (bbzvm_step test_host (test_vm (-21244) 8384 [14, 0] [10, 7])).error = BBZVM_ERROR_TYPE := by
  have h := (c5_and_or test_host (test_vm (-21244) 8384 [14, 0] [6, 7]) .AND (Or.inl rfl)
    ⟨rfl, rfl, by decide, by decide, by decide, by decide, by decide⟩ (by decide)).1
    (Or.inr ⟨-21244, by decide⟩) (Or.inr ⟨8384, by decide⟩) (by decide)
  have h2 := (c5_and_or test_host (test_vm (-21244) 8384 [14, 0] [10, 7]) .AND (Or.inl rfl)
    ⟨rfl, rfl, by decide, by decide, by decide, by decide, by decide⟩ (by decide)).2
    (Or.inl ⟨by decide, by decide⟩)
  obtain ⟨-, -, -, -, v, hv, -, -, -, hv1⟩ := h
  exact ⟨by rw [hv, hv1 (by decide) (by decide)], h2.2⟩


/-- C6 (code at the failing input): a step on NOT with Int 0 on top of a
one-entry stack leaves state Ready with an empty stack: the operand is
popped and nothing is pushed.  The Int the opcode allocated (slot 6, freed
by the collector just before) holds 0, not 1; with Int -1 as the operand it
holds 1, not 0. -/
theorem c6_not_code :
    (test_vm (-21244) 8384 [16, 0] [8]).stackptr = 0 ∧
    bbzvm_obj_at (test_vm (-21244) 8384 [16, 0] [8])
      (bbzvm_stack_at (test_vm (-21244) 8384 [16, 0] [8]) 0) = .int 0 ∧
    (bbzvm_step test_host (test_vm (-21244) 8384 [16, 0] [8])).state = BBZVM_STATE_READY ∧
    (bbzvm_step test_host (test_vm (-21244) 8384 [16, 0] [8])).stackptr = -1 ∧
    bbzheap_obj_slot (bbzvm_gc (test_vm (-21244) 8384 [16, 0] [8])).2.heap = some 6 ∧
    bbzheap_obj_at (bbzvm_step test_host (test_vm (-21244) 8384 [16, 0] [8])).heap 6 = .int 0 ∧
    (bbzvm_step test_host (test_vm (-21244) 8384 [16, 0] [9])).stackptr = -1 ∧
    bbzheap_obj_at (bbzvm_step test_host (test_vm (-21244) 8384 [16, 0] [9])).heap 6 = .int 1 := by
  decide

/-- C7: for every pair of operands, with `c` the comparison of the operand
below the top with the top, the opcodes EQ, NEQ, GT, GTE, LT, LTE pop both
operands and push one Int equal to 1 or 0 according to `c = 0`, `c ≠ 0`,
`c > 0`, `c ≥ 0`, `c < 0`, `c ≤ 0`; no type error is raised.  Hence
NEQ = 1 - EQ, GTE = 1 - LT, LTE = 1 - GT and exactly one of LT, EQ, GT is
1.  For Int -21244 against Int 8384 the six results are 0, 1, 0, 0, 1, 1. -/
theorem c7_comparisons (host : Nat → bbzvm_t → bbzvm_t) (vm : bbzvm_t) (i : bbzvm_instr)
    (hi : i = .EQ ∨ i = .NEQ ∨ i = .GT ∨ i = .GTE ∨ i = .LT ∨ i = .LTE)
    (hat : bbzvm_at vm i) (hsp : 1 ≤ vm.stackptr)
    (hfree : (bbzheap_obj_slot vm.heap).isSome = true) :
    (bbzvm_step host vm).state = BBZVM_STATE_READY ∧
    (bbzvm_step host vm).error = BBZVM_ERROR_NONE ∧
    (bbzvm_step host vm).stackptr = vm.stackptr - 1 ∧
    (∀ k : Nat, (k : Int) < vm.stackptr - 1 → (bbzvm_step host vm).stack[k]? = vm.stack[k]?) ∧
    (∃ v : Int,
      bbzvm_obj_at (bbzvm_step host vm) (bbzvm_stack_at (bbzvm_step host vm) 0) = .int v ∧
      (v = 0 ∨ v = 1) ∧
      (i = .EQ → (v = 1 ↔ bbztype_cmp vm.heap (bbzvm_stack_at vm 1) (bbzvm_stack_at vm 0) = 0)) ∧
      (i = .NEQ → (v = 1 ↔ bbztype_cmp vm.heap (bbzvm_stack_at vm 1) (bbzvm_stack_at vm 0) ≠ 0)) ∧
      (i = .GT → (v = 1 ↔ bbztype_cmp vm.heap (bbzvm_stack_at vm 1) (bbzvm_stack_at vm 0) > 0)) ∧
      (i = .GTE → (v = 1 ↔ bbztype_cmp vm.heap (bbzvm_stack_at vm 1) (bbzvm_stack_at vm 0) ≥ 0)) ∧
      (i = .LT → (v = 1 ↔ bbztype_cmp vm.heap (bbzvm_stack_at vm 1) (bbzvm_stack_at vm 0) < 0)) ∧
      (i = .LTE → (v = 1 ↔ bbztype_cmp vm.heap (bbzvm_stack_at vm 1) (bbzvm_stack_at vm 0) ≤ 0)) ∧
      (bbzvm_obj_at vm (bbzvm_stack_at vm 1) = .int (-21244) →
        bbzvm_obj_at vm (bbzvm_stack_at vm 0) = .int 8384 →
        (i = .EQ → v = 0) ∧ (i = .NEQ → v = 1) ∧ (i = .GT → v = 0) ∧ (i = .GTE → v = 0) ∧
        (i = .LT → v = 1) ∧ (i = .LTE → v = 1))) ∧
    (∀ c : Int, bbzneq c = 1 - bbzeq c ∧ bbzgte c = 1 - bbzlt c ∧ bbzlte c = 1 - bbzgt c ∧
      bbzlt c + bbzeq c + bbzgt c = 1) := by
  obtain ⟨op, hop, hv⟩ : ∃ op : Int → Nat,
      (∀ o V, bbzvm_exec_switch host o V (some i)
        = bbzvm_exec_end o (bbzvm_binary_op_cmp op V)) ∧
      ((i = .EQ → op = bbzeq) ∧ (i = .NEQ → op = bbzneq) ∧ (i = .GT → op = bbzgt) ∧
        (i = .GTE → op = bbzgte) ∧ (i = .LT → op = bbzlt) ∧ (i = .LTE → op = bbzlte)) := by
    rcases hi with rfl | rfl | rfl | rfl | rfl | rfl
    · exact ⟨bbzeq, fun _ _ => rfl, by simp⟩
    · exact ⟨bbzneq, fun _ _ => rfl, by simp⟩
    · exact ⟨bbzgt, fun _ _ => rfl, by simp⟩
    · exact ⟨bbzgte, fun _ _ => rfl, by simp⟩
    · exact ⟨bbzlt, fun _ _ => rfl, by simp⟩
    · exact ⟨bbzlte, fun _ _ => rfl, by simp⟩
  obtain ⟨q1, q2, -, q4, q5, q6⟩ := bbzvm_pushed_int_top
    (bbzvm_step_cmp host vm i op hop hat hsp hfree) hsp
  refine ⟨q1.trans hat.ready, q2.trans hat.noerr, q4, q5, ⟨_, q6, ?_⟩, ?_⟩
  · have hex : bbzvm_obj_at vm (bbzvm_stack_at vm 1) = .int (-21244) →
        bbzvm_obj_at vm (bbzvm_stack_at vm 0) = .int 8384 →
        bbztype_cmp vm.heap (bbzvm_stack_at vm 1) (bbzvm_stack_at vm 0) = -1 := by
      intro ea eb
      unfold bbzvm_obj_at at ea eb
      unfold bbztype_cmp
      rw [ea, eb]
      simp [bbztype_major, bbztype, cmp3]
    generalize bbztype_cmp vm.heap (bbzvm_stack_at vm 1) (bbzvm_stack_at vm 0) = c at hex
    refine ⟨?_, ?_, ?_, ?_, ?_, ?_, ?_, ?_⟩
    · rcases hi with rfl | rfl | rfl | rfl | rfl | rfl
      · rw [hv.1 rfl]; unfold bbzeq; split <;> simp
      · rw [hv.2.1 rfl]; unfold bbzneq; split <;> simp
      · rw [hv.2.2.1 rfl]; unfold bbzgt; split <;> simp
      · rw [hv.2.2.2.1 rfl]; unfold bbzgte; split <;> simp
      · rw [hv.2.2.2.2.1 rfl]; unfold bbzlt; split <;> simp
      · rw [hv.2.2.2.2.2 rfl]; unfold bbzlte; split <;> simp
    · intro e; rw [hv.1 e]; unfold bbzeq; split <;> simp [*]
    · intro e; rw [hv.2.1 e]; unfold bbzneq; split <;> simp_all
    · intro e; rw [hv.2.2.1 e]; unfold bbzgt; split <;> simp_all
    · intro e; rw [hv.2.2.2.1 e]; unfold bbzgte; split <;> simp_all
    · intro e; rw [hv.2.2.2.2.1 e]; unfold bbzlt; split <;> simp_all
    · intro e; rw [hv.2.2.2.2.2 e]; unfold bbzlte; split <;> simp_all
    · intro ea eb
      have hc := hex ea eb
      subst hc
      refine ⟨?_, ?_, ?_, ?_, ?_, ?_⟩
      · intro e; rw [hv.1 e]; decide
      · intro e; rw [hv.2.1 e]; decide
      · intro e; rw [hv.2.2.1 e]; decide
      · intro e; rw [hv.2.2.2.1 e]; decide
      · intro e; rw [hv.2.2.2.2.1 e]; decide
      · intro e; rw [hv.2.2.2.2.2 e]; decide
  · intro c
    unfold bbzneq bbzeq bbzgte bbzlt bbzlte bbzgt
    refine ⟨?_, ?_, ?_, ?_⟩
    · split <;> simp_all
    · split <;> split <;> first | rfl | omega
    · split <;> split <;> first | rfl | omega
    · split <;> split <;> split <;> first | rfl | omega


/-- Witness of C7: LT on Int -21244 against Int 8384 pushes 1. -/
theorem c7_comparisons_witness :
    (bbzvm_step test_host (test_vm (-21244) 8384 [21, 0] [6, 7])).state = BBZVM_STATE_READY ∧
    bbzvm_obj_at (bbzvm_step test_host (test_vm (-21244) 8384 [21, 0] [6, 7]))
      (bbzvm_stack_at (bbzvm_step test_host (test_vm (-21244) 8384 [21, 0] [6, 7])) 0)
      = .int 1 := by
  have h := c7_comparisons test_host (test_vm (-21244) 8384 [21, 0] [6, 7]) .LT
    (Or.inr (Or.inr (Or.inr (Or.inr (Or.inl rfl)))))
    ⟨rfl, rfl, by decide, by decide, by decide, by decide, by decide⟩ (by decide) (by decide)
  obtain ⟨h1, -, -, -, ⟨v, hv, -, -, -, -, -, -, -, hex⟩, -⟩ := h
  exact ⟨h1, by rw [hv, (hex (by decide) (by decide)).2.2.2.2.1 rfl]⟩

/-- C8: for a JUMPZ instruction at address `a = pc` whose target `t` (the
low 16 bits of the operand) and fall-through address `a + 5` are both
inside the bytecode: if the top of the stack is nil or Int 0 the step sets
`pc = t`; if it is a non-zero Int the step sets `pc = a + 5`; in both cases
exactly the operand is popped, the entries below stay, and the state stays
Ready with no error. -/
theorem c8_jumpz (host : Nat → bbzvm_t → bbzvm_t) (vm : bbzvm_t)
    (hat : bbzvm_at vm .JUMPZ) (hfall : vm.pc + 5 < vm.bcode_size)
    (ht : bbzvm_fetch_arg { vm with pc := vm.pc + 1 } % 65536 < vm.bcode_size)
    (hsp : 0 ≤ vm.stackptr) :
    ((bbzvm_obj_at vm (bbzvm_stack_at vm 0) = .nil ∨
        bbzvm_obj_at vm (bbzvm_stack_at vm 0) = .int 0) →
      (bbzvm_step host vm).pc = bbzvm_fetch_arg { vm with pc := vm.pc + 1 } % 65536 ∧
      (bbzvm_step host vm).state = BBZVM_STATE_READY ∧
      (bbzvm_step host vm).error = BBZVM_ERROR_NONE ∧
      (bbzvm_step host vm).stackptr = vm.stackptr - 1 ∧
      (∀ k : Nat, (k : Int) ≤ vm.stackptr - 1 →
        (bbzvm_step host vm).stack[k]? = vm.stack[k]?)) ∧
    (∀ v : Int, bbzvm_obj_at vm (bbzvm_stack_at vm 0) = .int v → v ≠ 0 →
      (bbzvm_step host vm).pc = vm.pc + 5 ∧
      (bbzvm_step host vm).state = BBZVM_STATE_READY ∧
      (bbzvm_step host vm).error = BBZVM_ERROR_NONE ∧
      (bbzvm_step host vm).stackptr = vm.stackptr - 1 ∧
      (∀ k : Nat, (k : Int) ≤ vm.stackptr - 1 →
        (bbzvm_step host vm).stack[k]? = vm.stack[k]?)) := by
  obtain ⟨G, F, hstep⟩ := bbzvm_step_arg host vm .JUMPZ
    (fun m arg => bbzvm_jumpz m (arg % 65536)) (fun _ _ => rfl) hat hfall
  obtain ⟨hpc, hsz, hf, hst, her, hspG, hno, hnf, hnil, hg, hbp⟩ := bbzvm_gc_frame_fields F
  have htop := bbzvm_frame_logic_bool F 0 (le_refl 0) (vm.pc + 5)
  rw [hstep]
  generalize bbzvm_fetch_arg { vm with pc := vm.pc + 1 } % 65536 = t at ht ⊢
  have hsize : ¬ bbzvm_stack_size { G with pc := vm.pc + 5 } < 1 := by
    simp only [bbzvm_stack_size, hspG]; omega
  constructor
  · intro h0
    have hj : bbzvm_jumpz { G with pc := vm.pc + 5 } t
        = { G with pc := t, stackptr := G.stackptr - 1 } := by
      unfold bbzvm_jumpz
      rw [if_neg hsize, htop]
      rcases h0 with h | h <;> rw [h] <;> simp only [↓reduceIte]
      · exact bbzvm_jump_pop { G with pc := vm.pc + 5 } t (by simp only [hsz]; exact ht)
          (by simp only [hspG]; exact hsp)
      · exact bbzvm_jump_pop { G with pc := vm.pc + 5 } t (by simp only [hsz]; exact ht)
          (by simp only [hspG]; exact hsp)
    obtain ⟨j1, j2, j3, j4, j5, -⟩ := bbzvm_step_jumped vm G _ t F hat.ready hat.noerr hj
    exact ⟨j3, j1, j2, j4, fun k hk => j5 k (by omega)⟩
  · intro v hv hv0
    have hj : bbzvm_jumpz { G with pc := vm.pc + 5 } t
        = { G with pc := vm.pc + 5, stackptr := G.stackptr - 1 } := by
      unfold bbzvm_jumpz
      rw [if_neg hsize, htop, hv]
      simp only [hv0, ↓reduceIte]
      exact bbzvm_jump_pop { G with pc := vm.pc + 5 } (vm.pc + 5)
        (by simp only [hsz]; exact hfall) (by simp only [hspG]; exact hsp)
    obtain ⟨j1, j2, j3, j4, j5, -⟩ :=
      bbzvm_step_jumped vm G _ (vm.pc + 5) F hat.ready hat.noerr hj
    exact ⟨j3, j1, j2, j4, fun k hk => j5 k (by omega)⟩

/-- Witness of C8: JUMPZ to address 7 with Int -1 on top falls through to
address 5; with nil on top it jumps to 7. -/
theorem c8_jumpz_witness :
    (bbzvm_step test_host (test_vm (-21244) 8384 [39, 7, 0, 0, 0, 0, 0, 0] [6, 9])).pc = 5 ∧
    (bbzvm_step test_host (test_vm (-21244) 8384 [39, 7, 0, 0, 0, 0, 0, 0] [6, 9])).stackptr
      = 0 ∧
    (bbzvm_step test_host (test_vm (-21244) 8384 [39, 7, 0, 0, 0, 0, 0, 0] [6, 0])).pc = 7 := by
  have h := (c8_jumpz test_host (test_vm (-21244) 8384 [39, 7, 0, 0, 0, 0, 0, 0] [6, 9])
    ⟨rfl, rfl, by decide, by decide, by decide, by decide, by decide⟩
    (by decide) (by decide) (by decide)).2 (-1) (by decide) (by decide)
  have h2 := (c8_jumpz test_host (test_vm (-21244) 8384 [39, 7, 0, 0, 0, 0, 0, 0] [6, 0])
    ⟨rfl, rfl, by decide, by decide, by decide, by decide, by decide⟩
    (by decide) (by decide) (by decide)).1 (Or.inl (by decide))
  exact ⟨h.1, h.2.2.2.1, h2.1.trans (by decide)⟩


/-- C9: for a JUMPNZ instruction at address `a = pc` whose target `t` (the
low 16 bits of the operand) and fall-through address `a + 5` are both
inside the bytecode: if the top of the stack is a non-zero Int the step
sets `pc = t`; if it is nil or Int 0 the step falls through to
`pc = a + 5`; in both cases exactly the operand is popped, the entries
below stay, and the state stays Ready with no error. -/
theorem c9_jumpnz (host : Nat → bbzvm_t → bbzvm_t) (vm : bbzvm_t)
    (hat : bbzvm_at vm .JUMPNZ) (hfall : vm.pc + 5 < vm.bcode_size)
    (ht : bbzvm_fetch_arg { vm with pc := vm.pc + 1 } % 65536 < vm.bcode_size)
    (hsp : 0 ≤ vm.stackptr) :
    (∀ v : Int, bbzvm_obj_at vm (bbzvm_stack_at vm 0) = .int v → v ≠ 0 →
      (bbzvm_step host vm).pc = bbzvm_fetch_arg { vm with pc := vm.pc + 1 } % 65536 ∧
      (bbzvm_step host vm).state = BBZVM_STATE_READY ∧
      (bbzvm_step host vm).error = BBZVM_ERROR_NONE ∧
      (bbzvm_step host vm).stackptr = vm.stackptr - 1 ∧
      (∀ k : Nat, (k : Int) ≤ vm.stackptr - 1 →
        (bbzvm_step host vm).stack[k]? = vm.stack[k]?)) ∧
    ((bbzvm_obj_at vm (bbzvm_stack_at vm 0) = .nil ∨
        bbzvm_obj_at vm (bbzvm_stack_at vm 0) = .int 0) →
      (bbzvm_step host vm).pc = vm.pc + 5 ∧
      (bbzvm_step host vm).state = BBZVM_STATE_READY ∧
      (bbzvm_step host vm).error = BBZVM_ERROR_NONE ∧
      (bbzvm_step host vm).stackptr = vm.stackptr - 1 ∧
      (∀ k : Nat, (k : Int) ≤ vm.stackptr - 1 →
        (bbzvm_step host vm).stack[k]? = vm.stack[k]?)) := by
  obtain ⟨G, F, hstep⟩ := bbzvm_step_arg host vm .JUMPNZ
    (fun m arg => bbzvm_jumpnz m (arg % 65536)) (fun _ _ => rfl) hat hfall
  obtain ⟨hpc, hsz, hf, hst, her, hspG, hno, hnf, hnil, hg, hbp⟩ := bbzvm_gc_frame_fields F
  have htop := bbzvm_frame_logic_bool F 0 (le_refl 0) (vm.pc + 5)
  rw [hstep]
  generalize bbzvm_fetch_arg { vm with pc := vm.pc + 1 } % 65536 = t at ht ⊢
  have hsize : ¬ bbzvm_stack_size { G with pc := vm.pc + 5 } < 1 := by
    simp only [bbzvm_stack_size, hspG]; omega
  constructor
  · intro v hv hv0
    have hj : bbzvm_jumpnz { G with pc := vm.pc + 5 } t
        = { G with pc := t, stackptr := G.stackptr - 1 } := by
      unfold bbzvm_jumpnz
      rw [if_neg hsize, htop, hv]
      simp only [ne_eq, hv0, not_false_eq_true, ↓reduceIte]
      exact bbzvm_jump_pop { G with pc := vm.pc + 5 } t (by simp only [hsz]; exact ht)
        (by simp only [hspG]; exact hsp)
    obtain ⟨j1, j2, j3, j4, j5, -⟩ := bbzvm_step_jumped vm G _ t F hat.ready hat.noerr hj
    exact ⟨j3, j1, j2, j4, fun k hk => j5 k (by omega)⟩
  · intro h0
    have hj : bbzvm_jumpnz { G with pc := vm.pc + 5 } t
        = { G with pc := vm.pc + 5, stackptr := G.stackptr - 1 } := by
      unfold bbzvm_jumpnz
      rw [if_neg hsize, htop]
      rcases h0 with h | h <;> rw [h]
      · simp only []
        rw [bbzvm_pop_ok _ (by simp only [hspG]; exact hsp)]
      · simp only [ne_eq, not_true_eq_false, ↓reduceIte]
        exact bbzvm_jump_pop { G with pc := vm.pc + 5 } (vm.pc + 5)
          (by simp only [hsz]; exact hfall) (by simp only [hspG]; exact hsp)
    obtain ⟨j1, j2, j3, j4, j5, -⟩ :=
      bbzvm_step_jumped vm G _ (vm.pc + 5) F hat.ready hat.noerr hj
    exact ⟨j3, j1, j2, j4, fun k hk => j5 k (by omega)⟩

/-- Witness of C9: JUMPNZ to address 7 with Int -1 on top jumps to 7; with
nil on top it falls through to address 5 and pops the nil. -/
theorem c9_jumpnz_witness :
    (bbzvm_step test_host (test_vm (-21244) 8384 [40, 7, 0, 0, 0, 0, 0, 0] [6, 9])).pc = 7 ∧
    (bbzvm_step test_host (test_vm (-21244) 8384 [40, 7, 0, 0, 0, 0, 0, 0] [6, 0])).pc = 5 ∧
    (bbzvm_step test_host (test_vm (-21244) 8384 [40, 7, 0, 0, 0, 0, 0, 0] [6, 0])).stackptr
      = 0 := by
  have h := (c9_jumpnz test_host (test_vm (-21244) 8384 [40, 7, 0, 0, 0, 0, 0, 0] [6, 9])
    ⟨rfl, rfl, by decide, by decide, by decide, by decide, by decide⟩
    (by decide) (by decide) (by decide)).1 (-1) (by decide) (by decide)
  have h2 := (c9_jumpnz test_host (test_vm (-21244) 8384 [40, 7, 0, 0, 0, 0, 0, 0] [6, 0])
    ⟨rfl, rfl, by decide, by decide, by decide, by decide, by decide⟩
    (by decide) (by decide) (by decide)).2 (Or.inl (by decide))
  exact ⟨h.1.trans (by decide), h2.1, h2.2.2.2.1⟩

/-- C10: a step that executes DONE at address `a = pc` (the VM being
Ready, with the next address inside the bytecode) sets the state to Done,
leaves the stack pointer, the stack entries and the objects of the heap
unchanged, raises no error, and leaves `pc = a`. -/
theorem c10_done (host : Nat → bbzvm_t → bbzvm_t) (vm : bbzvm_t)
    (hat : bbzvm_at vm .DONE) :
    (bbzvm_step host vm).state = BBZVM_STATE_DONE ∧
    (bbzvm_step host vm).error = BBZVM_ERROR_NONE ∧
    (bbzvm_step host vm).notified = vm.notified ∧
    (bbzvm_step host vm).stackptr = vm.stackptr ∧
    (∀ k : Nat, (k : Int) ≤ vm.stackptr → (bbzvm_step host vm).stack[k]? = vm.stack[k]?) ∧
    (∀ j, bbzheap_obj_at (bbzvm_step host vm).heap j = bbzheap_obj_at vm.heap j) ∧
    (bbzvm_step host vm).pc = vm.pc := by
  obtain ⟨G, F, hstep⟩ := bbzvm_step_exec host vm .DONE hat
  obtain ⟨hpc, hsz, hf, hst, her, hspG, hno, hnf, hnil, hg, hbp⟩ := bbzvm_gc_frame_fields F
  rw [hstep]
  have e : bbzvm_exec_switch host vm.pc { G with pc := vm.pc + 1 } (some .DONE)
      = { G with pc := vm.pc, state := BBZVM_STATE_DONE } := by
    show bbzvm_exec_end vm.pc (bbzvm_done { G with pc := vm.pc + 1 }) = _
    unfold bbzvm_exec_end bbzvm_done
    simp
  rw [e]
  exact ⟨rfl, her.trans hat.noerr, hno, hspG, F.below, F.obj, rfl⟩

/-- Witness of C10: DONE at address 0 of a two-byte bytecode, with two
entries on the stack. -/
theorem c10_done_witness :
    (bbzvm_step test_host (test_vm (-21244) 8384 [1, 0] [6, 7])).state = BBZVM_STATE_DONE ∧
    (bbzvm_step test_host (test_vm (-21244) 8384 [1, 0] [6, 7])).pc = 0 ∧
    (bbzvm_step test_host (test_vm (-21244) 8384 [1, 0] [6, 7])).stackptr = 1 :=
  have h := c10_done test_host (test_vm (-21244) 8384 [1, 0] [6, 7])
    ⟨rfl, rfl, by decide, by decide, by decide, by decide, by decide⟩
  ⟨h.1, h.2.2.2.2.2.2, h.2.2.2.1⟩

/-! ## Interpreter faults -/

theorem bbzvm_step_nogc (host : Nat → bbzvm_t → bbzvm_t) (vm : bbzvm_t)
    (hr : vm.state = BBZVM_STATE_READY)
    (h : BBZSTACK_SIZE vm - bbzvm_stack_size vm < 6) :
    bbzvm_gc vm = (false, vm) ∧ bbzvm_step host vm = bbzvm_seterror vm BBZVM_ERROR_STACK := by
  have hg : bbzvm_gc vm = (false, vm) := by
    unfold bbzvm_gc
    rw [if_pos h]
  refine ⟨hg, ?_⟩
  unfold bbzvm_step
  rw [if_pos hr, hg]

/-- C11: whenever the VM state is not Ready, `bbzvm_step` changes nothing:
the machine after the step is the machine before it (program counter,
state, error, stack pointer, block pointer, stack, heap and the record of
notifier calls included), and so it is after any number of steps. -/
theorem c11_not_ready_sticky (host : Nat → bbzvm_t → bbzvm_t) (vm : bbzvm_t)
    (h : vm.state ≠ BBZVM_STATE_READY) :
    bbzvm_step host vm = vm ∧
    (bbzvm_step host vm).state = vm.state ∧
    (bbzvm_step host vm).heap = vm.heap ∧
    (bbzvm_step host vm).notified = vm.notified ∧
    ∀ n : Nat, Nat.iterate (bbzvm_step host) n vm = vm := by
  have e : bbzvm_step host vm = vm := by
    unfold bbzvm_step
    rw [if_neg h]
  refine ⟨e, by rw [e], by rw [e], by rw [e], ?_⟩
  intro n
  induction n with
  | zero => rfl
  | succ k ih => rw [Function.iterate_succ_apply, e, ih]

/-- Witness of C11: a machine in state Done. -/
theorem c11_not_ready_sticky_witness :
    bbzvm_step test_host { test_vm (-21244) 8384 [1, 0] [6, 7] with state := BBZVM_STATE_DONE }
      = { test_vm (-21244) 8384 [1, 0] [6, 7] with state := BBZVM_STATE_DONE } :=
  (c11_not_ready_sticky test_host
    { test_vm (-21244) 8384 [1, 0] [6, 7] with state := BBZVM_STATE_DONE } (by decide)).1

/-- C12 (code at the failing inputs): a Ready machine whose bytecode is the
single byte NOP ends the step in state Error with error PC and `pc = 1`,
not 0; a machine with PUSHI at address 0 of a three-byte bytecode (operand
cut short) ends the step in state Error with error PC and `pc = 1`. -/
theorem c12_pc_not_restored :
    (test_vm (-21244) 8384 [0] []).pc = 0 ∧
    (bbzvm_step test_host (test_vm (-21244) 8384 [0] [])).state = BBZVM_STATE_ERROR ∧
    (bbzvm_step test_host (test_vm (-21244) 8384 [0] [])).error = BBZVM_ERROR_PC ∧
    (bbzvm_step test_host (test_vm (-21244) 8384 [0] [])).pc = 1 ∧
    (bbzvm_step test_host (test_vm (-21244) 8384 [31, 1, 0] [])).state = BBZVM_STATE_ERROR ∧
    (bbzvm_step test_host (test_vm (-21244) 8384 [31, 1, 0] [])).error = BBZVM_ERROR_PC ∧
    (bbzvm_step test_host (test_vm (-21244) 8384 [31, 1, 0] [])).pc = 1 := by
  decide

/-- C15: when the operand stack holds `BBZSTACK_SIZE` entries, `bbzvm_push`
puts the VM in state Error with error kind Stack and leaves the stack
pointer and the stack unchanged; so does a step of a Ready VM, whatever the
instruction at `pc` is (in particular DUP, PUSHNIL, PUSHF, PUSHI, PUSHS,
PUSHCN, PUSHCC, PUSHL and LLOAD). -/
theorem c15_stack_full (host : Nat → bbzvm_t → bbzvm_t) (vm : bbzvm_t) (v : Nat)
    (hfull : bbzvm_stack_size vm = BBZSTACK_SIZE vm) :
    ((bbzvm_push vm v).state = BBZVM_STATE_ERROR ∧
      (bbzvm_push vm v).error = BBZVM_ERROR_STACK ∧
      (bbzvm_push vm v).stackptr = vm.stackptr ∧
      (bbzvm_push vm v).stack = vm.stack) ∧
    (vm.state = BBZVM_STATE_READY →
      (bbzvm_step host vm).state = BBZVM_STATE_ERROR ∧
      (bbzvm_step host vm).error = BBZVM_ERROR_STACK ∧
      (bbzvm_step host vm).stackptr = vm.stackptr ∧
      (bbzvm_step host vm).stack = vm.stack) := by
  constructor
  · have e : bbzvm_push vm v = bbzvm_seterror vm BBZVM_ERROR_STACK := by
      unfold bbzvm_push
      rw [if_pos (le_of_eq hfull.symm)]
    rw [e]
    exact ⟨rfl, rfl, rfl, rfl⟩
  · intro hr
    rw [(bbzvm_step_nogc host vm hr (by rw [hfull]; omega)).2]
    exact ⟨rfl, rfl, rfl, rfl⟩

/-- Witness of C15: a full stack of 16 entries with PUSHI at `pc`. -/
theorem c15_stack_full_witness :
    (bbzvm_step test_host (test_vm (-21244) 8384 [31, 1, 0, 0, 0, 0]
      [0, 0, 0, 0, 0, 0, 0, 0, 0, 0, 0, 0, 0, 0, 0, 0])).error = BBZVM_ERROR_STACK ∧
    (bbzvm_step test_host (test_vm (-21244) 8384 [31, 1, 0, 0, 0, 0]
      [0, 0, 0, 0, 0, 0, 0, 0, 0, 0, 0, 0, 0, 0, 0, 0])).stackptr = 15 :=
  have h := (c15_stack_full test_host (test_vm (-21244) 8384 [31, 1, 0, 0, 0, 0]
      [0, 0, 0, 0, 0, 0, 0, 0, 0, 0, 0, 0, 0, 0, 0, 0]) 0 (by decide)).2 rfl
  ⟨h.2.1, h.2.2.1⟩

/-- C16 (amended): for every Ready VM whose operand stack has fewer than
six free cells, the step runs no collection and dispatches no instruction:
`bbzvm_gc` returns 0 without touching the machine and the step raises the
Stack error, so that the state is Error, the notifier is called when one is
registered, and the program counter, the stack pointer, the stack and the
heap are unchanged. -/
theorem c16_gc_margin (host : Nat → bbzvm_t → bbzvm_t) (vm : bbzvm_t)
    (hr : vm.state = BBZVM_STATE_READY)
    (hfree : BBZSTACK_SIZE vm - bbzvm_stack_size vm < 6) :
    bbzvm_gc vm = (false, vm) ∧
    (bbzvm_step host vm).state = BBZVM_STATE_ERROR ∧
    (bbzvm_step host vm).error = BBZVM_ERROR_STACK ∧
    (bbzvm_step host vm).notified
      = (if vm.error_notifier_fun then vm.notified ++ [BBZVM_ERROR_STACK] else vm.notified) ∧
    (bbzvm_step host vm).pc = vm.pc ∧
    (bbzvm_step host vm).stackptr = vm.stackptr ∧
    (bbzvm_step host vm).stack = vm.stack ∧
    (bbzvm_step host vm).heap = vm.heap := by
  obtain ⟨hg, hs⟩ := bbzvm_step_nogc host vm hr hfree
  rw [hs]
  exact ⟨hg, rfl, rfl, rfl, rfl, rfl, rfl, rfl⟩

/-- Witness of C16: eleven entries on a stack of 16 cells (five free). -/
theorem c16_gc_margin_witness :
    (bbzvm_step test_host (test_vm (-21244) 8384 [0, 0]
      [0, 0, 0, 0, 0, 0, 0, 0, 0, 0, 0])).error = BBZVM_ERROR_STACK ∧
    (bbzvm_step test_host (test_vm (-21244) 8384 [0, 0]
      [0, 0, 0, 0, 0, 0, 0, 0, 0, 0, 0])).pc = 0 :=
  have h := c16_gc_margin test_host (test_vm (-21244) 8384 [0, 0]
      [0, 0, 0, 0, 0, 0, 0, 0, 0, 0, 0]) rfl (by decide)
  ⟨h.2.2.1, h.2.2.2.2.1⟩

/-- Counterexample to C16 as stated: a step on POP with a completely full
stack (16 entries in 16 cells) does not pop: it ends in state Error with
error Stack and the stack pointer unchanged. -/
theorem c16_pop_full_counterexample :
    (test_vm (-21244) 8384 [4, 0] [0, 0, 0, 0, 0, 0, 0, 0, 0, 0, 0, 0, 0, 0, 0, 0]).state
      = BBZVM_STATE_READY ∧
    (bbzvm_step test_host (test_vm (-21244) 8384 [4, 0]
      [0, 0, 0, 0, 0, 0, 0, 0, 0, 0, 0, 0, 0, 0, 0, 0])).state = BBZVM_STATE_ERROR ∧
    (bbzvm_step test_host (test_vm (-21244) 8384 [4, 0]
      [0, 0, 0, 0, 0, 0, 0, 0, 0, 0, 0, 0, 0, 0, 0, 0])).error = BBZVM_ERROR_STACK ∧
    (bbzvm_step test_host (test_vm (-21244) 8384 [4, 0]
      [0, 0, 0, 0, 0, 0, 0, 0, 0, 0, 0, 0, 0, 0, 0, 0])).stackptr = 15 := by
  decide

/-- The end of an instruction whose opcode raised the error `e` after
`n` pops, whatever program counter the opcode left. -/
theorem bbzvm_exec_end_failed (vm G W : bbzvm_t) (p : Nat) (n : Int) (e : bbzvm_error)
    (F : bbzvm_gc_frame vm G)
    (hw : W = bbzvm_seterror { G with pc := p, stackptr := G.stackptr - n } e) :
    bbzvm_failed vm (bbzvm_exec_end vm.pc W) n e := by
  obtain ⟨hpc, hsz, hfe, hst, her, hspG, hno, hnf, hnil, hg, hbp⟩ := bbzvm_gc_frame_fields F
  subst hw
  unfold bbzvm_exec_end bbzvm_seterror
  simp only [ne_eq, reduceCtorEq, not_false_eq_true, ↓reduceIte]
  refine ⟨rfl, rfl, rfl, by rw [hspG], by rw [hnf, hno], F.below, F.obj, ?_⟩
  intro k hk0 hk hv
  exact bbzvm_stack_at_valid_root F k hk0 hk hv

theorem bbzvm_seterror_same (G : bbzvm_t) (p : Nat) (e : bbzvm_error) :
    bbzvm_seterror { G with pc := p } e
      = bbzvm_seterror { G with pc := p, stackptr := G.stackptr - 0 } e := by
  simp

theorem bbzvm_pop_empty (V : bbzvm_t) (h : V.stackptr < 0) :
    bbzvm_pop V = bbzvm_seterror V BBZVM_ERROR_STACK := by
  unfold bbzvm_pop
  rw [if_neg (by simp only [bbzvm_stack_size]; omega)]

theorem bbzvm_dup_empty (V : bbzvm_t) (h : V.stackptr = -1) :
    bbzvm_dup V = bbzvm_seterror V BBZVM_ERROR_STACK := by
  unfold bbzvm_dup
  simp only [bbzvm_stack_size, h, uint16]
  rw [if_neg (fun hc => absurd hc.1 (by decide))]

theorem bbzvm_binary_op_arith_under (op : Int → Int → Int) (V : bbzvm_t) (h : V.stackptr < 1) :
    bbzvm_binary_op_arith op V = bbzvm_seterror V BBZVM_ERROR_STACK := by
  unfold bbzvm_binary_op_arith
  rw [if_pos (by simp only [bbzvm_stack_size]; omega)]

theorem bbzvm_binary_op_logic_under (op : Nat → Nat → Nat) (V : bbzvm_t) (h : V.stackptr < 1) :
    bbzvm_binary_op_logic op V = bbzvm_seterror V BBZVM_ERROR_STACK := by
  unfold bbzvm_binary_op_logic
  rw [if_pos (by simp only [bbzvm_stack_size]; omega)]

theorem bbzvm_binary_op_cmp_under (op : Int → Nat) (V : bbzvm_t) (h : V.stackptr < 1) :
    bbzvm_binary_op_cmp op V = bbzvm_seterror V BBZVM_ERROR_STACK := by
  unfold bbzvm_binary_op_cmp
  rw [if_pos (by simp only [bbzvm_stack_size]; omega)]

theorem bbzvm_unm_empty (V : bbzvm_t) (h : V.stackptr < 0) :
    bbzvm_unm V = bbzvm_seterror V BBZVM_ERROR_STACK := by
  unfold bbzvm_unm
  rw [if_pos (by simp only [bbzvm_stack_size]; omega)]

theorem bbzvm_not_empty (V : bbzvm_t) (h : V.stackptr < 0) :
    bbzvm_not V = bbzvm_seterror V BBZVM_ERROR_STACK := by
  unfold bbzvm_not
  rw [if_pos (by simp only [bbzvm_stack_size]; omega)]

theorem bbzvm_jumpz_empty (V : bbzvm_t) (t : Nat) (h : V.stackptr < 0) :
    bbzvm_jumpz V t = bbzvm_seterror V BBZVM_ERROR_STACK := by
  unfold bbzvm_jumpz
  rw [if_pos (by simp only [bbzvm_stack_size]; omega)]

theorem bbzvm_jumpnz_empty (V : bbzvm_t) (t : Nat) (h : V.stackptr < 0) :
    bbzvm_jumpnz V t = bbzvm_seterror V BBZVM_ERROR_STACK := by
  unfold bbzvm_jumpnz
  rw [if_pos (by simp only [bbzvm_stack_size]; omega)]

/-- A step on an opcode without operand whose function raises the Stack
error at once, the stack holding fewer entries than it needs. -/
theorem bbzvm_step_underflow (host : Nat → bbzvm_t → bbzvm_t) (vm : bbzvm_t) (i : bbzvm_instr)
    (hat : bbzvm_at vm i)
    (h : ∃ f : bbzvm_t → bbzvm_t,
      (∀ o V, bbzvm_exec_switch host o V (some i) = bbzvm_exec_end o (f V)) ∧
      (∀ V : bbzvm_t, V.stackptr = vm.stackptr → f V = bbzvm_seterror V BBZVM_ERROR_STACK)) :
    bbzvm_failed vm (bbzvm_step host vm) 0 BBZVM_ERROR_STACK := by
  obtain ⟨f, hop, hf⟩ := h
  obtain ⟨G, F, hstep⟩ := bbzvm_step_exec host vm i hat
  obtain ⟨hpc, hsz, hfe, hst, her, hspG, hno, hnf, hnil, hg, hbp⟩ := bbzvm_gc_frame_fields F
  rw [hstep, hop]
  exact bbzvm_exec_end_failed vm G _ (vm.pc + 1) 0 _ F
    ((hf { G with pc := vm.pc + 1 } hspG).trans (bbzvm_seterror_same G _ _))

/-- A step on a conditional jump whose function raises the Stack error at
once, the stack being empty. -/
theorem bbzvm_step_underflow_arg (host : Nat → bbzvm_t → bbzvm_t) (vm : bbzvm_t)
    (i : bbzvm_instr) (k : bbzvm_t → Nat → bbzvm_t)
    (hop : ∀ o V, bbzvm_exec_switch host o V (some i) = bbzvm_exec_arg o V k)
    (hat : bbzvm_at vm i) (hfall : vm.pc + 5 < vm.bcode_size)
    (hk : ∀ (V : bbzvm_t) (a : Nat), V.stackptr = vm.stackptr →
      k V a = bbzvm_seterror V BBZVM_ERROR_STACK) :
    bbzvm_failed vm (bbzvm_step host vm) 0 BBZVM_ERROR_STACK := by
  obtain ⟨G, F, hstep⟩ := bbzvm_step_arg host vm i k hop hat hfall
  obtain ⟨hpc, hsz, hfe, hst, her, hspG, hno, hnf, hnil, hg, hbp⟩ := bbzvm_gc_frame_fields F
  rw [hstep]
  exact bbzvm_exec_end_failed vm G _ (vm.pc + 5) 0 _ F
    ((hk { G with pc := vm.pc + 5 } _ hspG).trans (bbzvm_seterror_same G _ _))

/-- C14: for each of POP, DUP, ADD, SUB, MUL, DIV, MOD, POW, UNM, AND, OR,
NOT, EQ, NEQ, GT, GTE, LT, LTE, JUMPZ and JUMPNZ, a step executed with an
empty operand stack ends in state Error with error kind Stack, leaves the
stack empty and `pc` at the address of the instruction, and calls the
registered error notifier with Stack.  A binary opcode run with fewer than
two operands fails with Stack without popping anything. -/
theorem c14_stack_underflow (host : Nat → bbzvm_t → bbzvm_t) (vm : bbzvm_t) (i : bbzvm_instr)
    (hat : bbzvm_at vm i) :
    (i ∈ [bbzvm_instr.POP, .DUP, .ADD, .SUB, .MUL, .DIV, .MOD, .POW, .UNM, .AND, .OR, .NOT,
        .EQ, .NEQ, .GT, .GTE, .LT, .LTE, .JUMPZ, .JUMPNZ] →
      (i = .JUMPZ ∨ i = .JUMPNZ → vm.pc + 5 < vm.bcode_size) →
      vm.stackptr = -1 →
      (bbzvm_step host vm).state = BBZVM_STATE_ERROR ∧
      (bbzvm_step host vm).error = BBZVM_ERROR_STACK ∧
      (bbzvm_step host vm).stackptr = -1 ∧
      (bbzvm_step host vm).pc = vm.pc ∧
      (bbzvm_step host vm).notified
        = (if vm.error_notifier_fun then vm.notified ++ [BBZVM_ERROR_STACK]
            else vm.notified)) ∧
    (i ∈ [bbzvm_instr.ADD, .SUB, .MUL, .DIV, .MOD, .POW, .AND, .OR,
        .EQ, .NEQ, .GT, .GTE, .LT, .LTE] →
      vm.stackptr < 1 →
      (bbzvm_step host vm).state = BBZVM_STATE_ERROR ∧
      (bbzvm_step host vm).error = BBZVM_ERROR_STACK ∧
      (bbzvm_step host vm).stackptr = vm.stackptr ∧
      (∀ k : Nat, (k : Int) ≤ vm.stackptr → (bbzvm_step host vm).stack[k]? = vm.stack[k]?) ∧
      (bbzvm_step host vm).pc = vm.pc) := by
  have hbin : i ∈ [bbzvm_instr.ADD, .SUB, .MUL, .DIV, .MOD, .POW, .AND, .OR,
        .EQ, .NEQ, .GT, .GTE, .LT, .LTE] → vm.stackptr < 1 →
      bbzvm_failed vm (bbzvm_step host vm) 0 BBZVM_ERROR_STACK := by
    intro hi hsp
    apply bbzvm_step_underflow host vm i hat
    simp only [List.mem_cons, List.mem_singleton, List.not_mem_nil, or_false] at hi
    rcases hi with rfl | rfl | rfl | rfl | rfl | rfl | rfl | rfl | rfl | rfl | rfl | rfl |
      rfl | rfl
    · exact ⟨_, fun _ _ => rfl, fun V hV => bbzvm_binary_op_arith_under add V (by omega)⟩
    · exact ⟨_, fun _ _ => rfl, fun V hV => bbzvm_binary_op_arith_under sub V (by omega)⟩
    · exact ⟨_, fun _ _ => rfl, fun V hV => bbzvm_binary_op_arith_under mul V (by omega)⟩
    · exact ⟨_, fun _ _ => rfl, fun V hV => bbzvm_binary_op_arith_under div V (by omega)⟩
    · exact ⟨_, fun _ _ => rfl, fun V hV => bbzvm_binary_op_arith_under mod V (by omega)⟩
    · exact ⟨_, fun _ _ => rfl, fun V hV => bbzvm_binary_op_arith_under bbzpow V (by omega)⟩
    · exact ⟨_, fun _ _ => rfl, fun V hV => bbzvm_binary_op_logic_under bbzand V (by omega)⟩
    · exact ⟨_, fun _ _ => rfl, fun V hV => bbzvm_binary_op_logic_under bbzor V (by omega)⟩
    · exact ⟨_, fun _ _ => rfl, fun V hV => bbzvm_binary_op_cmp_under bbzeq V (by omega)⟩
    · exact ⟨_, fun _ _ => rfl, fun V hV => bbzvm_binary_op_cmp_under bbzneq V (by omega)⟩
    · exact ⟨_, fun _ _ => rfl, fun V hV => bbzvm_binary_op_cmp_under bbzgt V (by omega)⟩
    · exact ⟨_, fun _ _ => rfl, fun V hV => bbzvm_binary_op_cmp_under bbzgte V (by omega)⟩
    · exact ⟨_, fun _ _ => rfl, fun V hV => bbzvm_binary_op_cmp_under bbzlt V (by omega)⟩
    · exact ⟨_, fun _ _ => rfl, fun V hV => bbzvm_binary_op_cmp_under bbzlte V (by omega)⟩
  constructor
  · intro hi hjump hsp
    have hfail : bbzvm_failed vm (bbzvm_step host vm) 0 BBZVM_ERROR_STACK := by
      by_cases hb : i ∈ [bbzvm_instr.ADD, .SUB, .MUL, .DIV, .MOD, .POW, .AND, .OR,
          .EQ, .NEQ, .GT, .GTE, .LT, .LTE]
      · exact hbin hb (by omega)
      · simp only [List.mem_cons, List.mem_singleton, List.not_mem_nil, or_false] at hi hb
        rcases hi with rfl | rfl | h | h | h | h | h | h | rfl | h | h | rfl | h | h | h | h |
          h | h | rfl | rfl
        all_goals first
          | exact absurd h (by simp_all)
          | skip
        · exact bbzvm_step_underflow host vm _ hat
            ⟨_, fun _ _ => rfl, fun V hV => bbzvm_pop_empty V (by omega)⟩
        · exact bbzvm_step_underflow host vm _ hat
            ⟨_, fun _ _ => rfl, fun V hV => bbzvm_dup_empty V (by omega)⟩
        · exact bbzvm_step_underflow host vm _ hat
            ⟨_, fun _ _ => rfl, fun V hV => bbzvm_unm_empty V (by omega)⟩
        · exact bbzvm_step_underflow host vm _ hat
            ⟨_, fun _ _ => rfl, fun V hV => bbzvm_not_empty V (by omega)⟩
        · exact bbzvm_step_underflow_arg host vm .JUMPZ
            (fun m arg => bbzvm_jumpz m (arg % 65536)) (fun _ _ => rfl) hat
            (hjump (Or.inl rfl)) (fun V a hV => bbzvm_jumpz_empty V _ (by omega))
        · exact bbzvm_step_underflow_arg host vm .JUMPNZ
            (fun m arg => bbzvm_jumpnz m (arg % 65536)) (fun _ _ => rfl) hat
            (hjump (Or.inr rfl)) (fun V a hV => bbzvm_jumpnz_empty V _ (by omega))
    obtain ⟨f1, f2, f3, f4, f5, -, -, -⟩ := hfail
    exact ⟨f1, f2, by rw [f4, hsp]; rfl, f3, f5⟩
  · intro hi hsp
    obtain ⟨f1, f2, f3, f4, -, f6, -, -⟩ := hbin hi hsp
    exact ⟨f1, f2, by rw [f4]; omega, f6, f3⟩

/-- Witness of C14: POP and ADD on an empty stack, ADD on a single entry. -/
theorem c14_stack_underflow_witness :
    (bbzvm_step test_host (test_vm (-21244) 8384 [4, 0] [])).error = BBZVM_ERROR_STACK ∧
    (bbzvm_step test_host (test_vm (-21244) 8384 [4, 0] [])).notified = [BBZVM_ERROR_STACK] ∧
    (bbzvm_step test_host (test_vm (-21244) 8384 [7, 0] [6])).error = BBZVM_ERROR_STACK ∧
    (bbzvm_step test_host (test_vm (-21244) 8384 [7, 0] [6])).stackptr = 0 := by
  have h1 := (c14_stack_underflow test_host (test_vm (-21244) 8384 [4, 0] []) .POP
    ⟨rfl, rfl, by decide, by decide, by decide, by decide, by decide⟩).1
    (by decide) (by decide) (by decide)
  have h2 := (c14_stack_underflow test_host (test_vm (-21244) 8384 [7, 0] [6]) .ADD
    ⟨rfl, rfl, by decide, by decide, by decide, by decide, by decide⟩).2
    (by decide) (by decide)
  exact ⟨h1.2.1, h1.2.2.2.2, h2.2.1, h2.2.2.1⟩

/-- C13 (amended): a step that executes JUMP with a target offset greater
than or equal to the bytecode size faults in that same step: it ends with
state Error and error kind PC, `pc` is back on the JUMP instruction, and
the stack is unchanged. -/
theorem c13_jump_out_of_range (host : Nat → bbzvm_t → bbzvm_t) (vm : bbzvm_t)
    (hat : bbzvm_at vm .JUMP) (hfall : vm.pc + 5 < vm.bcode_size)
    (ht : vm.bcode_size ≤ bbzvm_fetch_arg { vm with pc := vm.pc + 1 } % 65536) :
    (bbzvm_step host vm).state = BBZVM_STATE_ERROR ∧
    (bbzvm_step host vm).error = BBZVM_ERROR_PC ∧
    (bbzvm_step host vm).pc = vm.pc ∧
    (bbzvm_step host vm).stackptr = vm.stackptr ∧
    (∀ k : Nat, (k : Int) ≤ vm.stackptr → (bbzvm_step host vm).stack[k]? = vm.stack[k]?) := by
  obtain ⟨G, F, hstep⟩ := bbzvm_step_arg host vm .JUMP
    (fun m arg => bbzvm_jump m (arg % 65536)) (fun _ _ => rfl) hat hfall
  obtain ⟨hpc, hsz, hfe, hst, her, hspG, hno, hnf, hnil, hg, hbp⟩ := bbzvm_gc_frame_fields F
  rw [hstep]
  generalize bbzvm_fetch_arg { vm with pc := vm.pc + 1 } % 65536 = t at ht ⊢
  have hj : bbzvm_jump { G with pc := vm.pc + 5 } t
      = bbzvm_seterror { G with pc := t, stackptr := G.stackptr - 0 } BBZVM_ERROR_PC := by
    unfold bbzvm_jump
    simp only []
    rw [if_pos (by simp [bbzvm_pc_out, hsz]; omega)]
    simp
  obtain ⟨f1, f2, f3, f4, -, f6, -, -⟩ :=
    bbzvm_exec_end_failed vm G _ t 0 BBZVM_ERROR_PC F hj
  exact ⟨f1, f2, f3, by rw [f4]; omega, f6⟩

/-- Witness of C13: JUMP to offset 100 in a bytecode of eight bytes. -/
theorem c13_jump_out_of_range_witness :
    (bbzvm_step test_host (test_vm (-21244) 8384 [38, 100, 0, 0, 0, 0, 0, 0] [6])).error
      = BBZVM_ERROR_PC ∧
    (bbzvm_step test_host (test_vm (-21244) 8384 [38, 100, 0, 0, 0, 0, 0, 0] [6])).pc = 0 :=
  have h := c13_jump_out_of_range test_host (test_vm (-21244) 8384 [38, 100, 0, 0, 0, 0, 0, 0] [6])
    ⟨rfl, rfl, by decide, by decide, by decide, by decide, by decide⟩ (by decide) (by decide)
  ⟨h.2.1, h.2.2.1⟩

/-- Counterexample to C13 as stated: the step on JUMP to offset 100 in a
bytecode of eight bytes ends in state Error with `pc = 0`, not in state
Ready with `pc = 100`. -/
theorem c13_jump_counterexample :
    (bbzvm_step test_host (test_vm (-21244) 8384 [38, 100, 0, 0, 0, 0, 0, 0] [6])).state
      = BBZVM_STATE_ERROR ∧
    (bbzvm_step test_host (test_vm (-21244) 8384 [38, 100, 0, 0, 0, 0, 0, 0] [6])).pc = 0 := by
  decide

/-! ## Stack bounds, calls and returns -/

set_option linter.unusedTactic false
set_option linter.unreachableTactic false

theorem bbzvm_keeps_refl (V : bbzvm_t) : bbzvm_keeps V V := ⟨rfl, rfl, id⟩

theorem bbzvm_keeps_trans {U V W : bbzvm_t} (h1 : bbzvm_keeps U V) (h2 : bbzvm_keeps V W) :
    bbzvm_keeps U W :=
  ⟨h2.1.trans h1.1, h2.2.1.trans h1.2.1, fun h => h2.2.2 (h1.2.2 h)⟩

theorem bbzvm_keeps_seterror {U V : bbzvm_t} (e : bbzvm_error) (h : bbzvm_keeps U V) :
    bbzvm_keeps U (bbzvm_seterror V e) :=
  bbzvm_keeps_trans h ⟨rfl, rfl, id⟩

theorem bbzvm_keeps_heap {U V : bbzvm_t} (hp : bbzheap_t) (h : bbzvm_keeps U V) :
    bbzvm_keeps U { V with heap := hp } :=
  bbzvm_keeps_trans h ⟨rfl, rfl, id⟩

theorem bbzvm_keeps_pc {U V : bbzvm_t} (p : Nat) (h : bbzvm_keeps U V) :
    bbzvm_keeps U { V with pc := p } :=
  bbzvm_keeps_trans h ⟨rfl, rfl, id⟩

theorem bbzvm_keeps_push {U V : bbzvm_t} (v : Nat) (h : bbzvm_keeps U V) :
    bbzvm_keeps U (bbzvm_push V v) := by
  apply bbzvm_keeps_trans h
  unfold bbzvm_push
  split
  · exact ⟨rfl, rfl, id⟩
  · rename_i hlt
    refine ⟨by simp, rfl, ?_⟩
    simp only [bbzvm_sp_ok, BBZSTACK_SIZE, bbzvm_stack_size, List.length_set] at hlt ⊢
    omega

theorem bbzvm_keeps_pop {U V : bbzvm_t} (h : bbzvm_keeps U V) :
    bbzvm_keeps U (bbzvm_pop V) := by
  apply bbzvm_keeps_trans h
  unfold bbzvm_pop
  split
  · rename_i hlt
    refine ⟨rfl, rfl, ?_⟩
    simp only [bbzvm_sp_ok, BBZSTACK_SIZE, bbzvm_stack_size] at hlt ⊢
    omega
  · exact ⟨rfl, rfl, id⟩

theorem bbzvm_keeps_alloc {U V W : bbzvm_t} {t i : Nat}
    (e : bbzvm_obj_alloc V t = (W, i)) (h : bbzvm_keeps U V) : bbzvm_keeps U W := by
  apply bbzvm_keeps_trans h
  unfold bbzvm_obj_alloc at e
  split at e
  · cases e; exact ⟨rfl, rfl, id⟩
  · cases e; exact ⟨rfl, rfl, id⟩

theorem bbzvm_keeps_setvalue {U V : bbzvm_t} (i : Nat) (x : Int) (h : bbzvm_keeps U V) :
    bbzvm_keeps U (bbzvm_obj_setvalue V i x) :=
  bbzvm_keeps_trans h ⟨rfl, rfl, id⟩

theorem bbzvm_keeps_setactrec {U V : bbzvm_t} (o a : Nat) (h : bbzvm_keeps U V) :
    bbzvm_keeps U (bbzvm_obj_setactrec V o a) := by
  apply bbzvm_keeps_trans h
  unfold bbzvm_obj_setactrec
  split
  · exact ⟨rfl, rfl, id⟩
  · exact ⟨rfl, rfl, id⟩




theorem bbzvm_keeps_alloc1 {U V : bbzvm_t} (t : Nat) (h : bbzvm_keeps U V) :
    bbzvm_keeps U (bbzvm_obj_alloc V t).1 :=
  bbzvm_keeps_alloc (Prod.mk.eta).symm h

theorem bbzvm_keeps_dup (V : bbzvm_t) :
    bbzvm_keeps V (bbzvm_dup V) := by
  unfold bbzvm_dup
  repeat' (first | split | dsimp only)
  all_goals
    iterate 12
      first
        | exact bbzvm_keeps_refl _
        | with_reducible apply bbzvm_keeps_seterror
        | with_reducible apply bbzvm_keeps_push
        | with_reducible apply bbzvm_keeps_pop
        | with_reducible apply bbzvm_keeps_setvalue
        | with_reducible apply bbzvm_keeps_setactrec
        | with_reducible apply bbzvm_keeps_alloc1
        | refine bbzvm_keeps_alloc (by assumption) ?_
        | with_reducible apply bbzvm_keeps_heap
        | with_reducible apply bbzvm_keeps_pc
        | skip

theorem bbzvm_keeps_pushnil (V : bbzvm_t) :
    bbzvm_keeps V (bbzvm_pushnil V) := by
  unfold bbzvm_pushnil
  repeat' (first | split | dsimp only)
  all_goals
    iterate 12
      first
        | exact bbzvm_keeps_refl _
        | with_reducible apply bbzvm_keeps_seterror
        | with_reducible apply bbzvm_keeps_push
        | with_reducible apply bbzvm_keeps_pop
        | with_reducible apply bbzvm_keeps_setvalue
        | with_reducible apply bbzvm_keeps_setactrec
        | with_reducible apply bbzvm_keeps_alloc1
        | refine bbzvm_keeps_alloc (by assumption) ?_
        | with_reducible apply bbzvm_keeps_heap
        | with_reducible apply bbzvm_keeps_pc
        | skip

theorem bbzvm_keeps_done (V : bbzvm_t) :
    bbzvm_keeps V (bbzvm_done V) := by
  unfold bbzvm_done
  repeat' (first | split | dsimp only)
  all_goals
    iterate 12
      first
        | exact bbzvm_keeps_refl _
        | with_reducible apply bbzvm_keeps_seterror
        | with_reducible apply bbzvm_keeps_push
        | with_reducible apply bbzvm_keeps_pop
        | with_reducible apply bbzvm_keeps_setvalue
        | with_reducible apply bbzvm_keeps_setactrec
        | with_reducible apply bbzvm_keeps_alloc1
        | refine bbzvm_keeps_alloc (by assumption) ?_
        | with_reducible apply bbzvm_keeps_heap
        | with_reducible apply bbzvm_keeps_pc
        | skip

theorem bbzvm_keeps_binary_op_arith (op : Int → Int → Int) (V : bbzvm_t) :
    bbzvm_keeps V (bbzvm_binary_op_arith op V) := by
  unfold bbzvm_binary_op_arith
  repeat' (first | split | dsimp only)
  all_goals
    iterate 12
      first
        | exact bbzvm_keeps_refl _
        | with_reducible apply bbzvm_keeps_seterror
        | with_reducible apply bbzvm_keeps_push
        | with_reducible apply bbzvm_keeps_pop
        | with_reducible apply bbzvm_keeps_setvalue
        | with_reducible apply bbzvm_keeps_setactrec
        | with_reducible apply bbzvm_keeps_alloc1
        | refine bbzvm_keeps_alloc (by assumption) ?_
        | with_reducible apply bbzvm_keeps_heap
        | with_reducible apply bbzvm_keeps_pc
        | skip

theorem bbzvm_keeps_unm (V : bbzvm_t) :
    bbzvm_keeps V (bbzvm_unm V) := by
  unfold bbzvm_unm
  repeat' (first | split | dsimp only)
  all_goals
    iterate 12
      first
        | exact bbzvm_keeps_refl _
        | with_reducible apply bbzvm_keeps_seterror
        | with_reducible apply bbzvm_keeps_push
        | with_reducible apply bbzvm_keeps_pop
        | with_reducible apply bbzvm_keeps_setvalue
        | with_reducible apply bbzvm_keeps_setactrec
        | with_reducible apply bbzvm_keeps_alloc1
        | refine bbzvm_keeps_alloc (by assumption) ?_
        | with_reducible apply bbzvm_keeps_heap
        | with_reducible apply bbzvm_keeps_pc
        | skip

theorem bbzvm_keeps_binary_op_logic (op : Nat → Nat → Nat) (V : bbzvm_t) :
    bbzvm_keeps V (bbzvm_binary_op_logic op V) := by
  unfold bbzvm_binary_op_logic
  repeat' (first | split | dsimp only)
  all_goals
    iterate 12
      first
        | exact bbzvm_keeps_refl _
        | with_reducible apply bbzvm_keeps_seterror
        | with_reducible apply bbzvm_keeps_push
        | with_reducible apply bbzvm_keeps_pop
        | with_reducible apply bbzvm_keeps_setvalue
        | with_reducible apply bbzvm_keeps_setactrec
        | with_reducible apply bbzvm_keeps_alloc1
        | refine bbzvm_keeps_alloc (by assumption) ?_
        | with_reducible apply bbzvm_keeps_heap
        | with_reducible apply bbzvm_keeps_pc
        | skip

theorem bbzvm_keeps_not (V : bbzvm_t) :
    bbzvm_keeps V (bbzvm_not V) := by
  unfold bbzvm_not
  repeat' (first | split | dsimp only)
  all_goals
    iterate 12
      first
        | exact bbzvm_keeps_refl _
        | with_reducible apply bbzvm_keeps_seterror
        | with_reducible apply bbzvm_keeps_push
        | with_reducible apply bbzvm_keeps_pop
        | with_reducible apply bbzvm_keeps_setvalue
        | with_reducible apply bbzvm_keeps_setactrec
        | with_reducible apply bbzvm_keeps_alloc1
        | refine bbzvm_keeps_alloc (by assumption) ?_
        | with_reducible apply bbzvm_keeps_heap
        | with_reducible apply bbzvm_keeps_pc
        | skip

theorem bbzvm_keeps_binary_op_cmp (op : Int → Nat) (V : bbzvm_t) :
    bbzvm_keeps V (bbzvm_binary_op_cmp op V) := by
  unfold bbzvm_binary_op_cmp
  repeat' (first | split | dsimp only)
  all_goals
    iterate 12
      first
        | exact bbzvm_keeps_refl _
        | with_reducible apply bbzvm_keeps_seterror
        | with_reducible apply bbzvm_keeps_push
        | with_reducible apply bbzvm_keeps_pop
        | with_reducible apply bbzvm_keeps_setvalue
        | with_reducible apply bbzvm_keeps_setactrec
        | with_reducible apply bbzvm_keeps_alloc1
        | refine bbzvm_keeps_alloc (by assumption) ?_
        | with_reducible apply bbzvm_keeps_heap
        | with_reducible apply bbzvm_keeps_pc
        | skip

theorem bbzvm_keeps_jump (V : bbzvm_t) (t : Nat) :
    bbzvm_keeps V (bbzvm_jump V t) := by
  unfold bbzvm_jump
  repeat' (first | split | dsimp only)
  all_goals
    iterate 12
      first
        | exact bbzvm_keeps_refl _
        | with_reducible apply bbzvm_keeps_seterror
        | with_reducible apply bbzvm_keeps_push
        | with_reducible apply bbzvm_keeps_pop
        | with_reducible apply bbzvm_keeps_setvalue
        | with_reducible apply bbzvm_keeps_setactrec
        | with_reducible apply bbzvm_keeps_alloc1
        | refine bbzvm_keeps_alloc (by assumption) ?_
        | with_reducible apply bbzvm_keeps_heap
        | with_reducible apply bbzvm_keeps_pc
        | skip

theorem bbzvm_keeps_jumpz (V : bbzvm_t) (t : Nat) :
    bbzvm_keeps V (bbzvm_jumpz V t) := by
  unfold bbzvm_jumpz
  repeat' (first | split | dsimp only)
  all_goals
    iterate 12
      first
        | exact bbzvm_keeps_refl _
        | with_reducible apply bbzvm_keeps_seterror
        | with_reducible apply bbzvm_keeps_push
        | with_reducible apply bbzvm_keeps_pop
        | with_reducible apply bbzvm_keeps_setvalue
        | with_reducible apply bbzvm_keeps_setactrec
        | with_reducible apply bbzvm_keeps_alloc1
        | refine bbzvm_keeps_alloc (by assumption) ?_
        | with_reducible apply bbzvm_keeps_heap
        | with_reducible apply bbzvm_keeps_pc
        | skip

theorem bbzvm_keeps_jumpnz (V : bbzvm_t) (t : Nat) :
    bbzvm_keeps V (bbzvm_jumpnz V t) := by
  unfold bbzvm_jumpnz
  repeat' (first | split | dsimp only)
  all_goals
    iterate 12
      first
        | exact bbzvm_keeps_refl _
        | with_reducible apply bbzvm_keeps_seterror
        | with_reducible apply bbzvm_keeps_push
        | with_reducible apply bbzvm_keeps_pop
        | with_reducible apply bbzvm_keeps_setvalue
        | with_reducible apply bbzvm_keeps_setactrec
        | with_reducible apply bbzvm_keeps_alloc1
        | refine bbzvm_keeps_alloc (by assumption) ?_
        | with_reducible apply bbzvm_keeps_heap
        | with_reducible apply bbzvm_keeps_pc
        | skip

theorem bbzvm_keeps_pushc (V : bbzvm_t) (r : Int) (n : Nat) :
    bbzvm_keeps V (bbzvm_pushc V r n) := by
  unfold bbzvm_pushc
  repeat' (first | split | dsimp only)
  all_goals
    iterate 12
      first
        | exact bbzvm_keeps_refl _
        | with_reducible apply bbzvm_keeps_seterror
        | with_reducible apply bbzvm_keeps_push
        | with_reducible apply bbzvm_keeps_pop
        | with_reducible apply bbzvm_keeps_setvalue
        | with_reducible apply bbzvm_keeps_setactrec
        | with_reducible apply bbzvm_keeps_alloc1
        | refine bbzvm_keeps_alloc (by assumption) ?_
        | with_reducible apply bbzvm_keeps_heap
        | with_reducible apply bbzvm_keeps_pc
        | skip

theorem bbzvm_keeps_pushi (V : bbzvm_t) (v : Int) :
    bbzvm_keeps V (bbzvm_pushi V v) := by
  unfold bbzvm_pushi
  repeat' (first | split | dsimp only)
  all_goals
    iterate 12
      first
        | exact bbzvm_keeps_refl _
        | with_reducible apply bbzvm_keeps_seterror
        | with_reducible apply bbzvm_keeps_push
        | with_reducible apply bbzvm_keeps_pop
        | with_reducible apply bbzvm_keeps_setvalue
        | with_reducible apply bbzvm_keeps_setactrec
        | with_reducible apply bbzvm_keeps_alloc1
        | refine bbzvm_keeps_alloc (by assumption) ?_
        | with_reducible apply bbzvm_keeps_heap
        | with_reducible apply bbzvm_keeps_pc
        | skip

theorem bbzvm_keeps_pushf (V : bbzvm_t) (v : Nat) :
    bbzvm_keeps V (bbzvm_pushf V v) := by
  unfold bbzvm_pushf
  repeat' (first | split | dsimp only)
  all_goals
    iterate 12
      first
        | exact bbzvm_keeps_refl _
        | with_reducible apply bbzvm_keeps_seterror
        | with_reducible apply bbzvm_keeps_push
        | with_reducible apply bbzvm_keeps_pop
        | with_reducible apply bbzvm_keeps_setvalue
        | with_reducible apply bbzvm_keeps_setactrec
        | with_reducible apply bbzvm_keeps_alloc1
        | refine bbzvm_keeps_alloc (by assumption) ?_
        | with_reducible apply bbzvm_keeps_heap
        | with_reducible apply bbzvm_keeps_pc
        | skip

theorem bbzvm_keeps_pushs (V : bbzvm_t) (v : Nat) :
    bbzvm_keeps V (bbzvm_pushs V v) := by
  unfold bbzvm_pushs
  repeat' (first | split | dsimp only)
  all_goals
    iterate 12
      first
        | exact bbzvm_keeps_refl _
        | with_reducible apply bbzvm_keeps_seterror
        | with_reducible apply bbzvm_keeps_push
        | with_reducible apply bbzvm_keeps_pop
        | with_reducible apply bbzvm_keeps_setvalue
        | with_reducible apply bbzvm_keeps_setactrec
        | with_reducible apply bbzvm_keeps_alloc1
        | refine bbzvm_keeps_alloc (by assumption) ?_
        | with_reducible apply bbzvm_keeps_heap
        | with_reducible apply bbzvm_keeps_pc
        | skip

theorem bbzvm_keeps_pushl (V : bbzvm_t) (v : Int) :
    bbzvm_keeps V (bbzvm_pushl V v) := by
  unfold bbzvm_pushl
  repeat' (first | split | dsimp only)
  all_goals
    iterate 12
      first
        | exact bbzvm_keeps_refl _
        | with_reducible apply bbzvm_keeps_seterror
        | with_reducible apply bbzvm_keeps_push
        | with_reducible apply bbzvm_keeps_pop
        | with_reducible apply bbzvm_keeps_setvalue
        | with_reducible apply bbzvm_keeps_setactrec
        | with_reducible apply bbzvm_keeps_alloc1
        | refine bbzvm_keeps_alloc (by assumption) ?_
        | with_reducible apply bbzvm_keeps_heap
        | with_reducible apply bbzvm_keeps_pc
        | skip

theorem bbzvm_keeps_pusht (V : bbzvm_t) :
    bbzvm_keeps V (bbzvm_pusht V) := by
  unfold bbzvm_pusht
  repeat' (first | split | dsimp only)
  all_goals
    iterate 12
      first
        | exact bbzvm_keeps_refl _
        | with_reducible apply bbzvm_keeps_seterror
        | with_reducible apply bbzvm_keeps_push
        | with_reducible apply bbzvm_keeps_pop
        | with_reducible apply bbzvm_keeps_setvalue
        | with_reducible apply bbzvm_keeps_setactrec
        | with_reducible apply bbzvm_keeps_alloc1
        | refine bbzvm_keeps_alloc (by assumption) ?_
        | with_reducible apply bbzvm_keeps_heap
        | with_reducible apply bbzvm_keeps_pc
        | skip

theorem bbzvm_keeps_lload (V : bbzvm_t) (i : Nat) :
    bbzvm_keeps V (bbzvm_lload V i) := by
  unfold bbzvm_lload
  repeat' (first | split | dsimp only)
  all_goals
    iterate 12
      first
        | exact bbzvm_keeps_refl _
        | with_reducible apply bbzvm_keeps_seterror
        | with_reducible apply bbzvm_keeps_push
        | with_reducible apply bbzvm_keeps_pop
        | with_reducible apply bbzvm_keeps_setvalue
        | with_reducible apply bbzvm_keeps_setactrec
        | with_reducible apply bbzvm_keeps_alloc1
        | refine bbzvm_keeps_alloc (by assumption) ?_
        | with_reducible apply bbzvm_keeps_heap
        | with_reducible apply bbzvm_keeps_pc
        | skip

theorem bbzvm_keeps_tput (V : bbzvm_t) :
    bbzvm_keeps V (bbzvm_tput V) := by
  unfold bbzvm_tput
  repeat' (first | split | dsimp only)
  all_goals
    iterate 12
      first
        | exact bbzvm_keeps_refl _
        | with_reducible apply bbzvm_keeps_seterror
        | with_reducible apply bbzvm_keeps_push
        | with_reducible apply bbzvm_keeps_pop
        | with_reducible apply bbzvm_keeps_setvalue
        | with_reducible apply bbzvm_keeps_setactrec
        | with_reducible apply bbzvm_keeps_alloc1
        | refine bbzvm_keeps_alloc (by assumption) ?_
        | with_reducible apply bbzvm_keeps_heap
        | with_reducible apply bbzvm_keeps_pc
        | skip

theorem bbzvm_keeps_tget (V : bbzvm_t) :
    bbzvm_keeps V (bbzvm_tget V) := by
  unfold bbzvm_tget bbzvm_pushnil
  repeat' (first | split | dsimp only)
  all_goals
    iterate 12
      first
        | exact bbzvm_keeps_refl _
        | with_reducible apply bbzvm_keeps_seterror
        | with_reducible apply bbzvm_keeps_push
        | with_reducible apply bbzvm_keeps_pop
        | with_reducible apply bbzvm_keeps_setvalue
        | with_reducible apply bbzvm_keeps_setactrec
        | with_reducible apply bbzvm_keeps_alloc1
        | refine bbzvm_keeps_alloc (by assumption) ?_
        | with_reducible apply bbzvm_keeps_heap
        | with_reducible apply bbzvm_keeps_pc
        | skip

theorem bbzvm_keeps_gload (V : bbzvm_t) :
    bbzvm_keeps V (bbzvm_gload V) := by
  unfold bbzvm_gload bbzvm_pushnil
  repeat' (first | split | dsimp only)
  all_goals
    iterate 12
      first
        | exact bbzvm_keeps_refl _
        | with_reducible apply bbzvm_keeps_seterror
        | with_reducible apply bbzvm_keeps_push
        | with_reducible apply bbzvm_keeps_pop
        | with_reducible apply bbzvm_keeps_setvalue
        | with_reducible apply bbzvm_keeps_setactrec
        | with_reducible apply bbzvm_keeps_alloc1
        | refine bbzvm_keeps_alloc (by assumption) ?_
        | with_reducible apply bbzvm_keeps_heap
        | with_reducible apply bbzvm_keeps_pc
        | skip

theorem bbzvm_keeps_gstore (V : bbzvm_t) :
    bbzvm_keeps V (bbzvm_gstore V) := by
  unfold bbzvm_gstore
  repeat' (first | split | dsimp only)
  all_goals
    iterate 12
      first
        | exact bbzvm_keeps_refl _
        | with_reducible apply bbzvm_keeps_seterror
        | with_reducible apply bbzvm_keeps_push
        | with_reducible apply bbzvm_keeps_pop
        | with_reducible apply bbzvm_keeps_setvalue
        | with_reducible apply bbzvm_keeps_setactrec
        | with_reducible apply bbzvm_keeps_alloc1
        | refine bbzvm_keeps_alloc (by assumption) ?_
        | with_reducible apply bbzvm_keeps_heap
        | with_reducible apply bbzvm_keeps_pc
        | skip

theorem bbzvm_call_cases (host : Nat → bbzvm_t → bbzvm_t) (isswrm : Bool) (V : bbzvm_t) :
    bbzvm_call host isswrm V = bbzvm_seterror V BBZVM_ERROR_STACK ∨
    bbzvm_call host isswrm V = bbzvm_seterror V BBZVM_ERROR_TYPE ∨
    (∃ e, bbzvm_call host isswrm V = bbzvm_seterror (bbzvm_pop V) e) ∨
    (¬ bbzvm_stack_size V < 1 ∧ bbzvm_type_ok V 0 BBZTYPE_INT = true ∧
      ¬ bbzvm_stack_size (bbzvm_pop V)
        < uint16 (bbzobj_ivalue (bbzvm_obj_at V (bbzvm_stack_at V 0))) + 1 ∧
      bbzvm_type_ok (bbzvm_pop V)
        (uint16 (bbzobj_ivalue (bbzvm_obj_at V (bbzvm_stack_at V 0)))) BBZTYPE_CLOSURE = true ∧
      ∃ a, bbzvm_call host isswrm V =
        bbzvm_call_run host
          (bbzvm_call_frame (bbzvm_call_locals isswrm (bbzvm_pop V)
            (uint16 (bbzobj_ivalue (bbzvm_obj_at V (bbzvm_stack_at V 0)))) a))
          (bbzvm_stack_at (bbzvm_pop V)
            (uint16 (bbzobj_ivalue (bbzvm_obj_at V (bbzvm_stack_at V 0)))))) := by
  unfold bbzvm_call
  lift_lets
  intro argn vm1 c cref cactrec vm2 vm3 vm4 vm5 vm6 vm7 vm8 vm9
  by_cases h1 : bbzvm_stack_size V < 1
  · rw [if_pos h1]; exact Or.inl rfl
  rw [if_neg h1]
  by_cases h2 : (!bbzvm_type_ok V 0 BBZTYPE_INT) = true
  · rw [if_pos h2]; exact Or.inr (Or.inl rfl)
  rw [if_neg h2]
  have h2' : bbzvm_type_ok V 0 BBZTYPE_INT = true := by simpa using h2
  by_cases h3 : bbzvm_stack_size vm1 < argn + 1
  · rw [if_pos h3]; exact Or.inr (Or.inr (Or.inl ⟨_, rfl⟩))
  rw [if_neg h3]
  by_cases h4 : (!bbzvm_type_ok vm1 argn BBZTYPE_CLOSURE) = true
  · rw [if_pos h4]; exact Or.inr (Or.inr (Or.inl ⟨_, rfl⟩))
  rw [if_neg h4]
  have h4' : bbzvm_type_ok vm1 argn BBZTYPE_CLOSURE = true := by simpa using h4
  by_cases h5 : (!bbzclosure_isnative (bbzvm_obj_at vm1 c)
          && decide (cref vm1 ≥ bbzdarray_size vm1.heap vm1.flist)) = true
  · rw [if_pos h5]; exact Or.inr (Or.inr (Or.inl ⟨_, rfl⟩))
  rw [if_neg h5]
  refine Or.inr (Or.inr (Or.inr ⟨h1, h2', h3, h4', cactrec, ?_⟩))
  have e6 : bbzvm_call_locals isswrm vm1 argn cactrec = vm6 := rfl
  have e9 : bbzvm_call_frame vm6 = vm9 := rfl
  show _ = bbzvm_call_run host (bbzvm_call_frame (bbzvm_call_locals isswrm vm1 argn cactrec)) c
  rw [e6, e9]
  clear_value vm9
  rfl

theorem bbzvm_keeps_lstore_fill (n : Nat) (V : bbzvm_t) :
    bbzvm_keeps V (bbzvm_lstore_fill n V) := by
  induction n generalizing V with
  | zero => exact bbzvm_keeps_refl _
  | succ k ih => exact bbzvm_keeps_trans (bbzvm_keeps_heap _ (bbzvm_keeps_refl _)) (ih _)

theorem bbzvm_keeps_lstore (V : bbzvm_t) (i : Nat) : bbzvm_keeps V (bbzvm_lstore V i) := by
  unfold bbzvm_lstore
  exact bbzvm_keeps_heap _ (bbzvm_keeps_lstore_fill _ _)

theorem bbzvm_keeps_exec_end {U V : bbzvm_t} (o : Nat) (h : bbzvm_keeps U V) :
    bbzvm_keeps U (bbzvm_exec_end o V) := by
  unfold bbzvm_exec_end
  split
  · exact bbzvm_keeps_pc _ h
  · exact h

theorem bbzvm_keeps_exec_arg {U V : bbzvm_t} (o : Nat) (k : bbzvm_t → Nat → bbzvm_t)
    (hk : ∀ W a, bbzvm_keeps W (k W a)) (h : bbzvm_keeps U V) :
    bbzvm_keeps U (bbzvm_exec_arg o V k) := by
  unfold bbzvm_exec_arg
  split
  · exact bbzvm_keeps_seterror _ h
  · exact bbzvm_keeps_exec_end _ (bbzvm_keeps_trans (bbzvm_keeps_pc _ h) (hk _ _))

theorem bbzvm_keeps_exec_chk {U V : bbzvm_t} (o : Nat) (h : bbzvm_keeps U V) :
    bbzvm_keeps U (bbzvm_exec_chk o V) := by
  unfold bbzvm_exec_chk
  split
  · exact bbzvm_keeps_seterror _ h
  · exact bbzvm_keeps_exec_end _ h

/-- Every opcode other than RET0, RET1, CALLC and CALLS, and the arm of an
unknown opcode, keeps the block pointer and the bounds of the stack
pointer. -/
theorem bbzvm_keeps_exec_switch (host : Nat → bbzvm_t → bbzvm_t) (o : Nat) (V : bbzvm_t)
    (i : Option bbzvm_instr)
    (hi : i ∉ [some bbzvm_instr.RET0, some .RET1, some .CALLC, some .CALLS]) :
    bbzvm_keeps V (bbzvm_exec_switch host o V i) := by
  rcases i with _ | i
  · exact bbzvm_keeps_exec_end _ (bbzvm_keeps_seterror _ (bbzvm_keeps_refl _))
  cases i
  case RET0 => exact absurd hi (by simp)
  case RET1 => exact absurd hi (by simp)
  case CALLC => exact absurd hi (by simp)
  case CALLS => exact absurd hi (by simp)
  case NOP => exact bbzvm_keeps_exec_end _ (bbzvm_keeps_refl _)
  case DONE => exact bbzvm_keeps_exec_end _ (bbzvm_keeps_done _)
  case PUSHNIL => exact bbzvm_keeps_exec_end _ (bbzvm_keeps_pushnil _)
  case DUP => exact bbzvm_keeps_exec_end _ (bbzvm_keeps_dup _)
  case POP => exact bbzvm_keeps_exec_end _ (bbzvm_keeps_pop (bbzvm_keeps_refl _))
  case ADD => exact bbzvm_keeps_exec_end _ (bbzvm_keeps_binary_op_arith _ _)
  case SUB => exact bbzvm_keeps_exec_end _ (bbzvm_keeps_binary_op_arith _ _)
  case MUL => exact bbzvm_keeps_exec_end _ (bbzvm_keeps_binary_op_arith _ _)
  case DIV => exact bbzvm_keeps_exec_end _ (bbzvm_keeps_binary_op_arith _ _)
  case MOD => exact bbzvm_keeps_exec_end _ (bbzvm_keeps_binary_op_arith _ _)
  case POW => exact bbzvm_keeps_exec_end _ (bbzvm_keeps_binary_op_arith _ _)
  case UNM => exact bbzvm_keeps_exec_end _ (bbzvm_keeps_unm _)
  case AND => exact bbzvm_keeps_exec_end _ (bbzvm_keeps_binary_op_logic _ _)
  case OR => exact bbzvm_keeps_exec_end _ (bbzvm_keeps_binary_op_logic _ _)
  case NOT => exact bbzvm_keeps_exec_end _ (bbzvm_keeps_not _)
  case EQ => exact bbzvm_keeps_exec_end _ (bbzvm_keeps_binary_op_cmp _ _)
  case NEQ => exact bbzvm_keeps_exec_end _ (bbzvm_keeps_binary_op_cmp _ _)
  case GT => exact bbzvm_keeps_exec_end _ (bbzvm_keeps_binary_op_cmp _ _)
  case GTE => exact bbzvm_keeps_exec_end _ (bbzvm_keeps_binary_op_cmp _ _)
  case LT => exact bbzvm_keeps_exec_end _ (bbzvm_keeps_binary_op_cmp _ _)
  case LTE => exact bbzvm_keeps_exec_end _ (bbzvm_keeps_binary_op_cmp _ _)
  case GLOAD => exact bbzvm_keeps_exec_end _ (bbzvm_keeps_gload _)
  case GSTORE => exact bbzvm_keeps_exec_end _ (bbzvm_keeps_gstore _)
  case PUSHT => exact bbzvm_keeps_exec_end _ (bbzvm_keeps_pusht _)
  case TPUT => exact bbzvm_keeps_exec_end _ (bbzvm_keeps_tput _)
  case TGET => exact bbzvm_keeps_exec_end _ (bbzvm_keeps_tget _)
  case PUSHF =>
    exact bbzvm_keeps_exec_arg _ _ (fun W a => bbzvm_keeps_pushf W _) (bbzvm_keeps_refl _)
  case PUSHI =>
    exact bbzvm_keeps_exec_arg _ (fun m arg => bbzvm_pushi m (int16 arg))
      (fun W a => bbzvm_keeps_pushi W (int16 a)) (bbzvm_keeps_refl _)
  case PUSHS =>
    exact bbzvm_keeps_exec_arg _ _ (fun W a => bbzvm_keeps_pushs W _) (bbzvm_keeps_refl _)
  case PUSHCN =>
    exact bbzvm_keeps_exec_arg _ (fun m arg => bbzvm_pushcn m (int16 arg))
      (fun W a => bbzvm_keeps_pushc W (int16 a) 1) (bbzvm_keeps_refl _)
  case PUSHCC =>
    exact bbzvm_keeps_exec_arg _ (fun m arg => bbzvm_pushcc m (int16 arg))
      (fun W a => bbzvm_keeps_pushc W (int16 a) 0) (bbzvm_keeps_refl _)
  case PUSHL =>
    exact bbzvm_keeps_exec_arg _ (fun m arg => bbzvm_pushl m (int16 arg))
      (fun W a => bbzvm_keeps_pushl W (int16 a)) (bbzvm_keeps_refl _)
  case LLOAD =>
    exact bbzvm_keeps_exec_arg _ _ (fun W a => bbzvm_keeps_lload W _) (bbzvm_keeps_refl _)
  case LSTORE =>
    exact bbzvm_keeps_exec_arg _ _ (fun W a => bbzvm_keeps_lstore W _) (bbzvm_keeps_refl _)
  case JUMP =>
    exact bbzvm_keeps_exec_arg _ _ (fun W a => bbzvm_keeps_jump W _) (bbzvm_keeps_refl _)
  case JUMPZ =>
    exact bbzvm_keeps_exec_arg _ _ (fun W a => bbzvm_keeps_jumpz W _) (bbzvm_keeps_refl _)
  case JUMPNZ =>
    exact bbzvm_keeps_exec_arg _ _ (fun W a => bbzvm_keeps_jumpnz W _) (bbzvm_keeps_refl _)

/-- The collector call of a step leaves the stack array length, the stack
pointer and the block pointer as they are. -/
theorem bbzvm_keeps_gc (vm : bbzvm_t) (h0 : -1 ≤ vm.stackptr)
    (h1 : vm.stackptr + 7 ≤ vm.stack.length) : bbzvm_keeps vm (bbzvm_gc vm).2 := by
  obtain ⟨-, F⟩ := bbzvm_gc_ok vm h0 h1
  obtain ⟨-, -, -, -, -, hsp, -, -, -, -, hbp⟩ := bbzvm_gc_frame_fields F
  refine ⟨F.len, hbp, ?_⟩
  intro h
  simp only [bbzvm_sp_ok, BBZSTACK_SIZE, hsp, F.len] at h ⊢
  exact h

/-- A step splits into the three ways it can go: the machine is not Ready,
the collector refuses, or one instruction runs on the machine the collector
left. -/
theorem bbzvm_step_cases (host : Nat → bbzvm_t → bbzvm_t) (vm : bbzvm_t)
    (h0 : -1 ≤ vm.stackptr) :
    bbzvm_step host vm = vm ∨ bbzvm_step host vm = bbzvm_seterror vm BBZVM_ERROR_STACK ∨
    (vm.stackptr + 7 ≤ vm.stack.length ∧
      (bbzvm_step host vm = bbzvm_seterror { (bbzvm_gc vm).2 with pc := (vm.pc + 1) % 65536 }
          BBZVM_ERROR_PC ∨
        bbzvm_step host vm = bbzvm_exec_switch host vm.pc
          { (bbzvm_gc vm).2 with pc := (vm.pc + 1) % 65536 }
          (bbzvm_instr.decode (vm.bcode_fetch_fun vm.pc % 256)))) := by
  by_cases hr : vm.state = BBZVM_STATE_READY
  · by_cases hm : BBZSTACK_SIZE vm - bbzvm_stack_size vm < 6
    · exact Or.inr (Or.inl (bbzvm_step_nogc host vm hr hm).2)
    · have h1 : vm.stackptr + 7 ≤ vm.stack.length := by
        simp only [BBZSTACK_SIZE, bbzvm_stack_size] at hm; omega
      obtain ⟨hg1, F⟩ := bbzvm_gc_ok vm h0 h1
      obtain ⟨hpc, hsz, hf, -⟩ := bbzvm_gc_frame_fields F
      refine Or.inr (Or.inr ⟨h1, ?_⟩)
      have e : bbzvm_gc vm = (true, (bbzvm_gc vm).2) := by rw [← hg1]
      unfold bbzvm_step
      rw [if_pos hr, e]
      simp only []
      unfold bbzvm_exec_instr
      simp only [hpc, hf]
      split
      · exact Or.inl rfl
      · exact Or.inr rfl
  · left
    unfold bbzvm_step
    rw [if_neg hr]

theorem bbzvm_keeps_step (host : Nat → bbzvm_t → bbzvm_t) (vm : bbzvm_t)
    (h0 : -1 ≤ vm.stackptr)
    (hi : bbzvm_instr.decode (vm.bcode_fetch_fun vm.pc % 256)
      ∉ [some bbzvm_instr.RET0, some .RET1, some .CALLC, some .CALLS]) :
    bbzvm_keeps vm (bbzvm_step host vm) := by
  rcases bbzvm_step_cases host vm h0 with e | e | ⟨h1, e | e⟩
  · rw [e]; exact bbzvm_keeps_refl _
  · rw [e]; exact bbzvm_keeps_seterror _ (bbzvm_keeps_refl _)
  · rw [e]; exact bbzvm_keeps_seterror _ (bbzvm_keeps_pc _ (bbzvm_keeps_gc vm h0 h1))
  · rw [e]
    exact bbzvm_keeps_trans (bbzvm_keeps_pc _ (bbzvm_keeps_gc vm h0 h1))
      (bbzvm_keeps_exec_switch host _ _ _ hi)

theorem bbzvm_ret_lsyms_frame (V : bbzvm_t) :
    ∃ h l, bbzvm_ret_lsyms V = { V with heap := h, lsyms := l } := by
  unfold bbzvm_ret_lsyms
  dsimp only
  split
  · exact ⟨_, _, rfl⟩
  · exact ⟨_, _, rfl⟩

theorem bbzvm_ret_frame_sp (V : bbzvm_t)
    (hbp : -1 ≤ V.blockptr ∧ V.blockptr < V.stack.length) :
    bbzvm_sp_ok (bbzvm_ret_frame V) ∧ (bbzvm_ret_frame V).stack.length = V.stack.length := by
  have k : bbzvm_keeps
      { V with
        stackptr := V.blockptr
        blockptr := bbzobj_ivalue (bbzvm_obj_at V (bbzvm_stack_at { V with stackptr := V.blockptr } 0)) }
      (bbzvm_ret_frame V) := by
    unfold bbzvm_ret_frame
    lift_lets
    intro vm1 vm2 vm3 vm4
    split
    · exact bbzvm_keeps_seterror _ (bbzvm_keeps_pop (bbzvm_keeps_refl _))
    split
    · exact bbzvm_keeps_seterror _ (bbzvm_keeps_pop (bbzvm_keeps_refl _))
    · exact bbzvm_keeps_pop (bbzvm_keeps_pc _ (bbzvm_keeps_pop (bbzvm_keeps_refl _)))
  exact ⟨k.2.2 hbp, k.1⟩

theorem bbzvm_ret0_sp (V : bbzvm_t)
    (hbp : -1 ≤ V.blockptr ∧ V.blockptr < V.stack.length) :
    bbzvm_sp_ok (bbzvm_ret0 V) ∧ (bbzvm_ret0 V).stack.length = V.stack.length := by
  obtain ⟨h, l, e⟩ := bbzvm_ret_lsyms_frame V
  unfold bbzvm_ret0
  rw [e]
  exact bbzvm_ret_frame_sp _ hbp

theorem bbzvm_ret1_sp (V : bbzvm_t) (hsp : bbzvm_sp_ok V)
    (hbp : -1 ≤ V.blockptr ∧ V.blockptr < V.stack.length) :
    bbzvm_sp_ok (bbzvm_ret1 V) ∧ (bbzvm_ret1 V).stack.length = V.stack.length := by
  obtain ⟨h, l, e⟩ := bbzvm_ret_lsyms_frame V
  unfold bbzvm_ret1
  rw [e]
  lift_lets
  intro vm1 ret vm2 vm3 vm4 vm5
  have k : bbzvm_keeps vm3 vm4 := bbzvm_keeps_pop (bbzvm_keeps_refl _)
  have h3 : bbzvm_sp_ok vm3 := hbp
  split
  · exact ⟨hsp, rfl⟩
  split
  · exact ⟨(bbzvm_keeps_seterror BBZVM_ERROR_STACK k).2.2 h3, k.1⟩
  split
  · exact ⟨(bbzvm_keeps_seterror BBZVM_ERROR_TYPE k).2.2 h3, k.1⟩
  · have k2 : bbzvm_keeps vm3 (bbzvm_push (bbzvm_pop vm5) ret) :=
      bbzvm_keeps_push _ (bbzvm_keeps_pop (bbzvm_keeps_pc _ k))
    exact ⟨k2.2.2 h3, k2.1⟩

theorem bbzvm_call_args_eq (n : Nat) (V : bbzvm_t) :
    bbzvm_call_args n V
      = { V with heap := (bbzvm_call_args n V).heap, stackptr := V.stackptr - n } := by
  induction n generalizing V with
  | zero => simp [bbzvm_call_args]
  | succ k ih =>
    rw [bbzvm_call_args, ih]
    simp only [Nat.cast_add, Nat.cast_one]
    congr 1
    omega

theorem bbzvm_call_locals_eq (isswrm : Bool) (vm1 : bbzvm_t) (argn : Int) (a : Nat) :
    ∃ h l, bbzvm_call_locals isswrm vm1 argn a
      = { vm1 with heap := h, lsyms := l, stackptr := vm1.stackptr - (int16 argn).toNat - 1 } := by
  unfold bbzvm_call_locals
  lift_lets
  intro vm2 vm3 vm4 vm5
  have e2 : ∃ h l, vm2 = { vm1 with heap := h, lsyms := l } := by
    show ∃ h l, (match bbzdarray_clone vm1.heap (if a = 0xFF then vm1.dflt_actrec else a) with
      | some (h, l) => { vm1 with heap := h, lsyms := l }
      | none => vm1) = _
    split
    · exact ⟨_, _, rfl⟩
    · exact ⟨vm1.heap, vm1.lsyms, rfl⟩
  obtain ⟨h2, l2, e2⟩ := e2
  have e3 : ∃ h, vm3 = { vm1 with heap := h, lsyms := l2 } := by
    show ∃ h, (if isswrm then { vm2 with heap := bbzdarray_mark_swarm vm2.heap vm2.lsyms }
      else vm2) = _
    rw [e2]
    split
    · exact ⟨_, rfl⟩
    · exact ⟨_, rfl⟩
  obtain ⟨h3, e3⟩ := e3
  have e5 : vm5 = bbzvm_call_args (int16 argn).toNat vm4 := rfl
  have e4 : vm4 = { vm3 with heap := bbzdarray_push vm3.heap vm3.lsymts vm3.lsyms } := rfl
  clear_value vm5 vm4 vm3 vm2
  rw [e5, bbzvm_call_args_eq, e4, e3]
  exact ⟨_, _, rfl⟩

theorem bbzvm_call_frame_sp (V : bbzvm_t) (hsp : bbzvm_sp_ok V) :
    bbzvm_sp_ok (bbzvm_call_frame V) ∧ (bbzvm_call_frame V).stack.length = V.stack.length := by
  have k : bbzvm_keeps V (bbzvm_pushi (bbzvm_pushi V (int16 V.pc))
      (int16 (bbzvm_pushi V (int16 V.pc)).blockptr)) :=
    bbzvm_keeps_trans (bbzvm_keeps_pushi _ _) (bbzvm_keeps_pushi _ _)
  exact ⟨k.2.2 hsp, k.1⟩

theorem bbzvm_call_run_sp (host : Nat → bbzvm_t → bbzvm_t)
    (hhost : ∀ p W, bbzvm_sp_ok W →
      bbzvm_sp_ok (host p W) ∧ (host p W).stack.length = W.stack.length)
    (V : bbzvm_t) (c : Nat) (hsp : bbzvm_sp_ok V) :
    bbzvm_sp_ok (bbzvm_call_run host V c) ∧ (bbzvm_call_run host V c).stack.length
      = V.stack.length := by
  unfold bbzvm_call_run
  dsimp only
  split
  · exact ⟨hsp, rfl⟩
  split
  · split
    · exact hhost _ _ hsp
    · exact hhost _ _ hsp
  · exact hhost _ _ hsp

theorem bbzvm_call_sp (host : Nat → bbzvm_t → bbzvm_t)
    (hhost : ∀ p W, bbzvm_sp_ok W →
      bbzvm_sp_ok (host p W) ∧ (host p W).stack.length = W.stack.length)
    (isswrm : Bool) (V : bbzvm_t) (hsp : bbzvm_sp_ok V) :
    bbzvm_sp_ok (bbzvm_call host isswrm V) ∧ (bbzvm_call host isswrm V).stack.length
      = V.stack.length := by
  have kp : bbzvm_keeps V (bbzvm_pop V) := bbzvm_keeps_pop (bbzvm_keeps_refl _)
  rcases bbzvm_call_cases host isswrm V with e | e | ⟨x, e⟩ | ⟨h1, -, h3, -, a, e⟩
  · rw [e]; exact ⟨hsp, rfl⟩
  · rw [e]; exact ⟨hsp, rfl⟩
  · rw [e]; exact ⟨kp.2.2 hsp, kp.1⟩
  · rw [e]
    obtain ⟨h, l, e6⟩ := bbzvm_call_locals_eq isswrm (bbzvm_pop V)
      (uint16 (bbzobj_ivalue (bbzvm_obj_at V (bbzvm_stack_at V 0)))) a
    rw [e6]
    have hpop : bbzvm_pop V = { V with stackptr := V.stackptr - 1 } :=
      bbzvm_pop_ok V (by simp only [bbzvm_stack_size] at h1; omega)
    rw [hpop] at h3 ⊢
    have h6 : bbzvm_sp_ok { V with
        heap := h, lsyms := l
        stackptr := V.stackptr - 1
          - (int16 (uint16 (bbzobj_ivalue (bbzvm_obj_at V (bbzvm_stack_at V 0))))).toNat - 1 } := by
      simp only [bbzvm_sp_ok, BBZSTACK_SIZE, bbzvm_stack_size, uint16, int16] at hsp h3 ⊢
      omega
    obtain ⟨s9, l9⟩ := bbzvm_call_frame_sp _ h6
    obtain ⟨s10, l10⟩ := bbzvm_call_run_sp host hhost _
      (bbzvm_stack_at { V with stackptr := V.stackptr - 1 }
        (uint16 (bbzobj_ivalue (bbzvm_obj_at V (bbzvm_stack_at V 0))))) s9
    exact ⟨s10, l10.trans l9⟩

/-- C17 (amended): the predicate `-1 <= sp < BBZSTACK_SIZE and bp <= sp`
holds after construction.  From a machine with `-1 <= sp < BBZSTACK_SIZE`,
a step on any bytecode whose opcode at `pc` is not RET0, RET1, CALLC or
CALLS (an unknown opcode and a step ending in Error included) leaves
`-1 <= sp < BBZSTACK_SIZE` and does not change `bp`; a step on RET0 or RET1
leaves `-1 <= sp < BBZSTACK_SIZE` when `-1 <= bp < BBZSTACK_SIZE`; a step
on CALLC or CALLS leaves it when the host functions do. -/
theorem c17_stack_bounds (host : Nat → bbzvm_t → bbzvm_t) (robot : Nat) (vm : bbzvm_t) :
    (-1 ≤ (bbzvm_construct robot vm).stackptr ∧
      (bbzvm_construct robot vm).stackptr < BBZSTACK_SIZE (bbzvm_construct robot vm) ∧
      (bbzvm_construct robot vm).blockptr ≤ (bbzvm_construct robot vm).stackptr) ∧
    (-1 ≤ vm.stackptr ∧ vm.stackptr < BBZSTACK_SIZE vm →
      (bbzvm_instr.decode (vm.bcode_fetch_fun vm.pc % 256)
          ∉ [some bbzvm_instr.RET0, some .RET1, some .CALLC, some .CALLS] →
        -1 ≤ (bbzvm_step host vm).stackptr ∧
        (bbzvm_step host vm).stackptr < BBZSTACK_SIZE (bbzvm_step host vm) ∧
        (bbzvm_step host vm).blockptr = vm.blockptr ∧
        BBZSTACK_SIZE (bbzvm_step host vm) = BBZSTACK_SIZE vm) ∧
      (bbzvm_instr.decode (vm.bcode_fetch_fun vm.pc % 256)
          ∈ [some bbzvm_instr.RET0, some .RET1] →
        -1 ≤ vm.blockptr ∧ vm.blockptr < BBZSTACK_SIZE vm →
        -1 ≤ (bbzvm_step host vm).stackptr ∧
        (bbzvm_step host vm).stackptr < BBZSTACK_SIZE (bbzvm_step host vm)) ∧
      (bbzvm_instr.decode (vm.bcode_fetch_fun vm.pc % 256)
          ∈ [some bbzvm_instr.CALLC, some .CALLS] →
        (∀ p W, bbzvm_sp_ok W →
          bbzvm_sp_ok (host p W) ∧ (host p W).stack.length = W.stack.length) →
        -1 ≤ (bbzvm_step host vm).stackptr ∧
        (bbzvm_step host vm).stackptr < BBZSTACK_SIZE (bbzvm_step host vm))) := by
  constructor
  · have e1 : (bbzvm_construct robot vm).stackptr = -1 := rfl
    have e2 : (bbzvm_construct robot vm).blockptr = -1 := rfl
    rw [e1, e2]
    refine ⟨le_refl _, ?_, le_refl _⟩
    simp only [BBZSTACK_SIZE]
    omega
  · intro hsp
    have hok : bbzvm_sp_ok vm := hsp
    refine ⟨?_, ?_, ?_⟩
    · intro hi
      obtain ⟨k1, k2, k3⟩ := bbzvm_keeps_step host vm hsp.1 hi
      obtain ⟨s1, s2⟩ := k3 hok
      exact ⟨s1, s2, k2, by simp only [BBZSTACK_SIZE, k1]⟩
    · intro hi hbp
      rcases bbzvm_step_cases host vm hsp.1 with e | e | ⟨h1, e | e⟩
      · rw [e]; exact hsp
      · rw [e]; exact hsp
      · rw [e]
        exact (bbzvm_keeps_seterror _ (bbzvm_keeps_pc _ (bbzvm_keeps_gc vm hsp.1 h1))).2.2 hok
      · have kg := bbzvm_keeps_pc ((vm.pc + 1) % 65536) (bbzvm_keeps_gc vm hsp.1 h1)
        have hbp' : -1 ≤ ({ (bbzvm_gc vm).2 with pc := (vm.pc + 1) % 65536 } : bbzvm_t).blockptr ∧
            ({ (bbzvm_gc vm).2 with pc := (vm.pc + 1) % 65536 } : bbzvm_t).blockptr
              < ({ (bbzvm_gc vm).2 with pc := (vm.pc + 1) % 65536 } : bbzvm_t).stack.length := by
          rw [kg.2.1, kg.1]
          exact hbp
        rw [e]
        simp only [List.mem_cons, List.mem_singleton, List.not_mem_nil, or_false] at hi
        rcases hi with hi | hi
        · rw [hi]
          obtain ⟨s, l⟩ := bbzvm_ret0_sp _ hbp'
          exact (bbzvm_keeps_exec_chk vm.pc (bbzvm_keeps_refl _)).2.2 s
        · rw [hi]
          obtain ⟨s, l⟩ := bbzvm_ret1_sp _ (kg.2.2 hok) hbp'
          exact (bbzvm_keeps_exec_chk vm.pc (bbzvm_keeps_refl _)).2.2 s
    · intro hi hhost
      rcases bbzvm_step_cases host vm hsp.1 with e | e | ⟨h1, e | e⟩
      · rw [e]; exact hsp
      · rw [e]; exact hsp
      · rw [e]
        exact (bbzvm_keeps_seterror _ (bbzvm_keeps_pc _ (bbzvm_keeps_gc vm hsp.1 h1))).2.2 hok
      · have kg := bbzvm_keeps_pc ((vm.pc + 1) % 65536) (bbzvm_keeps_gc vm hsp.1 h1)
        rw [e]
        simp only [List.mem_cons, List.mem_singleton, List.not_mem_nil, or_false] at hi
        rcases hi with hi | hi
        · rw [hi]
          obtain ⟨s, l⟩ := bbzvm_call_sp host hhost false _ (kg.2.2 hok)
          exact (bbzvm_keeps_exec_chk vm.pc (bbzvm_keeps_refl _)).2.2 s
        · rw [hi]
          obtain ⟨s, l⟩ := bbzvm_call_sp host hhost true _ (kg.2.2 hok)
          exact (bbzvm_keeps_exec_chk vm.pc (bbzvm_keeps_refl _)).2.2 s

/-- Witness of C17: a step on POP with one entry on the stack. -/
theorem c17_stack_bounds_witness :
    -1 ≤ (bbzvm_step test_host (test_vm (-21244) 8384 [4, 0] [6])).stackptr ∧
    (bbzvm_step test_host (test_vm (-21244) 8384 [4, 0] [6])).stackptr
      < BBZSTACK_SIZE (bbzvm_step test_host (test_vm (-21244) 8384 [4, 0] [6])) ∧
    (bbzvm_step test_host (test_vm (-21244) 8384 [4, 0] [6])).blockptr = -1 :=
  have h := ((c17_stack_bounds test_host 0 (test_vm (-21244) 8384 [4, 0] [6])).2
    (by decide)).1 (by decide)
  ⟨h.1, h.2.1, h.2.2.1⟩

/-- Counterexample to C17 as stated: after CALLC on a bytecode closure
without arguments the machine is Ready with `sp = bp = 1`, so the predicate
holds; the next step executes POP, stays Ready and leaves `sp = 0` below
`bp = 1`: `bp <= sp` fails. -/
theorem c17_pop_counterexample :
    (bbzvm_step test_host (call_vm [28, 0, 0, 4, 0] [11, 8])).state = BBZVM_STATE_READY ∧
    (bbzvm_step test_host (call_vm [28, 0, 0, 4, 0] [11, 8])).stackptr = 1 ∧
    (bbzvm_step test_host (call_vm [28, 0, 0, 4, 0] [11, 8])).blockptr = 1 ∧
    BBZSTACK_SIZE (bbzvm_step test_host (call_vm [28, 0, 0, 4, 0] [11, 8])) = 16 ∧
    (bbzvm_step test_host (bbzvm_step test_host (call_vm [28, 0, 0, 4, 0] [11, 8]))).state
      = BBZVM_STATE_READY ∧
    (bbzvm_step test_host (bbzvm_step test_host (call_vm [28, 0, 0, 4, 0] [11, 8]))).stackptr
      = 0 ∧
    (bbzvm_step test_host (bbzvm_step test_host (call_vm [28, 0, 0, 4, 0] [11, 8]))).blockptr
      = 1 := by
  decide

/-- C18 (code at the failing input): CALLC with the argument count 2, the
arguments `a0` (slot 9) and `a1` (slot 8, on top) and the closure directly
below `a0`.  The step succeeds; the new local-symbol array has three
elements: the element of the default activation record at index 0, then
`a1` at index 1 and `a0` at index 2, that is the arguments in reverse
order; the array is the last element of the local-symbol-array stack. -/
theorem c18_call_args_reversed :
    (bbzvm_step test_host (call_vm [28, 0, 0, 5, 0] [11, 9, 8, 6])).state = BBZVM_STATE_READY ∧
    bbzdarray_size (bbzvm_step test_host (call_vm [28, 0, 0, 5, 0] [11, 9, 8, 6])).heap
      (bbzvm_step test_host (call_vm [28, 0, 0, 5, 0] [11, 9, 8, 6])).lsyms = 3 ∧
    bbzdarray_get (bbzvm_step test_host (call_vm [28, 0, 0, 5, 0] [11, 9, 8, 6])).heap
      (bbzvm_step test_host (call_vm [28, 0, 0, 5, 0] [11, 9, 8, 6])).lsyms 0 = some 0 ∧
    bbzdarray_get (bbzvm_step test_host (call_vm [28, 0, 0, 5, 0] [11, 9, 8, 6])).heap
      (bbzvm_step test_host (call_vm [28, 0, 0, 5, 0] [11, 9, 8, 6])).lsyms 1 = some 8 ∧
    bbzdarray_get (bbzvm_step test_host (call_vm [28, 0, 0, 5, 0] [11, 9, 8, 6])).heap
      (bbzvm_step test_host (call_vm [28, 0, 0, 5, 0] [11, 9, 8, 6])).lsyms 2 = some 9 ∧
    bbzdarray_last (bbzvm_step test_host (call_vm [28, 0, 0, 5, 0] [11, 9, 8, 6])).heap
      (bbzvm_step test_host (call_vm [28, 0, 0, 5, 0] [11, 9, 8, 6])).lsymts
      = some (bbzvm_step test_host (call_vm [28, 0, 0, 5, 0] [11, 9, 8, 6])).lsyms := by
  decide

/-! ## The frame of a call -/

theorem bbzheap_ext_refl (h : bbzheap_t) : bbzheap_ext h h := fun _ hv => ⟨hv, rfl⟩

theorem bbzheap_ext_trans {h1 h2 h3 : bbzheap_t} (a : bbzheap_ext h1 h2) (b : bbzheap_ext h2 h3) :
    bbzheap_ext h1 h3 := fun i hv =>
  ⟨(b i (a i hv).1).1, ((b i (a i hv).1).2).trans (a i hv).2⟩

theorem bbzheap_ext_objs {h h' : bbzheap_t} (e : h'.objs = h.objs) : bbzheap_ext h h' := by
  intro i hv
  constructor
  · simpa only [bbzheap_obj_isvalid, e] using hv
  · simp only [bbzheap_obj_at, e]

theorem bbzheap_obj_write_other (h : bbzheap_t) (i j : Nat) (o : bbzobj_t) (hji : j ≠ i) :
    bbzheap_obj_at (bbzheap_obj_write h i o) j = bbzheap_obj_at h j := by
  unfold bbzheap_obj_write bbzheap_obj_at
  simp only [List.getD_eq_getElem?_getD, List.getElem?_set]
  simp [Ne.symm hji]

/-- Writing a slot that was free in `h` keeps the extension of `h`. -/
theorem bbzheap_ext_write {h h' : bbzheap_t} (i : Nat) (o : bbzobj_t) (a : bbzheap_ext h h')
    (hi : bbzheap_obj_isvalid h i = false) : bbzheap_ext h (bbzheap_obj_write h' i o) := by
  intro j hv
  have hji : j ≠ i := by
    intro e; rw [e, hi] at hv; exact absurd hv (by simp)
  rw [bbzheap_obj_write_valid, bbzheap_obj_write_other _ _ _ _ hji]
  exact a j hv

theorem bbzheap_ext_place (h : bbzheap_t) (i : Nat) (o : bbzobj_t)
    (hs : bbzheap_obj_slot h = some i) : bbzheap_ext h (bbzheap_obj_place h i o) := by
  obtain ⟨hi, hinv⟩ := bbzheap_obj_slot_spec h i hs
  intro j hv
  have hji : j ≠ i := by
    intro e; rw [e, hinv] at hv; exact absurd hv (by simp)
  rw [bbzheap_obj_place_valid _ _ _ _ hi, bbzheap_obj_place_at _ _ _ _ hi, if_neg hji, if_neg hji]
  exact ⟨hv, rfl⟩

theorem bbzheap_tseg_alloc_objs (h h1 : bbzheap_t) (s : Nat)
    (e : bbzheap_tseg_alloc h = some (h1, s)) : h1.objs = h.objs := by
  unfold bbzheap_tseg_alloc at e
  dsimp only at e
  split at e
  · cases e; rfl
  · split at e
    · cases e; rfl
    · cases e

theorem bbzheap_tseg_setcell_objs (h : bbzheap_t) (s p : Nat) (c : Option (Nat × Nat)) :
    (bbzheap_tseg_setcell h s p c).objs = h.objs := rfl

theorem bbztable_insert_objs (h : bbzheap_t) (t k v : Nat) :
    (bbztable_insert h t k v).objs = h.objs := by
  unfold bbztable_insert
  split
  · rfl
  · split
    · rfl
    · split
      · rfl
      · rename_i e
        have := bbzheap_tseg_alloc_objs _ _ _ e
        exact this

/-- An allocation extends the heap, and the slot it returns was free. -/
theorem bbzheap_ext_alloc (h h1 : bbzheap_t) (t i : Nat)
    (e : bbzheap_obj_alloc h t = some (h1, i)) :
    bbzheap_ext h h1 ∧ bbzheap_obj_isvalid h i = false := by
  unfold bbzheap_obj_alloc at e
  split at e
  · cases e
  · rename_i j hs
    have hinv := (bbzheap_obj_slot_spec h j hs).2
    split at e
    · split at e
      · cases e
      · rename_i h2 seg e2
        cases e
        refine ⟨?_, hinv⟩
        apply bbzheap_ext_write _ _ _ hinv
        exact bbzheap_ext_trans (bbzheap_ext_place h _ _ hs)
          (bbzheap_ext_objs (bbzheap_tseg_alloc_objs _ _ _ e2))
    · cases e
      exact ⟨bbzheap_ext_place h _ _ hs, hinv⟩

theorem bbzheap_ext_darray_push (h : bbzheap_t) (d v : Nat) :
    bbzheap_ext h (bbzdarray_push h d v) := by
  unfold bbzdarray_push
  split
  · exact bbzheap_ext_refl h
  · rename_i h1 k e
    obtain ⟨x, hinv⟩ := bbzheap_ext_alloc _ _ _ _ e
    exact bbzheap_ext_trans (bbzheap_ext_write k _ x hinv)
      (bbzheap_ext_objs (bbztable_insert_objs _ _ _ _))

theorem bbzheap_ext_setflags {h h' : bbzheap_t} (d : Nat) (x y : Bool) (a : bbzheap_ext h h')
    (hd : bbzheap_obj_isvalid h d = false) : bbzheap_ext h (bbzdarray_setflags h' d x y) := by
  unfold bbzdarray_setflags
  split
  · exact bbzheap_ext_write _ _ a hd
  · exact a

theorem bbzheap_ext_darray_new (h h1 : bbzheap_t) (d : Nat)
    (e : bbzdarray_new h = some (h1, d)) :
    bbzheap_ext h h1 ∧ bbzheap_obj_isvalid h d = false := by
  unfold bbzdarray_new at e
  split at e
  · cases e
  · rename_i h2 d2 e2
    cases e
    obtain ⟨x, hinv⟩ := bbzheap_ext_alloc _ _ _ _ e2
    exact ⟨bbzheap_ext_setflags _ _ _ x hinv, hinv⟩

theorem bbzheap_ext_foldl_push {α : Type} (h0 : bbzheap_t) (g : α → Option Nat) (n : Nat)
    (l : List α)
    (h : bbzheap_t) (a : bbzheap_ext h0 h) :
    bbzheap_ext h0 (l.foldl (fun acc i =>
      match g i with
      | some v => bbzdarray_push acc n v
      | none => acc) h) := by
  induction l generalizing h with
  | nil => exact a
  | cons x rest ih =>
    rw [List.foldl_cons]
    apply ih
    split
    · exact bbzheap_ext_trans a (bbzheap_ext_darray_push _ _ _)
    · exact a

theorem bbzheap_ext_darray_clone (h h1 : bbzheap_t) (d n : Nat)
    (e : bbzdarray_clone h d = some (h1, n)) : bbzheap_ext h h1 := by
  unfold bbzdarray_clone at e
  split at e
  · cases e
  · next h2 n2 e2 =>
    obtain ⟨x, hinv⟩ := bbzheap_ext_darray_new _ _ _ e2
    dsimp only at e
    cases e
    apply bbzheap_ext_setflags _ _ _ _ hinv
    exact bbzheap_ext_foldl_push h (fun i : Int => bbzdarray_get h d i) n _ h2 x

theorem bbzheap_ext_call_args (n : Nat) (V : bbzvm_t) :
    bbzheap_ext V.heap (bbzvm_call_args n V).heap := by
  induction n generalizing V with
  | zero => exact bbzheap_ext_refl _
  | succ k ih =>
    rw [bbzvm_call_args]
    exact bbzheap_ext_trans (bbzheap_ext_darray_push V.heap V.lsyms (bbzvm_stack_at V 0))
      (ih { V with
        heap := bbzdarray_push V.heap V.lsyms (bbzvm_stack_at V 0)
        stackptr := V.stackptr - 1 })

/-- The part of a call that is not a swarm call up to the removal of the
closure: the heap is extended, the local symbols change and the stack
pointer goes down by the number of arguments and one. -/
theorem bbzvm_call_locals_ext (vm1 : bbzvm_t) (argn : Int) (a : Nat) :
    ∃ h l, bbzheap_ext vm1.heap h ∧ bbzvm_call_locals false vm1 argn a
      = { vm1 with heap := h, lsyms := l, stackptr := vm1.stackptr - (int16 argn).toNat - 1 } := by
  unfold bbzvm_call_locals
  lift_lets
  intro vm2 vm3 vm4 vm5
  have e2 : ∃ h l, bbzheap_ext vm1.heap h ∧ vm2 = { vm1 with heap := h, lsyms := l } := by
    show ∃ h l, bbzheap_ext vm1.heap h ∧
      (match bbzdarray_clone vm1.heap (if a = 0xFF then vm1.dflt_actrec else a) with
      | some (h, l) => { vm1 with heap := h, lsyms := l }
      | none => vm1) = _
    split
    · rename_i h l e
      exact ⟨_, _, bbzheap_ext_darray_clone _ _ _ _ e, rfl⟩
    · exact ⟨vm1.heap, vm1.lsyms, bbzheap_ext_refl _, rfl⟩
  obtain ⟨h2, l2, x2, e2⟩ := e2
  have e3 : vm3 = vm2 := rfl
  have e5 : vm5 = bbzvm_call_args (int16 argn).toNat vm4 := rfl
  have e4 : vm4 = { vm3 with heap := bbzdarray_push vm3.heap vm3.lsymts vm3.lsyms } := rfl
  clear_value vm5 vm4 vm3 vm2
  have x5 : bbzheap_ext vm1.heap vm5.heap := by
    rw [e5]
    refine bbzheap_ext_trans ?_ (bbzheap_ext_call_args _ _)
    rw [e4, e3, e2]
    exact bbzheap_ext_trans x2 (bbzheap_ext_darray_push _ _ _)
  refine ⟨vm5.heap, l2, x5, ?_⟩
  rw [e5, bbzvm_call_args_eq, e4, e3, e2]

theorem bbzheap_ext_with_int (h : bbzheap_t) (i : Nat) (x : Int)
    (hs : bbzheap_obj_slot h = some i) : bbzheap_ext h (bbzheap_with_int h i x) := by
  have hinv := (bbzheap_obj_slot_spec h i hs).2
  intro j hv
  have hji : j ≠ i := by
    intro e; rw [e, hinv] at hv; exact absurd hv (by simp)
  rw [bbzheap_with_int_valid _ _ _ _ hs, bbzheap_with_int_at _ _ _ _ hs, if_neg hji, if_neg hji]
  exact ⟨hv, rfl⟩

theorem bbzvm_push_state (V : bbzvm_t) (v : Nat) (h : V.state ≠ BBZVM_STATE_READY) :
    (bbzvm_push V v).state ≠ BBZVM_STATE_READY := by
  unfold bbzvm_push
  split
  · simp [bbzvm_seterror]
  · exact h

/-- The function `bbzvm_pushi` on a machine that is not Ready leaves it not
Ready. -/
theorem bbzvm_pushi_state (V : bbzvm_t) (v : Int) (h : V.state ≠ BBZVM_STATE_READY) :
    (bbzvm_pushi V v).state ≠ BBZVM_STATE_READY := by
  unfold bbzvm_pushi
  apply bbzvm_push_state
  show (bbzvm_obj_alloc V BBZTYPE_INT).1.state ≠ BBZVM_STATE_READY
  unfold bbzvm_obj_alloc
  split
  · exact h
  · simp [bbzvm_seterror]

/-- The function `bbzvm_pushi` that leaves the machine Ready has allocated
an Int in a free slot and pushed it. -/
theorem bbzvm_pushi_ready (V : bbzvm_t) (v : Int)
    (hr : (bbzvm_pushi V v).state = BBZVM_STATE_READY) :
    ∃ i, bbzheap_obj_slot V.heap = some i ∧ V.stackptr + 1 < V.stack.length ∧
      bbzvm_pushi V v =
        { V with
          heap := bbzheap_with_int V.heap i v
          stackptr := V.stackptr + 1
          stack := V.stack.set (V.stackptr + 1).toNat i } := by
  cases hs : bbzheap_obj_slot V.heap with
  | none =>
    exfalso
    have ea : bbzvm_obj_alloc V BBZTYPE_INT = (bbzvm_seterror V BBZVM_ERROR_MEM, V.garbage) := by
      simp [bbzvm_obj_alloc, bbzheap_obj_alloc, hs]
    unfold bbzvm_pushi at hr
    rw [ea] at hr
    exact bbzvm_push_state _ _ (by simp [bbzvm_obj_setvalue, bbzvm_seterror]) hr
  | some i =>
    have e : bbzvm_pushi V v = bbzvm_push { V with heap := bbzheap_with_int V.heap i v } i := by
      unfold bbzvm_pushi
      rw [bbzvm_obj_alloc_int V i hs]
      simp only []
      rw [bbzvm_alloc_set_int V i v hs]
    by_cases hlen : V.stackptr + 1 < V.stack.length
    · refine ⟨i, rfl, hlen, ?_⟩
      rw [e]
      exact bbzvm_push_ok { V with heap := bbzheap_with_int V.heap i v } i hlen
    · exfalso
      rw [e] at hr
      unfold bbzvm_push at hr
      rw [if_pos (by simp only [bbzvm_stack_size, BBZSTACK_SIZE]; omega)] at hr
      simp [bbzvm_seterror] at hr

/-- The frame of a call that leaves the machine Ready: two Ints are
allocated, the first holds the program counter and the second the block
pointer as 16-bit signed values, they are pushed in this order and the
block pointer is set to the stack pointer. -/
theorem bbzvm_call_frame_ready (V : bbzvm_t)
    (hr : (bbzvm_call_frame V).state = BBZVM_STATE_READY) :
    ∃ i j, bbzheap_obj_slot V.heap = some i ∧
      bbzheap_obj_slot (bbzheap_with_int V.heap i (int16 V.pc)) = some j ∧
      V.stackptr + 2 < V.stack.length ∧
      bbzvm_call_frame V =
        { V with
          heap := bbzheap_with_int (bbzheap_with_int V.heap i (int16 V.pc)) j (int16 V.blockptr)
          stackptr := V.stackptr + 2
          stack := (V.stack.set (V.stackptr + 1).toNat i).set (V.stackptr + 2).toNat j
          blockptr := V.stackptr + 2 } := by
  have hr8 : (bbzvm_pushi (bbzvm_pushi V (int16 V.pc))
      (int16 (bbzvm_pushi V (int16 V.pc)).blockptr)).state = BBZVM_STATE_READY := hr
  have hr7 : (bbzvm_pushi V (int16 V.pc)).state = BBZVM_STATE_READY := by
    by_contra hc
    exact bbzvm_pushi_state _ _ hc hr8
  obtain ⟨i, hi, hl1, e7⟩ := bbzvm_pushi_ready V _ hr7
  rw [e7] at hr8
  obtain ⟨j, hj, hl2, e8⟩ := bbzvm_pushi_ready _ _ hr8
  simp only [List.length_set] at hl2
  refine ⟨i, j, hi, hj, by omega, ?_⟩
  have e9 : bbzvm_call_frame V
      = { (bbzvm_pushi (bbzvm_pushi V (int16 V.pc)) (int16 (bbzvm_pushi V (int16 V.pc)).blockptr))
          with blockptr := (bbzvm_pushi (bbzvm_pushi V (int16 V.pc))
            (int16 (bbzvm_pushi V (int16 V.pc)).blockptr)).stackptr } := rfl
  rw [e9, e7, e8]
  have a2 : V.stackptr + 1 + 1 = V.stackptr + 2 := by omega
  simp only [a2]

theorem bbzvm_call_run_native (host : Nat → bbzvm_t → bbzvm_t) (V : bbzvm_t) (c : Nat)
    (r : Int) (a : Nat) (hc : bbzvm_obj_at V c = .closure true r a) :
    bbzvm_call_run host V c = { V with pc := (uint16 r).toNat } := by
  unfold bbzvm_call_run
  simp only [hc, bbzclosure_isnative, ↓reduceIte]

theorem bbzvm_exec_chk_ready (o : Nat) (V : bbzvm_t)
    (h : (bbzvm_exec_chk o V).state = BBZVM_STATE_READY) :
    V.state = BBZVM_STATE_READY ∧ V.pc < V.bcode_size ∧ bbzvm_exec_chk o V = V := by
  unfold bbzvm_exec_chk at h ⊢
  by_cases hs : V.state = BBZVM_STATE_READY
  · by_cases hp : bbzvm_pc_out V V.pc = true
    · rw [if_pos ⟨hs, hp⟩] at h
      simp [bbzvm_seterror] at h
    · rw [if_neg (fun x => hp x.2)]
      refine ⟨hs, ?_, ?_⟩
      · simpa [bbzvm_pc_out] using hp
      · unfold bbzvm_exec_end
        rw [if_neg (by simp [hs])]
  · rw [if_neg (fun x => hs x.1)] at h
    unfold bbzvm_exec_end at h
    rw [if_pos hs] at h
    exact absurd h hs

theorem bbzvm_push_heap (V : bbzvm_t) (v : Nat) : (bbzvm_push V v).heap = V.heap := by
  unfold bbzvm_push
  split
  · rfl
  · rfl

/-- The function `bbzvm_pushi` leaves a valid closure with the tag bit set
a valid closure with the tag bit set, whether or not its allocation
succeeds. -/
theorem bbzvm_pushi_native (V : bbzvm_t) (v : Int) (c : Nat)
    (hn : bbzclosure_isnative (bbzvm_obj_at V c) = true)
    (hv : bbzheap_obj_isvalid V.heap c = true) :
    bbzclosure_isnative (bbzvm_obj_at (bbzvm_pushi V v) c) = true ∧
    bbzheap_obj_isvalid (bbzvm_pushi V v).heap c = true := by
  cases hs : bbzheap_obj_slot V.heap with
  | none =>
    have ea : bbzvm_obj_alloc V BBZTYPE_INT = (bbzvm_seterror V BBZVM_ERROR_MEM, V.garbage) := by
      simp [bbzvm_obj_alloc, bbzheap_obj_alloc, hs]
    have e : (bbzvm_pushi V v).heap
        = bbzheap_obj_write V.heap V.garbage (bbzobj_setvalue (bbzheap_obj_at V.heap V.garbage) v) := by
      unfold bbzvm_pushi
      rw [ea]
      simp only []
      rw [bbzvm_push_heap]
      rfl
    unfold bbzvm_obj_at at hn ⊢
    rw [e, bbzheap_obj_write_valid]
    refine ⟨?_, hv⟩
    by_cases hcg : c = V.garbage
    · subst hcg
      have hlt : V.garbage < V.heap.objs.length := by
        by_contra hge
        simp only [bbzheap_obj_isvalid, List.getD_eq_getElem?_getD] at hv
        rw [List.getElem?_eq_none (by omega)] at hv
        simp at hv
      rw [bbzheap_obj_write_at _ _ _ _ hlt, if_pos rfl]
      cases ho : bbzheap_obj_at V.heap V.garbage with
      | closure nat r a =>
        rw [ho] at hn
        cases nat
        · simp [bbzclosure_isnative] at hn
        · rfl
      | _ => rw [ho] at hn; simp [bbzclosure_isnative] at hn
    · rw [bbzheap_obj_write_other _ _ _ _ hcg]
      exact hn
  | some i =>
    have e : (bbzvm_pushi V v).heap = bbzheap_with_int V.heap i v := by
      unfold bbzvm_pushi
      rw [bbzvm_obj_alloc_int V i hs]
      simp only []
      rw [bbzvm_alloc_set_int V i v hs, bbzvm_push_heap]
    obtain ⟨x1, x2⟩ := bbzheap_ext_with_int V.heap i v hs c hv
    unfold bbzvm_obj_at at hn ⊢
    rw [e, x2]
    exact ⟨hn, x1⟩

theorem bbzvm_call_frame_native (V : bbzvm_t) (c : Nat)
    (hn : bbzclosure_isnative (bbzvm_obj_at V c) = true)
    (hv : bbzheap_obj_isvalid V.heap c = true) :
    bbzclosure_isnative (bbzvm_obj_at (bbzvm_call_frame V) c) = true := by
  obtain ⟨a1, a2⟩ := bbzvm_pushi_native V (int16 V.pc) c hn hv
  exact (bbzvm_pushi_native _ (int16 (bbzvm_pushi V (int16 V.pc)).blockptr) c a1 a2).1

theorem bbzvm_call_run_state (host : Nat → bbzvm_t → bbzvm_t) (V : bbzvm_t) (c : Nat)
    (hn : bbzclosure_isnative (bbzvm_obj_at V c) = true) :
    (bbzvm_call_run host V c).state = V.state := by
  unfold bbzvm_call_run
  simp only [hn, ↓reduceIte]

/-- The machine a successful CALLC on a closure with the tag bit set
leaves: the program counter is the reference of the closure, the stack
holds, above the entries that were below the closure, an Int with the
return address and an Int with the block pointer (both as 16-bit signed
values), and the block pointer is the stack pointer. -/
theorem bbzvm_step_callc_frame (host : Nat → bbzvm_t → bbzvm_t) (vm : bbzvm_t)
    (r : Int) (a : Nat) (n : Nat)
    (hat : bbzvm_at vm .CALLC) (hn32 : n ≤ 32767)
    (hn : bbzvm_obj_at vm (bbzvm_stack_at vm 0) = .int n)
    (hsz : (n : Int) + 1 ≤ vm.stackptr)
    (hc : bbzvm_obj_at vm (bbzvm_stack_at vm (n + 1)) = .closure true r a)
    (hcv : bbzheap_obj_isvalid vm.heap (bbzvm_stack_at vm (n + 1)) = true)
    (hok : (bbzvm_step host vm).state = BBZVM_STATE_READY) :
    ∃ (hp : bbzheap_t) (l i j : Nat) (stk : List Nat),
      bbzvm_step host vm =
        { vm with
          pc := (uint16 r).toNat
          heap := hp
          lsyms := l
          stack := stk
          stackptr := vm.stackptr - n
          blockptr := vm.stackptr - n } ∧
      stk.length = vm.stack.length ∧
      stk[(vm.stackptr - n).toNat]? = some j ∧
      stk[(vm.stackptr - n - 1).toNat]? = some i ∧
      (∀ k : Nat, (k : Int) < vm.stackptr - n - 1 → stk[k]? = vm.stack[k]?) ∧
      bbzheap_obj_at hp j = .int (int16 vm.blockptr) ∧
      bbzheap_obj_at hp i = .int (int16 (vm.pc + 1)) ∧
      (uint16 r).toNat < vm.bcode_size := by
  obtain ⟨G, F, hstep⟩ := bbzvm_step_exec host vm .CALLC hat
  have hs2 : bbzvm_step host vm
      = bbzvm_exec_chk vm.pc (bbzvm_call host false { G with pc := vm.pc + 1 }) := hstep
  rw [hs2] at hok ⊢
  obtain ⟨hst, hpc, hchk⟩ := bbzvm_exec_chk_ready _ _ hok
  rw [hchk]
  clear hchk hok hs2 hstep
  have htop : bbzvm_stack_at { G with pc := vm.pc + 1 } 0 = bbzvm_stack_at vm 0 :=
    bbzvm_gc_frame_stack_at F 0 (le_refl _) _
  have hcl : bbzvm_stack_at { G with pc := vm.pc + 1 } ((n : Int) + 1)
      = bbzvm_stack_at vm ((n : Int) + 1) :=
    bbzvm_gc_frame_stack_at F _ (by omega) _
  have hcvG : bbzheap_obj_isvalid G.heap (bbzvm_stack_at vm ((n : Int) + 1)) = true :=
    bbzvm_stack_at_valid_root F _ (by omega) hsz hcv
  have hG : ∃ gs gh, G = { vm with stack := gs, heap := gh } := ⟨_, _, F.rest⟩
  have hlenG := F.len
  have hbelow := F.below
  have hobj := F.obj
  have hspmax := hat.sp_max
  clear F
  obtain ⟨gs, gh, rfl⟩ := hG
  simp only [] at hlenG hbelow hobj hcvG
  have hA : uint16 (bbzobj_ivalue (bbzvm_obj_at
      ({ ({ vm with stack := gs, heap := gh } : bbzvm_t) with pc := vm.pc + 1 } : bbzvm_t)
      (bbzvm_stack_at ({ ({ vm with stack := gs, heap := gh } : bbzvm_t)
        with pc := vm.pc + 1 } : bbzvm_t) 0))) = (n : Int) := by
    rw [htop]
    show uint16 (bbzobj_ivalue (bbzheap_obj_at gh (bbzvm_stack_at vm 0))) = (n : Int)
    rw [hobj]
    unfold bbzvm_obj_at at hn
    rw [hn]
    simp only [bbzobj_ivalue, uint16]
    omega
  have hi16 : (int16 (n : Int)).toNat = n := by
    simp only [int16]; omega
  rcases bbzvm_call_cases host false
      ({ ({ vm with stack := gs, heap := gh } : bbzvm_t) with pc := vm.pc + 1 } : bbzvm_t)
    with e | e | ⟨x, e⟩ | ⟨h1, -, h3, -, a', e⟩
  · rw [e] at hst; simp [bbzvm_seterror] at hst
  · rw [e] at hst; simp [bbzvm_seterror] at hst
  · rw [e] at hst; simp [bbzvm_seterror] at hst
  rw [hA] at e
  have hpop : bbzvm_pop
      ({ ({ vm with stack := gs, heap := gh } : bbzvm_t) with pc := vm.pc + 1 } : bbzvm_t)
      = { vm with stack := gs, heap := gh, pc := vm.pc + 1, stackptr := vm.stackptr - 1 } :=
    bbzvm_pop_ok _ (by simp only []; omega)
  rw [hpop] at e
  have hc2 : bbzvm_stack_at ({ vm with
      stack := gs, heap := gh, pc := vm.pc + 1, stackptr := vm.stackptr - 1 } : bbzvm_t) (n : Int)
      = bbzvm_stack_at vm ((n : Int) + 1) := by
    rw [← hcl]
    unfold bbzvm_stack_at
    simp only []
    have a1 : vm.stackptr - 1 - (n : Int) = vm.stackptr - ((n : Int) + 1) := by omega
    rw [a1]
  rw [hc2] at e
  obtain ⟨h6, l6, x6, e6⟩ := bbzvm_call_locals_ext ({ vm with
      stack := gs, heap := gh, pc := vm.pc + 1, stackptr := vm.stackptr - 1 } : bbzvm_t) (n : Int) a'
  rw [hi16] at e6
  simp only [] at e6 x6
  rw [e6] at e
  rw [e] at hst hpc ⊢
  clear e e6 hpop hA
  -- the closure in the heap after the locals are set
  have hc6 : bbzheap_obj_at h6 (bbzvm_stack_at vm ((n : Int) + 1)) = .closure true r a := by
    rw [(x6 _ hcvG).2, hobj]
    exact hc
  have hv6 : bbzheap_obj_isvalid h6 (bbzvm_stack_at vm ((n : Int) + 1)) = true := (x6 _ hcvG).1
  have hnat9 := bbzvm_call_frame_native ({ vm with
      stack := gs, heap := h6, lsyms := l6, pc := vm.pc + 1,
      stackptr := vm.stackptr - 1 - (n : Int) - 1 } : bbzvm_t)
    (bbzvm_stack_at vm ((n : Int) + 1)) (by
      show bbzclosure_isnative (bbzheap_obj_at h6 (bbzvm_stack_at vm ((n : Int) + 1))) = true
      rw [hc6]; rfl) hv6
  rw [bbzvm_call_run_state host _ _ hnat9] at hst
  obtain ⟨i, j, hi, hj, hlen, e9⟩ := bbzvm_call_frame_ready _ hst
  simp only [] at hi hj hlen e9
  rw [e9] at hpc ⊢
  have x7 := bbzheap_ext_with_int h6 i (int16 ((vm.pc + 1 : Nat) : Int)) hi
  have x8 := bbzheap_ext_with_int _ j (int16 vm.blockptr) hj
  have hc9 : bbzvm_obj_at ({ vm with
      stack := (gs.set (vm.stackptr - 1 - (n : Int) - 1 + 1).toNat i).set
        (vm.stackptr - 1 - (n : Int) - 1 + 2).toNat j
      heap := bbzheap_with_int (bbzheap_with_int h6 i (int16 ((vm.pc + 1 : Nat) : Int))) j
        (int16 vm.blockptr)
      lsyms := l6, pc := vm.pc + 1
      stackptr := vm.stackptr - 1 - (n : Int) - 1 + 2
      blockptr := vm.stackptr - 1 - (n : Int) - 1 + 2 } : bbzvm_t)
      (bbzvm_stack_at vm ((n : Int) + 1)) = .closure true r a := by
    show bbzheap_obj_at _ _ = _
    rw [(x8 _ (x7 _ hv6).1).2, (x7 _ hv6).2]
    exact hc6
  rw [bbzvm_call_run_native host _ _ r a hc9] at hpc ⊢
  simp only [] at hpc
  have hij : i ≠ j := by
    intro e
    have v1 : bbzheap_obj_isvalid (bbzheap_with_int h6 i (int16 ((vm.pc + 1 : Nat) : Int))) i
        = true := by
      rw [bbzheap_with_int_valid _ _ _ _ hi, if_pos rfl]
    have v2 := (bbzheap_obj_slot_spec _ _ hj).2
    rw [← e, v1] at v2
    exact absurd v2 (by simp)
  have a2 : vm.stackptr - 1 - (n : Int) - 1 + 2 = vm.stackptr - n := by omega
  have a1 : vm.stackptr - 1 - (n : Int) - 1 + 1 = vm.stackptr - n - 1 := by omega
  rw [a1, a2]
  refine ⟨_, l6, i, j, _, rfl, by simp only [List.length_set]; exact hlenG, ?_, ?_, ?_, ?_, ?_, hpc⟩
  · rw [List.getElem?_set_self (by simp only [List.length_set]; omega)]
  · rw [List.getElem?_set_ne (by omega), List.getElem?_set_self (by omega)]
  · intro k hk
    rw [List.getElem?_set_ne (by omega), List.getElem?_set_ne (by omega)]
    exact hbelow k (by omega)
  · rw [bbzheap_with_int_at _ _ _ _ hj, if_pos rfl]
  · rw [bbzheap_with_int_at _ _ _ _ hj, if_neg hij, bbzheap_with_int_at _ _ _ _ hi, if_pos rfl]
    simp

/-- C19 (amended): after a successful CALLC at address `a = pc` on a
closure with the tag bit set (the kind `bbzvm_call` enters by setting `pc`),
with reference `r` and argument count `n`, the closure being valid: the
stack pointer is lowered by `n` (the stack size is `s - n`), the top entry
is an Int holding the block pointer the VM had before the call, the entry
below it is an Int holding the return address `a + 1` converted to a signed
16-bit value (`a + 1` itself when `a + 1 <= 32767`, `a + 1 - 65536`
otherwise), the block pointer equals the stack pointer, every entry below
the former closure position is unchanged, and `pc` is `r` as an unsigned
16-bit value. -/
theorem c19_callc_frame (host : Nat → bbzvm_t → bbzvm_t) (vm : bbzvm_t)
    (r : Int) (a : Nat) (n : Nat)
    (hat : bbzvm_at vm .CALLC) (hn32 : n ≤ 32767)
    (hn : bbzvm_obj_at vm (bbzvm_stack_at vm 0) = .int n)
    (hsz : (n : Int) + 1 ≤ vm.stackptr)
    (hc : bbzvm_obj_at vm (bbzvm_stack_at vm (n + 1)) = .closure true r a)
    (hcv : bbzheap_obj_isvalid vm.heap (bbzvm_stack_at vm (n + 1)) = true)
    (hok : (bbzvm_step host vm).state = BBZVM_STATE_READY) :
    (bbzvm_step host vm).stackptr = vm.stackptr - n ∧
    bbzvm_obj_at (bbzvm_step host vm) (bbzvm_stack_at (bbzvm_step host vm) 0)
      = .int (int16 vm.blockptr) ∧
    (-32768 ≤ vm.blockptr → vm.blockptr ≤ 32767 →
      bbzvm_obj_at (bbzvm_step host vm) (bbzvm_stack_at (bbzvm_step host vm) 0)
        = .int vm.blockptr) ∧
    bbzvm_obj_at (bbzvm_step host vm) (bbzvm_stack_at (bbzvm_step host vm) 1)
      = .int (int16 (vm.pc + 1)) ∧
    (vm.pc + 1 ≤ 32767 →
      bbzvm_obj_at (bbzvm_step host vm) (bbzvm_stack_at (bbzvm_step host vm) 1)
        = .int (vm.pc + 1)) ∧
    (32767 < vm.pc + 1 →
      bbzvm_obj_at (bbzvm_step host vm) (bbzvm_stack_at (bbzvm_step host vm) 1)
        = .int ((vm.pc : Int) + 1 - 65536)) ∧
    (bbzvm_step host vm).blockptr = (bbzvm_step host vm).stackptr ∧
    (∀ k : Nat, (k : Int) < vm.stackptr - n - 1 →
      (bbzvm_step host vm).stack[k]? = vm.stack[k]?) ∧
    (bbzvm_step host vm).pc = (uint16 r).toNat ∧
    (0 ≤ r → r < 65536 → ((bbzvm_step host vm).pc : Int) = r) := by
  obtain ⟨hp, l, i, j, stk, e, hlen, hj, hi, hbelow, hoj, hoi, hpc⟩ :=
    bbzvm_step_callc_frame host vm r a n hat hn32 hn hsz hc hcv hok
  have hsize := hat.size
  have hnext := hat.next
  rw [e]
  have t0 : bbzvm_obj_at ({ vm with
      pc := (uint16 r).toNat, heap := hp, lsyms := l, stack := stk
      stackptr := vm.stackptr - n, blockptr := vm.stackptr - n } : bbzvm_t)
      (bbzvm_stack_at ({ vm with
        pc := (uint16 r).toNat, heap := hp, lsyms := l, stack := stk
        stackptr := vm.stackptr - n, blockptr := vm.stackptr - n } : bbzvm_t) 0)
      = .int (int16 vm.blockptr) := by
    unfold bbzvm_stack_at bbzvm_obj_at
    simp only [sub_zero]
    rw [if_pos (by omega), List.getD_eq_getElem?_getD, hj]
    exact hoj
  have t1 : bbzvm_obj_at ({ vm with
      pc := (uint16 r).toNat, heap := hp, lsyms := l, stack := stk
      stackptr := vm.stackptr - n, blockptr := vm.stackptr - n } : bbzvm_t)
      (bbzvm_stack_at ({ vm with
        pc := (uint16 r).toNat, heap := hp, lsyms := l, stack := stk
        stackptr := vm.stackptr - n, blockptr := vm.stackptr - n } : bbzvm_t) 1)
      = .int (int16 (vm.pc + 1)) := by
    unfold bbzvm_stack_at bbzvm_obj_at
    simp only []
    rw [if_pos (by omega), List.getD_eq_getElem?_getD, hi]
    exact hoi
  refine ⟨rfl, t0, ?_, t1, ?_, ?_, rfl, hbelow, rfl, ?_⟩
  · intro h1 h2
    rw [t0, int16_of_range _ h1 h2]
  · intro h1
    rw [t1, int16_of_range _ (by omega) (by omega)]
  · intro h1
    have e16 : int16 ((vm.pc : Int) + 1) = (vm.pc : Int) + 1 - 65536 := by
      unfold int16
      omega
    rw [t1, e16]
  · intro h1 h2
    simp only [uint16]
    omega

/-- Witness of C19: CALLC at address 0 with two arguments on the closure
of `call_vm`, whose reference is 3. -/
theorem c19_callc_frame_witness :
    (bbzvm_step test_host (call_vm [28, 0, 0, 5, 0] [11, 9, 8, 6])).stackptr = 1 ∧
    bbzvm_obj_at (bbzvm_step test_host (call_vm [28, 0, 0, 5, 0] [11, 9, 8, 6]))
      (bbzvm_stack_at (bbzvm_step test_host (call_vm [28, 0, 0, 5, 0] [11, 9, 8, 6])) 0)
      = .int (-1) ∧
    bbzvm_obj_at (bbzvm_step test_host (call_vm [28, 0, 0, 5, 0] [11, 9, 8, 6]))
      (bbzvm_stack_at (bbzvm_step test_host (call_vm [28, 0, 0, 5, 0] [11, 9, 8, 6])) 1)
      = .int 1 ∧
    (bbzvm_step test_host (call_vm [28, 0, 0, 5, 0] [11, 9, 8, 6])).pc = 3 :=
  have h := c19_callc_frame test_host (call_vm [28, 0, 0, 5, 0] [11, 9, 8, 6]) 3 255 2
    ⟨rfl, rfl, by decide, by decide, by decide, by decide, by decide⟩ (by decide) (by decide)
    (by decide) (by decide) (by decide) (by decide)
  ⟨h.1, h.2.2.1 (by decide) (by decide), h.2.2.2.2.1 (by decide), h.2.2.2.2.2.2.2.2.1⟩

/-- Counterexample to C19 as stated: a successful CALLC at address 32767
leaves, below the saved block pointer, an Int holding -32768 and not the
return address 32768. -/
theorem c19_return_address_counterexample :
    ({ call_vm [] [11, 8] with
        bcode_fetch_fun := fun _ => 28, bcode_size := 40000, pc := 32767 } : bbzvm_t).state
      = BBZVM_STATE_READY ∧
    (bbzvm_step test_host { call_vm [] [11, 8] with
        bcode_fetch_fun := fun _ => 28, bcode_size := 40000, pc := 32767 }).state
      = BBZVM_STATE_READY ∧
    (bbzvm_step test_host { call_vm [] [11, 8] with
        bcode_fetch_fun := fun _ => 28, bcode_size := 40000, pc := 32767 }).pc = 3 ∧
    bbzvm_obj_at (bbzvm_step test_host { call_vm [] [11, 8] with
        bcode_fetch_fun := fun _ => 28, bcode_size := 40000, pc := 32767 })
      (bbzvm_stack_at (bbzvm_step test_host { call_vm [] [11, 8] with
        bcode_fetch_fun := fun _ => 28, bcode_size := 40000, pc := 32767 }) 1)
      = .int (-32768) := by
  decide

/-! ## Returns -/

theorem bbzheap_same_refl (h : bbzheap_t) : bbzheap_same h h :=
  ⟨rfl, fun _ => rfl, fun _ => ⟨rfl, rfl⟩⟩

theorem bbzheap_same_trans {h1 h2 h3 : bbzheap_t} (a : bbzheap_same h1 h2)
    (b : bbzheap_same h2 h3) : bbzheap_same h1 h3 :=
  ⟨b.1.trans a.1, fun i => (b.2.1 i).trans (a.2.1 i),
    fun s => ⟨(b.2.2 s).1.trans (a.2.2 s).1, (b.2.2 s).2.trans (a.2.2 s).2⟩⟩

theorem bbzheap_same_chain {h h' : bbzheap_t} (a : bbzheap_same h h') (n : Nat)
    (o : Option Nat) : bbzheap_chain h' n o = bbzheap_chain h n o := by
  induction n generalizing o with
  | zero => rfl
  | succ k ih =>
    cases o with
    | none => rfl
    | some s =>
      simp only [bbzheap_chain]
      rw [(a.2.2 s).2, ih]

theorem bbzheap_same_cells {h h' : bbzheap_t} (a : bbzheap_same h h') (t : Nat) :
    bbztable_cells h' t = bbztable_cells h t := by
  unfold bbztable_cells bbztable_segs
  rw [a.2.1 t, a.1]
  have e : bbzheap_tseg_cells h' = bbzheap_tseg_cells h := by
    funext s
    unfold bbzheap_tseg_cells
    rw [(a.2.2 s).1]
  rw [e]
  cases bbzheap_obj_at h t <;> simp only [bbzheap_same_chain a]

theorem bbzheap_same_pairs {h h' : bbzheap_t} (a : bbzheap_same h h') (t : Nat) :
    bbztable_pairs h' t = bbztable_pairs h t := by
  unfold bbztable_pairs
  rw [bbzheap_same_cells a]

theorem bbzdarray_is_same {h h' : bbzheap_t} (a : bbzheap_same h h') (d : Nat) (xs : List Nat)
    (hd : bbzdarray_is h d xs) : bbzdarray_is h' d xs := by
  unfold bbzdarray_is at hd ⊢
  rw [bbzheap_same_pairs a]
  have e : (fun kv : Nat × Nat => (bbzheap_obj_at h' kv.1, kv.2))
      = (fun kv : Nat × Nat => (bbzheap_obj_at h kv.1, kv.2)) := by
    funext kv
    rw [a.2.1]
  rw [e]
  exact hd

theorem bbzheap_sweep_tsegs_getD (r : List Nat) (l : List bbzheap_tseg_t) (i s : Nat) :
    ((bbzheap_sweep_tsegs r l i).getD s ⟨false, [], none⟩).cells
      = (l.getD s ⟨false, [], none⟩).cells ∧
    ((bbzheap_sweep_tsegs r l i).getD s ⟨false, [], none⟩).next
      = (l.getD s ⟨false, [], none⟩).next := by
  induction l generalizing i s with
  | nil => exact ⟨rfl, rfl⟩
  | cons x rest ih =>
    cases s with
    | zero =>
      simp only [bbzheap_sweep_tsegs, List.getD_cons_zero]
      split
      · exact ⟨rfl, rfl⟩
      · exact ⟨rfl, rfl⟩
    | succ k =>
      simp only [bbzheap_sweep_tsegs, List.getD_cons_succ]
      exact ih _ _

/-- The collector leaves the payloads and the tables as they are. -/
theorem bbzheap_same_gc (h : bbzheap_t) (stack : List Nat) (n : Nat) :
    bbzheap_same h (bbzheap_gc h stack n) := by
  refine ⟨?_, fun i => bbzheap_gc_obj_at h stack n i, ?_⟩
  · simp only [bbzheap_gc, bbzheap_sweep_tsegs_length]
  · intro s
    simp only [bbzheap_gc, bbzheap_tseg_at]
    exact bbzheap_sweep_tsegs_getD _ _ _ _

theorem bbzheap_destroy_fold (segs : List Nat) (ts : List bbzheap_tseg_t) :
    (segs.foldl (fun ts s => ts.set s { (ts.getD s ⟨false, [], none⟩) with valid := false })
      ts).length = ts.length ∧
    ∀ x, ((segs.foldl (fun ts s => ts.set s { (ts.getD s ⟨false, [], none⟩) with valid := false })
      ts).getD x ⟨false, [], none⟩).cells = (ts.getD x ⟨false, [], none⟩).cells ∧
      ((segs.foldl (fun ts s => ts.set s { (ts.getD s ⟨false, [], none⟩) with valid := false })
      ts).getD x ⟨false, [], none⟩).next = (ts.getD x ⟨false, [], none⟩).next := by
  induction segs generalizing ts with
  | nil => exact ⟨rfl, fun _ => ⟨rfl, rfl⟩⟩
  | cons s rest ih =>
    rw [List.foldl_cons]
    obtain ⟨l1, c1⟩ := ih (ts.set s { (ts.getD s ⟨false, [], none⟩) with valid := false })
    refine ⟨by rw [l1, List.length_set], ?_⟩
    intro x
    rw [(c1 x).1, (c1 x).2]
    simp only [List.getD_eq_getElem?_getD, List.getElem?_set]
    by_cases hsx : s = x
    · subst hsx
      by_cases hlt : s < ts.length
      · simp [hlt]
      · simp [hlt, List.getElem?_eq_none (Nat.le_of_not_lt hlt)]
    · simp [hsx]

/-- Destroying an array leaves the payloads and the tables as they are. -/
theorem bbzheap_same_destroy (h : bbzheap_t) (d : Nat) :
    bbzheap_same h (bbzdarray_destroy h d) := by
  unfold bbzdarray_destroy
  dsimp only
  obtain ⟨l1, c1⟩ := bbzheap_destroy_fold (bbztable_segs h d) h.tsegs
  refine ⟨l1, ?_, ?_⟩
  · intro i
    simp only [bbzheap_obj_at, List.getD_eq_getElem?_getD, List.getElem?_set]
    by_cases hdi : d = i
    · subst hdi
      by_cases hlt : d < h.objs.length
      · simp [hlt]
      · simp [hlt, List.getElem?_eq_none (Nat.le_of_not_lt hlt)]
    · simp [hdi]
  · intro s
    exact c1 s

theorem bbzheap_chain_congr {h h' : bbzheap_t}
    (a : ∀ s, (bbzheap_tseg_at h' s).next = (bbzheap_tseg_at h s).next) (n : Nat)
    (o : Option Nat) : bbzheap_chain h' n o = bbzheap_chain h n o := by
  induction n generalizing o with
  | zero => rfl
  | succ k ih =>
    cases o with
    | none => rfl
    | some s =>
      simp only [bbzheap_chain]
      rw [a s, ih]

theorem bbzheap_tseg_setcell_at (h : bbzheap_t) (s p : Nat) (c : Option (Nat × Nat)) (x : Nat) :
    (bbzheap_tseg_at (bbzheap_tseg_setcell h s p c) x).next = (bbzheap_tseg_at h x).next ∧
    (bbzheap_tseg_at (bbzheap_tseg_setcell h s p c) x).cells
      = if x = s then (bbzheap_tseg_at h s).cells.set p c else (bbzheap_tseg_at h x).cells := by
  unfold bbzheap_tseg_setcell bbzheap_tseg_at
  simp only [List.getD_eq_getElem?_getD, List.getElem?_set]
  by_cases hsx : s = x
  · subst hsx
    by_cases hlt : s < h.tsegs.length
    · simp [hlt]
    · simp [hlt, List.getElem?_eq_none (Nat.le_of_not_lt hlt)]
  · simp [hsx, Ne.symm hsx]

theorem bbzheap_tseg_cells_setcell (h : bbzheap_t) (s p : Nat) (c : Option (Nat × Nat))
    (x : Nat) :
    bbzheap_tseg_cells (bbzheap_tseg_setcell h s p c) x
      = (bbzheap_tseg_cells h x).map
          (fun y => if y.1 = s ∧ y.2.1 = p then (y.1, y.2.1, c) else y) := by
  unfold bbzheap_tseg_cells
  rw [(bbzheap_tseg_setcell_at h s p c x).2]
  apply List.ext_getElem?
  intro n
  by_cases hxs : x = s
  · subst hxs
    simp only [↓reduceIte, List.getElem?_map, List.getElem?_enum, List.getElem?_set,
      Option.map_map]
    by_cases hpn : p = n
    · subst hpn
      by_cases hlt : p < (bbzheap_tseg_at h x).cells.length
      · simp [hlt, List.getElem?_eq_getElem hlt]
      · simp [hlt, List.getElem?_eq_none (Nat.le_of_not_lt hlt)]
    · simp only [hpn, ↓reduceIte]
      cases (bbzheap_tseg_at h x).cells[n]? with
      | none => rfl
      | some v => simp [Ne.symm hpn]
  · simp only [hxs, ↓reduceIte, List.getElem?_map, List.getElem?_enum, Option.map_map]
    cases (bbzheap_tseg_at h x).cells[n]? with
    | none => rfl
    | some v => simp [hxs]

/-- Rewriting a cell changes the cells of a table at that position only. -/
theorem bbztable_cells_setcell (h : bbzheap_t) (s p : Nat) (c : Option (Nat × Nat)) (t : Nat) :
    bbztable_cells (bbzheap_tseg_setcell h s p c) t
      = (bbztable_cells h t).map
          (fun y => if y.1 = s ∧ y.2.1 = p then (y.1, y.2.1, c) else y) := by
  have hsegs : bbztable_segs (bbzheap_tseg_setcell h s p c) t = bbztable_segs h t := by
    unfold bbztable_segs
    have e1 : bbzheap_obj_at (bbzheap_tseg_setcell h s p c) t = bbzheap_obj_at h t := rfl
    have e2 : (bbzheap_tseg_setcell h s p c).tsegs.length = h.tsegs.length := by
      simp [bbzheap_tseg_setcell]
    rw [e1, e2]
    cases bbzheap_obj_at h t <;>
      simp only [bbzheap_chain_congr (fun x => (bbzheap_tseg_setcell_at h s p c x).1)]
  unfold bbztable_cells
  rw [hsegs, List.map_flatMap]
  congr 1
  funext x
  exact bbzheap_tseg_cells_setcell h s p c x

/-- The content of a cell of a table is determined by its segment and its
position. -/
theorem bbztable_cells_label (h : bbzheap_t) (t : Nat) :
    ∀ c ∈ bbztable_cells h t, ∀ c' ∈ bbztable_cells h t,
      c.1 = c'.1 → c.2.1 = c'.2.1 → c = c' := by
  have key : ∀ c ∈ bbztable_cells h t, (bbzheap_tseg_at h c.1).cells[c.2.1]? = some c.2.2 := by
    intro c hc
    unfold bbztable_cells at hc
    rw [List.mem_flatMap] at hc
    obtain ⟨x, -, hx⟩ := hc
    unfold bbzheap_tseg_cells at hx
    rw [List.mem_map] at hx
    obtain ⟨⟨n, v⟩, hnv, rfl⟩ := hx
    exact List.mk_mem_enum_iff_getElem?.mp hnv
  intro c hc c' hc' h1 h2
  have k1 := key c hc
  have k2 := key c' hc'
  rw [h1, h2, k2] at k1
  obtain ⟨a, b, x⟩ := c
  obtain ⟨a', b', x'⟩ := c'
  simp only [] at h1 h2 k1
  subst h1 h2
  simp only [Option.some.injEq] at k1
  rw [k1]

/-- Removing the last pair of a list of cells: when the keyed pairs of the
cells end with the only pair of key `K`, the first cell whose key is `K`
exists, and invalidating the cells at its position leaves the other
pairs. -/
theorem bbztable_cells_remove (obj : Nat → bbzobj_t) (K : bbzobj_t) (v : Nat)
    (q : Nat × Nat × Option (Nat × Nat) → Bool)
    (hq : ∀ c, q c = true ↔ ∃ kv, c.2.2 = some kv ∧ obj kv.1 = K)
    (C : List (Nat × Nat × Option (Nat × Nat))) (L : List (bbzobj_t × Nat))
    (hP : ∀ c ∈ C, ∀ c' ∈ C, c.1 = c'.1 → c.2.1 = c'.2.1 → c = c')
    (hL : ∀ e ∈ L, e.1 ≠ K)
    (hKV : (C.filterMap (fun c => c.2.2)).map (fun kv => (obj kv.1, kv.2)) = L ++ [(K, v)]) :
    ∃ s p kv, C.find? q = some (s, p, some kv) ∧
      ((C.map (fun y => if y.1 = s ∧ y.2.1 = p then (y.1, y.2.1, none) else y)).filterMap
        (fun c => c.2.2)).map (fun kv => (obj kv.1, kv.2)) = L := by
  induction C generalizing L with
  | nil =>
    simp at hKV
  | cons c C ih =>
    have hP' : ∀ c ∈ C, ∀ c' ∈ C, c.1 = c'.1 → c.2.1 = c'.2.1 → c = c' :=
      fun x hx y hy => hP x (List.mem_cons_of_mem _ hx) y (List.mem_cons_of_mem _ hy)
    obtain ⟨cs, cp, cx⟩ := c
    cases cx with
    | none =>
      have hqc : q (cs, cp, none) = false := by
        cases hb : q (cs, cp, none) with
        | false => rfl
        | true =>
          obtain ⟨kv, h1, -⟩ := (hq _).mp hb
          simp at h1
      have hKV' : (C.filterMap (fun c => c.2.2)).map (fun kv => (obj kv.1, kv.2))
          = L ++ [(K, v)] := by
        simpa using hKV
      obtain ⟨s, p, kv, hf, hr⟩ := ih L hP' hL hKV'
      refine ⟨s, p, kv, ?_, ?_⟩
      · rw [List.find?_cons, hqc]
        exact hf
      · rw [List.map_cons, List.filterMap_cons]
        have e : (if (cs, cp, (none : Option (Nat × Nat))).1 = s ∧
            (cs, cp, (none : Option (Nat × Nat))).2.1 = p
            then ((cs, cp, (none : Option (Nat × Nat))).1,
              (cs, cp, (none : Option (Nat × Nat))).2.1, (none : Option (Nat × Nat)))
            else (cs, cp, none)).2.2 = none := by
          split <;> rfl
        rw [e]
        exact hr
    | some kv0 =>
      cases L with
      | nil =>
        have h1 : (obj kv0.1, kv0.2) = (K, v) ∧
            (C.filterMap (fun c => c.2.2)).map (fun kv => (obj kv.1, kv.2)) = [] := by
          simpa using hKV
        obtain ⟨h1, h2⟩ := h1
        have hqc : q (cs, cp, some kv0) = true :=
          (hq _).mpr ⟨kv0, rfl, (Prod.mk.inj h1).1⟩
        refine ⟨cs, cp, kv0, ?_, ?_⟩
        · rw [List.find?_cons, hqc]
        · have hnone : ∀ y ∈ C, y.2.2 = none := by
            intro y hy
            cases hy2 : y.2.2 with
            | none => rfl
            | some z =>
              exfalso
              have : z ∈ C.filterMap (fun c => c.2.2) := List.mem_filterMap.mpr ⟨y, hy, hy2⟩
              have h3 : C.filterMap (fun c => c.2.2) = [] := by
                simpa using h2
              rw [h3] at this
              simp at this
          have h4 : (C.map (fun y => if y.1 = cs ∧ y.2.1 = cp then (y.1, y.2.1, none) else y)).filterMap
              (fun c => c.2.2) = [] := by
            rw [List.filterMap_eq_nil_iff]
            intro y hy
            rw [List.mem_map] at hy
            obtain ⟨z, hz, rfl⟩ := hy
            split
            · rfl
            · exact hnone z hz
          simp [h4]
      | cons l0 L' =>
        have h1 : (obj kv0.1, kv0.2) = l0 ∧
            (C.filterMap (fun c => c.2.2)).map (fun kv => (obj kv.1, kv.2))
              = L' ++ [(K, v)] := by
          simpa using hKV
        obtain ⟨h1, h2⟩ := h1
        have hl0 : obj kv0.1 ≠ K := by
          have := hL l0 (List.mem_cons_self _ _)
          rw [← h1] at this
          exact this
        have hqc : q (cs, cp, some kv0) = false := by
          cases hb : q (cs, cp, some kv0) with
          | false => rfl
          | true =>
            obtain ⟨kv, e1, e2⟩ := (hq _).mp hb
            simp only [Option.some.injEq] at e1
            subst e1
            exact absurd e2 hl0
        obtain ⟨s, p, kv, hf, hr⟩ := ih L' hP'
          (fun e he => hL e (List.mem_cons_of_mem _ he)) h2
        refine ⟨s, p, kv, ?_, ?_⟩
        · rw [List.find?_cons, hqc]
          exact hf
        · have hmem : (s, p, some kv) ∈ C := List.mem_of_find?_eq_some hf
          have hqf : q (s, p, some kv) = true := List.find?_some hf
          have hne : ¬ (cs = s ∧ cp = p) := by
            rintro ⟨e1, e2⟩
            have := hP (cs, cp, some kv0) (List.mem_cons_self _ _) (s, p, some kv)
              (List.mem_cons_of_mem _ hmem) e1 e2
            rw [this, hqf] at hqc
            exact absurd hqc (by simp)
          rw [List.map_cons, List.filterMap_cons]
          simp only [hne, ↓reduceIte, List.map_cons]
          rw [hr, h1]

theorem bbzdarray_is_size {h : bbzheap_t} {d : Nat} {xs : List Nat} (hd : bbzdarray_is h d xs) :
    bbzdarray_size h d = xs.length := by
  unfold bbzdarray_is at hd
  have := congrArg List.length hd
  simpa [bbzdarray_size, bbztable_size] using this

theorem bbzdarray_is_enum_key (xs : List Nat) (k : Nat) :
    ∀ e ∈ (xs.enumFrom k).map (fun iv => (bbzobj_t.int (iv.1 : Int), iv.2)),
      ∃ i : Nat, k ≤ i ∧ i < k + xs.length ∧ e.1 = bbzobj_t.int (i : Int) := by
  intro e he
  rw [List.mem_map] at he
  obtain ⟨⟨i, v⟩, hiv, rfl⟩ := he
  have := List.fst_lt_add_of_mem_enumFrom hiv
  have h2 := List.le_fst_of_mem_enumFrom hiv
  exact ⟨i, h2, this, rfl⟩

/-- Popping an array removes its last element and touches no object. -/
theorem bbzdarray_is_pop {h : bbzheap_t} {d : Nat} {xs : List Nat} {x : Nat}
    (hd : bbzdarray_is h d (xs ++ [x])) :
    bbzdarray_is (bbzdarray_pop h d) d xs ∧ (bbzdarray_pop h d).objs = h.objs := by
  have hk : ((bbzdarray_size h d : Nat) : Int) - 1 = (xs.length : Int) := by
    rw [bbzdarray_is_size hd]
    simp
  have hKV : ((bbztable_cells h d).filterMap (fun c => c.2.2)).map
      (fun kv => (bbzheap_obj_at h kv.1, kv.2))
      = xs.enum.map (fun iv => (bbzobj_t.int (iv.1 : Int), iv.2))
        ++ [(bbzobj_t.int (xs.length : Int), x)] := by
    have := hd
    unfold bbzdarray_is bbztable_pairs at this
    rw [this, List.enum_append]
    simp [List.enumFrom]
  have hL : ∀ e ∈ xs.enum.map (fun iv => (bbzobj_t.int (iv.1 : Int), iv.2)),
      e.1 ≠ bbzobj_t.int (xs.length : Int) := by
    intro e he
    obtain ⟨i, -, h2, h3⟩ := bbzdarray_is_enum_key xs 0 e he
    rw [h3]
    intro hc
    simp only [bbzobj_t.int.injEq, Nat.cast_inj] at hc
    omega
  unfold bbzdarray_pop
  rw [hk]
  split
  · rename_i s p y heq
    have aux : ∀ q : Nat × Nat × Option (Nat × Nat) → Bool,
        (∀ c, q c = true ↔ ∃ kv, c.2.2 = some kv ∧
          bbzheap_obj_at h kv.1 = bbzobj_t.int (xs.length : Int)) →
        List.find? q (bbztable_cells h d) = some (s, p, y) →
        bbzdarray_is (bbzheap_tseg_setcell h s p none) d xs := by
      intro q hq hfind
      obtain ⟨s', p', kv, hf, hr⟩ := bbztable_cells_remove (bbzheap_obj_at h)
        (bbzobj_t.int (xs.length : Int)) x q hq
        (bbztable_cells h d) _ (bbztable_cells_label h d) hL hKV
      rw [hfind] at hf
      simp only [Option.some.injEq, Prod.mk.injEq] at hf
      obtain ⟨rfl, rfl, -⟩ := hf
      unfold bbzdarray_is bbztable_pairs
      rw [bbztable_cells_setcell]
      exact hr
    refine ⟨aux _ ?_ heq, rfl⟩
    rintro ⟨a, b, o⟩
    cases o with
    | none => simp
    | some kv => simp
  · rename_i heq
    exfalso
    have aux : ∀ q : Nat × Nat × Option (Nat × Nat) → Bool,
        (∀ c, q c = true ↔ ∃ kv, c.2.2 = some kv ∧
          bbzheap_obj_at h kv.1 = bbzobj_t.int (xs.length : Int)) →
        List.find? q (bbztable_cells h d) = none → False := by
      intro q hq hfind
      obtain ⟨s', p', kv, hf, -⟩ := bbztable_cells_remove (bbzheap_obj_at h)
        (bbzobj_t.int (xs.length : Int)) x q hq
        (bbztable_cells h d) _ (bbztable_cells_label h d) hL hKV
      rw [hfind] at hf
      exact absurd hf (by simp)
    refine aux _ ?_ heq
    rintro ⟨a, b, o⟩
    cases o with
    | none => simp
    | some kv => simp

theorem bbzdarray_enum_find (xs : List Nat) (k i : Nat) :
    (((xs.enumFrom k).map (fun iv => (bbzobj_t.int (iv.1 : Int), iv.2))).find?
      (fun e => e.1 == bbzobj_t.int ((k + i : Nat) : Int))).map Prod.snd = xs[i]? := by
  induction xs generalizing k i with
  | nil => rfl
  | cons x xs ih =>
    rw [List.enumFrom_cons, List.map_cons, List.find?_cons]
    cases i with
    | zero => simp
    | succ j =>
      have hne : ((bbzobj_t.int (k : Int)) == bbzobj_t.int ((k + (j + 1) : Nat) : Int)) = false := by
        rw [beq_eq_false_iff_ne]
        intro hc
        simp only [bbzobj_t.int.injEq, Nat.cast_inj] at hc
        omega
      simp only [hne]
      have e2 : k + (j + 1) = (k + 1) + j := by omega
      rw [e2, ih]
      simp

/-- Reading an array: the element of index `i`, if there is one. -/
theorem bbzdarray_is_get {h : bbzheap_t} {d : Nat} {xs : List Nat} (hd : bbzdarray_is h d xs)
    (i : Nat) : bbzdarray_get h d (i : Int) = xs[i]? := by
  unfold bbzdarray_get
  have e1 : ((bbztable_pairs h d).find? (fun kv => bbzheap_obj_at h kv.1 == bbzobj_t.int (i : Int))).map
      Prod.snd
      = ((((bbztable_pairs h d).map (fun kv => (bbzheap_obj_at h kv.1, kv.2))).find?
          (fun e => e.1 == bbzobj_t.int (i : Int)))).map Prod.snd := by
    rw [List.find?_map, Option.map_map]
    rfl
  rw [e1, hd]
  have := bbzdarray_enum_find xs 0 i
  simp only [Nat.zero_add] at this
  exact this

theorem bbzdarray_is_last {h : bbzheap_t} {d : Nat} {xs : List Nat} {x : Nat}
    (hd : bbzdarray_is h d (xs ++ [x])) : bbzdarray_last h d = some x := by
  unfold bbzdarray_last
  have hk : ((bbzdarray_size h d : Nat) : Int) - 1 = ((xs.length : Nat) : Int) := by
    rw [bbzdarray_is_size hd]
    simp
  rw [hk, bbzdarray_is_get hd]
  simp

/-- The start of a return on a machine whose `lsymts` holds `xs` and one
more array: the last array is popped, the current one is destroyed, and the
current local symbols become the last array of `xs`, or 0. -/
theorem bbzvm_ret_lsyms_is (V : bbzvm_t) (xs : List Nat) (x : Nat)
    (hd : bbzdarray_is V.heap V.lsymts (xs ++ [x])) :
    ∃ h, bbzvm_ret_lsyms V = { V with heap := h, lsyms := xs.getLast?.getD 0 } ∧
      bbzdarray_is h V.lsymts xs ∧ (∀ i, bbzheap_obj_at h i = bbzheap_obj_at V.heap i) := by
  obtain ⟨p1, p2⟩ := bbzdarray_is_pop hd
  have s2 := bbzheap_same_destroy (bbzdarray_pop V.heap V.lsymts) V.lsyms
  have i2 := bbzdarray_is_same s2 _ _ p1
  have o2 : ∀ i, bbzheap_obj_at (bbzdarray_destroy (bbzdarray_pop V.heap V.lsymts) V.lsyms) i
      = bbzheap_obj_at V.heap i := by
    intro i
    rw [s2.2.1 i]
    simp only [bbzheap_obj_at, p2]
  refine ⟨_, ?_, i2, o2⟩
  unfold bbzvm_ret_lsyms
  dsimp only
  unfold bbzdarray_isempty
  rw [bbzdarray_is_size i2]
  rcases List.eq_nil_or_concat xs with rfl | ⟨ys, y, hxy⟩
  · simp
  · rw [List.concat_eq_append] at hxy
    subst hxy
    have hl := bbzdarray_is_last i2
    rw [hl]
    simp

theorem bbzvm_pop_heap (V : bbzvm_t) : (bbzvm_pop V).heap = V.heap := by
  unfold bbzvm_pop
  split
  · rfl
  · rfl

/-- The collector call of a step leaves the payloads and the tables as
they are. -/
theorem bbzvm_gc_same (vm : bbzvm_t) : bbzheap_same vm.heap (bbzvm_gc vm).2.heap := by
  by_cases h : BBZSTACK_SIZE vm - bbzvm_stack_size vm < 6
  · have e : bbzvm_gc vm = (false, vm) := by
      unfold bbzvm_gc
      rw [if_pos h]
    rw [e]
    exact bbzheap_same_refl _
  · rw [bbzvm_gc_unfold vm h]
    simp only [bbzvm_pop_heap]
    have e : (bbzvm_push (bbzvm_push (bbzvm_push (bbzvm_push (bbzvm_push (bbzvm_push vm
        vm.lsyms) vm.lsymts) vm.gsyms) vm.nil) vm.dflt_actrec) vm.flist).heap = vm.heap := by
      simp only [bbzvm_push_heap]
    rw [e]
    exact bbzheap_same_gc _ _ _

/-- The machine on which the opcode of a step runs, with what the collector
keeps: the payloads and the tables of the heap. -/
theorem bbzvm_step_exec_same (host : Nat → bbzvm_t → bbzvm_t) (vm : bbzvm_t) (i : bbzvm_instr)
    (h : bbzvm_at vm i) :
    ∃ G, bbzvm_gc_frame vm G ∧ bbzheap_same vm.heap G.heap ∧
      bbzvm_step host vm = bbzvm_exec_switch host vm.pc { G with pc := vm.pc + 1 } (some i) := by
  obtain ⟨hg1, hg2⟩ := bbzvm_gc_ok vm h.sp_min h.sp_max
  refine ⟨(bbzvm_gc vm).2, hg2, bbzvm_gc_same vm, ?_⟩
  obtain ⟨hpc, hsz, hf, -⟩ := bbzvm_gc_frame_fields hg2
  have hnext := h.next
  have hsize := h.size
  unfold bbzvm_step
  rw [if_pos h.ready]
  have : bbzvm_gc vm = (true, (bbzvm_gc vm).2) := by
    rw [← hg1]
  rw [this]
  simp only []
  unfold bbzvm_exec_instr
  simp only [hpc, hf, hsz, h.opcode]
  rw [Nat.mod_eq_of_lt (by omega)]
  rw [if_neg (by simp [bbzvm_pc_out]; omega)]
  congr 1
  cases i <;> rfl

/-- The end of a return on a frame whose two saved entries are Ints: the
stack is cut below the saved program counter, the block pointer and the
program counter are read back. -/
theorem bbzvm_ret_frame_ok (V : bbzvm_t) (b pcv : Int) (hbp1 : 1 ≤ V.blockptr)
    (hb : bbzheap_obj_at V.heap (V.stack.getD V.blockptr.toNat V.garbage) = .int b)
    (hp : bbzheap_obj_at V.heap (V.stack.getD (V.blockptr - 1).toNat V.garbage) = .int pcv) :
    bbzvm_ret_frame V
      = { V with stackptr := V.blockptr - 2, blockptr := b, pc := (uint16 pcv).toNat } := by
  unfold bbzvm_ret_frame
  lift_lets
  intro vm1 vm2 vm3 vm4
  have e2 : vm2 = { V with stackptr := V.blockptr, blockptr := b } := by
    show ({ vm1 with blockptr := bbzobj_ivalue (bbzvm_obj_at vm1 (bbzvm_stack_at vm1 0)) }
      : bbzvm_t) = _
    have e0 : bbzvm_stack_at vm1 0 = V.stack.getD V.blockptr.toNat V.garbage := by
      show bbzvm_stack_at ({ V with stackptr := V.blockptr } : bbzvm_t) 0 = _
      unfold bbzvm_stack_at
      simp only [sub_zero]
      rw [if_pos (by omega)]
    rw [e0]
    have e1 : bbzvm_obj_at vm1 (V.stack.getD V.blockptr.toNat V.garbage) = .int b := hb
    rw [e1]
    rfl
  have e3 : vm3 = { V with stackptr := V.blockptr - 1, blockptr := b } := by
    show bbzvm_pop vm2 = _
    rw [e2, bbzvm_pop_ok _ (by simp only []; omega)]
  have e4 : vm4 = { vm3 with
      pc := (uint16 (bbzobj_ivalue (bbzvm_obj_at vm3 (bbzvm_stack_at vm3 0)))).toNat } := rfl
  clear_value vm4 vm3 vm2 vm1
  have s3 : bbzvm_stack_at vm3 0 = V.stack.getD (V.blockptr - 1).toNat V.garbage := by
    rw [e3]
    unfold bbzvm_stack_at
    simp only [sub_zero]
    rw [if_pos (by omega)]
  have o3 : bbzvm_obj_at vm3 (bbzvm_stack_at vm3 0) = .int pcv := by
    rw [s3, e3]
    exact hp
  rw [if_neg (by rw [e3]; simp only [bbzvm_stack_size]; omega)]
  rw [if_neg (by simp [bbzvm_type_ok, o3, bbztype, BBZTYPE_INT])]
  rw [e4, o3, e3]
  rw [bbzvm_pop_ok _ (by simp only []; omega)]
  simp only [bbzobj_ivalue]
  have a2 : V.blockptr - 1 - 1 = V.blockptr - 2 := by omega
  rw [a2]

/-- A step on RET0 over a frame as a call lays it down: the block pointer
`B` is at least 1 and not above the stack pointer, the stack cells `B` and
`B - 1` hold Ints with the saved block pointer `b` and the saved program
counter `pcv`, and `lsymts` holds `xs` and one more array.  The step stays
Ready, sets `pc`, the block pointer and the stack pointer back, keeps the
stack below the frame, and leaves `xs` in `lsymts` with its last array as
the current local symbols. -/
theorem bbzvm_step_ret0_frame (host : Nat → bbzvm_t → bbzvm_t) (w : bbzvm_t) (b pcv : Int)
    (xs : List Nat) (x : Nat) (hw : bbzvm_at w .RET0)
    (hbp1 : 1 ≤ w.blockptr) (hbsp : w.blockptr ≤ w.stackptr)
    (hb : bbzheap_obj_at w.heap (w.stack.getD w.blockptr.toNat w.garbage) = .int b)
    (hp : bbzheap_obj_at w.heap (w.stack.getD (w.blockptr - 1).toNat w.garbage) = .int pcv)
    (hpc : (uint16 pcv).toNat < w.bcode_size)
    (hd : bbzdarray_is w.heap w.lsymts (xs ++ [x])) :
    ∃ (hp2 : bbzheap_t) (stk : List Nat),
      bbzvm_step host w =
        { w with
          pc := (uint16 pcv).toNat
          heap := hp2
          stack := stk
          stackptr := w.blockptr - 2
          blockptr := b
          lsyms := xs.getLast?.getD 0 } ∧
      (∀ k : Nat, (k : Int) ≤ w.stackptr → stk[k]? = w.stack[k]?) ∧
      bbzdarray_is hp2 w.lsymts xs := by
  obtain ⟨G, F, S, hstep⟩ := bbzvm_step_exec_same host w .RET0 hw
  have hs2 : bbzvm_step host w
      = bbzvm_exec_chk w.pc (bbzvm_ret_frame (bbzvm_ret_lsyms { G with pc := w.pc + 1 })) := hstep
  rw [hs2]
  clear hs2 hstep
  have hG : ∃ gs gh, G = { w with stack := gs, heap := gh } := ⟨_, _, F.rest⟩
  have hbelow := F.below
  have hobj := F.obj
  have hready := hw.ready
  have hspmax := hw.sp_max
  have hlenG := F.len
  clear F
  obtain ⟨gs, gh, rfl⟩ := hG
  simp only [] at hbelow hobj S hlenG
  have hdG : bbzdarray_is ({ w with stack := gs, heap := gh, pc := w.pc + 1 } : bbzvm_t).heap
      ({ w with stack := gs, heap := gh, pc := w.pc + 1 } : bbzvm_t).lsymts (xs ++ [x]) :=
    bbzdarray_is_same S _ _ hd
  obtain ⟨h2, e2, i2, o2⟩ := bbzvm_ret_lsyms_is _ xs x hdG
  simp only [] at e2 i2 o2
  have e2' : bbzvm_ret_lsyms
      ({ ({ w with stack := gs, heap := gh } : bbzvm_t) with pc := w.pc + 1 } : bbzvm_t)
      = { w with stack := gs, heap := h2, pc := w.pc + 1, lsyms := xs.getLast?.getD 0 } := e2
  rw [e2']
  have g1 : gs.getD w.blockptr.toNat w.garbage = w.stack.getD w.blockptr.toNat w.garbage := by
    simp only [List.getD_eq_getElem?_getD]
    rw [hbelow _ (by omega)]
  have g2 : gs.getD (w.blockptr - 1).toNat w.garbage
      = w.stack.getD (w.blockptr - 1).toNat w.garbage := by
    simp only [List.getD_eq_getElem?_getD]
    rw [hbelow _ (by omega)]
  rw [bbzvm_ret_frame_ok ({ w with
      stack := gs, heap := h2, pc := w.pc + 1, lsyms := xs.getLast?.getD 0 } : bbzvm_t) b pcv hbp1
    (by simp only []; rw [g1, o2, hobj]; exact hb)
    (by simp only []; rw [g2, o2, hobj]; exact hp)]
  simp only []
  have hchk : bbzvm_exec_chk w.pc ({ w with
      stack := gs, heap := h2, pc := (uint16 pcv).toNat, lsyms := xs.getLast?.getD 0
      stackptr := w.blockptr - 2, blockptr := b } : bbzvm_t)
      = { w with
          stack := gs, heap := h2, pc := (uint16 pcv).toNat, lsyms := xs.getLast?.getD 0
          stackptr := w.blockptr - 2, blockptr := b } := by
    unfold bbzvm_exec_chk
    rw [if_neg (by
      rintro ⟨-, hx⟩
      unfold bbzvm_pc_out at hx
      simp only [Bool.or_eq_true, decide_eq_true_eq] at hx
      omega)]
    unfold bbzvm_exec_end
    rw [if_neg (by simp [hready])]
  rw [hchk]
  exact ⟨h2, gs, rfl, hbelow, i2⟩

/-- C20: a CALLC at address `a = pc` on a closure with the tag bit set and
`n` arguments, executed outside or inside a function (`lsymts` holds `xs`
and the current local symbols are its last array, or 0 when it is empty),
followed by RET0 on any machine `w` that kept the frame (same bytecode
size, the block pointer the call set, the stack pointer not below it, the
stack cells up to the block pointer and the two saved Ints as the call left
them, and `lsymts` holding `xs` and one more array), restores the caller:
`pc = a + 1`, the block pointer is the one before the call, the stack holds
exactly the entries that were below the closure, `lsymts` holds `xs` again
(so it has its previous length), and the current local symbols are those in
force before the call. -/
theorem c20_call_ret0 (host : Nat → bbzvm_t → bbzvm_t) (vm w : bbzvm_t)
    (r : Int) (a n : Nat) (xs : List Nat) (x : Nat)
    (hat : bbzvm_at vm .CALLC) (hn32 : n ≤ 32767)
    (hn : bbzvm_obj_at vm (bbzvm_stack_at vm 0) = .int n)
    (hsz : (n : Int) + 1 ≤ vm.stackptr)
    (hc : bbzvm_obj_at vm (bbzvm_stack_at vm (n + 1)) = .closure true r a)
    (hcv : bbzheap_obj_isvalid vm.heap (bbzvm_stack_at vm (n + 1)) = true)
    (hok : (bbzvm_step host vm).state = BBZVM_STATE_READY)
    (hbp : -32768 ≤ vm.blockptr ∧ vm.blockptr ≤ 32767)
    (hl0 : bbzdarray_is vm.heap vm.lsymts xs) (hls : vm.lsyms = xs.getLast?.getD 0)
    (hw : bbzvm_at w .RET0)
    (hwcode : w.bcode_size = vm.bcode_size)
    (hwbp : w.blockptr = (bbzvm_step host vm).blockptr)
    (hwsp : w.blockptr ≤ w.stackptr)
    (hwstk : ∀ k : Nat, (k : Int) ≤ w.blockptr →
      w.stack[k]? = (bbzvm_step host vm).stack[k]?)
    (hwo0 : bbzvm_obj_at w (bbzvm_stack_at (bbzvm_step host vm) 0)
      = bbzvm_obj_at (bbzvm_step host vm) (bbzvm_stack_at (bbzvm_step host vm) 0))
    (hwo1 : bbzvm_obj_at w (bbzvm_stack_at (bbzvm_step host vm) 1)
      = bbzvm_obj_at (bbzvm_step host vm) (bbzvm_stack_at (bbzvm_step host vm) 1))
    (hwlt : w.lsymts = vm.lsymts)
    (hwl : bbzdarray_is w.heap w.lsymts (xs ++ [x])) :
    (bbzvm_step host w).state = BBZVM_STATE_READY ∧
    (bbzvm_step host w).pc = vm.pc + 1 ∧
    (bbzvm_step host w).blockptr = vm.blockptr ∧
    (bbzvm_step host w).stackptr = vm.stackptr - n - 2 ∧
    (∀ k : Nat, (k : Int) ≤ vm.stackptr - n - 2 →
      (bbzvm_step host w).stack[k]? = vm.stack[k]?) ∧
    bbzdarray_size (bbzvm_step host w).heap (bbzvm_step host w).lsymts
      = bbzdarray_size vm.heap vm.lsymts ∧
    (bbzvm_step host w).lsymts = vm.lsymts ∧
    bbzdarray_is (bbzvm_step host w).heap (bbzvm_step host w).lsymts xs ∧
    (bbzvm_step host w).lsyms = vm.lsyms := by
  obtain ⟨hp, l, i, j, stk, e, hlen, hj, hi, hbelow, hoj, hoi, hpc⟩ :=
    bbzvm_step_callc_frame host vm r a n hat hn32 hn hsz hc hcv hok
  have hnext := hat.next
  have hsize := hat.size
  have s0 : bbzvm_stack_at (bbzvm_step host vm) 0 = j := by
    rw [e]
    unfold bbzvm_stack_at
    simp only [sub_zero]
    rw [if_pos (by omega), List.getD_eq_getElem?_getD, hj]
    rfl
  have s1 : bbzvm_stack_at (bbzvm_step host vm) 1 = i := by
    rw [e]
    unfold bbzvm_stack_at
    simp only []
    rw [if_pos (by omega), List.getD_eq_getElem?_getD, hi]
    rfl
  rw [s0] at hwo0
  rw [s1] at hwo1
  rw [e] at hwbp hwstk hwo0 hwo1
  simp only [bbzvm_obj_at] at hwbp hwstk hwo0 hwo1
  rw [hoj] at hwo0
  rw [hoi] at hwo1
  have c0 : w.stack.getD w.blockptr.toNat w.garbage = j := by
    rw [List.getD_eq_getElem?_getD, hwstk _ (by omega), hwbp, hj]
    rfl
  have c1 : w.stack.getD (w.blockptr - 1).toNat w.garbage = i := by
    rw [List.getD_eq_getElem?_getD, hwstk _ (by omega), hwbp, hi]
    rfl
  have hu : (uint16 (int16 ((vm.pc : Int) + 1))).toNat = vm.pc + 1 := by
    simp only [uint16, int16]
    omega
  obtain ⟨hp2, stk2, e2, hb2, i2⟩ := bbzvm_step_ret0_frame host w (int16 vm.blockptr)
    (int16 ((vm.pc : Int) + 1)) xs x hw (by omega) hwsp (by rw [c0]; exact hwo0)
    (by rw [c1]; exact hwo1) (by rw [hu, hwcode]; exact hnext) hwl
  rw [e2, hu, int16_of_range _ hbp.1 hbp.2, hwbp]
  refine ⟨hw.ready, rfl, rfl, by first | rfl | omega, ?_, ?_, hwlt, i2, hls.symm⟩
  · intro k hk
    simp only []
    rw [hb2 k (by omega), hwstk k (by omega)]
    exact hbelow k (by omega)
  · simp only []
    rw [bbzdarray_is_size i2, bbzdarray_is_size hl0]

/-- Witness of C20: CALLC at address 0 with two arguments on the closure
of `call_vm`, whose reference 3 is the address of a RET0, made outside any
function; the RET0 runs on the machine the call left. -/
theorem c20_call_ret0_witness :
    (bbzvm_step test_host (bbzvm_step test_host (call_vm [28, 0, 0, 5, 0] [11, 9, 8, 6]))).pc
      = 1 ∧
    (bbzvm_step test_host (bbzvm_step test_host
      (call_vm [28, 0, 0, 5, 0] [11, 9, 8, 6]))).blockptr = -1 ∧
    (bbzvm_step test_host (bbzvm_step test_host
      (call_vm [28, 0, 0, 5, 0] [11, 9, 8, 6]))).stackptr = -1 ∧
    (bbzvm_step test_host (bbzvm_step test_host
      (call_vm [28, 0, 0, 5, 0] [11, 9, 8, 6]))).lsyms = 0 :=
  have h := c20_call_ret0 test_host (call_vm [28, 0, 0, 5, 0] [11, 9, 8, 6])
    (bbzvm_step test_host (call_vm [28, 0, 0, 5, 0] [11, 9, 8, 6])) 3 255 2 [] 7
    ⟨rfl, rfl, by decide, by decide, by decide, by decide, by decide⟩ (by decide) (by decide)
    (by decide) (by decide) (by decide) (by decide) (by decide)
    (by unfold bbzdarray_is; decide) (by decide)
    ⟨by decide, by decide, by decide, by decide, by decide, by decide, by decide⟩
    (by decide) rfl (by decide) (fun _ _ => rfl) rfl rfl (by decide)
    (by unfold bbzdarray_is; decide)
  ⟨h.2.1, h.2.2.1, h.2.2.2.1, h.2.2.2.2.2.2.2.2⟩

/-! ## Pushes and duplicates -/

theorem bbzvm_pushi_ok (V : bbzvm_t) (v : Int) (i : Nat)
    (hs : bbzheap_obj_slot V.heap = some i) (hlen : V.stackptr + 1 < V.stack.length) :
    bbzvm_pushi V v =
      { V with
        heap := bbzheap_with_int V.heap i v
        stackptr := V.stackptr + 1
        stack := V.stack.set (V.stackptr + 1).toNat i } := by
  unfold bbzvm_pushi
  rw [bbzvm_obj_alloc_int V i hs]
  simp only
  rw [bbzvm_alloc_set_int V i v hs]
  exact bbzvm_push_ok { V with heap := bbzheap_with_int V.heap i v } i hlen

theorem bbzvm_step_arg_same (host : Nat → bbzvm_t → bbzvm_t) (vm : bbzvm_t) (i : bbzvm_instr)
    (k : bbzvm_t → Nat → bbzvm_t)
    (hop : ∀ o V, bbzvm_exec_switch host o V (some i) = bbzvm_exec_arg o V k)
    (hat : bbzvm_at vm i) (hfall : vm.pc + 5 < vm.bcode_size) :
    ∃ G, bbzvm_gc_frame vm G ∧ bbzheap_same vm.heap G.heap ∧
      bbzvm_step host vm = bbzvm_exec_end vm.pc
        (k { G with pc := vm.pc + 5 } (bbzvm_fetch_arg { vm with pc := vm.pc + 1 })) := by
  obtain ⟨G, F, S, hstep⟩ := bbzvm_step_exec_same host vm i hat
  obtain ⟨hpc, hsz, hf, hst, her, hspG, hno, hnf, hnil, hg, hbp⟩ := bbzvm_gc_frame_fields F
  refine ⟨G, F, S, ?_⟩
  have hsize := hat.size
  rw [hstep, hop]
  unfold bbzvm_exec_arg
  rw [if_neg (by simp [bbzvm_pc_out, hsz]; omega)]
  simp only []
  rw [Nat.mod_eq_of_lt (by omega)]
  have e : vm.pc + 1 + 4 = vm.pc + 5 := by omega
  rw [e]
  unfold bbzvm_fetch_arg
  simp only [hf]

/-- A step on PUSHI: the machine after the collection, with the new Int in
a free slot `i` and its index pushed. -/
theorem bbzvm_step_pushi (host : Nat → bbzvm_t → bbzvm_t) (vm : bbzvm_t)
    (hat : bbzvm_at vm .PUSHI) (hfall : vm.pc + 5 < vm.bcode_size)
    (hslot : (bbzheap_obj_slot vm.heap).isSome = true) :
    ∃ G i, bbzvm_gc_frame vm G ∧ bbzheap_same vm.heap G.heap ∧
      bbzheap_obj_slot G.heap = some i ∧
      bbzvm_step host vm =
        { G with
          pc := vm.pc + 5
          heap := bbzheap_with_int G.heap i (int16 (bbzvm_fetch_arg { vm with pc := vm.pc + 1 }))
          stackptr := vm.stackptr + 1
          stack := G.stack.set (vm.stackptr + 1).toNat i } := by
  obtain ⟨G, F, hS, hstep⟩ := bbzvm_step_arg_same host vm .PUSHI
    (fun m arg => bbzvm_pushi m (int16 arg)) (fun _ _ => rfl) hat hfall
  obtain ⟨hpc, hsz, hf, hst, her, hspG, hno, hnf, hnil, hg, hbp⟩ := bbzvm_gc_frame_fields F
  obtain ⟨i, hi⟩ := Option.isSome_iff_exists.mp (F.slot hslot)
  refine ⟨G, i, F, hS, hi, ?_⟩
  rw [hstep]
  rw [bbzvm_pushi_ok { G with pc := vm.pc + 5 } _ i hi
    (by simp only [hspG, F.len]; have := hat.sp_max; omega)]
  unfold bbzvm_exec_end
  rw [if_neg (by simp only [hst, hat.ready]; simp)]
  simp only [hspG]

/-- A step on POP with a non-empty stack: only the stack pointer, the
program counter and what the collector touches change. -/
theorem bbzvm_step_pop (host : Nat → bbzvm_t → bbzvm_t) (vm : bbzvm_t)
    (hat : bbzvm_at vm .POP) (hsp : 0 ≤ vm.stackptr) :
    ∃ G, bbzvm_gc_frame vm G ∧ bbzheap_same vm.heap G.heap ∧
      bbzvm_step host vm = { G with pc := vm.pc + 1, stackptr := vm.stackptr - 1 } := by
  obtain ⟨G, F, S, hstep⟩ := bbzvm_step_exec_same host vm .POP hat
  obtain ⟨hpc, hsz, hf, hst, her, hspG, hno, hnf, hnil, hg, hbp⟩ := bbzvm_gc_frame_fields F
  refine ⟨G, F, S, ?_⟩
  rw [hstep]
  show bbzvm_exec_end vm.pc (bbzvm_pop { G with pc := vm.pc + 1 }) = _
  rw [bbzvm_pop_ok { G with pc := vm.pc + 1 } (by simp only [hspG]; exact hsp)]
  unfold bbzvm_exec_end
  rw [if_neg (by simp only [hst, hat.ready]; simp)]
  simp only [hspG]

/-- C27, counterexample: on a stack of 16 cells with ten entries, six
cells are free.  The step on PUSHI 0x42 ends Ready with eleven entries; the
step on the POP that follows finds five free cells, ends in Error with
error Stack and leaves the eleven entries: the stack size is not
restored. -/
theorem c27_six_cells_counterexample :
    BBZSTACK_SIZE (test_vm 2 8384 [31, 0x42, 0, 0, 0, 4, 0] [6, 7, 8, 9, 6, 7, 8, 9, 6, 7])
      - bbzvm_stack_size
          (test_vm 2 8384 [31, 0x42, 0, 0, 0, 4, 0] [6, 7, 8, 9, 6, 7, 8, 9, 6, 7]) = 6 ∧
    (bbzvm_step test_host
      (test_vm 2 8384 [31, 0x42, 0, 0, 0, 4, 0] [6, 7, 8, 9, 6, 7, 8, 9, 6, 7])).state
      = BBZVM_STATE_READY ∧
    (bbzvm_step test_host
      (test_vm 2 8384 [31, 0x42, 0, 0, 0, 4, 0] [6, 7, 8, 9, 6, 7, 8, 9, 6, 7])).pc = 5 ∧
    bbzvm_stack_size (bbzvm_step test_host
      (test_vm 2 8384 [31, 0x42, 0, 0, 0, 4, 0] [6, 7, 8, 9, 6, 7, 8, 9, 6, 7])) = 11 ∧
    (bbzvm_step test_host (bbzvm_step test_host
      (test_vm 2 8384 [31, 0x42, 0, 0, 0, 4, 0] [6, 7, 8, 9, 6, 7, 8, 9, 6, 7]))).state
      = BBZVM_STATE_ERROR ∧
    (bbzvm_step test_host (bbzvm_step test_host
      (test_vm 2 8384 [31, 0x42, 0, 0, 0, 4, 0] [6, 7, 8, 9, 6, 7, 8, 9, 6, 7]))).error
      = BBZVM_ERROR_STACK ∧
    bbzvm_stack_size (bbzvm_step test_host (bbzvm_step test_host
      (test_vm 2 8384 [31, 0x42, 0, 0, 0, 4, 0] [6, 7, 8, 9, 6, 7, 8, 9, 6, 7]))) = 11 ∧
    ¬ bbzvm_stack_size (bbzvm_step test_host (bbzvm_step test_host
        (test_vm 2 8384 [31, 0x42, 0, 0, 0, 4, 0] [6, 7, 8, 9, 6, 7, 8, 9, 6, 7])))
      = bbzvm_stack_size
        (test_vm 2 8384 [31, 0x42, 0, 0, 0, 4, 0] [6, 7, 8, 9, 6, 7, 8, 9, 6, 7]) := by
  decide

/-- C27, amended: for every 32-bit immediate `imm` stored after the opcode,
a step on PUSHI with six free stack cells (and a free heap slot, the
instruction followed by more bytecode) ends Ready at `pc + 5` with one entry
more; the new top is a valid Int whose value is the low 16 bits of `imm`
read as a signed 16-bit integer, the entries below and all other objects
are as before.  When seven stack cells were free before the PUSHI, so that
six are free for the next step, a following step on POP ends Ready at
`pc + 6` with the stack pointer of the start and the entries below
unchanged. -/
theorem c27_pushi_pop (host : Nat → bbzvm_t → bbzvm_t) (vm : bbzvm_t)
    (hat : bbzvm_at vm .PUSHI) (hfall : vm.pc + 5 < vm.bcode_size)
    (hslot : (bbzheap_obj_slot vm.heap).isSome = true) :
    ((bbzvm_step host vm).state = BBZVM_STATE_READY ∧
      (bbzvm_step host vm).error = BBZVM_ERROR_NONE ∧
      (bbzvm_step host vm).pc = vm.pc + 5 ∧
      (bbzvm_step host vm).stackptr = vm.stackptr + 1 ∧
      bbzvm_obj_at (bbzvm_step host vm) (bbzvm_stack_at (bbzvm_step host vm) 0)
        = .int (int16 (bbzvm_fetch_arg { vm with pc := vm.pc + 1 } % 65536)) ∧
      bbzheap_obj_isvalid (bbzvm_step host vm).heap (bbzvm_stack_at (bbzvm_step host vm) 0)
        = true ∧
      (∀ j, j ≠ bbzvm_stack_at (bbzvm_step host vm) 0 →
        bbzheap_obj_at (bbzvm_step host vm).heap j = bbzheap_obj_at vm.heap j) ∧
      (∀ k : Nat, (k : Int) ≤ vm.stackptr →
        (bbzvm_step host vm).stack[k]? = vm.stack[k]?)) ∧
    (vm.bcode_fetch_fun (vm.pc + 5) % 256 = bbzvm_instr.POP.code →
      vm.pc + 6 < vm.bcode_size → vm.stackptr + 8 ≤ vm.stack.length →
      (bbzvm_step host (bbzvm_step host vm)).state = BBZVM_STATE_READY ∧
      (bbzvm_step host (bbzvm_step host vm)).error = BBZVM_ERROR_NONE ∧
      (bbzvm_step host (bbzvm_step host vm)).pc = vm.pc + 6 ∧
      (bbzvm_step host (bbzvm_step host vm)).stackptr = vm.stackptr ∧
      (∀ k : Nat, (k : Int) ≤ vm.stackptr →
        (bbzvm_step host (bbzvm_step host vm)).stack[k]? = vm.stack[k]?)) := by
  obtain ⟨G, i, F, -, hi, hstep⟩ := bbzvm_step_pushi host vm hat hfall hslot
  obtain ⟨hpc, hsz, hf, hst, her, hspG, hno, hnf, hnil, hg, hbp⟩ := bbzvm_gc_frame_fields F
  obtain ⟨hil, -⟩ := bbzheap_obj_slot_spec G.heap i hi
  have hmin := hat.sp_min
  have hmax := hat.sp_max
  have hlt : (vm.stackptr + 1).toNat < G.stack.length := by rw [F.len]; omega
  have e16 : int16 (bbzvm_fetch_arg { vm with pc := vm.pc + 1 })
      = int16 (bbzvm_fetch_arg { vm with pc := vm.pc + 1 } % 65536) := by
    unfold int16; push_cast; omega
  have htop : bbzvm_stack_at (bbzvm_step host vm) 0 = i := by
    rw [hstep]
    unfold bbzvm_stack_at
    simp only [sub_zero]
    rw [if_pos (by omega)]
    simp [List.getD_eq_getElem?_getD, List.getElem?_set_self hlt]
  have hbelow : ∀ k : Nat, (k : Int) ≤ vm.stackptr →
      (bbzvm_step host vm).stack[k]? = vm.stack[k]? := by
    intro k hk
    rw [hstep]
    simp only []
    rw [List.getElem?_set_ne (by omega)]
    exact F.below k hk
  refine ⟨⟨?_, ?_, ?_, ?_, ?_, ?_, ?_, hbelow⟩, ?_⟩
  · rw [hstep]; simp only [hst]; exact hat.ready
  · rw [hstep]; simp only [her]; exact hat.noerr
  · rw [hstep]
  · rw [hstep]
  · rw [htop, ← e16, hstep]
    unfold bbzvm_obj_at
    simp only []
    rw [bbzheap_with_int_at G.heap i i _ hi, if_pos rfl]
  · rw [htop, hstep]
    simp only []
    rw [bbzheap_with_int_valid G.heap i i _ hi, if_pos rfl]
  · intro j hj
    rw [htop] at hj
    rw [hstep]
    simp only []
    rw [bbzheap_with_int_at G.heap i j _ hi, if_neg hj]
    exact F.obj j
  · intro hpop hnext hroom
    have hat2 : bbzvm_at (bbzvm_step host vm) .POP := by
      rw [hstep]
      exact ⟨by simp only [hst]; exact hat.ready, by simp only [her]; exact hat.noerr,
        by simp only [hf]; exact hpop, by simp only [hsz]; omega,
        by simp only [hsz]; exact hat.size,
        by simp only []; omega, by simp only [List.length_set, F.len]; omega⟩
    obtain ⟨G2, F2, -, hstep2⟩ := bbzvm_step_pop host (bbzvm_step host vm) hat2
      (by rw [hstep]; simp only []; omega)
    obtain ⟨hpc2, hsz2, hf2, hst2, her2, hspG2, hno2, hnf2, hnil2, hg2, hbp2⟩ :=
      bbzvm_gc_frame_fields F2
    refine ⟨?_, ?_, ?_, ?_, ?_⟩
    · rw [hstep2]; simp only [hst2]; exact hat2.ready
    · rw [hstep2]; simp only [her2]; exact hat2.noerr
    · rw [hstep2]; simp only []; rw [hstep]
    · rw [hstep2]; simp only []; rw [hstep]; simp only []; omega
    · intro k hk
      rw [hstep2]
      simp only []
      rw [F2.below k (by rw [hstep]; simp only []; omega)]
      exact hbelow k hk

/-- Witness of C27: PUSHI 0x42 followed by POP, as in step 5 of `testvm.c`,
on a stack of 16 cells with nine entries (seven free cells): the pushed
value is 0x42, and the POP restores the nine entries.  With ten entries (six
free cells) the PUSHI part holds as well. -/
theorem c27_pushi_pop_witness :
    bbzvm_obj_at (bbzvm_step test_host
        (test_vm 2 8384 [31, 0x42, 0, 0, 0, 4, 0] [6, 7, 8, 9, 6, 7, 8, 9, 6]))
        (bbzvm_stack_at (bbzvm_step test_host
          (test_vm 2 8384 [31, 0x42, 0, 0, 0, 4, 0] [6, 7, 8, 9, 6, 7, 8, 9, 6])) 0)
      = .int 0x42 ∧
    (bbzvm_step test_host (bbzvm_step test_host
      (test_vm 2 8384 [31, 0x42, 0, 0, 0, 4, 0] [6, 7, 8, 9, 6, 7, 8, 9, 6]))).stackptr = 8 ∧
    (bbzvm_step test_host
      (test_vm 2 8384 [31, 0x42, 0, 0, 0, 4, 0] [6, 7, 8, 9, 6, 7, 8, 9, 6, 7])).stackptr
      = 10 :=
  have h := c27_pushi_pop test_host
    (test_vm 2 8384 [31, 0x42, 0, 0, 0, 4, 0] [6, 7, 8, 9, 6, 7, 8, 9, 6])
    ⟨by decide, by decide, by decide, by decide, by decide, by decide, by decide⟩
    (by decide) (by decide)
  have k := c27_pushi_pop test_host
    (test_vm 2 8384 [31, 0x42, 0, 0, 0, 4, 0] [6, 7, 8, 9, 6, 7, 8, 9, 6, 7])
    ⟨by decide, by decide, by decide, by decide, by decide, by decide, by decide⟩
    (by decide) (by decide)
  ⟨h.1.2.2.2.2.1, (h.2 (by decide) (by decide) (by decide)).2.2.2.1, k.1.2.2.2.1⟩

theorem bbzvm_obj_alloc_plain (vm : bbzvm_t) (t i : Nat) (ht : t ≠ BBZTYPE_TABLE)
    (hs : bbzheap_obj_slot vm.heap = some i) :
    bbzvm_obj_alloc vm t
      = ({ vm with heap := bbzheap_obj_place vm.heap i (bbzobj_fresh t 0) }, i) := by
  unfold bbzvm_obj_alloc bbzheap_obj_alloc
  rw [hs]
  simp only [if_neg ht]

/-- The function `bbzvm_dup` on a stack that is neither empty nor full, with
a free slot `i` and a valid top: slot `i` receives the object of the top and
its index is pushed. -/
theorem bbzvm_dup_ok (V : bbzvm_t) (i : Nat) (h0 : 0 ≤ V.stackptr)
    (h1 : V.stackptr + 1 < V.stack.length) (hlen : V.stack.length ≤ 65535)
    (hs : bbzheap_obj_slot V.heap = some i)
    (hv : bbzheap_obj_isvalid V.heap (bbzvm_stack_at V 0) = true) :
    bbzvm_dup V =
      { V with
        heap := bbzheap_obj_write (bbzheap_obj_place V.heap i .nil) i
          (bbzheap_obj_at V.heap (bbzvm_stack_at V 0))
        stackptr := V.stackptr + 1
        stack := V.stack.set (V.stackptr + 1).toNat i } := by
  obtain ⟨hil, hiv⟩ := bbzheap_obj_slot_spec V.heap i hs
  have hne : bbzvm_stack_at V 0 ≠ i := by
    intro e
    rw [e, hiv] at hv
    exact Bool.noConfusion hv
  unfold bbzvm_dup
  have hu : uint16 (bbzvm_stack_size V) = V.stackptr + 1 := by
    unfold uint16 bbzvm_stack_size
    omega
  simp only [hu]
  rw [if_pos (by unfold BBZSTACK_SIZE; omega)]
  rw [bbzvm_obj_alloc_plain V BBZTYPE_NIL i (by decide) hs]
  simp only []
  have ef : bbzobj_fresh BBZTYPE_NIL 0 = .nil := by decide
  rw [ef]
  have e1 : bbzvm_stack_at { V with heap := bbzheap_obj_place V.heap i .nil } 0
      = bbzvm_stack_at V 0 := rfl
  rw [e1]
  unfold bbzheap_obj_copy
  rw [bbzheap_obj_place_at _ _ _ _ hil, if_neg hne]
  exact bbzvm_push_ok _ i h1

/-- C28: `bbzvm_dup` on a stack that is neither empty nor full (with a free
heap slot and a valid top) raises the stack size by one; the new top is a
slot that was free, now valid, holding the object of the previous top (same
type and payload); the previous top is at depth 1 and every other object is
as before; a `bbzvm_pop` after it restores the stack pointer, the entries and
the object of the top.  A step on DUP (six free cells) does the same and
ends Ready at `pc + 1`. -/
theorem c28_dup (host : Nat → bbzvm_t → bbzvm_t) (vm : bbzvm_t)
    (h0 : 0 ≤ vm.stackptr) (h1 : vm.stackptr + 1 < vm.stack.length)
    (hlen : vm.stack.length ≤ 65535)
    (hs : (bbzheap_obj_slot vm.heap).isSome = true)
    (hv : bbzheap_obj_isvalid vm.heap (bbzvm_stack_at vm 0) = true) :
    ((bbzvm_dup vm).state = vm.state ∧
      bbzvm_stack_size (bbzvm_dup vm) = bbzvm_stack_size vm + 1 ∧
      bbzheap_obj_isvalid vm.heap (bbzvm_stack_at (bbzvm_dup vm) 0) = false ∧
      bbzheap_obj_isvalid (bbzvm_dup vm).heap (bbzvm_stack_at (bbzvm_dup vm) 0) = true ∧
      bbzvm_obj_at (bbzvm_dup vm) (bbzvm_stack_at (bbzvm_dup vm) 0)
        = bbzvm_obj_at vm (bbzvm_stack_at vm 0) ∧
      bbzvm_stack_at (bbzvm_dup vm) 1 = bbzvm_stack_at vm 0 ∧
      (∀ j, j ≠ bbzvm_stack_at (bbzvm_dup vm) 0 →
        bbzvm_obj_at (bbzvm_dup vm) j = bbzvm_obj_at vm j) ∧
      (∀ k : Nat, (k : Int) ≤ vm.stackptr → (bbzvm_dup vm).stack[k]? = vm.stack[k]?) ∧
      (bbzvm_pop (bbzvm_dup vm)).stackptr = vm.stackptr ∧
      (bbzvm_pop (bbzvm_dup vm)).stack = (bbzvm_dup vm).stack ∧
      (bbzvm_pop (bbzvm_dup vm)).heap = (bbzvm_dup vm).heap) ∧
    (bbzvm_at vm .DUP →
      (bbzvm_step host vm).state = BBZVM_STATE_READY ∧
      (bbzvm_step host vm).pc = vm.pc + 1 ∧
      (bbzvm_step host vm).stackptr = vm.stackptr + 1 ∧
      bbzheap_obj_isvalid (bbzvm_step host vm).heap (bbzvm_stack_at (bbzvm_step host vm) 0)
        = true ∧
      bbzvm_obj_at (bbzvm_step host vm) (bbzvm_stack_at (bbzvm_step host vm) 0)
        = bbzvm_obj_at vm (bbzvm_stack_at vm 0) ∧
      bbzvm_stack_at (bbzvm_step host vm) 0 ≠ bbzvm_stack_at vm 0 ∧
      bbzvm_stack_at (bbzvm_step host vm) 1 = bbzvm_stack_at vm 0 ∧
      (∀ j, j ≠ bbzvm_stack_at (bbzvm_step host vm) 0 →
        bbzvm_obj_at (bbzvm_step host vm) j = bbzvm_obj_at vm j) ∧
      (∀ k : Nat, (k : Int) ≤ vm.stackptr → (bbzvm_step host vm).stack[k]? = vm.stack[k]?)) := by
  have hshape : ∀ (V : bbzvm_t) (i : Nat), 0 ≤ V.stackptr → V.stackptr + 1 < V.stack.length →
      bbzheap_obj_slot V.heap = some i →
      bbzheap_obj_isvalid V.heap (bbzvm_stack_at V 0) = true →
      ∀ W, W = { V with
        heap := bbzheap_obj_write (bbzheap_obj_place V.heap i .nil) i
          (bbzheap_obj_at V.heap (bbzvm_stack_at V 0))
        stackptr := V.stackptr + 1
        stack := V.stack.set (V.stackptr + 1).toNat i } →
      bbzvm_stack_at W 0 = i ∧ bbzheap_obj_isvalid V.heap i = false ∧
      bbzheap_obj_isvalid W.heap i = true ∧
      bbzvm_obj_at W i = bbzvm_obj_at V (bbzvm_stack_at V 0) ∧
      bbzvm_stack_at W 1 = bbzvm_stack_at V 0 ∧
      (∀ j, j ≠ i → bbzvm_obj_at W j = bbzvm_obj_at V j) ∧
      (∀ k : Nat, (k : Int) ≤ V.stackptr → W.stack[k]? = V.stack[k]?) := by
    intro V i g0 g1 gs gv W hW
    obtain ⟨hil, hiv⟩ := bbzheap_obj_slot_spec V.heap i gs
    have hlt : (V.stackptr + 1).toNat < V.stack.length := by omega
    have hpl := bbzheap_obj_place_length V.heap i .nil hil
    refine ⟨?_, hiv, ?_, ?_, ?_, ?_, ?_⟩
    · rw [hW]
      unfold bbzvm_stack_at
      simp only [sub_zero]
      rw [if_pos (by omega)]
      simp [List.getD_eq_getElem?_getD, List.getElem?_set_self hlt]
    · rw [hW]
      simp only []
      rw [bbzheap_obj_write_valid, bbzheap_obj_place_valid _ _ _ _ hil, if_pos rfl]
    · rw [hW]
      unfold bbzvm_obj_at
      simp only []
      rw [bbzheap_obj_write_at _ _ _ _ hpl, if_pos rfl]
    · rw [hW]
      unfold bbzvm_stack_at
      simp only [sub_zero]
      rw [if_pos (by omega), if_pos (by omega)]
      have e : (V.stackptr + 1 - 1).toNat = V.stackptr.toNat := by
        congr 1; omega
      rw [e]
      simp only [List.getD_eq_getElem?_getD]
      rw [List.getElem?_set_ne (by omega)]
    · intro j hj
      rw [hW]
      unfold bbzvm_obj_at
      simp only []
      rw [bbzheap_obj_write_at _ _ _ _ hpl, if_neg hj, bbzheap_obj_place_at _ _ _ _ hil,
        if_neg hj]
    · intro k hk
      rw [hW]
      simp only []
      rw [List.getElem?_set_ne (by omega)]
  obtain ⟨i, hi⟩ := Option.isSome_iff_exists.mp hs
  constructor
  · have hd := bbzvm_dup_ok vm i h0 h1 hlen hi hv
    obtain ⟨s1, s2, s3, s4, s5, s6, s7⟩ := hshape vm i h0 h1 hi hv _ hd
    have hsp : (bbzvm_dup vm).stackptr = vm.stackptr + 1 := by rw [hd]
    have hpop := bbzvm_pop_ok (bbzvm_dup vm) (by omega)
    refine ⟨by rw [hd], ?_, ?_, ?_, ?_, s5, ?_, s7, ?_, ?_, ?_⟩
    · unfold bbzvm_stack_size; omega
    · rw [s1]; exact s2
    · rw [s1]; exact s3
    · rw [s1]; exact s4
    · rw [s1]; exact s6
    · rw [hpop]; simp only []; omega
    · rw [hpop]
    · rw [hpop]
  · intro hat
    obtain ⟨G, F, hstep⟩ := bbzvm_step_exec host vm .DUP hat
    obtain ⟨hpc, hsz, hf, hst, her, hspG, hno, hnf, hnil, hg, hbp⟩ := bbzvm_gc_frame_fields F
    obtain ⟨gi, hgi⟩ := Option.isSome_iff_exists.mp (F.slot hs)
    have htopG : bbzvm_stack_at { G with pc := vm.pc + 1 } 0 = bbzvm_stack_at vm 0 :=
      bbzvm_gc_frame_stack_at F 0 (le_refl 0) (vm.pc + 1)
    have hvG : bbzheap_obj_isvalid G.heap (bbzvm_stack_at vm 0) = true :=
      bbzvm_stack_at_valid_root F 0 (le_refl 0) h0 hv
    have hd := bbzvm_dup_ok { G with pc := vm.pc + 1 } gi (by simp only [hspG]; exact h0)
      (by simp only [hspG, F.len]; exact h1) (by simp only [F.len]; exact hlen) hgi
      (by rw [htopG]; exact hvG)
    have hstep2 : bbzvm_step host vm = bbzvm_dup { G with pc := vm.pc + 1 } := by
      rw [hstep]
      show bbzvm_exec_end vm.pc (bbzvm_dup { G with pc := vm.pc + 1 }) = _
      unfold bbzvm_exec_end
      rw [if_neg (by rw [hd]; simp only [hst, hat.ready]; simp)]
    obtain ⟨s1, s2, s3, s4, s5, s6, s7⟩ := hshape { G with pc := vm.pc + 1 } gi
      (by simp only [hspG]; exact h0) (by simp only [hspG, F.len]; exact h1) hgi
      (by rw [htopG]; exact hvG) _ hd
    rw [hstep2]
    have hne : gi ≠ bbzvm_stack_at vm 0 := by
      intro e
      rw [← e] at hvG
      simp only [] at s2
      rw [s2] at hvG
      exact Bool.noConfusion hvG
    refine ⟨by rw [hd]; simp only [hst]; exact hat.ready, by rw [hd],
      by rw [hd]; simp only [hspG], ?_, ?_, ?_, ?_, ?_, ?_⟩
    · rw [s1]; exact s3
    · rw [s1, s4, htopG]; unfold bbzvm_obj_at; exact F.obj _
    · rw [s1]; exact hne
    · rw [s5, htopG]
    · intro j hj
      rw [s1] at hj
      rw [s6 j hj]
      unfold bbzvm_obj_at
      exact F.obj j
    · intro k hk
      rw [s7 k (by simp only [hspG]; exact hk)]
      exact F.below k hk

/-- Witness of C28: DUP on a stack holding the Int 0x42, as in step 6 of
`testvm.c`: both top entries are Int 0x42. -/
theorem c28_dup_witness :
    bbzvm_obj_at (bbzvm_step test_host (test_vm 0x42 8384 [3, 0] [6]))
        (bbzvm_stack_at (bbzvm_step test_host (test_vm 0x42 8384 [3, 0] [6])) 0) = .int 0x42 ∧
    bbzvm_obj_at (bbzvm_step test_host (test_vm 0x42 8384 [3, 0] [6]))
        (bbzvm_stack_at (bbzvm_step test_host (test_vm 0x42 8384 [3, 0] [6])) 1) = .int 0x42 :=
  have h := (c28_dup test_host (test_vm 0x42 8384 [3, 0] [6]) (by decide) (by decide)
    (by decide) (by decide) (by decide)).2
    ⟨by decide, by decide, by decide, by decide, by decide, by decide, by decide⟩
  ⟨h.2.2.2.2.1, by rw [h.2.2.2.2.2.2.1]; decide⟩

/-! ## The collection of a step, explicitly -/

theorem bbzvm_gc_eq (vm : bbzvm_t) (h0 : -1 ≤ vm.stackptr)
    (h1 : vm.stackptr + 7 ≤ vm.stack.length) :
    (bbzvm_gc vm).2 =
      { vm with
        stack := bbzvm_gc_stack vm
        heap := bbzheap_gc vm.heap (bbzvm_gc_stack vm) ((vm.stackptr + 1).toNat + 6) } := by
  obtain ⟨n, hn⟩ : ∃ n : Nat, vm.stackptr = (n : Int) - 1 := ⟨(vm.stackptr + 1).toNat, by omega⟩
  have hlen : n + 6 ≤ vm.stack.length := by omega
  rw [bbzvm_gc_unfold vm (by simp only [bbzvm_stack_size, BBZSTACK_SIZE]; omega)]
  simp only []
  rw [bbzvm_push_ok vm vm.lsyms (by omega)]
  rw [bbzvm_push_ok _ vm.lsymts (by simp only [List.length_set]; omega)]
  rw [bbzvm_push_ok _ vm.gsyms (by simp only [List.length_set]; omega)]
  rw [bbzvm_push_ok _ vm.nil (by simp only [List.length_set]; omega)]
  rw [bbzvm_push_ok _ vm.dflt_actrec (by simp only [List.length_set]; omega)]
  rw [bbzvm_push_ok _ vm.flist (by simp only [List.length_set]; omega)]
  rw [bbzvm_pop6 _ (by simp only []; omega)]
  simp only [bbzvm_stack_size]
  have e1 : (vm.stackptr + 1).toNat = n := by omega
  have e2 : (vm.stackptr + 1 + 1).toNat = n + 1 := by omega
  have e3 : (vm.stackptr + 1 + 1 + 1).toNat = n + 2 := by omega
  have e4 : (vm.stackptr + 1 + 1 + 1 + 1).toNat = n + 3 := by omega
  have e5 : (vm.stackptr + 1 + 1 + 1 + 1 + 1).toNat = n + 4 := by omega
  have e6 : (vm.stackptr + 1 + 1 + 1 + 1 + 1 + 1).toNat = n + 5 := by omega
  have e7 : (vm.stackptr + 1 + 1 + 1 + 1 + 1 + 1 + 1).toNat = n + 6 := by omega
  have e8 : vm.stackptr + 1 + 1 + 1 + 1 + 1 + 1 - 6 = vm.stackptr := by
    omega
  unfold bbzvm_gc_stack
  simp only [e1, e2, e3, e4, e5, e6, e7, e8]

theorem bbzvm_ret_lsyms_fetch (V : bbzvm_t) (f : Nat → Nat) :
    bbzvm_ret_lsyms { V with bcode_fetch_fun := f }
      = { bbzvm_ret_lsyms V with bcode_fetch_fun := f } := by
  unfold bbzvm_ret_lsyms
  simp only []
  split <;> rfl

/-! ## Calls that fail and RET1 -/

/-- The collector call of a step does not depend on the host: the machine
the opcode runs on is `(bbzvm_gc vm).2` with the program counter advanced. -/
theorem bbzvm_step_gc (vm : bbzvm_t) (i : bbzvm_instr) (h : bbzvm_at vm i) :
    bbzvm_gc_frame vm (bbzvm_gc vm).2 ∧ bbzheap_same vm.heap (bbzvm_gc vm).2.heap ∧
    ∀ host : Nat → bbzvm_t → bbzvm_t, bbzvm_step host vm
      = bbzvm_exec_switch host vm.pc { (bbzvm_gc vm).2 with pc := vm.pc + 1 } (some i) := by
  obtain ⟨hg1, hg2⟩ := bbzvm_gc_ok vm h.sp_min h.sp_max
  refine ⟨hg2, bbzvm_gc_same vm, ?_⟩
  intro host
  obtain ⟨hpc, hsz, hf, -⟩ := bbzvm_gc_frame_fields hg2
  have hnext := h.next
  have hsize := h.size
  unfold bbzvm_step
  rw [if_pos h.ready]
  have : bbzvm_gc vm = (true, (bbzvm_gc vm).2) := by
    rw [← hg1]
  rw [this]
  simp only []
  unfold bbzvm_exec_instr
  simp only [hpc, hf, hsz, h.opcode]
  rw [Nat.mod_eq_of_lt (by omega)]
  rw [if_neg (by simp [bbzvm_pc_out]; omega)]
  congr 1
  cases i <;> rfl

/-- The function `bbzvm_call` on a closure of a host function whose
reference is not an index of `flist`: the Flist error, after the pop of the
argument count. -/
theorem bbzvm_call_flist (host : Nat → bbzvm_t → bbzvm_t) (isswrm : Bool) (V : bbzvm_t)
    (n : Int) (r : Int) (a : Nat)
    (h1 : ¬ bbzvm_stack_size V < 1) (h2 : bbzvm_type_ok V 0 BBZTYPE_INT = true)
    (hA : uint16 (bbzobj_ivalue (bbzvm_obj_at V (bbzvm_stack_at V 0))) = n)
    (h3 : ¬ bbzvm_stack_size (bbzvm_pop V) < n + 1)
    (h4 : bbzvm_type_ok (bbzvm_pop V) n BBZTYPE_CLOSURE = true)
    (hc : bbzvm_obj_at (bbzvm_pop V) (bbzvm_stack_at (bbzvm_pop V) n) = .closure false r a)
    (hr : r ≥ bbzdarray_size (bbzvm_pop V).heap (bbzvm_pop V).flist) :
    bbzvm_call host isswrm V = bbzvm_seterror (bbzvm_pop V) BBZVM_ERROR_FLIST := by
  unfold bbzvm_call
  lift_lets
  intro argn vm1 c cref cactrec vm2 vm3 vm4 vm5 vm6 vm7 vm8 vm9
  rw [if_neg h1, if_neg (by rw [h2]; decide)]
  have eA : argn = n := hA
  rw [if_neg (by rw [eA]; exact h3), if_neg (by rw [eA, h4]; decide)]
  have ec : bbzvm_obj_at vm1 c = .closure false r a := by
    show bbzvm_obj_at (bbzvm_pop V) (bbzvm_stack_at (bbzvm_pop V) argn) = _
    rw [eA]; exact hc
  have er : cref vm1 = r := by
    show (match bbzvm_obj_at vm1 c with
        | .closure _ r _ => r
        | o => bbzobj_ivalue o) = r
    rw [ec]
  rw [if_pos (by rw [ec, er]; simp [bbzclosure_isnative]; exact hr)]

/-- C22: a step on CALLC or CALLS whose closure refers to a host function
(`.closure false r a`, the tag `bbzvm_pushcc` gives) by a reference `r` that
is not below the size of `flist` ends in state Error with the error Flist
and the program counter on the instruction; only the argument count has
been popped, the block pointer, `lsyms`, `lsymts`, the objects and the
tables are as before, and the outcome is the same for every host: no host
function runs. -/
theorem c22_flist_error (host : Nat → bbzvm_t → bbzvm_t) (vm : bbzvm_t) (i : bbzvm_instr)
    (r : Int) (a n : Nat) (hi : i = .CALLC ∨ i = .CALLS)
    (hat : bbzvm_at vm i) (hn16 : n ≤ 65535)
    (hn : bbzvm_obj_at vm (bbzvm_stack_at vm 0) = .int n)
    (hsz : (n : Int) + 1 ≤ vm.stackptr)
    (hc : bbzvm_obj_at vm (bbzvm_stack_at vm (n + 1)) = .closure false r a)
    (hr : (bbzdarray_size vm.heap vm.flist : Int) ≤ r) :
    bbzvm_failed vm (bbzvm_step host vm) 1 BBZVM_ERROR_FLIST ∧
    (bbzvm_step host vm).blockptr = vm.blockptr ∧
    (bbzvm_step host vm).lsyms = vm.lsyms ∧
    (bbzvm_step host vm).lsymts = vm.lsymts ∧
    bbzheap_same vm.heap (bbzvm_step host vm).heap ∧
    ∀ other : Nat → bbzvm_t → bbzvm_t, bbzvm_step other vm = bbzvm_step host vm := by
  obtain ⟨F, S, hstep⟩ := bbzvm_step_gc vm i hat
  generalize (bbzvm_gc vm).2 = G at F S hstep
  obtain ⟨hpc, hsz2, hf, hst, her, hspG, hno, hnf, hnil, hg, hbp⟩ := bbzvm_gc_frame_fields F
  have hmax := hat.sp_max
  have hpop : bbzvm_pop { G with pc := vm.pc + 1 }
      = { G with pc := vm.pc + 1, stackptr := G.stackptr - 1 } :=
    bbzvm_pop_ok { G with pc := vm.pc + 1 } (by simp only [hspG]; omega)
  have htop : bbzvm_stack_at { G with pc := vm.pc + 1 } 0 = bbzvm_stack_at vm 0 :=
    bbzvm_gc_frame_stack_at F 0 (le_refl _) _
  have hcl : bbzvm_stack_at { G with pc := vm.pc + 1 } ((n : Int) + 1)
      = bbzvm_stack_at vm ((n : Int) + 1) :=
    bbzvm_gc_frame_stack_at F _ (by omega) _
  have hcl2 : bbzvm_stack_at { G with pc := vm.pc + 1, stackptr := G.stackptr - 1 } (n : Int)
      = bbzvm_stack_at vm ((n : Int) + 1) := by
    rw [← hcl]
    unfold bbzvm_stack_at
    simp only []
    have e : G.stackptr - 1 - (n : Int) = G.stackptr - ((n : Int) + 1) := by omega
    rw [e]
  have hobj : ∀ j, bbzvm_obj_at { G with pc := vm.pc + 1 } j = bbzvm_obj_at vm j := F.obj
  have hobj2 : ∀ j, bbzvm_obj_at { G with pc := vm.pc + 1, stackptr := G.stackptr - 1 } j
      = bbzvm_obj_at vm j := F.obj
  have hcall : ∀ (other : Nat → bbzvm_t → bbzvm_t) (isswrm : Bool),
      bbzvm_call other isswrm { G with pc := vm.pc + 1 }
        = bbzvm_seterror { G with pc := vm.pc + 1, stackptr := G.stackptr - 1 }
            BBZVM_ERROR_FLIST := by
    intro other isswrm
    rw [← hpop]
    refine bbzvm_call_flist other isswrm { G with pc := vm.pc + 1 } n r a ?_ ?_ ?_ ?_ ?_ ?_ ?_
    · simp only [bbzvm_stack_size, hspG]; omega
    · unfold bbzvm_type_ok
      simp only []
      rw [htop, hobj, hn]
      rfl
    · rw [htop, hobj, hn]
      simp only [bbzobj_ivalue, uint16]
      omega
    · rw [hpop]
      simp only [bbzvm_stack_size, hspG]; omega
    · rw [hpop]
      unfold bbzvm_type_ok
      simp only []
      rw [hcl2, hobj2, hc]
      rfl
    · rw [hpop, hcl2, hobj2, hc]
    · rw [hpop]
      simp only []
      have e1 : G.flist = vm.flist := by rw [F.rest]
      rw [e1]
      unfold bbzdarray_size bbztable_size
      rw [bbzheap_same_pairs S]
      exact hr
  have hall : ∀ other : Nat → bbzvm_t → bbzvm_t, bbzvm_step other vm
      = bbzvm_exec_end vm.pc (bbzvm_seterror
          { G with pc := vm.pc + 1, stackptr := G.stackptr - 1 } BBZVM_ERROR_FLIST) := by
    intro other
    rw [hstep other]
    rcases hi with rfl | rfl
    · show bbzvm_exec_chk vm.pc (bbzvm_call other false { G with pc := vm.pc + 1 }) = _
      rw [hcall]
      unfold bbzvm_exec_chk
      rw [if_neg (by simp [bbzvm_seterror])]
    · show bbzvm_exec_chk vm.pc (bbzvm_call other true { G with pc := vm.pc + 1 }) = _
      rw [hcall]
      unfold bbzvm_exec_chk
      rw [if_neg (by simp [bbzvm_seterror])]
  have hfail := bbzvm_exec_end_failed vm G _ (vm.pc + 1) 1 BBZVM_ERROR_FLIST F rfl
  rw [← hall host] at hfail
  refine ⟨hfail, ?_, ?_, ?_, ?_, fun other => (hall other).trans (hall host).symm⟩
  · rw [hall host]
    unfold bbzvm_exec_end bbzvm_seterror
    simp only [hbp]
    split <;> rfl
  · rw [hall host]
    have e1 : G.lsyms = vm.lsyms := by rw [F.rest]
    unfold bbzvm_exec_end bbzvm_seterror
    simp only [e1]
    split <;> rfl
  · rw [hall host]
    have e1 : G.lsymts = vm.lsymts := by rw [F.rest]
    unfold bbzvm_exec_end bbzvm_seterror
    simp only [e1]
    split <;> rfl
  · rw [hall host]
    have e1 : (bbzvm_exec_end vm.pc (bbzvm_seterror
          { G with pc := vm.pc + 1, stackptr := G.stackptr - 1 } BBZVM_ERROR_FLIST)).heap
        = G.heap := by
      unfold bbzvm_exec_end bbzvm_seterror
      split <;> rfl
    rw [e1]
    exact S

/-- Witness of C22: CALLC with no argument on a closure of a host function
with reference 0 while `flist` is empty. -/
theorem c22_flist_error_witness :
    (bbzvm_step test_host { test_vm 2 8384 [28, 0] [11, 8] with
      heap := bbzheap_obj_place (test_heap 2 8384) 11 (.closure false 0 0xFF) }).error
      = BBZVM_ERROR_FLIST ∧
    (bbzvm_step test_host { test_vm 2 8384 [28, 0] [11, 8] with
      heap := bbzheap_obj_place (test_heap 2 8384) 11 (.closure false 0 0xFF) }).stackptr = 0 :=
  have h := (c22_flist_error test_host { test_vm 2 8384 [28, 0] [11, 8] with
      heap := bbzheap_obj_place (test_heap 2 8384) 11 (.closure false 0 0xFF) } .CALLC 0 0xFF 0
    (Or.inl rfl) ⟨by decide, by decide, by decide, by decide, by decide, by decide, by decide⟩
    (by decide) (by decide) (by decide) (by decide) (by decide)).1
  ⟨h.2.1, h.2.2.2.1⟩

/-- The function `bbzvm_ret1` on a frame whose two saved entries are Ints,
with a value above the saved block pointer: as `bbzvm_ret_frame`, and the
value on top. -/
theorem bbzvm_ret1_ok (vm V : bbzvm_t) (hV : bbzvm_ret_lsyms vm = V) (b pcv : Int)
    (hbp1 : 1 ≤ V.blockptr) (hsp : 0 ≤ V.stackptr) (hlen : V.blockptr < V.stack.length)
    (hb : bbzheap_obj_at V.heap (V.stack.getD V.blockptr.toNat V.garbage) = .int b)
    (hp : bbzheap_obj_at V.heap (V.stack.getD (V.blockptr - 1).toNat V.garbage) = .int pcv) :
    bbzvm_ret1 vm =
      { V with
        stackptr := V.blockptr - 1
        stack := V.stack.set (V.blockptr - 1).toNat (bbzvm_stack_at V 0)
        blockptr := b
        pc := (uint16 pcv).toNat } := by
  unfold bbzvm_ret1
  lift_lets
  intro vm1 ret vm2 vm3 vm4 vm5
  have e1 : vm1 = V := hV
  have e3 : vm3 = { V with stackptr := V.blockptr, blockptr := b } := by
    show ({ vm2 with blockptr := bbzobj_ivalue (bbzvm_obj_at vm2 (bbzvm_stack_at vm2 0)) }
      : bbzvm_t) = _
    have e0 : bbzvm_stack_at vm2 0 = V.stack.getD V.blockptr.toNat V.garbage := by
      show bbzvm_stack_at ({ vm1 with stackptr := vm1.blockptr } : bbzvm_t) 0 = _
      rw [e1]
      unfold bbzvm_stack_at
      simp only [sub_zero]
      rw [if_pos (by omega)]
    rw [e0]
    have e2 : bbzvm_obj_at vm2 (V.stack.getD V.blockptr.toNat V.garbage) = .int b := by
      show bbzheap_obj_at vm1.heap _ = _
      rw [e1]; exact hb
    rw [e2]
    show ({ ({ vm1 with stackptr := vm1.blockptr } : bbzvm_t) with blockptr := b } : bbzvm_t) = _
    rw [e1]
  have e4 : vm4 = { V with stackptr := V.blockptr - 1, blockptr := b } := by
    show bbzvm_pop vm3 = _
    rw [e3, bbzvm_pop_ok _ (by simp only []; omega)]
  have e5 : vm5 = { vm4 with
      pc := (uint16 (bbzobj_ivalue (bbzvm_obj_at vm4 (bbzvm_stack_at vm4 0)))).toNat } := rfl
  have er : ret = bbzvm_stack_at V 0 := by
    show bbzvm_stack_at vm1 0 = _
    rw [e1]
  clear_value vm5 vm4 vm3 vm2 ret vm1
  have s4 : bbzvm_stack_at vm4 0 = V.stack.getD (V.blockptr - 1).toNat V.garbage := by
    rw [e4]
    unfold bbzvm_stack_at
    simp only [sub_zero]
    rw [if_pos (by omega)]
  have o4 : bbzvm_obj_at vm4 (bbzvm_stack_at vm4 0) = .int pcv := by
    rw [s4, e4]
    exact hp
  rw [if_neg (by rw [e1]; simp only [bbzvm_stack_size]; omega)]
  rw [if_neg (by rw [e4]; simp only [bbzvm_stack_size]; omega)]
  rw [if_neg (by simp [bbzvm_type_ok, o4, bbztype, BBZTYPE_INT])]
  rw [e5, o4, e4, er]
  rw [bbzvm_pop_ok _ (by simp only []; omega)]
  rw [bbzvm_push_ok _ _ (by simp only []; omega)]
  simp only [bbzobj_ivalue]
  have a2 : V.blockptr - 1 - 1 + 1 = V.blockptr - 1 := by omega
  rw [a2]

theorem bbzvm_exec_chk_ok (o : Nat) (V : bbzvm_t) (hr : V.state = BBZVM_STATE_READY)
    (hpc : V.pc < V.bcode_size) : bbzvm_exec_chk o V = V := by
  unfold bbzvm_exec_chk
  rw [if_neg (by
    rintro ⟨-, hx⟩
    unfold bbzvm_pc_out at hx
    simp only [Bool.or_eq_true, decide_eq_true_eq] at hx
    omega)]
  unfold bbzvm_exec_end
  rw [if_neg (by simp [hr])]

/-- C21: RET1 on a frame as a call lays it down (block pointer `B` at least
1, the cells `B` and `B - 1` holding Ints with the saved block pointer `b`
and the saved program counter `pcv`, `lsymts` holding `xs` and one more
array) with a value `v` above the saved block pointer, compared with RET0
on the same machine (the bytecode `f0` has RET0 at `pc`): both steps end
Ready with the same program counter, block pointer, local symbols and heap,
`lsymts` holds `xs`; RET0 leaves the stack pointer at `B - 2`, RET1 at
`B - 1` with `v` on top, and both keep the entries of the caller. -/
theorem c21_ret1 (host : Nat → bbzvm_t → bbzvm_t) (w : bbzvm_t) (f0 : Nat → Nat) (b pcv : Int)
    (xs : List Nat) (x : Nat) (hw : bbzvm_at w .RET1)
    (hf0 : f0 w.pc % 256 = bbzvm_instr.RET0.code)
    (hbp1 : 1 ≤ w.blockptr) (hbsp : w.blockptr < w.stackptr)
    (hb : bbzheap_obj_at w.heap (w.stack.getD w.blockptr.toNat w.garbage) = .int b)
    (hp : bbzheap_obj_at w.heap (w.stack.getD (w.blockptr - 1).toNat w.garbage) = .int pcv)
    (hpc : (uint16 pcv).toNat < w.bcode_size)
    (hd : bbzdarray_is w.heap w.lsymts (xs ++ [x])) :
    (bbzvm_step host w).state = BBZVM_STATE_READY ∧
    (bbzvm_step host { w with bcode_fetch_fun := f0 }).state = BBZVM_STATE_READY ∧
    (bbzvm_step host w).pc = (uint16 pcv).toNat ∧
    (bbzvm_step host { w with bcode_fetch_fun := f0 }).pc = (uint16 pcv).toNat ∧
    (bbzvm_step host w).blockptr = b ∧
    (bbzvm_step host { w with bcode_fetch_fun := f0 }).blockptr = b ∧
    (bbzvm_step host w).lsyms = xs.getLast?.getD 0 ∧
    (bbzvm_step host { w with bcode_fetch_fun := f0 }).lsyms = xs.getLast?.getD 0 ∧
    (bbzvm_step host w).lsymts = w.lsymts ∧
    (bbzvm_step host w).heap = (bbzvm_step host { w with bcode_fetch_fun := f0 }).heap ∧
    bbzdarray_is (bbzvm_step host w).heap w.lsymts xs ∧
    (bbzvm_step host { w with bcode_fetch_fun := f0 }).stackptr = w.blockptr - 2 ∧
    (bbzvm_step host w).stackptr = w.blockptr - 1 ∧
    bbzvm_stack_at (bbzvm_step host w) 0 = bbzvm_stack_at w 0 ∧
    ∀ k : Nat, (k : Int) ≤ w.blockptr - 2 →
      (bbzvm_step host w).stack[k]? = w.stack[k]? ∧
      (bbzvm_step host { w with bcode_fetch_fun := f0 }).stack[k]? = w.stack[k]? := by
  have hw0 : bbzvm_at { w with bcode_fetch_fun := f0 } .RET0 :=
    ⟨hw.ready, hw.noerr, hf0, hw.next, hw.size, hw.sp_min, hw.sp_max⟩
  obtain ⟨F, S, hstep⟩ := bbzvm_step_gc w .RET1 hw
  obtain ⟨-, -, hstep0⟩ := bbzvm_step_gc { w with bcode_fetch_fun := f0 } .RET0 hw0
  have eG : (bbzvm_gc { w with bcode_fetch_fun := f0 }).2
      = { (bbzvm_gc w).2 with bcode_fetch_fun := f0 } := by
    rw [bbzvm_gc_eq w hw.sp_min hw.sp_max,
      bbzvm_gc_eq { w with bcode_fetch_fun := f0 } hw.sp_min hw.sp_max]
    rfl
  have hs1 : bbzvm_step host w
      = bbzvm_exec_chk w.pc (bbzvm_ret1 { (bbzvm_gc w).2 with pc := w.pc + 1 }) := hstep host
  have hs0 : bbzvm_step host { w with bcode_fetch_fun := f0 }
      = bbzvm_exec_chk w.pc (bbzvm_ret_frame (bbzvm_ret_lsyms
          { (bbzvm_gc w).2 with pc := w.pc + 1, bcode_fetch_fun := f0 })) := by
    rw [hstep0 host, eG]
    rfl
  rw [hs1, hs0]
  clear hs1 hs0 hstep hstep0 eG
  generalize (bbzvm_gc w).2 = G at F S
  have hG : ∃ gs gh, G = { w with stack := gs, heap := gh } := ⟨_, _, F.rest⟩
  have hbelow := F.below
  have hobj := F.obj
  have hready := hw.ready
  have hspmax := hw.sp_max
  have hlenG := F.len
  clear F
  obtain ⟨gs, gh, rfl⟩ := hG
  simp only [] at hbelow hobj S hlenG
  have hdG : bbzdarray_is ({ w with stack := gs, heap := gh, pc := w.pc + 1 } : bbzvm_t).heap
      ({ w with stack := gs, heap := gh, pc := w.pc + 1 } : bbzvm_t).lsymts (xs ++ [x]) :=
    bbzdarray_is_same S _ _ hd
  obtain ⟨h2, e2, i2, o2⟩ := bbzvm_ret_lsyms_is _ xs x hdG
  simp only [] at e2 i2 o2
  have e2' : bbzvm_ret_lsyms
      ({ ({ w with stack := gs, heap := gh } : bbzvm_t) with pc := w.pc + 1 } : bbzvm_t)
      = { w with stack := gs, heap := h2, pc := w.pc + 1, lsyms := xs.getLast?.getD 0 } := e2
  have e0' : bbzvm_ret_lsyms
      ({ ({ w with stack := gs, heap := gh } : bbzvm_t) with
        pc := w.pc + 1, bcode_fetch_fun := f0 } : bbzvm_t)
      = { w with stack := gs, heap := h2, pc := w.pc + 1, lsyms := xs.getLast?.getD 0
                 bcode_fetch_fun := f0 } := by
    have := bbzvm_ret_lsyms_fetch
      ({ ({ w with stack := gs, heap := gh } : bbzvm_t) with pc := w.pc + 1 } : bbzvm_t) f0
    rw [e2'] at this
    exact this
  have g1 : gs.getD w.blockptr.toNat w.garbage = w.stack.getD w.blockptr.toNat w.garbage := by
    simp only [List.getD_eq_getElem?_getD]
    rw [hbelow _ (by omega)]
  have g2 : gs.getD (w.blockptr - 1).toNat w.garbage
      = w.stack.getD (w.blockptr - 1).toNat w.garbage := by
    simp only [List.getD_eq_getElem?_getD]
    rw [hbelow _ (by omega)]
  rw [e0']
  rw [bbzvm_ret_frame_ok ({ w with
      stack := gs, heap := h2, pc := w.pc + 1, lsyms := xs.getLast?.getD 0
      bcode_fetch_fun := f0 } : bbzvm_t) b pcv hbp1
    (by simp only []; rw [g1, o2, hobj]; exact hb)
    (by simp only []; rw [g2, o2, hobj]; exact hp)]
  rw [bbzvm_ret1_ok _ _ e2' b pcv hbp1 (by simp only []; omega) (by simp only []; omega)
    (by simp only []; rw [g1, o2, hobj]; exact hb)
    (by simp only []; rw [g2, o2, hobj]; exact hp)]
  simp only []
  have c0 := bbzvm_exec_chk_ok w.pc ({ w with
      stack := gs, heap := h2, pc := (uint16 pcv).toNat, lsyms := xs.getLast?.getD 0
      bcode_fetch_fun := f0, stackptr := w.blockptr - 2, blockptr := b } : bbzvm_t) hready hpc
  have c1 := bbzvm_exec_chk_ok w.pc ({ w with
      stack := gs.set (w.blockptr - 1).toNat (bbzvm_stack_at ({ w with
        stack := gs, heap := h2, pc := w.pc + 1, lsyms := xs.getLast?.getD 0 } : bbzvm_t) 0)
      heap := h2, pc := (uint16 pcv).toNat, lsyms := xs.getLast?.getD 0
      stackptr := w.blockptr - 1, blockptr := b } : bbzvm_t) hready hpc
  rw [c0, c1]
  have hlt : (w.blockptr - 1).toNat < gs.length := by omega
  refine ⟨hready, hready, rfl, rfl, rfl, rfl, rfl, rfl, rfl, rfl, i2, rfl, rfl, ?_, ?_⟩
  · unfold bbzvm_stack_at
    simp only [sub_zero]
    rw [if_pos (by omega), if_pos (by omega), if_pos (by omega)]
    simp only [List.getD_eq_getElem?_getD, List.getElem?_set_self hlt, Option.getD_some]
    rw [hbelow _ (by omega)]
  · intro k hk
    constructor
    · simp only []
      rw [List.getElem?_set_ne (by omega)]
      exact hbelow k (by omega)
    · exact hbelow k (by omega)

/-- Witness of C21: the closure of `call_vm` is called at address 0 with two
arguments, its body pushes the Int 7 (PUSHI at address 3) and returns with
RET1 at address 8: the caller gets the new Int on top of an otherwise empty
stack, where RET0 would leave the stack empty. -/
theorem c21_ret1_witness :
    (bbzvm_step test_host (bbzvm_step test_host (bbzvm_step test_host
      (call_vm [28, 0, 0, 31, 7, 0, 0, 0, 6, 0] [11, 9, 8, 6])))).stackptr = 0 ∧
    (bbzvm_step test_host { bbzvm_step test_host (bbzvm_step test_host
        (call_vm [28, 0, 0, 31, 7, 0, 0, 0, 6, 0] [11, 9, 8, 6])) with
      bcode_fetch_fun := fun n => [28, 0, 0, 31, 7, 0, 0, 0, 5, 0].getD n 0 }).stackptr = -1 :=
  have h := c21_ret1 test_host
    (bbzvm_step test_host (bbzvm_step test_host
      (call_vm [28, 0, 0, 31, 7, 0, 0, 0, 6, 0] [11, 9, 8, 6])))
    (fun n => [28, 0, 0, 31, 7, 0, 0, 0, 5, 0].getD n 0) (-1) 1 [] 7
    ⟨by decide, by decide, by decide, by decide, by decide, by decide, by decide⟩
    (by decide) (by decide) (by decide) (by decide) (by decide) (by decide)
    (by unfold bbzdarray_is; decide)
  ⟨h.2.2.2.2.2.2.2.2.2.2.2.2.1, h.2.2.2.2.2.2.2.2.2.2.2.1⟩

/-! ## Tables, globals and local symbols: what the code does -/

/-- C23, counterexample: the literal sequence PUSHT; PUSHI 5; PUSHI 9; TPUT;
PUSHI 5; TGET from an empty stack ends in state Error.  TPUT pops the table
with the key and the value, so TGET finds the key alone: on the first
machine the type assertion of TPUT already fails (it reads below the three
operands), on the second one, where that read yields a table, TPUT passes
and TGET raises the Stack error. -/
theorem c23_literal_counterexample :
    (bbzvm_steps test_host 6 (test_vm 2 8384
      [25, 31, 5, 0, 0, 0, 31, 9, 0, 0, 0, 26, 31, 5, 0, 0, 0, 27, 0] [])).state
      = BBZVM_STATE_ERROR ∧
    (bbzvm_steps test_host 6 { test_vm 2 8384
      [25, 31, 5, 0, 0, 0, 31, 9, 0, 0, 0, 26, 31, 5, 0, 0, 0, 27, 0] [] with garbage := 5 }).state
      = BBZVM_STATE_ERROR ∧
    (bbzvm_steps test_host 6 { test_vm 2 8384
      [25, 31, 5, 0, 0, 0, 31, 9, 0, 0, 0, 26, 31, 5, 0, 0, 0, 27, 0] [] with garbage := 5 }).error
      = BBZVM_ERROR_STACK ∧
    (bbzvm_steps test_host 5 { test_vm 2 8384
      [25, 31, 5, 0, 0, 0, 31, 9, 0, 0, 0, 26, 31, 5, 0, 0, 0, 27, 0] [] with garbage := 5 }).state
      = BBZVM_STATE_READY ∧
    bbzvm_stack_size (bbzvm_steps test_host 5 { test_vm 2 8384
      [25, 31, 5, 0, 0, 0, 31, 9, 0, 0, 0, 26, 31, 5, 0, 0, 0, 27, 0] [] with garbage := 5 })
      = 1 := by
  decide

/-- C24, counterexample: with the Int 2 (slot 6) pushed below the string,
PUSHS 5; GSTORE; PUSHS 5; GLOAD ends Ready with nil on top, not the Int:
GSTORE takes the entry below the top as the key and the top as the value,
so the globals hold the string under the Int. -/
theorem c24_order_counterexample :
    (bbzvm_steps test_host 4 { test_vm 2 8384 [32, 5, 0, 0, 0, 24, 32, 5, 0, 0, 0, 23, 0] [11, 6]
      with heap := bbzheap_obj_place (test_heap 2 8384) 11 (.string 9) }).state
      = BBZVM_STATE_READY ∧
    bbzvm_obj_at (bbzvm_steps test_host 4
      { test_vm 2 8384 [32, 5, 0, 0, 0, 24, 32, 5, 0, 0, 0, 23, 0] [11, 6]
        with heap := bbzheap_obj_place (test_heap 2 8384) 11 (.string 9) })
      (bbzvm_stack_at (bbzvm_steps test_host 4
        { test_vm 2 8384 [32, 5, 0, 0, 0, 24, 32, 5, 0, 0, 0, 23, 0] [11, 6]
          with heap := bbzheap_obj_place (test_heap 2 8384) 11 (.string 9) }) 0) = .nil ∧
    (bbztable_pairs (bbzvm_steps test_host 2
      { test_vm 2 8384 [32, 5, 0, 0, 0, 24, 32, 5, 0, 0, 0, 23, 0] [11, 6]
        with heap := bbzheap_obj_place (test_heap 2 8384) 11 (.string 9) }).heap 5).map
      (fun kv => (bbzheap_obj_at (test_heap 2 8384) kv.1,
        bbzheap_obj_at (bbzvm_steps test_host 2
          { test_vm 2 8384 [32, 5, 0, 0, 0, 24, 32, 5, 0, 0, 0, 23, 0] [11, 6]
            with heap := bbzheap_obj_place (test_heap 2 8384) 11 (.string 9) }).heap kv.2))
      = [(.int 2, .string 5)] := by
  decide

/-- C25, the code at a closure value: TPUT on the table of slot 5, the key
of slot 8 and the closure of slot 11 pops the three operands and stores
nothing (the table stays empty); a TGET of the same key on the same table
pushes nil. -/
theorem c25_tput_closure_dropped :
    (bbzvm_step test_host (call_vm [26, 27, 0] [5, 5, 8, 11])).state = BBZVM_STATE_READY ∧
    (bbzvm_step test_host (call_vm [26, 27, 0] [5, 5, 8, 11])).stackptr = 0 ∧
    bbztable_pairs (bbzvm_step test_host (call_vm [26, 27, 0] [5, 5, 8, 11])).heap 5 = [] ∧
    (bbzvm_step test_host (bbzvm_push (bbzvm_push
      (bbzvm_step test_host (call_vm [26, 27, 0] [5, 5, 8, 11])) 5) 8)).state
      = BBZVM_STATE_READY ∧
    bbzvm_obj_at (bbzvm_step test_host (bbzvm_push (bbzvm_push
        (bbzvm_step test_host (call_vm [26, 27, 0] [5, 5, 8, 11])) 5) 8))
      (bbzvm_stack_at (bbzvm_step test_host (bbzvm_push (bbzvm_push
        (bbzvm_step test_host (call_vm [26, 27, 0] [5, 5, 8, 11])) 5) 8)) 0) = .nil := by
  decide

/-- C26, the code on a value at the top: LSTORE 2 with the Int of slot 6 on
top of a one-entry stack and the local symbols `[nil]` leaves the stack size
at 1 (the value is not popped); the array becomes `[nil, nil, 6]` and the
LLOAD 2 that follows pushes slot 6 above it. -/
theorem c26_lstore_no_pop :
    bbzvm_stack_size { test_vm 2 8384 [37, 2, 0, 0, 0, 36, 2, 0, 0, 0, 0] [6] with lsyms := 1 }
      = 1 ∧
    bbzvm_stack_size (bbzvm_step test_host
      { test_vm 2 8384 [37, 2, 0, 0, 0, 36, 2, 0, 0, 0, 0] [6] with lsyms := 1 }) = 1 ∧
    (bbzvm_step test_host
      { test_vm 2 8384 [37, 2, 0, 0, 0, 36, 2, 0, 0, 0, 0] [6] with lsyms := 1 }).state
      = BBZVM_STATE_READY ∧
    (bbztable_pairs (bbzvm_step test_host
      { test_vm 2 8384 [37, 2, 0, 0, 0, 36, 2, 0, 0, 0, 0] [6] with lsyms := 1 }).heap 1).map
        Prod.snd = [0, 0, 6] ∧
    (bbzvm_steps test_host 2
      { test_vm 2 8384 [37, 2, 0, 0, 0, 36, 2, 0, 0, 0, 0] [6] with lsyms := 1 }).stack.take 2
      = [6, 6] ∧
    bbzvm_stack_size (bbzvm_steps test_host 2
      { test_vm 2 8384 [37, 2, 0, 0, 0, 36, 2, 0, 0, 0, 0] [6] with lsyms := 1 }) = 2 := by
  decide

/-! ## The registry of host functions -/

/-- C29, the code on two functions whose code starts with the same 16-bit
word (`mem` is constant): on a machine fresh from `bbzvm_construct`, the
function at address 100 is registered with id 0 and `flist` holds one
Userdata wrapping 100; the function at address 200, which is not in
`flist`, is then given the id 0 as well and is not appended: `flist` still
has size 1 and holds the pointer 100 only. -/
theorem c29_register_collision :
    (bbzvm_function_register (fun _ => 0x4855)
      (bbzvm_construct 0 (test_vm 2 8384 [] [])) 100).2 = 0 ∧
    (bbztable_pairs (bbzvm_function_register (fun _ => 0x4855)
        (bbzvm_construct 0 (test_vm 2 8384 [] [])) 100).1.heap 4).map
      (fun kv => (bbzheap_obj_at (bbzvm_function_register (fun _ => 0x4855)
          (bbzvm_construct 0 (test_vm 2 8384 [] [])) 100).1.heap kv.1,
        bbzheap_obj_at (bbzvm_function_register (fun _ => 0x4855)
          (bbzvm_construct 0 (test_vm 2 8384 [] [])) 100).1.heap kv.2))
      = [(.int 0, .userdata 100)] ∧
    (bbzvm_function_register (fun _ => 0x4855)
      (bbzvm_function_register (fun _ => 0x4855)
        (bbzvm_construct 0 (test_vm 2 8384 [] [])) 100).1 200).2 = 0 ∧
    (bbztable_pairs (bbzvm_function_register (fun _ => 0x4855)
        (bbzvm_function_register (fun _ => 0x4855)
          (bbzvm_construct 0 (test_vm 2 8384 [] [])) 100).1 200).1.heap 4).map
      (fun kv => bbzheap_obj_at (bbzvm_function_register (fun _ => 0x4855)
        (bbzvm_function_register (fun _ => 0x4855)
          (bbzvm_construct 0 (test_vm 2 8384 [] [])) 100).1 200).1.heap kv.2)
      = [.userdata 100] := by
  decide

/-- C30, the code on two distinct pointers: `bbzvm_function_cmp` returns 0
for the Userdata wrapping 100 and 200 when the memory holds the same 16-bit
word at both addresses, and its result for the same two pointers follows
the memory contents (-1 or 1), not the order of the pointers. -/
theorem c30_function_cmp_memory :
    bbzvm_function_cmp (fun _ => 0x4855) (.userdata 100) (.userdata 200) = 0 ∧
    bbzvm_function_cmp (fun p => if p = 100 then 7 else 3) (.userdata 100) (.userdata 200) = 1 ∧
    bbzvm_function_cmp (fun p => if p = 100 then 3 else 7) (.userdata 100) (.userdata 200)
      = -1 := by
  decide

/-! ## A pair stored in a table is found again -/

/-- In a list of cells with distinct labels, after the first cell that
satisfies `P` is rewritten to hold the pair `(kk, v)`, the first pair whose
key satisfies `m` is `(kk, v)`, when `m` accepts `kk` and rejects the key of
every cell that does not satisfy `P`. -/
theorem bbztable_cells_put (m : Nat → Bool)
    (P : Nat × Nat × Option (Nat × Nat) → Bool) (kk v : Nat)
    (C : List (Nat × Nat × Option (Nat × Nat))) (s p : Nat) (x : Option (Nat × Nat))
    (hP : ∀ c ∈ C, ∀ c' ∈ C, c.1 = c'.1 → c.2.1 = c'.2.1 → c = c')
    (hf : C.find? P = some (s, p, x))
    (hnot : ∀ c ∈ C, P c = false → ∀ kv, c.2.2 = some kv → m kv.1 = false)
    (hkk : m kk = true) :
    ((C.map (fun y => if y.1 = s ∧ y.2.1 = p then (y.1, y.2.1, some (kk, v)) else y)).filterMap
      (fun c => c.2.2)).find? (fun kv => m kv.1) = some (kk, v) := by
  have hmem : (s, p, x) ∈ C := List.mem_of_find?_eq_some hf
  have hPx : P (s, p, x) = true := List.find?_some hf
  induction C with
  | nil => simp at hf
  | cons c rest ih =>
    by_cases hc : P c = true
    · have e : c = (s, p, x) := by
        rw [List.find?_cons_of_pos _ hc] at hf
        exact Option.some.inj hf
      subst e
      simp [hkk]
    · have hc' : P c = false := by simpa using hc
      rw [List.find?_cons_of_neg _ hc] at hf
      have hmem' : (s, p, x) ∈ rest := List.mem_of_find?_eq_some hf
      have hlab : ¬ (c.1 = s ∧ c.2.1 = p) := by
        rintro ⟨h1, h2⟩
        have := hP c (List.mem_cons_self _ _) (s, p, x) (List.mem_cons_of_mem _ hmem') h1 h2
        rw [this] at hc
        exact hc hPx
      have ihr := ih (fun a ha b hb => hP a (List.mem_cons_of_mem _ ha) b (List.mem_cons_of_mem _ hb))
        hf (fun a ha => hnot a (List.mem_cons_of_mem _ ha)) hmem'
      simp only [List.map_cons, if_neg hlab]
      cases hcc : c.2.2 with
      | none =>
        simp only [List.filterMap_cons, hcc]
        exact ihr
      | some kv =>
        simp only [List.filterMap_cons, hcc]
        rw [List.find?_cons_of_neg _ (by
          have := hnot c (List.mem_cons_self _ _) hc' kv hcc
          simp [this])]
        exact ihr

/-- The cells of a table after `bbztable_set` of a value that is not nil,
when the table holds the key or has an empty cell: the first cell `P`
selects (the one holding the key, or else the first empty one) holds the
pair of the stored key `kk` and `v`; `kk` is `k` or compares equal to it,
and no cell outside `P` has a key equal to `k`. -/
theorem bbztable_set_cells (h : bbzheap_t) (t k v : Nat)
    (hv : bbztype (bbzheap_obj_at h v) ≠ BBZTYPE_NIL)
    (hroom : ∃ c ∈ bbztable_cells h t, c.2.2 = none ∨
      ∃ kv, c.2.2 = some kv ∧ bbztype_cmp h kv.1 k = 0) :
    ∃ (P : Nat × Nat × Option (Nat × Nat) → Bool) (s p kk : Nat) (x : Option (Nat × Nat)),
      (bbztable_cells h t).find? P = some (s, p, x) ∧
      bbztable_cells (bbztable_set h t k v) t
        = (bbztable_cells h t).map
            (fun y => if y.1 = s ∧ y.2.1 = p then (y.1, y.2.1, some (kk, v)) else y) ∧
      (kk = k ∨ ((∃ v0, (s, p, some (kk, v0)) ∈ bbztable_cells h t) ∧ bbztype_cmp h kk k = 0)) ∧
      (∀ c ∈ bbztable_cells h t, P c = false → ∀ kv, c.2.2 = some kv →
        bbztype_cmp h kv.1 k ≠ 0) ∧
      (bbztable_set h t k v).objs = h.objs ∧
      bbzheap_obj_slot (bbztable_set h t k v) = bbzheap_obj_slot h := by
  have hslot : ∀ s p c, bbzheap_obj_slot (bbzheap_tseg_setcell h s p c) = bbzheap_obj_slot h := by
    intro s p c
    unfold bbzheap_obj_slot bbzheap_room bbzheap_tseg_setcell
    simp only [List.length_set]
  have aux1 : ∀ (q : Nat × Nat × Option (Nat × Nat) → Bool) (s p k0 v0 : Nat),
      (∀ c, q c = true ↔ ∃ kv, c.2.2 = some kv ∧ bbztype_cmp h kv.1 k = 0) →
      (bbztable_cells h t).find? q = some (s, p, some (k0, v0)) →
      ∃ (P : Nat × Nat × Option (Nat × Nat) → Bool) (s' p' kk : Nat) (x : Option (Nat × Nat)),
        (bbztable_cells h t).find? P = some (s', p', x) ∧
        bbztable_cells (bbzheap_tseg_setcell h s p (some (k0, v))) t
          = (bbztable_cells h t).map
              (fun y => if y.1 = s' ∧ y.2.1 = p' then (y.1, y.2.1, some (kk, v)) else y) ∧
        (kk = k ∨ ((∃ v0, (s', p', some (kk, v0)) ∈ bbztable_cells h t)
          ∧ bbztype_cmp h kk k = 0)) ∧
        (∀ c ∈ bbztable_cells h t, P c = false → ∀ kv, c.2.2 = some kv →
          bbztype_cmp h kv.1 k ≠ 0) ∧
        (bbzheap_tseg_setcell h s p (some (k0, v))).objs = h.objs ∧
        bbzheap_obj_slot (bbzheap_tseg_setcell h s p (some (k0, v))) = bbzheap_obj_slot h := by
    intro q s p k0 v0 hq heq
    have hqc := (hq _).mp (List.find?_some heq)
    obtain ⟨kv, e1, e2⟩ := hqc
    simp only [Option.some.injEq] at e1
    subst e1
    refine ⟨q, s, p, k0, some (k0, v0), heq, bbztable_cells_setcell h s p (some (k0, v)) t,
      Or.inr ⟨⟨v0, List.mem_of_find?_eq_some heq⟩, e2⟩, ?_, rfl, hslot _ _ _⟩
    intro c hc hPc kv hkv hcmp
    have : q c = true := (hq c).mpr ⟨kv, hkv, hcmp⟩
    rw [this] at hPc
    exact Bool.noConfusion hPc
  have aux3 : ∀ (q : Nat × Nat × Option (Nat × Nat) → Bool),
      (∀ c, q c = true ↔ ∃ kv, c.2.2 = some kv ∧ bbztype_cmp h kv.1 k = 0) →
      (∀ s p k0 v0, (bbztable_cells h t).find? q ≠ some (s, p, some (k0, v0))) →
      ∀ c ∈ bbztable_cells h t, ∀ kv, c.2.2 = some kv → bbztype_cmp h kv.1 k ≠ 0 := by
    intro q hq hno c hc kv hkv hcmp
    have hqc : q c = true := (hq c).mpr ⟨kv, hkv, hcmp⟩
    cases hf : (bbztable_cells h t).find? q with
    | none =>
      have := List.find?_eq_none.mp hf c hc
      exact this hqc
    | some c1 =>
      obtain ⟨s1, p1, x1⟩ := c1
      obtain ⟨kv1, e1, -⟩ := (hq _).mp (List.find?_some hf)
      simp only [] at e1
      subst e1
      exact hno s1 p1 kv1.1 kv1.2 hf
  have aux2 : ∀ (q P : Nat × Nat × Option (Nat × Nat) → Bool) (s p : Nat)
      (x : Option (Nat × Nat)),
      (∀ c, q c = true ↔ ∃ kv, c.2.2 = some kv ∧ bbztype_cmp h kv.1 k = 0) →
      (∀ s p k0 v0, (bbztable_cells h t).find? q ≠ some (s, p, some (k0, v0))) →
      (bbztable_cells h t).find? P = some (s, p, x) →
      ∃ (P : Nat × Nat × Option (Nat × Nat) → Bool) (s' p' kk : Nat) (x : Option (Nat × Nat)),
        (bbztable_cells h t).find? P = some (s', p', x) ∧
        bbztable_cells (bbzheap_tseg_setcell h s p (some (k, v))) t
          = (bbztable_cells h t).map
              (fun y => if y.1 = s' ∧ y.2.1 = p' then (y.1, y.2.1, some (kk, v)) else y) ∧
        (kk = k ∨ ((∃ v0, (s', p', some (kk, v0)) ∈ bbztable_cells h t)
          ∧ bbztype_cmp h kk k = 0)) ∧
        (∀ c ∈ bbztable_cells h t, P c = false → ∀ kv, c.2.2 = some kv →
          bbztype_cmp h kv.1 k ≠ 0) ∧
        (bbzheap_tseg_setcell h s p (some (k, v))).objs = h.objs ∧
        bbzheap_obj_slot (bbzheap_tseg_setcell h s p (some (k, v))) = bbzheap_obj_slot h := by
    intro q P s p x hq hno heq
    refine ⟨P, s, p, k, x, heq, bbztable_cells_setcell h s p (some (k, v)) t, Or.inl rfl, ?_, rfl,
      hslot _ _ _⟩
    intro c hc _ kv hkv
    exact aux3 q hq hno c hc kv hkv
  have hqspec : ∀ c : Nat × Nat × Option (Nat × Nat),
      (match c.2.2 with
        | some kv => bbztype_cmp h kv.1 k == 0
        | none => false) = true ↔ ∃ kv, c.2.2 = some kv ∧ bbztype_cmp h kv.1 k = 0 := by
    intro c
    cases c.2.2 <;> simp
  unfold bbztable_set
  split
  · rename_i s p k0 v0 heq
    rw [if_neg hv]
    exact aux1 _ s p k0 v0 hqspec heq
  · rename_i hno
    have hno' : ∀ s p k0 v0, (bbztable_cells h t).find? (fun c =>
        match c.2.2 with
        | some kv => bbztype_cmp h kv.1 k == 0
        | none => false) ≠ some (s, p, some (k0, v0)) := fun s p k0 v0 e => hno s p k0 v0 e
    have hnomatch : ∀ c ∈ bbztable_cells h t, ∀ kv, c.2.2 = some kv →
        bbztype_cmp h kv.1 k ≠ 0 := aux3 _ hqspec hno'
    obtain ⟨c, hc, hcr⟩ := hroom
    have hempty : ∃ c ∈ bbztable_cells h t, c.2.2.isNone = true := by
      rcases hcr with h0 | ⟨kv, hkv, hcmp⟩
      · exact ⟨c, hc, by rw [h0]; rfl⟩
      · exact absurd hcmp (hnomatch c hc kv hkv)
    unfold bbztable_insert
    split
    · rename_i s p x heq
      exact aux2 _ _ s p x hqspec hno' heq
    · rename_i hnone
      obtain ⟨c, hc, hcn⟩ := hempty
      have := List.find?_eq_none.mp hnone c hc
      rw [hcn] at this
      exact absurd rfl this

/-! ## What a collection keeps: the pairs of the root tables -/

theorem bbztype_cmp_value (h h' : bbzheap_t) (a b a' b' : Nat)
    (ha : bbzheap_obj_at h' a' = bbzheap_obj_at h a)
    (hb : bbzheap_obj_at h' b' = bbzheap_obj_at h b)
    (hval : (∃ x, bbzheap_obj_at h b = .int x) ∨ (∃ x, bbzheap_obj_at h b = .string x)) :
    bbztype_cmp h' a' b' = bbztype_cmp h a b := by
  unfold bbztype_cmp
  simp only []
  rw [ha, hb]
  rcases hval with ⟨x, hx⟩ | ⟨x, hx⟩
  · rw [hx]
    cases bbzheap_obj_at h a <;> first | rfl | (split <;> first | rfl | (exfalso; simp_all [bbztype_major, bbztype]))
  · rw [hx]
    cases bbzheap_obj_at h a <;> first | rfl | (split <;> first | rfl | (exfalso; simp_all [bbztype_major, bbztype]))

theorem bbztable_pairs_children (h : bbzheap_t) (r : Nat) (kv : Nat × Nat)
    (hkv : kv ∈ bbztable_pairs h r) :
    kv.1 ∈ bbzheap_children h r ∧ kv.2 ∈ bbzheap_children h r := by
  have hseg : bbztable_segs h r ≠ [] := by
    intro e
    unfold bbztable_pairs bbztable_cells at hkv
    rw [e] at hkv
    simp at hkv
  unfold bbzheap_children
  unfold bbztable_segs at hseg
  cases ho : bbzheap_obj_at h r with
  | table a b c =>
    simp only [List.mem_flatMap]
    exact ⟨⟨kv, hkv, by simp⟩, ⟨kv, hkv, by simp⟩⟩
  | _ => rw [ho] at hseg; exact absurd rfl hseg

theorem bbzheap_gc_valid_child (h : bbzheap_t) (S : List Nat) (n r c : Nat)
    (hr : r ∈ S.take n) (hc : c ∈ bbzheap_children h r)
    (hv : bbzheap_obj_isvalid h c = true) :
    bbzheap_obj_isvalid (bbzheap_gc h S n) c = true := by
  simp only [bbzheap_obj_isvalid, bbzheap_gc] at hv ⊢
  apply bbzheap_sweep_objs_valid_keep _ _ _ _ hv
  rw [Nat.zero_add]
  cases hl : h.objs.length with
  | zero =>
    exfalso
    have hnil : h.objs = [] := List.length_eq_zero.mp hl
    unfold bbzheap_children bbzheap_obj_at at hc
    rw [hnil] at hc
    simp at hc
  | succ m =>
    simp only [bbzheap_mark]
    apply bbzheap_mark_mem
    unfold bbzheap_mark_round
    exact List.mem_union_iff.mpr (Or.inl (List.mem_flatMap.mpr ⟨r, hr, hc⟩))

/-- The roots of the collection of a step: the entries of the stack and the
global symbols. -/
theorem bbzvm_gc_stack_roots (vm : bbzvm_t) (h0 : -1 ≤ vm.stackptr)
    (h1 : vm.stackptr + 7 ≤ vm.stack.length) :
    vm.gsyms ∈ (bbzvm_gc_stack vm).take ((vm.stackptr + 1).toNat + 6) ∧
    ∀ i : Nat, (i : Int) ≤ vm.stackptr → ∀ g,
      vm.stack.getD i g ∈ (bbzvm_gc_stack vm).take ((vm.stackptr + 1).toNat + 6) := by
  obtain ⟨n, hn⟩ : ∃ n : Nat, vm.stackptr = (n : Int) - 1 := ⟨(vm.stackptr + 1).toNat, by omega⟩
  have hlen : n + 6 ≤ vm.stack.length := by omega
  have e1 : (vm.stackptr + 1).toNat = n := by omega
  unfold bbzvm_gc_stack
  rw [e1]
  constructor
  · rw [List.mem_iff_getElem]
    refine ⟨n + 2, by simp; omega, ?_⟩
    rw [List.getElem_take]
    simp [List.getElem_set]
  · intro i hi g
    rw [List.mem_iff_getElem]
    refine ⟨i, by simp; omega, ?_⟩
    rw [List.getElem_take]
    have hil : i < vm.stack.length := by omega
    simp only [List.getD_eq_getElem?_getD, List.getElem?_eq_getElem hil, Option.getD_some]
    simp only [List.getElem_set]
    rw [if_neg (by omega), if_neg (by omega), if_neg (by omega), if_neg (by omega),
      if_neg (by omega), if_neg (by omega)]

/-- The collection of a step keeps valid every key and every value of a
table that is on the stack or is the table of the global symbols. -/
theorem bbzvm_gc_valid_pair (vm : bbzvm_t) (h0 : -1 ≤ vm.stackptr)
    (h1 : vm.stackptr + 7 ≤ vm.stack.length) (r : Nat)
    (hr : r = vm.gsyms ∨ ∃ i : Nat, (i : Int) ≤ vm.stackptr ∧ vm.stack.getD i vm.garbage = r)
    (kv : Nat × Nat) (hkv : kv ∈ bbztable_pairs vm.heap r) :
    (bbzheap_obj_isvalid vm.heap kv.1 = true →
      bbzheap_obj_isvalid (bbzvm_gc vm).2.heap kv.1 = true) ∧
    (bbzheap_obj_isvalid vm.heap kv.2 = true →
      bbzheap_obj_isvalid (bbzvm_gc vm).2.heap kv.2 = true) := by
  obtain ⟨r1, r2⟩ := bbzvm_gc_stack_roots vm h0 h1
  have hroot : r ∈ (bbzvm_gc_stack vm).take ((vm.stackptr + 1).toNat + 6) := by
    rcases hr with rfl | ⟨i, hi, rfl⟩
    · exact r1
    · exact r2 i hi _
  obtain ⟨c1, c2⟩ := bbztable_pairs_children vm.heap r kv hkv
  rw [bbzvm_gc_eq vm h0 h1]
  exact ⟨fun hv => bbzheap_gc_valid_child _ _ _ r _ hroot c1 hv,
    fun hv => bbzheap_gc_valid_child _ _ _ r _ hroot c2 hv⟩

/-! ## Steps on table and symbol opcodes -/

theorem bbzvm_type_ok_gc {vm G : bbzvm_t} (F : bbzvm_gc_frame vm G) (k : Int) (hk : 0 ≤ k)
    (pc : Nat) (tpe : Nat) :
    bbzvm_type_ok { G with pc := pc } k tpe = bbzvm_type_ok vm k tpe := by
  unfold bbzvm_type_ok
  simp only []
  rw [bbzvm_gc_frame_stack_at F k hk pc]
  have e : bbzvm_obj_at { G with pc := pc } (bbzvm_stack_at vm k)
      = bbzvm_obj_at vm (bbzvm_stack_at vm k) := F.obj _
  rw [e]

theorem bbzvm_exec_end_ready (o : Nat) (V : bbzvm_t) (h : V.state = BBZVM_STATE_READY) :
    bbzvm_exec_end o V = V := by
  unfold bbzvm_exec_end
  rw [if_neg (by simp [h])]

theorem bbzvm_step_arg_gc (host : Nat → bbzvm_t → bbzvm_t) (vm : bbzvm_t) (i : bbzvm_instr)
    (k : bbzvm_t → Nat → bbzvm_t)
    (hop : ∀ o V, bbzvm_exec_switch host o V (some i) = bbzvm_exec_arg o V k)
    (hat : bbzvm_at vm i) (hfall : vm.pc + 5 < vm.bcode_size) :
    bbzvm_step host vm = bbzvm_exec_end vm.pc
      (k { (bbzvm_gc vm).2 with pc := vm.pc + 5 } (bbzvm_fetch_arg { vm with pc := vm.pc + 1 })) := by
  obtain ⟨F, -, hstep⟩ := bbzvm_step_gc vm i hat
  obtain ⟨hpc, hsz, hf, hst, her, hspG, hno, hnf, hnil, hg, hbp⟩ := bbzvm_gc_frame_fields F
  have hsize := hat.size
  rw [hstep, hop]
  unfold bbzvm_exec_arg
  rw [if_neg (by simp [bbzvm_pc_out, hsz]; omega)]
  simp only []
  rw [Nat.mod_eq_of_lt (by omega)]
  have e : vm.pc + 1 + 4 = vm.pc + 5 := by omega
  rw [e]
  unfold bbzvm_fetch_arg
  simp only [hf]

/-- A step on TPUT with a value that is no closure, when the type assertion
passes: the three operands are popped and the pair is stored. -/
theorem bbzvm_step_tput (host : Nat → bbzvm_t → bbzvm_t) (vm : bbzvm_t)
    (hat : bbzvm_at vm .TPUT) (hsp : 2 ≤ vm.stackptr)
    (hty : bbzvm_type_ok vm 3 BBZTYPE_TABLE = true)
    (hnc : bbztype_isclosure (bbzvm_obj_at vm (bbzvm_stack_at vm 0)) = false) :
    bbzvm_step host vm =
      { (bbzvm_gc vm).2 with
        pc := vm.pc + 1
        stackptr := vm.stackptr - 3
        heap := bbztable_set (bbzvm_gc vm).2.heap (bbzvm_stack_at vm 2) (bbzvm_stack_at vm 1)
          (bbzvm_stack_at vm 0) } := by
  obtain ⟨F, -, hstep⟩ := bbzvm_step_gc vm .TPUT hat
  rw [hstep host]
  generalize (bbzvm_gc vm).2 = G at F
  obtain ⟨hpc, hsz, hf, hst, her, hspG, hno, hnf, hnil, hg, hbp⟩ := bbzvm_gc_frame_fields F
  show bbzvm_exec_end vm.pc (bbzvm_tput { G with pc := vm.pc + 1 }) = _
  have e0 := bbzvm_gc_frame_stack_at F 0 (le_refl _) (vm.pc + 1)
  have e1 := bbzvm_gc_frame_stack_at F 1 (by omega) (vm.pc + 1)
  have e2 := bbzvm_gc_frame_stack_at F 2 (by omega) (vm.pc + 1)
  have hpop : bbzvm_pop (bbzvm_pop (bbzvm_pop { G with pc := vm.pc + 1 }))
      = { G with pc := vm.pc + 1, stackptr := vm.stackptr - 3 } := by
    rw [bbzvm_pop_ok { G with pc := vm.pc + 1 } (by simp only [hspG]; omega)]
    rw [bbzvm_pop_ok { G with pc := vm.pc + 1, stackptr := G.stackptr - 1 }
      (by simp only [hspG]; omega)]
    rw [bbzvm_pop_ok { G with pc := vm.pc + 1, stackptr := G.stackptr - 1 - 1 }
      (by simp only [hspG]; omega)]
    simp only [hspG]
    have e : vm.stackptr - 1 - 1 - 1 = vm.stackptr - 3 := by omega
    rw [e]
  have ht : bbzvm_tput { G with pc := vm.pc + 1 }
      = { G with
          pc := vm.pc + 1
          stackptr := vm.stackptr - 3
          heap := bbztable_set G.heap (bbzvm_stack_at vm 2) (bbzvm_stack_at vm 1)
            (bbzvm_stack_at vm 0) } := by
    unfold bbzvm_tput
    rw [if_neg (by simp only [bbzvm_stack_size, hspG]; omega)]
    rw [if_neg (by rw [bbzvm_type_ok_gc F 3 (by omega), hty]; decide)]
    simp only []
    rw [hpop, e0, e1, e2]
    have eo : bbzvm_obj_at { G with pc := vm.pc + 1, stackptr := vm.stackptr - 3 }
        (bbzvm_stack_at vm 0) = bbzvm_obj_at vm (bbzvm_stack_at vm 0) := F.obj _
    rw [eo, hnc]
    simp only [Bool.false_eq_true, ↓reduceIte]
  rw [ht]
  exact bbzvm_exec_end_ready _ _ (by simp only [hst]; exact hat.ready)

/-- A step on GSTORE when the type assertion passes: the two operands are
popped and the top is stored in the globals under the entry below it. -/
theorem bbzvm_step_gstore (host : Nat → bbzvm_t → bbzvm_t) (vm : bbzvm_t)
    (hat : bbzvm_at vm .GSTORE) (hsp : 1 ≤ vm.stackptr)
    (hty : bbzvm_type_ok vm 2 BBZTYPE_STRING = true) :
    bbzvm_step host vm =
      { (bbzvm_gc vm).2 with
        pc := vm.pc + 1
        stackptr := vm.stackptr - 2
        heap := bbztable_set (bbzvm_gc vm).2.heap vm.gsyms (bbzvm_stack_at vm 1)
          (bbzvm_stack_at vm 0) } := by
  obtain ⟨F, -, hstep⟩ := bbzvm_step_gc vm .GSTORE hat
  rw [hstep host]
  generalize (bbzvm_gc vm).2 = G at F
  obtain ⟨hpc, hsz, hf, hst, her, hspG, hno, hnf, hnil, hg, hbp⟩ := bbzvm_gc_frame_fields F
  show bbzvm_exec_end vm.pc (bbzvm_gstore { G with pc := vm.pc + 1 }) = _
  have e0 := bbzvm_gc_frame_stack_at F 0 (le_refl _) (vm.pc + 1)
  have e1 := bbzvm_gc_frame_stack_at F 1 (by omega) (vm.pc + 1)
  have eg : G.gsyms = vm.gsyms := by rw [F.rest]
  have hpop : bbzvm_pop (bbzvm_pop { G with pc := vm.pc + 1 })
      = { G with pc := vm.pc + 1, stackptr := vm.stackptr - 2 } := by
    rw [bbzvm_pop_ok { G with pc := vm.pc + 1 } (by simp only [hspG]; omega)]
    rw [bbzvm_pop_ok { G with pc := vm.pc + 1, stackptr := G.stackptr - 1 }
      (by simp only [hspG]; omega)]
    simp only [hspG]
    have e : vm.stackptr - 1 - 1 = vm.stackptr - 2 := by omega
    rw [e]
  have ht : bbzvm_gstore { G with pc := vm.pc + 1 }
      = { G with
          pc := vm.pc + 1
          stackptr := vm.stackptr - 2
          heap := bbztable_set G.heap vm.gsyms (bbzvm_stack_at vm 1) (bbzvm_stack_at vm 0) } := by
    unfold bbzvm_gstore
    rw [if_neg (by simp only [bbzvm_stack_size, hspG]; omega)]
    rw [if_neg (by rw [bbzvm_type_ok_gc F 2 (by omega), hty]; decide)]
    simp only []
    rw [hpop, e0, e1]
    simp only [eg]
  rw [ht]
  exact bbzvm_exec_end_ready _ _ (by simp only [hst]; exact hat.ready)

/-- A step on TGET when the type assertion passes and the key is found:
the two operands are popped and the value is pushed. -/
theorem bbzvm_step_tget (host : Nat → bbzvm_t → bbzvm_t) (vm : bbzvm_t) (idx : Nat)
    (hat : bbzvm_at vm .TGET) (hsp : 1 ≤ vm.stackptr)
    (hty : bbzvm_type_ok vm 2 BBZTYPE_TABLE = true)
    (hget : bbztable_get (bbzvm_gc vm).2.heap (bbzvm_stack_at vm 1) (bbzvm_stack_at vm 0)
      = some idx) :
    bbzvm_step host vm =
      { (bbzvm_gc vm).2 with
        pc := vm.pc + 1
        stackptr := vm.stackptr - 1
        stack := (bbzvm_gc vm).2.stack.set (vm.stackptr - 1).toNat idx } := by
  obtain ⟨F, -, hstep⟩ := bbzvm_step_gc vm .TGET hat
  rw [hstep host]
  generalize (bbzvm_gc vm).2 = G at F hget
  obtain ⟨hpc, hsz, hf, hst, her, hspG, hno, hnf, hnil, hg, hbp⟩ := bbzvm_gc_frame_fields F
  have hmax := hat.sp_max
  show bbzvm_exec_end vm.pc (bbzvm_tget { G with pc := vm.pc + 1 }) = _
  have e0 := bbzvm_gc_frame_stack_at F 0 (le_refl _) (vm.pc + 1)
  have e1 := bbzvm_gc_frame_stack_at F 1 (by omega) (vm.pc + 1)
  have hpop : bbzvm_pop (bbzvm_pop { G with pc := vm.pc + 1 })
      = { G with pc := vm.pc + 1, stackptr := vm.stackptr - 2 } := by
    rw [bbzvm_pop_ok { G with pc := vm.pc + 1 } (by simp only [hspG]; omega)]
    rw [bbzvm_pop_ok { G with pc := vm.pc + 1, stackptr := G.stackptr - 1 }
      (by simp only [hspG]; omega)]
    simp only [hspG]
    have e : vm.stackptr - 1 - 1 = vm.stackptr - 2 := by omega
    rw [e]
  have ht : bbzvm_tget { G with pc := vm.pc + 1 }
      = { G with
          pc := vm.pc + 1
          stackptr := vm.stackptr - 1
          stack := G.stack.set (vm.stackptr - 1).toNat idx } := by
    unfold bbzvm_tget
    rw [if_neg (by simp only [bbzvm_stack_size, hspG]; omega)]
    rw [if_neg (by rw [bbzvm_type_ok_gc F 2 (by omega), hty]; decide)]
    simp only []
    rw [hpop, e0, e1]
    simp only []
    rw [hget]
    simp only []
    rw [bbzvm_push_ok _ idx (by simp only [F.len]; omega)]
    simp only []
    have e : vm.stackptr - 2 + 1 = vm.stackptr - 1 := by omega
    rw [e]
  rw [ht]
  exact bbzvm_exec_end_ready _ _ (by simp only [hst]; exact hat.ready)

/-- A step on GLOAD when the type assertion passes and the string is found
in the globals: the string is popped and the value is pushed. -/
theorem bbzvm_step_gload (host : Nat → bbzvm_t → bbzvm_t) (vm : bbzvm_t) (idx : Nat)
    (hat : bbzvm_at vm .GLOAD) (hsp : 0 ≤ vm.stackptr)
    (hty : bbzvm_type_ok vm 1 BBZTYPE_STRING = true)
    (hget : bbztable_get (bbzvm_gc vm).2.heap vm.gsyms (bbzvm_stack_at vm 0) = some idx) :
    bbzvm_step host vm =
      { (bbzvm_gc vm).2 with
        pc := vm.pc + 1
        stack := (bbzvm_gc vm).2.stack.set vm.stackptr.toNat idx } := by
  obtain ⟨F, -, hstep⟩ := bbzvm_step_gc vm .GLOAD hat
  rw [hstep host]
  generalize (bbzvm_gc vm).2 = G at F hget
  obtain ⟨hpc, hsz, hf, hst, her, hspG, hno, hnf, hnil, hg, hbp⟩ := bbzvm_gc_frame_fields F
  have hmax := hat.sp_max
  show bbzvm_exec_end vm.pc (bbzvm_gload { G with pc := vm.pc + 1 }) = _
  have e0 := bbzvm_gc_frame_stack_at F 0 (le_refl _) (vm.pc + 1)
  have eg : G.gsyms = vm.gsyms := by rw [F.rest]
  have hpop : bbzvm_pop { G with pc := vm.pc + 1 }
      = { G with pc := vm.pc + 1, stackptr := vm.stackptr - 1 } := by
    rw [bbzvm_pop_ok { G with pc := vm.pc + 1 } (by simp only [hspG]; omega)]
    simp only [hspG]
  have ht : bbzvm_gload { G with pc := vm.pc + 1 }
      = { G with pc := vm.pc + 1, stack := G.stack.set vm.stackptr.toNat idx } := by
    unfold bbzvm_gload
    rw [if_neg (by simp only [bbzvm_stack_size, hspG]; omega)]
    rw [if_neg (by rw [bbzvm_type_ok_gc F 1 (by omega), hty]; decide)]
    simp only []
    rw [hpop, e0]
    simp only [eg]
    rw [hget]
    simp only []
    rw [bbzvm_push_ok _ idx (by simp only [F.len]; omega)]
    simp only []
    have e : vm.stackptr - 1 + 1 = vm.stackptr := by omega
    rw [e]
    simp only [hspG]
  rw [ht]
  exact bbzvm_exec_end_ready _ _ (by simp only [hst]; exact hat.ready)

/-! ## Store, allocate, load -/

theorem bbztable_cells_congr (h h' : bbzheap_t) (t : Nat) (hs : h'.tsegs = h.tsegs)
    (ho : bbzheap_obj_at h' t = bbzheap_obj_at h t) :
    bbztable_cells h' t = bbztable_cells h t := by
  have same : bbzheap_tseg_at h' = bbzheap_tseg_at h := by
    funext s
    unfold bbzheap_tseg_at
    rw [hs]
  unfold bbztable_cells bbztable_segs
  rw [ho, hs]
  have e : bbzheap_tseg_cells h' = bbzheap_tseg_cells h := by
    funext s
    unfold bbzheap_tseg_cells
    rw [same]
  rw [e]
  have ec : ∀ n o, bbzheap_chain h' n o = bbzheap_chain h n o :=
    fun n o => bbzheap_chain_congr (fun s => by rw [same]) n o
  cases bbzheap_obj_at h t <;> simp only [ec]

theorem bbztype_cmp_self (h : bbzheap_t) (a : Nat)
    (hval : (∃ x, bbzheap_obj_at h a = .int x) ∨ (∃ x, bbzheap_obj_at h a = .string x)) :
    bbztype_cmp h a a = 0 := by
  unfold bbztype_cmp
  simp only []
  rcases hval with ⟨x, hx⟩ | ⟨x, hx⟩ <;> rw [hx] <;> simp [cmp3]

/-- The core of the round trips: a pair stored by `bbztable_set` in a table
`t` (heap `h2`) is found by `bbztable_get` under a new key object `o` equal
to the stored key, allocated in a free slot `i` (heap `h4`) after a
collection that kept the keys of `t` (heap `h3`) and before another one
(heap `h5`). -/
theorem bbztable_round_trip (h1 h2 h3 h4 h5 : bbzheap_t) (t k v i : Nat) (o0 o : bbzobj_t)
    (hv : bbztype (bbzheap_obj_at h1 v) ≠ BBZTYPE_NIL)
    (hroom : ∃ c ∈ bbztable_cells h1 t, c.2.2 = none ∨
      ∃ kv, c.2.2 = some kv ∧ bbztype_cmp h1 kv.1 k = 0)
    (hval : (∃ x, o = .int x) ∨ (∃ x, o = .string x))
    (hk : bbzheap_obj_at h1 k = o)
    (hkv : bbzheap_obj_isvalid h1 k = true)
    (hvv : bbzheap_obj_isvalid h1 v = true)
    (hkeys : ∀ kv ∈ bbztable_pairs h1 t, bbzheap_obj_isvalid h1 kv.1 = true)
    (e2 : h2 = bbztable_set h1 t k v)
    (S23 : bbzheap_same h2 h3)
    (R23 : ∀ kv ∈ bbztable_pairs h2 t,
      (bbzheap_obj_isvalid h2 kv.1 = true → bbzheap_obj_isvalid h3 kv.1 = true) ∧
      (bbzheap_obj_isvalid h2 kv.2 = true → bbzheap_obj_isvalid h3 kv.2 = true))
    (ht3 : bbzheap_obj_isvalid h3 t = true)
    (hi : bbzheap_obj_slot h3 = some i)
    (e4 : h4 = bbzheap_obj_write (bbzheap_obj_place h3 i o0) i o)
    (S45 : bbzheap_same h4 h5) :
    bbztable_get h5 t i = some v ∧ bbzheap_obj_at h5 v = bbzheap_obj_at h1 v ∧
    bbzheap_obj_isvalid h4 v = true := by
  obtain ⟨P, s, p, kk, x, hfind, hcells, hkk, hnot, hobjs, -⟩ :=
    bbztable_set_cells h1 t k v hv hroom
  rw [← e2] at hcells hobjs
  obtain ⟨hil, hiv⟩ := bbzheap_obj_slot_spec h3 i hi
  have hpl := bbzheap_obj_place_length h3 i o0 hil
  have o21 : ∀ j, bbzheap_obj_at h2 j = bbzheap_obj_at h1 j := by
    intro j; unfold bbzheap_obj_at; rw [hobjs]
  have v21 : ∀ j, bbzheap_obj_isvalid h2 j = bbzheap_obj_isvalid h1 j := by
    intro j; unfold bbzheap_obj_isvalid; rw [hobjs]
  have o43 : ∀ j, bbzheap_obj_at h4 j = if j = i then o else bbzheap_obj_at h3 j := by
    intro j
    rw [e4, bbzheap_obj_write_at _ _ _ _ hpl]
    by_cases hj : j = i
    · rw [if_pos hj, if_pos hj]
    · rw [if_neg hj, if_neg hj, bbzheap_obj_place_at _ _ _ _ hil, if_neg hj]
  have okeep : ∀ j, bbzheap_obj_isvalid h2 j = true →
      bbzheap_obj_isvalid h3 j = true → bbzheap_obj_at h5 j = bbzheap_obj_at h1 j := by
    intro j _ h3j
    have hne : j ≠ i := by
      intro e; rw [e, hiv] at h3j; exact Bool.noConfusion h3j
    rw [S45.2.1 j, o43 j, if_neg hne, S23.2.1 j, o21 j]
  have o5i : bbzheap_obj_at h5 i = o := by
    rw [S45.2.1 i, o43 i, if_pos rfl]
  have hti : t ≠ i := by
    intro e; rw [e, hiv] at ht3; exact Bool.noConfusion ht3
  have hp54 : bbztable_pairs h5 t = bbztable_pairs h2 t := by
    rw [bbzheap_same_pairs S45]
    have e43 : bbztable_cells h4 t = bbztable_cells h3 t :=
      bbztable_cells_congr h3 h4 t
        (by rw [e4]; unfold bbzheap_obj_write bbzheap_obj_place; split <;> rfl)
        (by rw [o43 t, if_neg hti])
    unfold bbztable_pairs
    rw [e43, bbzheap_same_cells S23]
  have hlab := bbztable_cells_label h1 t
  have hsx : (s, p, x) ∈ bbztable_cells h1 t := List.mem_of_find?_eq_some hfind
  have hPx : P (s, p, x) = true := List.find?_some hfind
  have hnew : (kk, v) ∈ bbztable_pairs h2 t := by
    unfold bbztable_pairs
    rw [hcells, List.mem_filterMap]
    refine ⟨(s, p, some (kk, v)), ?_, rfl⟩
    rw [List.mem_map]
    exact ⟨(s, p, x), hsx, by simp⟩
  have hold : ∀ c ∈ bbztable_cells h1 t, P c = false → ∀ kv, c.2.2 = some kv →
      kv ∈ bbztable_pairs h2 t := by
    intro c hc hPc kv hkvc
    unfold bbztable_pairs
    rw [hcells, List.mem_filterMap]
    refine ⟨c, ?_, hkvc⟩
    rw [List.mem_map]
    refine ⟨c, hc, ?_⟩
    rw [if_neg]
    rintro ⟨a1, a2⟩
    have := hlab c hc (s, p, x) hsx a1 a2
    rw [this, hPx] at hPc
    exact Bool.noConfusion hPc
  have hvalk : (∃ x, bbzheap_obj_at h1 k = .int x) ∨ (∃ x, bbzheap_obj_at h1 k = .string x) := by
    rw [hk]; exact hval
  have hkkv : bbzheap_obj_isvalid h1 kk = true := by
    rcases hkk with rfl | ⟨⟨v0, hm⟩, -⟩
    · exact hkv
    · exact hkeys (kk, v0) (by
        unfold bbztable_pairs
        rw [List.mem_filterMap]
        exact ⟨_, hm, rfl⟩)
  have c1 : bbztype_cmp h5 kk i = 0 := by
    rw [bbztype_cmp_value h1 h5 kk k kk i
      (okeep kk (by rw [v21]; exact hkkv) ((R23 _ hnew).1 (by rw [v21]; exact hkkv)))
      (by rw [o5i, hk]) hvalk]
    rcases hkk with rfl | ⟨-, hc⟩
    · exact bbztype_cmp_self h1 _ hvalk
    · exact hc
  refine ⟨?_, ?_, ?_⟩
  · unfold bbztable_get
    rw [hp54]
    unfold bbztable_pairs
    rw [hcells]
    rw [bbztable_cells_put (fun j => bbztype_cmp h5 j i == 0) P kk v (bbztable_cells h1 t) s p x
      hlab hfind ?_ (by simp [c1])]
    · rfl
    · intro c hc hPc kv hkvc
      have hm := hold c hc hPc kv hkvc
      have hv1 : bbzheap_obj_isvalid h1 kv.1 = true := hkeys kv (by
        unfold bbztable_pairs
        rw [List.mem_filterMap]
        exact ⟨c, hc, hkvc⟩)
      have := bbztype_cmp_value h1 h5 kv.1 k kv.1 i
        (okeep kv.1 (by rw [v21]; exact hv1) ((R23 _ hm).1 (by rw [v21]; exact hv1)))
        (by rw [o5i, hk]) hvalk
      simp only [this]
      simpa using hnot c hc hPc kv hkvc
  · exact okeep v (by rw [v21]; exact hvv) ((R23 _ hnew).2 (by rw [v21]; exact hvv))
  · have h3v := (R23 _ hnew).2 (by rw [v21]; exact hvv)
    have hne : v ≠ i := by
      intro e; rw [e, hiv] at h3v; exact Bool.noConfusion h3v
    rw [e4, bbzheap_obj_write_valid, bbzheap_obj_place_valid _ _ _ _ hil, if_neg hne]
    exact h3v

/-! ## Steps that push a new Int or a new String -/

theorem bbzvm_pushs_ok (V : bbzvm_t) (s i : Nat)
    (hs : bbzheap_obj_slot V.heap = some i) (hlen : V.stackptr + 1 < V.stack.length) :
    bbzvm_pushs V s =
      { V with
        heap := bbzheap_obj_write (bbzheap_obj_place V.heap i (.string 0)) i (.string s)
        stackptr := V.stackptr + 1
        stack := V.stack.set (V.stackptr + 1).toNat i } := by
  have hil := (bbzheap_obj_slot_spec V.heap i hs).1
  unfold bbzvm_pushs
  rw [bbzvm_obj_alloc_plain V BBZTYPE_STRING i (by decide) hs]
  simp only []
  have ef : bbzobj_fresh BBZTYPE_STRING 0 = .string 0 := by decide
  rw [ef]
  have e2 : bbzvm_obj_setvalue { V with heap := bbzheap_obj_place V.heap i (.string 0) } i s
      = { V with
          heap := bbzheap_obj_write (bbzheap_obj_place V.heap i (.string 0)) i (.string s) } := by
    unfold bbzvm_obj_setvalue bbzvm_obj_at
    simp only []
    rw [bbzheap_obj_place_at _ _ _ _ hil]
    simp [bbzobj_setvalue]
  rw [e2]
  exact bbzvm_push_ok _ i hlen

/-- A step on PUSHS with a free slot `i` after the collection. -/
theorem bbzvm_step_pushs (host : Nat → bbzvm_t → bbzvm_t) (vm : bbzvm_t) (i : Nat)
    (hat : bbzvm_at vm .PUSHS) (hfall : vm.pc + 5 < vm.bcode_size)
    (hi : bbzheap_obj_slot (bbzvm_gc vm).2.heap = some i) :
    bbzvm_step host vm =
      { (bbzvm_gc vm).2 with
        pc := vm.pc + 5
        heap := bbzheap_obj_write (bbzheap_obj_place (bbzvm_gc vm).2.heap i (.string 0)) i
          (.string (bbzvm_fetch_arg { vm with pc := vm.pc + 1 } % 65536))
        stackptr := vm.stackptr + 1
        stack := (bbzvm_gc vm).2.stack.set (vm.stackptr + 1).toNat i } := by
  have hstep := bbzvm_step_arg_gc host vm .PUSHS
    (fun m arg => bbzvm_pushs m (arg % 65536)) (fun _ _ => rfl) hat hfall
  obtain ⟨F, -, -⟩ := bbzvm_step_gc vm .PUSHS hat
  rw [hstep]
  generalize (bbzvm_gc vm).2 = G at F hi
  obtain ⟨hpc, hsz, hf, hst, her, hspG, hno, hnf, hnil, hg, hbp⟩ := bbzvm_gc_frame_fields F
  show bbzvm_exec_end vm.pc (bbzvm_pushs { G with pc := vm.pc + 5 } _) = _
  rw [bbzvm_pushs_ok { G with pc := vm.pc + 5 } _ i hi
    (by simp only [hspG, F.len]; have := hat.sp_max; omega)]
  rw [bbzvm_exec_end_ready _ _ (by simp only [hst]; exact hat.ready)]
  simp only [hspG]

/-- A step on PUSHI with a free slot `i` after the collection. -/
theorem bbzvm_step_pushi_gc (host : Nat → bbzvm_t → bbzvm_t) (vm : bbzvm_t) (i : Nat)
    (hat : bbzvm_at vm .PUSHI) (hfall : vm.pc + 5 < vm.bcode_size)
    (hi : bbzheap_obj_slot (bbzvm_gc vm).2.heap = some i) :
    bbzvm_step host vm =
      { (bbzvm_gc vm).2 with
        pc := vm.pc + 5
        heap := bbzheap_obj_write (bbzheap_obj_place (bbzvm_gc vm).2.heap i (.int 0)) i
          (.int (int16 (bbzvm_fetch_arg { vm with pc := vm.pc + 1 })))
        stackptr := vm.stackptr + 1
        stack := (bbzvm_gc vm).2.stack.set (vm.stackptr + 1).toNat i } := by
  have hstep := bbzvm_step_arg_gc host vm .PUSHI
    (fun m arg => bbzvm_pushi m (int16 arg)) (fun _ _ => rfl) hat hfall
  obtain ⟨F, -, -⟩ := bbzvm_step_gc vm .PUSHI hat
  rw [hstep]
  generalize (bbzvm_gc vm).2 = G at F hi
  obtain ⟨hpc, hsz, hf, hst, her, hspG, hno, hnf, hnil, hg, hbp⟩ := bbzvm_gc_frame_fields F
  show bbzvm_exec_end vm.pc (bbzvm_pushi { G with pc := vm.pc + 5 } _) = _
  rw [bbzvm_pushi_ok { G with pc := vm.pc + 5 } _ i hi
    (by simp only [hspG, F.len]; have := hat.sp_max; omega)]
  rw [bbzvm_exec_end_ready _ _ (by simp only [hst]; exact hat.ready)]
  simp only [hspG]
  rfl

theorem bbzvm_gc_valid_gsyms (vm : bbzvm_t) (h0 : -1 ≤ vm.stackptr)
    (h1 : vm.stackptr + 7 ≤ vm.stack.length)
    (hv : bbzheap_obj_isvalid vm.heap vm.gsyms = true) :
    bbzheap_obj_isvalid (bbzvm_gc vm).2.heap vm.gsyms = true := by
  rw [bbzvm_gc_eq vm h0 h1]
  exact bbzheap_gc_valid_root _ _ _ _ (bbzvm_gc_stack_roots vm h0 h1).1 hv

/-! ## Round trips through the globals and through a table -/

/-- C24 as amended: with a String of id `s` below a value `x` that is not
nil (the order GSTORE reads), the steps GSTORE; PUSHS s; GLOAD end Ready with
`x` on top, its object unchanged, and one entry fewer than at the start.
The globals hold `s` already or have an empty cell, their keys are valid, a
heap slot is free, and the type assertions of GSTORE and GLOAD pass. -/
theorem c24_gstore_gload (host : Nat → bbzvm_t → bbzvm_t) (vm : bbzvm_t) (s : Nat)
    (hat : bbzvm_at vm .GSTORE)
    (hcode1 : vm.bcode_fetch_fun (vm.pc + 1) % 256 = bbzvm_instr.PUSHS.code)
    (harg : bbzvm_fetch_arg { vm with pc := vm.pc + 2 } % 65536 = s)
    (hcode2 : vm.bcode_fetch_fun (vm.pc + 6) % 256 = bbzvm_instr.GLOAD.code)
    (hend : vm.pc + 7 < vm.bcode_size)
    (hsp : 1 ≤ vm.stackptr)
    (hks : bbzvm_obj_at vm (bbzvm_stack_at vm 1) = .string s)
    (hksv : bbzheap_obj_isvalid vm.heap (bbzvm_stack_at vm 1) = true)
    (hx : bbztype (bbzvm_obj_at vm (bbzvm_stack_at vm 0)) ≠ BBZTYPE_NIL)
    (hxv : bbzheap_obj_isvalid vm.heap (bbzvm_stack_at vm 0) = true)
    (hg : bbzheap_obj_isvalid vm.heap vm.gsyms = true)
    (hkeys : ∀ kv ∈ bbztable_pairs vm.heap vm.gsyms, bbzheap_obj_isvalid vm.heap kv.1 = true)
    (hroom : ∃ c ∈ bbztable_cells vm.heap vm.gsyms, c.2.2 = none ∨
      ∃ kv, c.2.2 = some kv ∧ bbztype_cmp vm.heap kv.1 (bbzvm_stack_at vm 1) = 0)
    (hslot : (bbzheap_obj_slot vm.heap).isSome = true)
    (hA1 : bbzvm_type_ok vm 2 BBZTYPE_STRING = true)
    (hA2 : bbzvm_type_ok (bbzvm_step host (bbzvm_step host vm)) 1 BBZTYPE_STRING = true) :
    (bbzvm_step host (bbzvm_step host (bbzvm_step host vm))).state = BBZVM_STATE_READY ∧
    (bbzvm_step host (bbzvm_step host (bbzvm_step host vm))).error = BBZVM_ERROR_NONE ∧
    (bbzvm_step host (bbzvm_step host (bbzvm_step host vm))).pc = vm.pc + 7 ∧
    (bbzvm_step host (bbzvm_step host (bbzvm_step host vm))).stackptr = vm.stackptr - 1 ∧
    bbzvm_stack_at (bbzvm_step host (bbzvm_step host (bbzvm_step host vm))) 0
      = bbzvm_stack_at vm 0 ∧
    bbzvm_obj_at (bbzvm_step host (bbzvm_step host (bbzvm_step host vm))) (bbzvm_stack_at vm 0)
      = bbzvm_obj_at vm (bbzvm_stack_at vm 0) ∧
    ∀ j : Nat, (j : Int) ≤ vm.stackptr - 2 →
      (bbzvm_step host (bbzvm_step host (bbzvm_step host vm))).stack[j]? = vm.stack[j]? := by
  have hmin := hat.sp_min
  have hmax := hat.sp_max
  have hsize := hat.size
  -- first step
  obtain ⟨F1, S1, -⟩ := bbzvm_step_gc vm .GSTORE hat
  have e1 := bbzvm_step_gstore host vm hat hsp hA1
  have hk1v := bbzvm_stack_at_valid_root F1 1 (by omega) hsp hksv
  have hx1v := bbzvm_stack_at_valid_root F1 0 (le_refl _) (by omega) hxv
  have hg1 := bbzvm_gc_valid_gsyms vm hmin hmax hg
  have hkeys1 : ∀ kv ∈ bbztable_pairs (bbzvm_gc vm).2.heap vm.gsyms,
      bbzheap_obj_isvalid (bbzvm_gc vm).2.heap kv.1 = true := by
    intro kv hkv
    rw [bbzheap_same_pairs S1] at hkv
    exact (bbzvm_gc_valid_pair vm hmin hmax vm.gsyms (Or.inl rfl) kv hkv).1 (hkeys kv hkv)
  have hslot1 := F1.slot hslot
  generalize (bbzvm_gc vm).2 = G1 at F1 S1 e1 hk1v hx1v hg1 hkeys1 hslot1
  obtain ⟨hpc1, hsz1, hf1, hst1, her1, hsp1, hno1, hnf1, hnil1, hga1, hbp1⟩ :=
    bbzvm_gc_frame_fields F1
  have hgs1 : G1.gsyms = vm.gsyms := by rw [F1.rest]
  have hv1 : bbztype (bbzheap_obj_at G1.heap (bbzvm_stack_at vm 0)) ≠ BBZTYPE_NIL := by
    rw [F1.obj]; exact hx
  have hroom1 : ∃ c ∈ bbztable_cells G1.heap vm.gsyms, c.2.2 = none ∨
      ∃ kv, c.2.2 = some kv ∧ bbztype_cmp G1.heap kv.1 (bbzvm_stack_at vm 1) = 0 := by
    obtain ⟨c, hc, hcr⟩ := hroom
    refine ⟨c, by rw [bbzheap_same_cells S1]; exact hc, ?_⟩
    rcases hcr with h0 | ⟨kv, a, b⟩
    · exact Or.inl h0
    · exact Or.inr ⟨kv, a, by rw [bbztype_cmp_congr G1.heap vm.heap _ _ F1.obj]; exact b⟩
  obtain ⟨-, -, -, -, -, -, -, -, -, hobjset, hslotset⟩ :=
    bbztable_set_cells G1.heap vm.gsyms (bbzvm_stack_at vm 1) (bbzvm_stack_at vm 0) hv1 hroom1
  obtain ⟨m1, hm1⟩ : ∃ m1, m1 = bbzvm_step host vm := ⟨_, rfl⟩
  rw [← hm1] at hA2 ⊢
  rw [e1] at hm1
  have a1 : bbzvm_at m1 .PUSHS := by
    rw [hm1]
    exact ⟨by simp only [hst1]; exact hat.ready, by simp only [her1]; exact hat.noerr,
      by simp only [hf1]; exact hcode1, by simp only [hsz1]; omega,
      by simp only [hsz1]; exact hsize, by simp only []; omega,
      by simp only [F1.len]; omega⟩
  have m1pc : m1.pc = vm.pc + 1 := by rw [hm1]
  have m1sz : m1.bcode_size = vm.bcode_size := by rw [hm1]; exact hsz1
  have m1f : m1.bcode_fetch_fun = vm.bcode_fetch_fun := by rw [hm1]; exact hf1
  have m1sp : m1.stackptr = vm.stackptr - 2 := by rw [hm1]
  have m1len : m1.stack.length = vm.stack.length := by rw [hm1]; exact F1.len
  have m1gs : m1.gsyms = vm.gsyms := by rw [hm1]; exact hgs1
  have m1heap : m1.heap = bbztable_set G1.heap vm.gsyms (bbzvm_stack_at vm 1)
      (bbzvm_stack_at vm 0) := by rw [hm1]
  have m1below : ∀ j : Nat, (j : Int) ≤ vm.stackptr → m1.stack[j]? = vm.stack[j]? := by
    intro j hj; rw [hm1]; exact F1.below j hj
  clear hm1 e1
  -- second step
  obtain ⟨F2, S2, -⟩ := bbzvm_step_gc m1 .PUSHS a1
  have hslot2 : (bbzheap_obj_slot (bbzvm_gc m1).2.heap).isSome = true := by
    apply F2.slot
    rw [m1heap, hslotset]
    exact hslot1
  obtain ⟨i, hi⟩ := Option.isSome_iff_exists.mp hslot2
  have e2 := bbzvm_step_pushs host m1 i a1 (by rw [m1pc, m1sz]; omega) hi
  have R23 := bbzvm_gc_valid_pair m1 a1.sp_min a1.sp_max m1.gsyms (Or.inl rfl)
  have hg2 : bbzheap_obj_isvalid (bbzvm_gc m1).2.heap m1.gsyms = true := by
    apply bbzvm_gc_valid_gsyms m1 a1.sp_min a1.sp_max
    rw [m1heap, m1gs]
    unfold bbzheap_obj_isvalid
    rw [hobjset]
    exact hg1
  generalize (bbzvm_gc m1).2 = G2 at F2 S2 e2 R23 hg2 hi
  obtain ⟨hpc2, hsz2, hf2, hst2, her2, hsp2, hno2, hnf2, hnil2, hga2, hbp2⟩ :=
    bbzvm_gc_frame_fields F2
  have hgs2 : G2.gsyms = m1.gsyms := by rw [F2.rest]
  have earg : bbzvm_fetch_arg { m1 with pc := m1.pc + 1 } % 65536 = s := by
    rw [← harg]
    unfold bbzvm_fetch_arg
    simp only [m1pc, m1f]
  rw [earg] at e2
  obtain ⟨m2, hm2⟩ : ∃ m2, m2 = bbzvm_step host m1 := ⟨_, rfl⟩
  rw [← hm2] at hA2 ⊢
  rw [e2] at hm2
  have a2 : bbzvm_at m2 .GLOAD := by
    rw [hm2]
    exact ⟨by simp only [hst2]; exact a1.ready, by simp only [her2]; exact a1.noerr,
      by simp only [hf2, m1f, m1pc]; exact hcode2, by simp only [hsz2, m1sz, m1pc]; omega,
      by simp only [hsz2, m1sz]; exact hsize, by simp only [m1sp]; omega,
      by simp only [List.length_set, F2.len, m1len, m1sp]; omega⟩
  have hlt2 : (m1.stackptr + 1).toNat < G2.stack.length := by rw [F2.len, m1len, m1sp]; omega
  have m2pc : m2.pc = vm.pc + 6 := by rw [hm2]; simp only [m1pc]
  have m2sp : m2.stackptr = vm.stackptr - 1 := by rw [hm2]; simp only [m1sp]; omega
  have m2gs : m2.gsyms = vm.gsyms := by rw [hm2]; simp only [hgs2, m1gs]
  have m2top : bbzvm_stack_at m2 0 = i := by
    rw [hm2]
    unfold bbzvm_stack_at
    simp only [sub_zero]
    rw [if_pos (by rw [m1sp]; omega)]
    simp [List.getD_eq_getElem?_getD, List.getElem?_set_self hlt2]
  have m2len : m2.stack.length = vm.stack.length := by
    rw [hm2]; simp only [List.length_set, F2.len, m1len]
  have m2heap : m2.heap = bbzheap_obj_write (bbzheap_obj_place G2.heap i (.string 0)) i
      (.string s) := by rw [hm2]
  have m2below : ∀ j : Nat, (j : Int) ≤ vm.stackptr - 2 → m2.stack[j]? = vm.stack[j]? := by
    intro j hj
    rw [hm2]
    simp only []
    rw [List.getElem?_set_ne (by rw [m1sp]; omega), F2.below j (by rw [m1sp]; exact hj)]
    exact m1below j (by omega)
  clear hm2 e2
  -- third step
  obtain ⟨F3, S3, -⟩ := bbzvm_step_gc m2 .GLOAD a2
  have hcore := bbztable_round_trip G1.heap m1.heap G2.heap m2.heap (bbzvm_gc m2).2.heap
    vm.gsyms (bbzvm_stack_at vm 1) (bbzvm_stack_at vm 0) i (.string 0) (.string s)
    hv1 hroom1 (Or.inr ⟨s, rfl⟩) (by rw [F1.obj]; exact hks) hk1v hx1v hkeys1 m1heap S2
    (by rw [← m1gs]; exact R23) (by rw [← m1gs]; exact hg2) hi m2heap S3
  have e3 := bbzvm_step_gload host m2 (bbzvm_stack_at vm 0) a2 (by rw [m2sp]; omega) hA2
    (by rw [m2gs, m2top]; exact hcore.1)
  obtain ⟨hc1, hc2, hc3⟩ := hcore
  generalize (bbzvm_gc m2).2 = G3 at F3 S3 e3 hc1 hc2
  obtain ⟨hpc3, hsz3, hf3, hst3, her3, hsp3, hno3, hnf3, hnil3, hga3, hbp3⟩ :=
    bbzvm_gc_frame_fields F3
  have hlt3 : m2.stackptr.toNat < G3.stack.length := by rw [F3.len, m2len, m2sp]; omega
  rw [e3]
  refine ⟨by simp only [hst3]; exact a2.ready, by simp only [her3]; exact a2.noerr,
    by simp only [m2pc], by simp only [hsp3, m2sp], ?_, ?_, ?_⟩
  · generalize bbzvm_stack_at vm 0 = x0
    unfold bbzvm_stack_at
    simp only [sub_zero, hsp3]
    rw [if_pos (by rw [m2sp]; omega)]
    rw [List.getD_eq_getElem?_getD, List.getElem?_set_self hlt3]
    rfl
  · unfold bbzvm_obj_at
    simp only []
    rw [hc2]
    exact F1.obj _
  · intro j hj
    simp only []
    rw [List.getElem?_set_ne (by rw [m2sp]; omega), F3.below j (by rw [m2sp]; omega)]
    exact m2below j hj

/-- Witness of C24 as amended: the stack holds a String of id 9 (slot 12),
the String of id 5 (slot 11) and the Int 2 (slot 6); GSTORE; PUSHS 5; GLOAD
leave the Int of slot 6 on top. -/
theorem c24_gstore_gload_witness :
    (bbzvm_step test_host (bbzvm_step test_host (bbzvm_step test_host
      { test_vm 2 8384 [24, 32, 5, 0, 0, 0, 23, 0] [12, 11, 6] with
        heap := bbzheap_obj_place (bbzheap_obj_place (test_heap 2 8384) 11 (.string 5)) 12
          (.string 9) }))).state = BBZVM_STATE_READY ∧
    bbzvm_stack_at (bbzvm_step test_host (bbzvm_step test_host (bbzvm_step test_host
      { test_vm 2 8384 [24, 32, 5, 0, 0, 0, 23, 0] [12, 11, 6] with
        heap := bbzheap_obj_place (bbzheap_obj_place (test_heap 2 8384) 11 (.string 5)) 12
          (.string 9) }))) 0 = 6 :=
  have h := c24_gstore_gload test_host
    { test_vm 2 8384 [24, 32, 5, 0, 0, 0, 23, 0] [12, 11, 6] with
      heap := bbzheap_obj_place (bbzheap_obj_place (test_heap 2 8384) 11 (.string 5)) 12
        (.string 9) } 5
    ⟨by decide, by decide, by decide, by decide, by decide, by decide, by decide⟩
    (by decide) (by decide) (by decide) (by decide) (by decide) (by decide) (by decide)
    (by decide) (by decide) (by decide) (by decide)
    ⟨(3, 0, none), by decide, Or.inl rfl⟩ (by decide) (by decide) (by decide)
  ⟨h.1, h.2.2.2.2.1⟩

/-- C23 as amended: with two references to a table `t` on the stack below an
Int key of value `kk` and an Int value (as PUSHI leaves them), the steps
TPUT; PUSHI kk; TGET end Ready with the stored Int on top, in place of the
lower reference to `t`.  TPUT pops one reference with the key and the value;
TGET consumes the other.  The table holds the key already or has an empty
cell, its keys are valid, a heap slot is free, and the type assertions of
TPUT and TGET pass. -/
theorem c23_tput_tget (host : Nat → bbzvm_t → bbzvm_t) (vm : bbzvm_t) (kk vv : Int)
    (hat : bbzvm_at vm .TPUT)
    (hcode1 : vm.bcode_fetch_fun (vm.pc + 1) % 256 = bbzvm_instr.PUSHI.code)
    (harg : int16 (bbzvm_fetch_arg { vm with pc := vm.pc + 2 }) = kk)
    (hcode2 : vm.bcode_fetch_fun (vm.pc + 6) % 256 = bbzvm_instr.TGET.code)
    (hend : vm.pc + 7 < vm.bcode_size)
    (hsp : 3 ≤ vm.stackptr)
    (ht2 : bbzvm_stack_at vm 3 = bbzvm_stack_at vm 2)
    (htv : bbzheap_obj_isvalid vm.heap (bbzvm_stack_at vm 2) = true)
    (hk : bbzvm_obj_at vm (bbzvm_stack_at vm 1) = .int kk)
    (hkv : bbzheap_obj_isvalid vm.heap (bbzvm_stack_at vm 1) = true)
    (hv : bbzvm_obj_at vm (bbzvm_stack_at vm 0) = .int vv)
    (hvv : bbzheap_obj_isvalid vm.heap (bbzvm_stack_at vm 0) = true)
    (hkeys : ∀ kv ∈ bbztable_pairs vm.heap (bbzvm_stack_at vm 2),
      bbzheap_obj_isvalid vm.heap kv.1 = true)
    (hroom : ∃ c ∈ bbztable_cells vm.heap (bbzvm_stack_at vm 2), c.2.2 = none ∨
      ∃ kv, c.2.2 = some kv ∧ bbztype_cmp vm.heap kv.1 (bbzvm_stack_at vm 1) = 0)
    (hslot : (bbzheap_obj_slot vm.heap).isSome = true)
    (hA1 : bbzvm_type_ok vm 3 BBZTYPE_TABLE = true)
    (hA2 : bbzvm_type_ok (bbzvm_step host (bbzvm_step host vm)) 2 BBZTYPE_TABLE = true) :
    (bbzvm_step host (bbzvm_step host (bbzvm_step host vm))).state = BBZVM_STATE_READY ∧
    (bbzvm_step host (bbzvm_step host (bbzvm_step host vm))).error = BBZVM_ERROR_NONE ∧
    (bbzvm_step host (bbzvm_step host (bbzvm_step host vm))).pc = vm.pc + 7 ∧
    (bbzvm_step host (bbzvm_step host (bbzvm_step host vm))).stackptr = vm.stackptr - 3 ∧
    bbzvm_stack_at (bbzvm_step host (bbzvm_step host (bbzvm_step host vm))) 0
      = bbzvm_stack_at vm 0 ∧
    bbzvm_obj_at (bbzvm_step host (bbzvm_step host (bbzvm_step host vm)))
      (bbzvm_stack_at (bbzvm_step host (bbzvm_step host (bbzvm_step host vm))) 0) = .int vv ∧
    ∀ j : Nat, (j : Int) ≤ vm.stackptr - 4 →
      (bbzvm_step host (bbzvm_step host (bbzvm_step host vm))).stack[j]? = vm.stack[j]? := by
  have hmin := hat.sp_min
  have hmax := hat.sp_max
  have hsize := hat.size
  have ht3 : bbzvm_stack_at vm 2 = vm.stack.getD (vm.stackptr - 3).toNat vm.garbage := by
    rw [← ht2]
    unfold bbzvm_stack_at
    rw [if_pos (by omega)]
  -- first step
  obtain ⟨F1, S1, -⟩ := bbzvm_step_gc vm .TPUT hat
  have e1 := bbzvm_step_tput host vm hat (by omega) hA1 (by rw [hv]; rfl)
  have hk1v := bbzvm_stack_at_valid_root F1 1 (by omega) (by omega) hkv
  have hx1v := bbzvm_stack_at_valid_root F1 0 (le_refl _) (by omega) hvv
  have ht1v := bbzvm_stack_at_valid_root F1 2 (by omega) (by omega) htv
  have hkeys1 : ∀ kv ∈ bbztable_pairs (bbzvm_gc vm).2.heap (bbzvm_stack_at vm 2),
      bbzheap_obj_isvalid (bbzvm_gc vm).2.heap kv.1 = true := by
    intro kv hkv1
    rw [bbzheap_same_pairs S1] at hkv1
    exact (bbzvm_gc_valid_pair vm hmin hmax (bbzvm_stack_at vm 2)
      (Or.inr ⟨(vm.stackptr - 3).toNat, by omega, ht3.symm⟩) kv hkv1).1 (hkeys kv hkv1)
  have hslot1 := F1.slot hslot
  generalize (bbzvm_gc vm).2 = G1 at F1 S1 e1 hk1v hx1v ht1v hkeys1 hslot1
  obtain ⟨hpc1, hsz1, hf1, hst1, her1, hsp1, hno1, hnf1, hnil1, hga1, hbp1⟩ :=
    bbzvm_gc_frame_fields F1
  have hv1 : bbztype (bbzheap_obj_at G1.heap (bbzvm_stack_at vm 0)) ≠ BBZTYPE_NIL := by
    rw [F1.obj]
    unfold bbzvm_obj_at at hv
    rw [hv]
    exact (by decide : BBZTYPE_INT ≠ BBZTYPE_NIL)
  have hroom1 : ∃ c ∈ bbztable_cells G1.heap (bbzvm_stack_at vm 2), c.2.2 = none ∨
      ∃ kv, c.2.2 = some kv ∧ bbztype_cmp G1.heap kv.1 (bbzvm_stack_at vm 1) = 0 := by
    obtain ⟨c, hc, hcr⟩ := hroom
    refine ⟨c, by rw [bbzheap_same_cells S1]; exact hc, ?_⟩
    rcases hcr with h0 | ⟨kv, a, b⟩
    · exact Or.inl h0
    · exact Or.inr ⟨kv, a, by rw [bbztype_cmp_congr G1.heap vm.heap _ _ F1.obj]; exact b⟩
  obtain ⟨-, -, -, -, -, -, -, -, -, hobjset, hslotset⟩ :=
    bbztable_set_cells G1.heap (bbzvm_stack_at vm 2) (bbzvm_stack_at vm 1) (bbzvm_stack_at vm 0)
      hv1 hroom1
  obtain ⟨m1, hm1⟩ : ∃ m1, m1 = bbzvm_step host vm := ⟨_, rfl⟩
  rw [← hm1] at hA2 ⊢
  rw [e1] at hm1
  have a1 : bbzvm_at m1 .PUSHI := by
    rw [hm1]
    exact ⟨by simp only [hst1]; exact hat.ready, by simp only [her1]; exact hat.noerr,
      by simp only [hf1]; exact hcode1, by simp only [hsz1]; omega,
      by simp only [hsz1]; exact hsize, by simp only []; omega,
      by simp only [F1.len]; omega⟩
  have m1pc : m1.pc = vm.pc + 1 := by rw [hm1]
  have m1sz : m1.bcode_size = vm.bcode_size := by rw [hm1]; exact hsz1
  have m1f : m1.bcode_fetch_fun = vm.bcode_fetch_fun := by rw [hm1]; exact hf1
  have m1sp : m1.stackptr = vm.stackptr - 3 := by rw [hm1]
  have m1len : m1.stack.length = vm.stack.length := by rw [hm1]; exact F1.len
  have m1ga : m1.garbage = vm.garbage := by rw [hm1]; exact hga1
  have m1heap : m1.heap = bbztable_set G1.heap (bbzvm_stack_at vm 2) (bbzvm_stack_at vm 1)
      (bbzvm_stack_at vm 0) := by rw [hm1]
  have m1below : ∀ j : Nat, (j : Int) ≤ vm.stackptr → m1.stack[j]? = vm.stack[j]? := by
    intro j hj; rw [hm1]; exact F1.below j hj
  have m1t : m1.stack.getD (vm.stackptr - 3).toNat m1.garbage = bbzvm_stack_at vm 2 := by
    rw [ht3, m1ga]
    simp only [List.getD_eq_getElem?_getD]
    rw [m1below _ (by omega)]
  clear hm1 e1
  -- second step
  obtain ⟨F2, S2, -⟩ := bbzvm_step_gc m1 .PUSHI a1
  have hslot2 : (bbzheap_obj_slot (bbzvm_gc m1).2.heap).isSome = true := by
    apply F2.slot
    rw [m1heap, hslotset]
    exact hslot1
  obtain ⟨i, hi⟩ := Option.isSome_iff_exists.mp hslot2
  have e2 := bbzvm_step_pushi_gc host m1 i a1 (by rw [m1pc, m1sz]; omega) hi
  have R23 := bbzvm_gc_valid_pair m1 a1.sp_min a1.sp_max (bbzvm_stack_at vm 2)
    (Or.inr ⟨(vm.stackptr - 3).toNat, by rw [m1sp]; omega, m1t⟩)
  have ht2v : bbzheap_obj_isvalid (bbzvm_gc m1).2.heap (bbzvm_stack_at vm 2) = true := by
    have := F2.valid_root (vm.stackptr - 3).toNat (by rw [m1sp]; omega) m1.garbage
    rw [m1t] at this
    apply this
    rw [m1heap]
    unfold bbzheap_obj_isvalid
    rw [hobjset]
    exact ht1v
  generalize (bbzvm_gc m1).2 = G2 at F2 S2 e2 R23 ht2v hi
  obtain ⟨hpc2, hsz2, hf2, hst2, her2, hsp2, hno2, hnf2, hnil2, hga2, hbp2⟩ :=
    bbzvm_gc_frame_fields F2
  have earg : int16 (bbzvm_fetch_arg { m1 with pc := m1.pc + 1 }) = kk := by
    rw [← harg]
    unfold bbzvm_fetch_arg
    simp only [m1pc, m1f]
  rw [earg] at e2
  obtain ⟨m2, hm2⟩ : ∃ m2, m2 = bbzvm_step host m1 := ⟨_, rfl⟩
  rw [← hm2] at hA2 ⊢
  rw [e2] at hm2
  have a2 : bbzvm_at m2 .TGET := by
    rw [hm2]
    exact ⟨by simp only [hst2]; exact a1.ready, by simp only [her2]; exact a1.noerr,
      by simp only [hf2, m1f, m1pc]; exact hcode2, by simp only [hsz2, m1sz, m1pc]; omega,
      by simp only [hsz2, m1sz]; exact hsize, by simp only [m1sp]; omega,
      by simp only [List.length_set, F2.len, m1len, m1sp]; omega⟩
  have hlt2 : (m1.stackptr + 1).toNat < G2.stack.length := by rw [F2.len, m1len, m1sp]; omega
  have m2pc : m2.pc = vm.pc + 6 := by rw [hm2]; simp only [m1pc]
  have m2sp : m2.stackptr = vm.stackptr - 2 := by rw [hm2]; simp only [m1sp]; omega
  have m2len : m2.stack.length = vm.stack.length := by
    rw [hm2]; simp only [List.length_set, F2.len, m1len]
  have m2top : bbzvm_stack_at m2 0 = i := by
    rw [hm2]
    unfold bbzvm_stack_at
    simp only [sub_zero]
    rw [if_pos (by rw [m1sp]; omega)]
    simp [List.getD_eq_getElem?_getD, List.getElem?_set_self hlt2]
  have m2below : ∀ j : Nat, (j : Int) ≤ vm.stackptr - 3 → m2.stack[j]? = vm.stack[j]? := by
    intro j hj
    rw [hm2]
    simp only []
    rw [List.getElem?_set_ne (by rw [m1sp]; omega), F2.below j (by rw [m1sp]; exact hj)]
    exact m1below j (by omega)
  have m2ga : m2.garbage = vm.garbage := by rw [hm2]; simp only [hga2, m1ga]
  have m2t : bbzvm_stack_at m2 1 = bbzvm_stack_at vm 2 := by
    rw [ht3]
    unfold bbzvm_stack_at
    rw [if_pos (by rw [m2sp]; omega), m2sp, m2ga]
    have e : (vm.stackptr - 2 - 1).toNat = (vm.stackptr - 3).toNat := by omega
    rw [e]
    simp only [List.getD_eq_getElem?_getD]
    rw [m2below _ (by omega)]
  have m2heap : m2.heap = bbzheap_obj_write (bbzheap_obj_place G2.heap i (.int 0)) i
      (.int kk) := by rw [hm2]
  clear hm2 e2
  -- third step
  obtain ⟨F3, S3, -⟩ := bbzvm_step_gc m2 .TGET a2
  have hcore := bbztable_round_trip G1.heap m1.heap G2.heap m2.heap (bbzvm_gc m2).2.heap
    (bbzvm_stack_at vm 2) (bbzvm_stack_at vm 1) (bbzvm_stack_at vm 0) i (.int 0) (.int kk)
    hv1 hroom1 (Or.inl ⟨kk, rfl⟩) (by rw [F1.obj]; exact hk) hk1v hx1v hkeys1 m1heap S2
    R23 ht2v hi m2heap S3
  have e3 := bbzvm_step_tget host m2 (bbzvm_stack_at vm 0) a2 (by rw [m2sp]; omega) hA2
    (by rw [m2t, m2top]; exact hcore.1)
  obtain ⟨hc1, hc2, hc3⟩ := hcore
  generalize (bbzvm_gc m2).2 = G3 at F3 S3 e3 hc1 hc2
  obtain ⟨hpc3, hsz3, hf3, hst3, her3, hsp3, hno3, hnf3, hnil3, hga3, hbp3⟩ :=
    bbzvm_gc_frame_fields F3
  have hlt3 : (m2.stackptr - 1).toNat < G3.stack.length := by rw [F3.len, m2len, m2sp]; omega
  have htop : bbzvm_stack_at (bbzvm_step host m2) 0 = bbzvm_stack_at vm 0 := by
    rw [e3]
    generalize bbzvm_stack_at vm 0 = x0
    unfold bbzvm_stack_at
    simp only [sub_zero]
    rw [if_pos (by rw [m2sp]; omega)]
    rw [List.getD_eq_getElem?_getD, List.getElem?_set_self hlt3]
    rfl
  refine ⟨?_, ?_, ?_, ?_, htop, ?_, ?_⟩
  · rw [e3]; simp only [hst3]; exact a2.ready
  · rw [e3]; simp only [her3]; exact a2.noerr
  · rw [e3]; simp only [m2pc]
  · rw [e3]; simp only [m2sp]; omega
  · rw [htop, e3]
    unfold bbzvm_obj_at
    simp only []
    rw [hc2, F1.obj]
    exact hv
  · intro j hj
    rw [e3]
    simp only []
    rw [List.getElem?_set_ne (by rw [m2sp]; omega), F3.below j (by rw [m2sp]; omega)]
    exact m2below j (by omega)

/-- Witness of C23 as amended: the stack holds the table of slot 5 three
times, the Int 2 (slot 6) as key and the Int 8384 (slot 7) as value; TPUT;
PUSHI 2; TGET leave the Int 8384 on top. -/
theorem c23_tput_tget_witness :
    (bbzvm_step test_host (bbzvm_step test_host (bbzvm_step test_host
      (test_vm 2 8384 [26, 31, 2, 0, 0, 0, 27, 0] [5, 5, 5, 6, 7])))).state
      = BBZVM_STATE_READY ∧
    bbzvm_obj_at (bbzvm_step test_host (bbzvm_step test_host (bbzvm_step test_host
        (test_vm 2 8384 [26, 31, 2, 0, 0, 0, 27, 0] [5, 5, 5, 6, 7]))))
      (bbzvm_stack_at (bbzvm_step test_host (bbzvm_step test_host (bbzvm_step test_host
        (test_vm 2 8384 [26, 31, 2, 0, 0, 0, 27, 0] [5, 5, 5, 6, 7])))) 0) = .int 8384 :=
  have h := c23_tput_tget test_host (test_vm 2 8384 [26, 31, 2, 0, 0, 0, 27, 0] [5, 5, 5, 6, 7])
    2 8384
    ⟨by decide, by decide, by decide, by decide, by decide, by decide, by decide⟩
    (by decide) (by decide) (by decide) (by decide) (by decide) (by decide) (by decide)
    (by decide) (by decide) (by decide) (by decide) (by decide)
    ⟨(3, 0, none), by decide, Or.inl rfl⟩ (by decide) (by decide) (by decide)
  ⟨h.1, h.2.2.2.2.2.1⟩

/-! ## The collector call of a step -/

theorem bbzvm_step_instr (host : Nat → bbzvm_t → bbzvm_t) (vm : bbzvm_t)
    (hr : vm.state = BBZVM_STATE_READY) (h0 : -1 ≤ vm.stackptr)
    (h1 : vm.stackptr + 7 ≤ vm.stack.length) :
    bbzvm_step host vm = bbzvm_exec_instr host (bbzvm_gc vm).2 := by
  obtain ⟨hg1, -⟩ := bbzvm_gc_ok vm h0 h1
  have e : bbzvm_gc vm = (true, (bbzvm_gc vm).2) := by rw [← hg1]
  unfold bbzvm_step
  rw [if_pos hr, e]

theorem bbzvm_step_pc_fault (host : Nat → bbzvm_t → bbzvm_t) (vm : bbzvm_t)
    (hr : vm.state = BBZVM_STATE_READY) (h0 : -1 ≤ vm.stackptr)
    (h1 : vm.stackptr + 7 ≤ vm.stack.length)
    (ha : vm.pc < vm.bcode_size) (hsize : vm.bcode_size ≤ 65535)
    (h : vm.pc + 1 = vm.bcode_size ∨
      (30 ≤ vm.bcode_fetch_fun vm.pc % 256 ∧ vm.bcode_fetch_fun vm.pc % 256 ≤ 40 ∧
        vm.pc + 5 ≥ vm.bcode_size)) :
    bbzvm_step host vm
      = bbzvm_seterror { (bbzvm_gc vm).2 with pc := vm.pc + 1 } BBZVM_ERROR_PC := by
  obtain ⟨-, F⟩ := bbzvm_gc_ok vm h0 h1
  obtain ⟨hpc, hsz, hf, -⟩ := bbzvm_gc_frame_fields F
  rw [bbzvm_step_instr host vm hr h0 h1]
  have e1 : (vm.pc + 1) % 65536 = vm.pc + 1 := Nat.mod_eq_of_lt (by omega)
  unfold bbzvm_exec_instr
  simp only [hpc, hf, e1]
  by_cases hn : vm.pc + 1 = vm.bcode_size
  · rw [if_pos (by simp only [bbzvm_pc_out, hsz]; simp; omega)]
  · rw [if_neg (by simp only [bbzvm_pc_out, hsz]; simp; omega)]
    rcases h with h | ⟨hlo, hhi, h5⟩
    · exact absurd h hn
    · generalize vm.bcode_fetch_fun vm.pc % 256 = b at hlo hhi
      interval_cases b <;>
        (simp only [bbzvm_instr.decode, bbzvm_instr.all, List.getElem?_cons_succ,
          List.getElem?_cons_zero, bbzvm_exec_switch, bbzvm_exec_arg]
         exact if_pos (by simp only [bbzvm_pc_out, hsz]; simp; omega))

/-- C38: for an opcode at address `a` with `a + 1` equal to the bytecode
size (any opcode byte, NOP and DONE included), and for an operand-carrying
opcode (bytes 30 to 40, PUSHF to JUMPNZ) at address `a` with `a + 5` at or
past the bytecode size, a step of a Ready machine with six free stack cells
raises the error PC without executing the opcode: the machine is the one
the collector left with `pc = a + 1`, in state Error (not Done) with error
PC; the stack pointer, the block pointer and the entries of the stack are
unchanged. -/
theorem c38_next_address (host : Nat → bbzvm_t → bbzvm_t) (vm : bbzvm_t)
    (hr : vm.state = BBZVM_STATE_READY) (h0 : -1 ≤ vm.stackptr)
    (h1 : vm.stackptr + 7 ≤ vm.stack.length)
    (ha : vm.pc < vm.bcode_size) (hsize : vm.bcode_size ≤ 65535)
    (h : vm.pc + 1 = vm.bcode_size ∨
      (30 ≤ vm.bcode_fetch_fun vm.pc % 256 ∧ vm.bcode_fetch_fun vm.pc % 256 ≤ 40 ∧
        vm.pc + 5 ≥ vm.bcode_size)) :
    bbzvm_step host vm
      = bbzvm_seterror { (bbzvm_gc vm).2 with pc := vm.pc + 1 } BBZVM_ERROR_PC ∧
    (bbzvm_step host vm).state = BBZVM_STATE_ERROR ∧
    (bbzvm_step host vm).state ≠ BBZVM_STATE_DONE ∧
    (bbzvm_step host vm).error = BBZVM_ERROR_PC ∧
    (bbzvm_step host vm).pc = vm.pc + 1 ∧
    (bbzvm_step host vm).stackptr = vm.stackptr ∧
    (bbzvm_step host vm).blockptr = vm.blockptr ∧
    (∀ i : Nat, (i : Int) ≤ vm.stackptr → (bbzvm_step host vm).stack[i]? = vm.stack[i]?) ∧
    (bbzvm_step host vm).lsyms = vm.lsyms ∧
    (∀ i, bbzheap_obj_at (bbzvm_step host vm).heap i = bbzheap_obj_at vm.heap i) := by
  obtain ⟨-, F⟩ := bbzvm_gc_ok vm h0 h1
  have hl : (bbzvm_gc vm).2.lsyms = vm.lsyms := by rw [F.rest]
  obtain ⟨-, -, -, -, -, hsp, -, -, -, -, hbp⟩ := bbzvm_gc_frame_fields F
  rw [bbzvm_step_pc_fault host vm hr h0 h1 ha hsize h]
  exact ⟨rfl, rfl, by simp [bbzvm_seterror], rfl, rfl, hsp, hbp, F.below, hl, F.obj⟩

/-- Witness of C38: DONE as the last byte of a bytecode of three bytes, and
PUSHI at address 0 of a bytecode of five bytes. -/
theorem c38_next_address_witness :
    (bbzvm_step test_host { test_vm 2 8384 [0, 0, 1] [6] with pc := 2 }).pc = 3 ∧
    (bbzvm_step test_host { test_vm 2 8384 [0, 0, 1] [6] with pc := 2 }).state
      = BBZVM_STATE_ERROR ∧
    (bbzvm_step test_host (test_vm 2 8384 [31, 1, 0, 0, 0] [6])).pc = 1 ∧
    (bbzvm_step test_host (test_vm 2 8384 [31, 1, 0, 0, 0] [6])).stackptr = 0 :=
  have h := c38_next_address test_host { test_vm 2 8384 [0, 0, 1] [6] with pc := 2 }
    (by decide) (by decide) (by decide) (by decide) (by decide) (Or.inl (by decide))
  have k := c38_next_address test_host (test_vm 2 8384 [31, 1, 0, 0, 0] [6])
    (by decide) (by decide) (by decide) (by decide) (by decide)
    (Or.inr ⟨by decide, by decide, by decide⟩)
  ⟨h.2.2.2.2.1, h.2.1, k.2.2.2.2.1, k.2.2.2.2.2.1⟩

/-! ## The frame pushes of a call -/

theorem bbzvm_pushi_sp (V : bbzvm_t) (v : Int) (h : V.stackptr + 1 < V.stack.length) :
    (bbzvm_pushi V v).stackptr = V.stackptr + 1 ∧
    (bbzvm_pushi V v).stack.length = V.stack.length ∧
    (bbzvm_pushi V v).pc = V.pc ∧ (bbzvm_pushi V v).blockptr = V.blockptr ∧
    ((bbzvm_pushi V v).notified = V.notified ∨
      (bbzvm_pushi V v).notified = V.notified ++ [BBZVM_ERROR_MEM]) := by
  unfold bbzvm_pushi bbzvm_obj_alloc
  cases bbzheap_obj_alloc V.heap BBZTYPE_INT with
  | none =>
    simp only []
    unfold bbzvm_push
    rw [if_neg (by
      simp only [bbzvm_stack_size, BBZSTACK_SIZE, bbzvm_obj_setvalue, bbzvm_seterror]; omega)]
    refine ⟨rfl, by simp [bbzvm_obj_setvalue, bbzvm_seterror], rfl, rfl, ?_⟩
    simp only [bbzvm_obj_setvalue, bbzvm_seterror]
    cases V.error_notifier_fun
    · exact Or.inl rfl
    · exact Or.inr rfl
  | some p =>
    obtain ⟨hp, i⟩ := p
    simp only []
    unfold bbzvm_push
    rw [if_neg (by
      simp only [bbzvm_stack_size, BBZSTACK_SIZE, bbzvm_obj_setvalue]; omega)]
    exact ⟨rfl, by simp [bbzvm_obj_setvalue], rfl, rfl, Or.inl rfl⟩

theorem bbzvm_call_frame_push (V : bbzvm_t) (h : V.stackptr + 2 < V.stack.length) :
    (bbzvm_call_frame V).stackptr = V.stackptr + 2 ∧
    (bbzvm_call_frame V).stack.length = V.stack.length ∧
    (bbzvm_call_frame V).blockptr = V.stackptr + 2 ∧
    (bbzvm_call_frame V).pc = V.pc ∧
    ∃ es, (bbzvm_call_frame V).notified = V.notified ++ es ∧ BBZVM_ERROR_STACK ∉ es := by
  obtain ⟨a1, a2, a3, a4, a5⟩ := bbzvm_pushi_sp V (int16 V.pc) (by omega)
  obtain ⟨b1, b2, b3, b4, b5⟩ := bbzvm_pushi_sp (bbzvm_pushi V (int16 V.pc))
    (int16 (bbzvm_pushi V (int16 V.pc)).blockptr) (by rw [a1, a2]; omega)
  unfold bbzvm_call_frame
  refine ⟨by show (bbzvm_pushi _ _).stackptr = _; rw [b1, a1]; omega,
    by show (bbzvm_pushi _ _).stack.length = _; rw [b2, a2],
    by show (bbzvm_pushi _ _).stackptr = _; rw [b1, a1]; omega,
    by show (bbzvm_pushi _ _).pc = _; rw [b3, a3], ?_⟩
  show ∃ es, (bbzvm_pushi _ _).notified = _ ∧ _
  rcases a5 with a5 | a5 <;> rcases b5 with b5 | b5
  · exact ⟨[], by rw [b5, a5]; simp, by simp⟩
  · exact ⟨[BBZVM_ERROR_MEM], by rw [b5, a5], by decide⟩
  · exact ⟨[BBZVM_ERROR_MEM], by rw [b5, a5], by decide⟩
  · exact ⟨[BBZVM_ERROR_MEM, BBZVM_ERROR_MEM], by rw [b5, a5]; simp, by decide⟩

theorem bbzvm_call_checked (host : Nat → bbzvm_t → bbzvm_t) (isswrm : Bool) (V : bbzvm_t)
    (h1 : ¬ bbzvm_stack_size V < 1) (h2 : bbzvm_type_ok V 0 BBZTYPE_INT = true)
    (h3 : ¬ bbzvm_stack_size (bbzvm_pop V)
        < uint16 (bbzobj_ivalue (bbzvm_obj_at V (bbzvm_stack_at V 0))) + 1)
    (h4 : bbzvm_type_ok (bbzvm_pop V)
        (uint16 (bbzobj_ivalue (bbzvm_obj_at V (bbzvm_stack_at V 0)))) BBZTYPE_CLOSURE = true) :
    bbzvm_call host isswrm V = bbzvm_seterror (bbzvm_pop V) BBZVM_ERROR_FLIST ∨
    ∃ a, bbzvm_call host isswrm V =
      bbzvm_call_run host
        (bbzvm_call_frame (bbzvm_call_locals isswrm (bbzvm_pop V)
          (uint16 (bbzobj_ivalue (bbzvm_obj_at V (bbzvm_stack_at V 0)))) a))
        (bbzvm_stack_at (bbzvm_pop V)
          (uint16 (bbzobj_ivalue (bbzvm_obj_at V (bbzvm_stack_at V 0))))) := by
  unfold bbzvm_call
  lift_lets
  intro argn vm1 c cref cactrec vm2 vm3 vm4 vm5 vm6 vm7 vm8 vm9
  rw [if_neg h1, if_neg (by simp [h2]), if_neg h3, if_neg (by simp [vm1, argn, h4])]
  by_cases h5 : (!bbzclosure_isnative (bbzvm_obj_at vm1 c)
          && decide (cref vm1 ≥ bbzdarray_size vm1.heap vm1.flist)) = true
  · rw [if_pos h5]; exact Or.inl rfl
  rw [if_neg h5]
  refine Or.inr ⟨cactrec, ?_⟩
  have e6 : bbzvm_call_locals isswrm vm1 argn cactrec = vm6 := rfl
  have e9 : bbzvm_call_frame vm6 = vm9 := rfl
  show _ = bbzvm_call_run host (bbzvm_call_frame (bbzvm_call_locals isswrm vm1 argn cactrec)) c
  rw [e6, e9]
  clear_value vm9
  rfl

theorem bbzvm_call_run_cases (host : Nat → bbzvm_t → bbzvm_t) (F : bbzvm_t) (c : Nat) :
    (∃ q, bbzvm_call_run host F c = { F with pc := q }) ∨
    ∃ p, bbzvm_call_run host F c = host p F := by
  unfold bbzvm_call_run
  dsimp only
  split
  · exact Or.inl ⟨_, rfl⟩
  · right
    split
    · split
      · exact ⟨_, rfl⟩
      · exact ⟨_, rfl⟩
    · exact ⟨_, rfl⟩

/-- C37: in `bbzvm_call`, once the argument count is on the stack as an
Int, the stack is deep enough and the callee is a closure, the two frame
pushes (saved pc and saved block pointer) do not overflow the operand
stack: on the machine with the frame laid down the stack pointer is the one
at entry minus the number of arguments moved to the local symbols, so the
stack size is at most the size at entry and at most `BBZSTACK_SIZE`, no
Stack error is notified by the pushes, and the block pointer is the stack
pointer.  The call itself either fails the function-list check before the
pushes, or continues from that machine: a bytecode closure only sets `pc`,
any other closure hands the machine to its host function. -/
theorem c37_frame_pushes (host : Nat → bbzvm_t → bbzvm_t) (isswrm : Bool) (V : bbzvm_t)
    (hsp : bbzvm_sp_ok V)
    (h1 : ¬ bbzvm_stack_size V < 1) (h2 : bbzvm_type_ok V 0 BBZTYPE_INT = true)
    (h3 : ¬ bbzvm_stack_size (bbzvm_pop V)
        < uint16 (bbzobj_ivalue (bbzvm_obj_at V (bbzvm_stack_at V 0))) + 1)
    (h4 : bbzvm_type_ok (bbzvm_pop V)
        (uint16 (bbzobj_ivalue (bbzvm_obj_at V (bbzvm_stack_at V 0)))) BBZTYPE_CLOSURE = true) :
    (∀ a,
      (bbzvm_call_frame (bbzvm_call_locals isswrm (bbzvm_pop V)
          (uint16 (bbzobj_ivalue (bbzvm_obj_at V (bbzvm_stack_at V 0)))) a)).stackptr
        = V.stackptr
          - (int16 (uint16 (bbzobj_ivalue (bbzvm_obj_at V (bbzvm_stack_at V 0))))).toNat ∧
      bbzvm_stack_size (bbzvm_call_frame (bbzvm_call_locals isswrm (bbzvm_pop V)
          (uint16 (bbzobj_ivalue (bbzvm_obj_at V (bbzvm_stack_at V 0)))) a))
        ≤ bbzvm_stack_size V ∧
      bbzvm_stack_size (bbzvm_call_frame (bbzvm_call_locals isswrm (bbzvm_pop V)
          (uint16 (bbzobj_ivalue (bbzvm_obj_at V (bbzvm_stack_at V 0)))) a))
        ≤ BBZSTACK_SIZE V ∧
      (bbzvm_call_frame (bbzvm_call_locals isswrm (bbzvm_pop V)
          (uint16 (bbzobj_ivalue (bbzvm_obj_at V (bbzvm_stack_at V 0)))) a)).stack.length
        = V.stack.length ∧
      (bbzvm_call_frame (bbzvm_call_locals isswrm (bbzvm_pop V)
          (uint16 (bbzobj_ivalue (bbzvm_obj_at V (bbzvm_stack_at V 0)))) a)).blockptr
        = (bbzvm_call_frame (bbzvm_call_locals isswrm (bbzvm_pop V)
          (uint16 (bbzobj_ivalue (bbzvm_obj_at V (bbzvm_stack_at V 0)))) a)).stackptr ∧
      ∃ es, (bbzvm_call_frame (bbzvm_call_locals isswrm (bbzvm_pop V)
          (uint16 (bbzobj_ivalue (bbzvm_obj_at V (bbzvm_stack_at V 0)))) a)).notified
        = V.notified ++ es ∧ BBZVM_ERROR_STACK ∉ es) ∧
    (bbzvm_call host isswrm V = bbzvm_seterror (bbzvm_pop V) BBZVM_ERROR_FLIST ∨
      ∃ a, (∃ q, bbzvm_call host isswrm V
          = { bbzvm_call_frame (bbzvm_call_locals isswrm (bbzvm_pop V)
              (uint16 (bbzobj_ivalue (bbzvm_obj_at V (bbzvm_stack_at V 0)))) a) with pc := q }) ∨
        ∃ p, bbzvm_call host isswrm V
          = host p (bbzvm_call_frame (bbzvm_call_locals isswrm (bbzvm_pop V)
              (uint16 (bbzobj_ivalue (bbzvm_obj_at V (bbzvm_stack_at V 0)))) a))) := by
  generalize hn : uint16 (bbzobj_ivalue (bbzvm_obj_at V (bbzvm_stack_at V 0))) = argn at h3 h4 ⊢
  have hpop : bbzvm_pop V = { V with stackptr := V.stackptr - 1 } := by
    unfold bbzvm_pop
    rw [if_pos (by simp only [bbzvm_stack_size] at h1 ⊢; omega)]
  have hu : 0 ≤ argn ∧ argn < 65536 := by
    rw [← hn]; unfold uint16; omega
  have hk : ((int16 argn).toNat : Int) ≤ argn := by
    unfold int16; omega
  have h3' : argn + 1 ≤ V.stackptr := by
    rw [hpop] at h3
    simp only [bbzvm_stack_size] at h3
    omega
  have hlen : V.stackptr < V.stack.length := hsp.2
  have key : ∀ W : bbzvm_t, W.stackptr = V.stackptr - 1 - (int16 argn).toNat - 1 →
      W.stack.length = V.stack.length → W.notified = V.notified →
      (bbzvm_call_frame W).stackptr = V.stackptr - (int16 argn).toNat ∧
      bbzvm_stack_size (bbzvm_call_frame W) ≤ bbzvm_stack_size V ∧
      bbzvm_stack_size (bbzvm_call_frame W) ≤ BBZSTACK_SIZE V ∧
      (bbzvm_call_frame W).stack.length = V.stack.length ∧
      (bbzvm_call_frame W).blockptr = (bbzvm_call_frame W).stackptr ∧
      ∃ es, (bbzvm_call_frame W).notified = V.notified ++ es ∧ BBZVM_ERROR_STACK ∉ es := by
    intro W w1 w2 w3
    obtain ⟨f1, f2, f3, -, f5⟩ := bbzvm_call_frame_push W (by rw [w1, w2]; omega)
    simp only [bbzvm_stack_size, BBZSTACK_SIZE]
    rw [w3] at f5
    exact ⟨by omega, by omega, by omega, by omega, by omega, f5⟩
  constructor
  · intro a
    obtain ⟨h, l, e6⟩ := bbzvm_call_locals_eq isswrm (bbzvm_pop V) argn a
    rw [e6]
    clear e6
    refine key _ ?_ ?_ ?_
    · show (bbzvm_pop V).stackptr - _ - 1 = _
      rw [hpop]
    · show (bbzvm_pop V).stack.length = _
      rw [hpop]
    · show (bbzvm_pop V).notified = _
      rw [hpop]
  · rcases bbzvm_call_checked host isswrm V h1 h2 (by rw [hn]; exact h3) (by rw [hn]; exact h4)
      with e | ⟨a, e⟩
    · exact Or.inl e
    · rw [hn] at e
      refine Or.inr ⟨a, ?_⟩
      rw [e]
      exact bbzvm_call_run_cases host _ _

/-- Witness of C37: a call with two arguments of the closure in slot 11. -/
theorem c37_frame_pushes_witness :
    bbzvm_stack_size (bbzvm_call test_host false (call_vm [0, 0, 0, 0, 0] [8, 11, 7, 9, 6])) = 3 ∧
    (bbzvm_call test_host false (call_vm [0, 0, 0, 0, 0] [8, 11, 7, 9, 6])).state
      = BBZVM_STATE_READY ∧
    ∀ a, bbzvm_stack_size (bbzvm_call_frame (bbzvm_call_locals false
        (bbzvm_pop (call_vm [0, 0, 0, 0, 0] [8, 11, 7, 9, 6]))
        (uint16 (bbzobj_ivalue (bbzvm_obj_at (call_vm [0, 0, 0, 0, 0] [8, 11, 7, 9, 6])
          (bbzvm_stack_at (call_vm [0, 0, 0, 0, 0] [8, 11, 7, 9, 6]) 0)))) a))
      ≤ bbzvm_stack_size (call_vm [0, 0, 0, 0, 0] [8, 11, 7, 9, 6]) :=
  ⟨by decide, by decide, fun a =>
    ((c37_frame_pushes test_host false (call_vm [0, 0, 0, 0, 0] [8, 11, 7, 9, 6])
      (by unfold bbzvm_sp_ok; decide) (by decide) (by decide) (by decide) (by decide)).1 a).2.1⟩

/-! ## The rearrangement of a host call -/

theorem bbzvm_function_call_move_loop (vm : bbzvm_t) (s : Nat) (hs : vm.stackptr = (s : Int))
    (hlen : s < vm.stack.length) :
    ∀ k, k ≤ s → ∃ st : List Nat,
      (List.range k).foldl
        (fun m (i : Nat) =>
          bbzvm_stack_put m (m.stackptr - (i : Int)) (bbzvm_stack_at m ((i : Int) + 1))) vm
        = { vm with stack := st } ∧
      st.length = vm.stack.length ∧
      ∀ j : Nat, st[j]? = if s - k < j ∧ j ≤ s then vm.stack[j - 1]? else vm.stack[j]? := by
  intro k
  induction k with
  | zero =>
    intro _
    refine ⟨vm.stack, rfl, rfl, ?_⟩
    intro j
    rw [if_neg (by omega)]
  | succ k ih =>
    intro hk
    obtain ⟨st, e, hl, hst⟩ := ih (by omega)
    rw [List.range_succ, List.foldl_append, e]
    simp only [List.foldl_cons, List.foldl_nil]
    have hx : bbzvm_stack_at { vm with stack := st } ((k : Int) + 1)
        = vm.stack.getD (s - k - 1) vm.garbage := by
      unfold bbzvm_stack_at
      simp only [hs]
      rw [if_pos (by omega)]
      have e1 : ((s : Int) - ((k : Int) + 1)).toNat = s - k - 1 := by omega
      rw [e1, List.getD_eq_getElem?_getD, List.getD_eq_getElem?_getD, hst,
        if_neg (by omega)]
    rw [hx]
    unfold bbzvm_stack_put
    simp only [hs]
    rw [if_pos (by omega)]
    have e2 : ((s : Int) - (k : Int)).toNat = s - k := by omega
    rw [e2]
    refine ⟨_, rfl, by rw [List.length_set, hl], ?_⟩
    intro j
    rw [List.getElem?_set]
    by_cases hj : s - k = j
    · rw [if_pos hj, if_pos (by omega), if_pos (by omega)]
      have : j - 1 = s - k - 1 := by omega
      rw [this, List.getD_eq_getElem?_getD, List.getElem?_eq_getElem (by omega)]
      rfl
    · rw [if_neg hj, hst]
      by_cases hc : s - k < j ∧ j ≤ s
      · rw [if_pos hc, if_pos (by omega)]
      · rw [if_neg hc, if_neg (by omega)]

theorem bbzvm_function_call_move_eq (vm : bbzvm_t) (s n : Nat) (hs : vm.stackptr = (s : Int))
    (hlen : s < vm.stack.length) (hn : 1 ≤ n) (hns : n ≤ s) :
    ∃ st : List Nat, bbzvm_function_call_move vm n = { vm with stack := st } ∧
      st.length = vm.stack.length ∧
      ∀ j : Nat, st[j]? =
        if j = s - n then vm.stack[s]?
        else if s - n < j ∧ j ≤ s then vm.stack[j - 1]? else vm.stack[j]? := by
  obtain ⟨st, e, hl, hst⟩ := bbzvm_function_call_move_loop vm s hs hlen n hns
  unfold bbzvm_function_call_move
  rw [if_pos (by omega)]
  simp only []
  rw [e]
  have hc : bbzvm_stack_at vm 0 = vm.stack.getD s vm.garbage := by
    unfold bbzvm_stack_at
    simp only [hs]
    rw [if_pos (by omega)]
    have e1 : ((s : Int) - 0).toNat = s := by omega
    rw [e1]
  rw [hc]
  unfold bbzvm_stack_put
  simp only [hs]
  rw [if_pos (by omega)]
  have e2 : ((s : Int) - (n : Int)).toNat = s - n := by omega
  rw [e2]
  refine ⟨_, rfl, by rw [List.length_set, hl], ?_⟩
  intro j
  rw [List.getElem?_set]
  by_cases hj : s - n = j
  · rw [if_pos hj, if_pos (by omega), if_pos hj.symm, List.getD_eq_getElem?_getD,
      List.getElem?_eq_getElem hlen]
    rfl
  · rw [if_neg hj, if_neg (fun h => hj h.symm), hst]

theorem bbzvm_function_call_found (host : Nat → bbzvm_t → bbzvm_t) (fuel : Nat) (V : bbzvm_t)
    (fname argc : Nat) (hr : V.state = BBZVM_STATE_READY)
    (hp : (bbzvm_pushs V fname).state = BBZVM_STATE_READY)
    (hc : bbztype_isclosure (bbzvm_obj_at (bbzvm_gload (bbzvm_pushs V fname))
      (bbzvm_stack_at (bbzvm_gload (bbzvm_pushs V fname)) 0)) = true) :
    bbzvm_function_call host fuel V fname argc
      = bbzvm_closure_call host fuel
          (bbzvm_function_call_move (bbzvm_gload (bbzvm_pushs V fname)) argc) argc := by
  unfold bbzvm_function_call
  have h0 : (if V.state = BBZVM_STATE_DONE then { V with state := BBZVM_STATE_READY } else V)
      = V := by
    rw [if_neg (by rw [hr]; decide)]
  simp only [h0]
  rw [if_neg (by simp [hr]), if_neg (by simp [hp]), if_neg (by simp [hc])]

/-- C39: for `argc = n ≥ 1`, on a machine whose stack holds the closure `c`
on top of the arguments `a0 ... a(n-1)`, the rearrangement of
`bbzvm_function_call` leaves `c` at depth `n`, directly below `a0`, and the
argument that was at depth `i + 1` at depth `i`, so the arguments keep their
order and values; the stack pointer, the size of the stack and every field
of the machine but the stack are unchanged, and no cell below the former
position of `a0` or above the top is touched.  For `n = 0` the machine is
left as it is.  When the lookup of `bbzvm_function_call` ends with a closure
on top, the call is `bbzvm_closure_call` on the rearranged machine. -/
theorem c39_closure_below_arguments (vm : bbzvm_t) (n : Nat) (hn : 1 ≤ n)
    (hns : (n : Int) ≤ vm.stackptr) (hlen : vm.stackptr < vm.stack.length) :
    bbzvm_function_call_move vm n
      = { vm with stack := (bbzvm_function_call_move vm n).stack } ∧
    (bbzvm_function_call_move vm n).stackptr = vm.stackptr ∧
    (bbzvm_function_call_move vm n).stack.length = vm.stack.length ∧
    bbzvm_stack_at (bbzvm_function_call_move vm n) n = bbzvm_stack_at vm 0 ∧
    (∀ i : Nat, i < n →
      bbzvm_stack_at (bbzvm_function_call_move vm n) i = bbzvm_stack_at vm ((i : Int) + 1)) ∧
    (∀ j : Nat, ((j : Int) < vm.stackptr - n ∨ vm.stackptr < j) →
      (bbzvm_function_call_move vm n).stack[j]? = vm.stack[j]?) ∧
    bbzvm_function_call_move vm 0 = vm ∧
    ∀ (host : Nat → bbzvm_t → bbzvm_t) (fuel : Nat) (V : bbzvm_t) (fname : Nat),
      V.state = BBZVM_STATE_READY → (bbzvm_pushs V fname).state = BBZVM_STATE_READY →
      bbztype_isclosure (bbzvm_obj_at (bbzvm_gload (bbzvm_pushs V fname))
        (bbzvm_stack_at (bbzvm_gload (bbzvm_pushs V fname)) 0)) = true →
      bbzvm_function_call host fuel V fname n
        = bbzvm_closure_call host fuel
            (bbzvm_function_call_move (bbzvm_gload (bbzvm_pushs V fname)) n) n := by
  obtain ⟨s, hs⟩ : ∃ s : Nat, vm.stackptr = (s : Int) := ⟨vm.stackptr.toNat, by omega⟩
  have hlen' : s < vm.stack.length := by omega
  have hns' : n ≤ s := by omega
  obtain ⟨st, e, hl, hst⟩ := bbzvm_function_call_move_eq vm s n hs hlen' hn hns'
  have hat : ∀ d : Nat, d ≤ s →
      bbzvm_stack_at { vm with stack := st } d = (st[s - d]?).getD vm.garbage := by
    intro d hd
    unfold bbzvm_stack_at
    simp only [hs]
    rw [if_pos (by omega)]
    have e1 : ((s : Int) - (d : Int)).toNat = s - d := by omega
    rw [e1, List.getD_eq_getElem?_getD]
  have hat0 : ∀ d : Nat, d ≤ s → bbzvm_stack_at vm d = (vm.stack[s - d]?).getD vm.garbage := by
    intro d hd
    unfold bbzvm_stack_at
    simp only [hs]
    rw [if_pos (by omega)]
    have e1 : ((s : Int) - (d : Int)).toNat = s - d := by omega
    rw [e1, List.getD_eq_getElem?_getD]
  rw [e]
  refine ⟨rfl, rfl, hl, ?_, ?_, ?_, ?_, ?_⟩
  · rw [hat n hns', hst, if_pos rfl]
    have := hat0 0 (by omega)
    simp only [Nat.cast_zero, Nat.sub_zero] at this
    rw [this]
  · intro i hi
    rw [hat i (by omega), hst, if_neg (by omega), if_pos (by omega)]
    have := hat0 (i + 1) (by omega)
    simp only [Nat.cast_add, Nat.cast_one] at this
    rw [this]
    have e3 : s - i - 1 = s - (i + 1) := by omega
    rw [e3]
  · intro j hj
    show st[j]? = _
    rw [hst, if_neg (by omega), if_neg (by omega)]
  · unfold bbzvm_function_call_move
    rw [if_neg (by omega)]
  · intro host fuel V fname hr hp hc
    exact bbzvm_function_call_found host fuel V fname n hr hp hc

/-- Witness of C39: the closure of slot 11 on top of the two arguments 7
and 9. -/
theorem c39_closure_below_arguments_witness :
    (bbzvm_function_call_move (call_vm [0, 0] [8, 7, 9, 11]) 2).stack.take 4 = [8, 11, 7, 9] ∧
    bbzvm_stack_at (bbzvm_function_call_move (call_vm [0, 0] [8, 7, 9, 11]) 2) 2 = 11 :=
  ⟨by decide,
    (c39_closure_below_arguments (call_vm [0, 0] [8, 7, 9, 11]) 2 (by decide) (by decide)
      (by decide)).2.2.2.1⟩

/-! ## A registered host function called with an argument -/

/-- C31 (code at the failing input): `m` is the Ready machine left by
`bbzvm_set_bcode` on an image without strings whose prelude is a NOP.
Registered on the empty stack of `m`, `printIntVal` (at address 100) is
appended to the function list with id 0, and the `bbzvm_gstore` of the
registration ends in Error with error Type, the globals staying empty.
Registered with a String below (machine `r`, notifier registered), the
globals map the String 0 to a closure of reference 0; after
`bbzvm_pushi(123)`, `bbzvm_function_call(0, 1)` ends, whatever the host
functions and the fuel are, in state Error with error Type, notified twice:
the stack holds three entries, the argument among them, and the local
symbols and the block pointer are the ones before the call.  Whatever depth
`d` of the stack an assertion on index 1 reads, the check of `bbzvm_gload`
(a String, the name being on top) and the check of `bbzvm_call` (a closure,
the argument being on top) do not both pass. -/
theorem c31_registered_call_fails :
    ∃ m r c : bbzvm_t,
      bbzvm_set_bcode print_host 10 (bbzvm_construct 0 (test_vm 2 8384 [] [])) (fun _ => 0) 4
        = some m ∧
      m.state = BBZVM_STATE_READY ∧ bbzvm_stack_size m = 0 ∧
      (bbzvm_function_register (fun _ => 0) m 100).2 = 0 ∧
      (bbzvm_function_register (fun _ => 0) m 100).1.state = BBZVM_STATE_ERROR ∧
      (bbzvm_function_register (fun _ => 0) m 100).1.error = BBZVM_ERROR_TYPE ∧
      bbztable_size (bbzvm_function_register (fun _ => 0) m 100).1.heap m.gsyms = 0 ∧
      r = (bbzvm_function_register (fun _ => 0)
        (bbzvm_pushs { m with error_notifier_fun := true } 0) 100).1 ∧
      r.state = BBZVM_STATE_READY ∧ bbzvm_stack_size r = 1 ∧
      bbzdarray_size r.heap r.flist = 1 ∧
      (bbztable_pairs r.heap r.gsyms).map
          (fun kv => (bbzheap_obj_at r.heap kv.1, bbzheap_obj_at r.heap kv.2))
        = [(.string 0, .closure false 0 0xFF)] ∧
      (∀ (host : Nat → bbzvm_t → bbzvm_t) (fuel : Nat),
        bbzvm_function_call host fuel (bbzvm_pushi r 123) 0 1 = some c) ∧
      c.state = BBZVM_STATE_ERROR ∧ c.error = BBZVM_ERROR_TYPE ∧
      c.notified = [BBZVM_ERROR_TYPE, BBZVM_ERROR_TYPE] ∧
      bbzvm_stack_size c = 3 ∧
      bbzvm_obj_at c (bbzvm_stack_at c 1) = .int 123 ∧
      c.lsyms = r.lsyms ∧ c.blockptr = r.blockptr ∧
      ∀ d : Nat,
        ¬ (bbzvm_type_ok (bbzvm_pushs (bbzvm_pushi r 123) 0) d BBZTYPE_STRING = true ∧
          bbzvm_type_ok (bbzvm_pop (bbzvm_pushi (bbzvm_function_call_move
            (bbzvm_push (bbzvm_pop (bbzvm_pushs (bbzvm_pushi r 123) 0)) 10) 1) 1))
            d BBZTYPE_CLOSURE = true) := by
  refine ⟨_, _, _, rfl, by decide, by decide, by decide, by decide, by decide, by decide, rfl,
    by decide, by decide, by decide, by decide, fun host fuel => rfl, by decide, by decide,
    by decide, by decide, by decide, by decide, by decide, ?_⟩
  intro d
  by_cases hd : d ≤ 2
  · interval_cases d <;> decide
  · intro h
    obtain ⟨G, hG⟩ : ∃ G, G = bbzvm_pushs (bbzvm_pushi (bbzvm_function_register (fun _ => 0)
        (bbzvm_pushs { (bbzvm_step print_host { (bbzvm_construct 0 (test_vm 2 8384 [] [])) with
          state := BBZVM_STATE_READY, error := BBZVM_ERROR_NONE, pc := (0 + 2) % 65536,
          bcode_fetch_fun := fun _ => 0, bcode_size := 4 % 65536 }) with
          error_notifier_fun := true } 0) 100).1 123) 0 := ⟨_, rfl⟩
    have h1 : bbzvm_type_ok G d BBZTYPE_STRING = true := by rw [hG]; exact h.1
    have hsp : G.stackptr = 2 := by rw [hG]; decide
    have hnil : bbzvm_obj_at G G.garbage = .nil := by rw [hG]; decide
    clear hG h
    unfold bbzvm_type_ok bbzvm_stack_at at h1
    rw [hsp, if_neg (by omega), hnil] at h1
    exact absurd h1 (by decide)

/-! ## The string count of an image -/

/-- C32 (code at the failing input): the image whose header bytes are 0 and
1 (the count 256, little-endian), followed by 256 empty strings and NOPs.
`bbzvm_set_bcode` reads the count as the byte at offset 0, which is 0: no
string is interned, the globals stay empty and `pc` is 2 where the strings
begin, not 258.  On an image with the count 5 the five strings are interned
as String `i` mapped to Int `i`, `pc` is 2 plus the 10 bytes of the strings,
and after the prelude the globals have size 5. -/
theorem c32_count_read_as_byte :
    (bbzvm_set_bcode_load 4 fresh_vm (fun n => if n = 1 then 1 else 0) 260).map
        (fun v => (v.pc, bbztable_size v.heap v.gsyms)) = some (2, 0) ∧
    (bbzvm_set_bcode_load 4 fresh_vm
        (fun n => [5, 0, 97, 0, 98, 0, 99, 0, 100, 0, 101, 0, 0, 0].getD n 0) 14).map
        (fun v => (v.pc, (bbztable_pairs v.heap v.gsyms).map
          (fun kv => (bbzheap_obj_at v.heap kv.1, bbzheap_obj_at v.heap kv.2))))
      = some (12, [(.string 0, .int 0), (.string 1, .int 1), (.string 2, .int 2),
          (.string 3, .int 3), (.string 4, .int 4)]) ∧
    (bbzvm_set_bcode test_host 4 fresh_vm
        (fun n => [5, 0, 97, 0, 98, 0, 99, 0, 100, 0, 101, 0, 0, 0].getD n 0) 14).map
        (fun v => (v.state, bbztable_size v.heap v.gsyms)) = some (BBZVM_STATE_READY, 5) := by
  decide

/-! ## Allocation failures -/

/-- C35 (code at the failing input): on a machine whose heap region is full
and whose slots are all referenced, PUSHI 5 ends the step in state Error
with error OutOfMemory and six entries on a stack that held five: the index
left unwritten by the allocator (it reads as slot 0, the nil object) is
pushed.  ADD on the Ints 2 and 8384 pops both and pushes that index, and
DUP pushes it after copying the Int 8384 over the nil object. -/
theorem c35_push_after_failed_alloc :
    bbzheap_obj_alloc (full_vm [31, 5, 0, 0, 0, 0] [6, 7, 8, 9, 10]).heap BBZTYPE_INT = none ∧
    bbzvm_stack_size (full_vm [31, 5, 0, 0, 0, 0] [6, 7, 8, 9, 10]) = 5 ∧
    (bbzvm_step test_host (full_vm [31, 5, 0, 0, 0, 0] [6, 7, 8, 9, 10])).state
      = BBZVM_STATE_ERROR ∧
    (bbzvm_step test_host (full_vm [31, 5, 0, 0, 0, 0] [6, 7, 8, 9, 10])).error
      = BBZVM_ERROR_MEM ∧
    bbzvm_stack_size (bbzvm_step test_host (full_vm [31, 5, 0, 0, 0, 0] [6, 7, 8, 9, 10])) = 6 ∧
    (bbzvm_step test_host (full_vm [31, 5, 0, 0, 0, 0] [6, 7, 8, 9, 10])).stack.take 6
      = [6, 7, 8, 9, 10, 0] ∧
    (bbzvm_step test_host (full_vm [7, 0] [10, 8, 9, 6, 7])).error = BBZVM_ERROR_MEM ∧
    (bbzvm_step test_host (full_vm [7, 0] [10, 8, 9, 6, 7])).stack.take 4 = [10, 8, 9, 0] ∧
    bbzvm_stack_size (bbzvm_step test_host (full_vm [7, 0] [10, 8, 9, 6, 7])) = 4 ∧
    (bbzvm_step test_host (full_vm [3, 0] [10, 8, 9, 6, 7])).error = BBZVM_ERROR_MEM ∧
    (bbzvm_step test_host (full_vm [3, 0] [10, 8, 9, 6, 7])).stack.take 6
      = [10, 8, 9, 6, 7, 0] ∧
    bbzvm_obj_at (bbzvm_step test_host (full_vm [3, 0] [10, 8, 9, 6, 7])) 0 = .int 8384 := by
  decide

/-! ## The slots of the outgoing queue -/

/-- C40 (code at the failing input): a queue of capacity 4 whose elements
are in the slots 1 and 2 (`datastart = 1`, `dataend = 3`).
`bbzoutmsg_queue_append_broadcast` and `bbzoutmsg_queue_append_swarm_chunk`
write the new message into slot 0 and `bbzringbuf_makeslot` exposes slot 3,
so the queue gains the stale slot and the message stays outside it;
`bbzoutmsg_queue_append_vstig` writes into slot 3.  On the full queue
(`datastart = 1`, `dataend = 0`) the broadcast is built over the first
element and copied to the last one, the swarm chunk is built over the first
element and copied to the free slot, and the stigmergy message is built in
the free slot and copied onto itself, the queue being unchanged.  With
`datastart = 0` the three functions write the slot `dataend`. -/
theorem c40_append_slots_differ :
    (∀ sort : bbzringbuf_t → bbzringbuf_t,
      bbzoutmsg_queue_append_broadcast sort 7
          ⟨[.blank, .bc 1 1 1, .bc 2 2 2, .blank], 4, 1, 3⟩ 8 9
        = sort ⟨[.bc 7 8 9, .bc 1 1 1, .bc 2 2 2, .blank], 4, 1, 0⟩ ∧
      bbzoutmsg_queue_append_swarm_chunk sort
          ⟨[.blank, .bc 1 1 1, .bc 2 2 2, .blank], 4, 1, 3⟩ 7 8 9
        = sort ⟨[.sw 7 9 8, .bc 1 1 1, .bc 2 2 2, .blank], 4, 1, 0⟩ ∧
      bbzoutmsg_queue_append_vstig sort
          ⟨[.blank, .bc 1 1 1, .bc 2 2 2, .blank], 4, 1, 3⟩ 5 7 8 9 1
        = sort ⟨[.blank, .bc 1 1 1, .bc 2 2 2, .vs 5 7 1 8 9], 4, 1, 0⟩ ∧
      bbzoutmsg_queue_append_broadcast sort 7
          ⟨[.blank, .bc 1 1 1, .bc 2 2 2, .bc 3 3 3], 4, 1, 0⟩ 8 9
        = sort ⟨[.blank, .bc 7 8 9, .bc 2 2 2, .bc 7 8 9], 4, 1, 0⟩ ∧
      bbzoutmsg_queue_append_swarm_chunk sort
          ⟨[.blank, .bc 1 1 1, .bc 2 2 2, .bc 3 3 3], 4, 1, 0⟩ 7 8 9
        = sort ⟨[.sw 7 9 8, .sw 7 9 8, .bc 2 2 2, .bc 3 3 3], 4, 1, 0⟩ ∧
      bbzoutmsg_queue_append_vstig sort
          ⟨[.blank, .bc 1 1 1, .bc 2 2 2, .bc 3 3 3], 4, 1, 0⟩ 5 7 8 9 1
        = sort ⟨[.vs 5 7 1 8 9, .bc 1 1 1, .bc 2 2 2, .bc 3 3 3], 4, 1, 0⟩ ∧
      bbzoutmsg_queue_append_broadcast sort 7
          ⟨[.bc 1 1 1, .bc 2 2 2, .blank, .blank], 4, 0, 2⟩ 8 9
        = sort ⟨[.bc 1 1 1, .bc 2 2 2, .bc 7 8 9, .blank], 4, 0, 3⟩ ∧
      bbzoutmsg_queue_append_vstig sort
          ⟨[.bc 1 1 1, .bc 2 2 2, .blank, .blank], 4, 0, 2⟩ 5 7 8 9 1
        = sort ⟨[.bc 1 1 1, .bc 2 2 2, .vs 5 7 1 8 9, .blank], 4, 0, 3⟩) ∧
    bbzringbuf_elems ⟨[.blank, .bc 1 1 1, .bc 2 2 2, .blank], 4, 1, 3⟩
      = [.bc 1 1 1, .bc 2 2 2] ∧
    bbzringbuf_elems ⟨[.bc 7 8 9, .bc 1 1 1, .bc 2 2 2, .blank], 4, 1, 0⟩
      = [.bc 1 1 1, .bc 2 2 2, .blank] ∧
    bbzringbuf_elems ⟨[.blank, .bc 1 1 1, .bc 2 2 2, .vs 5 7 1 8 9], 4, 1, 0⟩
      = [.bc 1 1 1, .bc 2 2 2, .vs 5 7 1 8 9] ∧
    bbzringbuf_full ⟨[.blank, .bc 1 1 1, .bc 2 2 2, .bc 3 3 3], 4, 1, 0⟩ = true ∧
    bbzringbuf_elems ⟨[.blank, .bc 7 8 9, .bc 2 2 2, .bc 7 8 9], 4, 1, 0⟩
      = [.bc 7 8 9, .bc 2 2 2, .bc 7 8 9] ∧
    bbzringbuf_elems ⟨[.sw 7 9 8, .sw 7 9 8, .bc 2 2 2, .bc 3 3 3], 4, 1, 0⟩
      = [.sw 7 9 8, .bc 2 2 2, .bc 3 3 3] ∧
    bbzringbuf_elems ⟨[.vs 5 7 1 8 9, .bc 1 1 1, .bc 2 2 2, .bc 3 3 3], 4, 1, 0⟩
      = [.bc 1 1 1, .bc 2 2 2, .bc 3 3 3] := by
  refine ⟨fun sort => ⟨rfl, rfl, rfl, rfl, rfl, rfl, rfl, rfl⟩, by decide, by decide, by decide,
    by decide, by decide, by decide, by decide⟩

/-! ## The record of notifier calls -/

theorem bbzvm_notes_same {V W : bbzvm_t} (h1 : W.error_notifier_fun = V.error_notifier_fun)
    (h2 : W.pc = V.pc) (h3 : W.notified = V.notified) (h4 : W.error = V.error)
    (h5 : W.state = V.state) : bbzvm_notes V W :=
  ⟨h1, fun h => by rw [h2]; exact h, [], by simp, by simp [h3], fun _ => ⟨h4, Or.inl h5⟩,
    fun h => absurd rfl h⟩

theorem bbzvm_notes_refl (V : bbzvm_t) : bbzvm_notes V V :=
  bbzvm_notes_same rfl rfl rfl rfl rfl

theorem bbzvm_notes_trans {U V W : bbzvm_t} (h1 : bbzvm_notes U V) (h2 : bbzvm_notes V W) :
    bbzvm_notes U W := by
  obtain ⟨a1, a2, es1, a3, a4, a5, a6⟩ := h1
  obtain ⟨b1, b2, es2, b3, b4, b5, b6⟩ := h2
  refine ⟨b1.trans a1, fun h => b2 (a2 h), es1 ++ es2, ?_, ?_, ?_, ?_⟩
  · intro h
    rcases List.mem_append.mp h with h | h
    · exact a3 h
    · exact b3 h
  · rw [b4, a4, a1]
    cases U.error_notifier_fun <;> simp
  · intro h
    obtain ⟨e1, e2⟩ := List.append_eq_nil.mp h
    obtain ⟨c1, c2⟩ := a5 e1
    obtain ⟨d1, d2⟩ := b5 e2
    refine ⟨d1.trans c1, ?_⟩
    rcases d2 with d2 | d2
    · rcases c2 with c2 | c2
      · exact Or.inl (d2.trans c2)
      · exact Or.inr (d2.trans c2)
    · exact Or.inr d2
  · intro _
    by_cases e2 : es2 = []
    · obtain ⟨d1, d2⟩ := b5 e2
      have e1 : es1 ≠ [] := by
        intro e1
        simp [e1, e2] at *
      obtain ⟨c1, c2⟩ := a6 e1
      subst e2
      rw [List.append_nil, c1, d1]
      refine ⟨rfl, ?_⟩
      rcases d2 with d2 | d2
      · rw [d2]; exact c2
      · exact Or.inr d2
    · obtain ⟨d1, d2⟩ := b6 e2
      rw [List.getLast?_append_of_ne_nil _ e2]
      exact ⟨d1, d2⟩

theorem bbzvm_notes_raise (V : bbzvm_t) (e : bbzvm_error) (he : e ≠ BBZVM_ERROR_NONE) :
    bbzvm_notes V (bbzvm_seterror V e) := by
  refine ⟨rfl, id, [e], ?_, ?_, ?_, ?_⟩
  · simp only [List.mem_singleton]
    exact fun h => he h.symm
  · unfold bbzvm_seterror
    cases V.error_notifier_fun <;> simp
  · intro h
    simp at h
  · intro _
    exact ⟨rfl, Or.inl rfl⟩

theorem bbzvm_notes_seterror {U V : bbzvm_t} (e : bbzvm_error) (he : e ≠ BBZVM_ERROR_NONE)
    (h : bbzvm_notes U V) : bbzvm_notes U (bbzvm_seterror V e) :=
  bbzvm_notes_trans h (bbzvm_notes_raise V e he)

theorem bbzvm_notes_heap {U V : bbzvm_t} (hp : bbzheap_t) (h : bbzvm_notes U V) :
    bbzvm_notes U { V with heap := hp } :=
  bbzvm_notes_trans h (bbzvm_notes_same rfl rfl rfl rfl rfl)

theorem bbzvm_notes_pc {U V : bbzvm_t} (p : Nat) (hp : U.pc < 65536 → p < 65536)
    (h : bbzvm_notes U V) : bbzvm_notes U { V with pc := p } := by
  obtain ⟨a1, -, es1, a3, a4, a5, a6⟩ := h
  exact ⟨a1, hp, es1, a3, a4, a5, a6⟩

theorem bbzvm_notes_done {U V : bbzvm_t} (h : bbzvm_notes U V) :
    bbzvm_notes U (bbzvm_done V) := by
  obtain ⟨a1, a2, es1, a3, a4, a5, a6⟩ := h
  exact ⟨a1, a2, es1, a3, a4, fun e => ⟨(a5 e).1, Or.inr rfl⟩, fun e => ⟨(a6 e).1, Or.inr rfl⟩⟩

theorem bbzvm_notes_push {U V : bbzvm_t} (v : Nat) (h : bbzvm_notes U V) :
    bbzvm_notes U (bbzvm_push V v) := by
  apply bbzvm_notes_trans h
  unfold bbzvm_push
  split
  · exact bbzvm_notes_raise _ _ (by decide)
  · exact bbzvm_notes_same rfl rfl rfl rfl rfl

theorem bbzvm_notes_pop {U V : bbzvm_t} (h : bbzvm_notes U V) :
    bbzvm_notes U (bbzvm_pop V) := by
  apply bbzvm_notes_trans h
  unfold bbzvm_pop
  split
  · exact bbzvm_notes_same rfl rfl rfl rfl rfl
  · exact bbzvm_notes_raise _ _ (by decide)

theorem bbzvm_notes_alloc {U V W : bbzvm_t} {t i : Nat}
    (e : bbzvm_obj_alloc V t = (W, i)) (h : bbzvm_notes U V) : bbzvm_notes U W := by
  apply bbzvm_notes_trans h
  unfold bbzvm_obj_alloc at e
  split at e
  · cases e; exact bbzvm_notes_same rfl rfl rfl rfl rfl
  · cases e; exact bbzvm_notes_raise _ _ (by decide)

theorem bbzvm_notes_alloc1 {U V : bbzvm_t} (t : Nat) (h : bbzvm_notes U V) :
    bbzvm_notes U (bbzvm_obj_alloc V t).1 :=
  bbzvm_notes_alloc (Prod.mk.eta).symm h

theorem bbzvm_notes_setvalue {U V : bbzvm_t} (i : Nat) (x : Int) (h : bbzvm_notes U V) :
    bbzvm_notes U (bbzvm_obj_setvalue V i x) :=
  bbzvm_notes_trans h (bbzvm_notes_same rfl rfl rfl rfl rfl)

theorem bbzvm_notes_setactrec {U V : bbzvm_t} (o a : Nat) (h : bbzvm_notes U V) :
    bbzvm_notes U (bbzvm_obj_setactrec V o a) := by
  apply bbzvm_notes_trans h
  unfold bbzvm_obj_setactrec
  split
  · exact bbzvm_notes_same rfl rfl rfl rfl rfl
  · exact bbzvm_notes_refl _

theorem bbzvm_notes_pushnil {U V : bbzvm_t} (h : bbzvm_notes U V) :
    bbzvm_notes U (bbzvm_pushnil V) :=
  bbzvm_notes_push _ h

theorem bbzvm_notes_dup (V : bbzvm_t) :
    bbzvm_notes V (bbzvm_dup V) := by
  unfold bbzvm_dup
  repeat' (first | split | dsimp only)
  all_goals
    iterate 12
      first
        | exact bbzvm_notes_refl _
        | with_reducible refine bbzvm_notes_seterror _ (by decide) ?_
        | with_reducible apply bbzvm_notes_push
        | with_reducible apply bbzvm_notes_pop
        | with_reducible apply bbzvm_notes_pushnil
        | with_reducible apply bbzvm_notes_setvalue
        | with_reducible apply bbzvm_notes_setactrec
        | with_reducible apply bbzvm_notes_alloc1
        | refine bbzvm_notes_alloc (by assumption) ?_
        | with_reducible apply bbzvm_notes_heap
        | with_reducible refine bbzvm_notes_pc _ (fun _ => by assumption) ?_
        | skip

theorem bbzvm_notes_binary_op_arith (op : Int → Int → Int) (V : bbzvm_t) :
    bbzvm_notes V (bbzvm_binary_op_arith op V) := by
  unfold bbzvm_binary_op_arith
  repeat' (first | split | dsimp only)
  all_goals
    iterate 12
      first
        | exact bbzvm_notes_refl _
        | with_reducible refine bbzvm_notes_seterror _ (by decide) ?_
        | with_reducible apply bbzvm_notes_push
        | with_reducible apply bbzvm_notes_pop
        | with_reducible apply bbzvm_notes_pushnil
        | with_reducible apply bbzvm_notes_setvalue
        | with_reducible apply bbzvm_notes_setactrec
        | with_reducible apply bbzvm_notes_alloc1
        | refine bbzvm_notes_alloc (by assumption) ?_
        | with_reducible apply bbzvm_notes_heap
        | with_reducible refine bbzvm_notes_pc _ (fun _ => by assumption) ?_
        | skip

theorem bbzvm_notes_unm (V : bbzvm_t) :
    bbzvm_notes V (bbzvm_unm V) := by
  unfold bbzvm_unm
  repeat' (first | split | dsimp only)
  all_goals
    iterate 12
      first
        | exact bbzvm_notes_refl _
        | with_reducible refine bbzvm_notes_seterror _ (by decide) ?_
        | with_reducible apply bbzvm_notes_push
        | with_reducible apply bbzvm_notes_pop
        | with_reducible apply bbzvm_notes_pushnil
        | with_reducible apply bbzvm_notes_setvalue
        | with_reducible apply bbzvm_notes_setactrec
        | with_reducible apply bbzvm_notes_alloc1
        | refine bbzvm_notes_alloc (by assumption) ?_
        | with_reducible apply bbzvm_notes_heap
        | with_reducible refine bbzvm_notes_pc _ (fun _ => by assumption) ?_
        | skip

theorem bbzvm_notes_binary_op_logic (op : Nat → Nat → Nat) (V : bbzvm_t) :
    bbzvm_notes V (bbzvm_binary_op_logic op V) := by
  unfold bbzvm_binary_op_logic
  repeat' (first | split | dsimp only)
  all_goals
    iterate 12
      first
        | exact bbzvm_notes_refl _
        | with_reducible refine bbzvm_notes_seterror _ (by decide) ?_
        | with_reducible apply bbzvm_notes_push
        | with_reducible apply bbzvm_notes_pop
        | with_reducible apply bbzvm_notes_pushnil
        | with_reducible apply bbzvm_notes_setvalue
        | with_reducible apply bbzvm_notes_setactrec
        | with_reducible apply bbzvm_notes_alloc1
        | refine bbzvm_notes_alloc (by assumption) ?_
        | with_reducible apply bbzvm_notes_heap
        | with_reducible refine bbzvm_notes_pc _ (fun _ => by assumption) ?_
        | skip

theorem bbzvm_notes_not (V : bbzvm_t) :
    bbzvm_notes V (bbzvm_not V) := by
  unfold bbzvm_not
  repeat' (first | split | dsimp only)
  all_goals
    iterate 12
      first
        | exact bbzvm_notes_refl _
        | with_reducible refine bbzvm_notes_seterror _ (by decide) ?_
        | with_reducible apply bbzvm_notes_push
        | with_reducible apply bbzvm_notes_pop
        | with_reducible apply bbzvm_notes_pushnil
        | with_reducible apply bbzvm_notes_setvalue
        | with_reducible apply bbzvm_notes_setactrec
        | with_reducible apply bbzvm_notes_alloc1
        | refine bbzvm_notes_alloc (by assumption) ?_
        | with_reducible apply bbzvm_notes_heap
        | with_reducible refine bbzvm_notes_pc _ (fun _ => by assumption) ?_
        | skip

theorem bbzvm_notes_binary_op_cmp (op : Int → Nat) (V : bbzvm_t) :
    bbzvm_notes V (bbzvm_binary_op_cmp op V) := by
  unfold bbzvm_binary_op_cmp
  repeat' (first | split | dsimp only)
  all_goals
    iterate 12
      first
        | exact bbzvm_notes_refl _
        | with_reducible refine bbzvm_notes_seterror _ (by decide) ?_
        | with_reducible apply bbzvm_notes_push
        | with_reducible apply bbzvm_notes_pop
        | with_reducible apply bbzvm_notes_pushnil
        | with_reducible apply bbzvm_notes_setvalue
        | with_reducible apply bbzvm_notes_setactrec
        | with_reducible apply bbzvm_notes_alloc1
        | refine bbzvm_notes_alloc (by assumption) ?_
        | with_reducible apply bbzvm_notes_heap
        | with_reducible refine bbzvm_notes_pc _ (fun _ => by assumption) ?_
        | skip

theorem bbzvm_notes_jump (V : bbzvm_t) (t : Nat) (ht : t < 65536) :
    bbzvm_notes V (bbzvm_jump V t) := by
  unfold bbzvm_jump
  repeat' (first | split | dsimp only)
  all_goals
    iterate 12
      first
        | exact bbzvm_notes_refl _
        | with_reducible refine bbzvm_notes_seterror _ (by decide) ?_
        | with_reducible apply bbzvm_notes_push
        | with_reducible apply bbzvm_notes_pop
        | with_reducible apply bbzvm_notes_pushnil
        | with_reducible apply bbzvm_notes_setvalue
        | with_reducible apply bbzvm_notes_setactrec
        | with_reducible apply bbzvm_notes_alloc1
        | refine bbzvm_notes_alloc (by assumption) ?_
        | with_reducible apply bbzvm_notes_heap
        | with_reducible refine bbzvm_notes_pc _ (fun _ => by assumption) ?_
        | skip

theorem bbzvm_notes_jumpz (V : bbzvm_t) (t : Nat) (ht : t < 65536) :
    bbzvm_notes V (bbzvm_jumpz V t) := by
  unfold bbzvm_jumpz
  repeat' (first | split | dsimp only)
  all_goals
    iterate 12
      first
        | exact bbzvm_notes_refl _
        | with_reducible refine bbzvm_notes_seterror _ (by decide) ?_
        | with_reducible apply bbzvm_notes_push
        | with_reducible apply bbzvm_notes_pop
        | with_reducible apply bbzvm_notes_pushnil
        | with_reducible apply bbzvm_notes_setvalue
        | with_reducible apply bbzvm_notes_setactrec
        | with_reducible apply bbzvm_notes_alloc1
        | refine bbzvm_notes_alloc (by assumption) ?_
        | with_reducible apply bbzvm_notes_heap
        | with_reducible refine bbzvm_notes_pc _ (fun _ => by assumption) ?_
        | skip

theorem bbzvm_notes_jumpnz (V : bbzvm_t) (t : Nat) (ht : t < 65536) :
    bbzvm_notes V (bbzvm_jumpnz V t) := by
  unfold bbzvm_jumpnz
  repeat' (first | split | dsimp only)
  all_goals
    iterate 12
      first
        | exact bbzvm_notes_refl _
        | with_reducible refine bbzvm_notes_seterror _ (by decide) ?_
        | with_reducible apply bbzvm_notes_push
        | with_reducible apply bbzvm_notes_pop
        | with_reducible apply bbzvm_notes_pushnil
        | with_reducible apply bbzvm_notes_setvalue
        | with_reducible apply bbzvm_notes_setactrec
        | with_reducible apply bbzvm_notes_alloc1
        | refine bbzvm_notes_alloc (by assumption) ?_
        | with_reducible apply bbzvm_notes_heap
        | with_reducible refine bbzvm_notes_pc _ (fun _ => by assumption) ?_
        | skip

theorem bbzvm_notes_pushc (V : bbzvm_t) (r : Int) (n : Nat) :
    bbzvm_notes V (bbzvm_pushc V r n) := by
  unfold bbzvm_pushc
  repeat' (first | split | dsimp only)
  all_goals
    iterate 12
      first
        | exact bbzvm_notes_refl _
        | with_reducible refine bbzvm_notes_seterror _ (by decide) ?_
        | with_reducible apply bbzvm_notes_push
        | with_reducible apply bbzvm_notes_pop
        | with_reducible apply bbzvm_notes_pushnil
        | with_reducible apply bbzvm_notes_setvalue
        | with_reducible apply bbzvm_notes_setactrec
        | with_reducible apply bbzvm_notes_alloc1
        | refine bbzvm_notes_alloc (by assumption) ?_
        | with_reducible apply bbzvm_notes_heap
        | with_reducible refine bbzvm_notes_pc _ (fun _ => by assumption) ?_
        | skip

theorem bbzvm_notes_pushi (V : bbzvm_t) (v : Int) :
    bbzvm_notes V (bbzvm_pushi V v) := by
  unfold bbzvm_pushi
  repeat' (first | split | dsimp only)
  all_goals
    iterate 12
      first
        | exact bbzvm_notes_refl _
        | with_reducible refine bbzvm_notes_seterror _ (by decide) ?_
        | with_reducible apply bbzvm_notes_push
        | with_reducible apply bbzvm_notes_pop
        | with_reducible apply bbzvm_notes_pushnil
        | with_reducible apply bbzvm_notes_setvalue
        | with_reducible apply bbzvm_notes_setactrec
        | with_reducible apply bbzvm_notes_alloc1
        | refine bbzvm_notes_alloc (by assumption) ?_
        | with_reducible apply bbzvm_notes_heap
        | with_reducible refine bbzvm_notes_pc _ (fun _ => by assumption) ?_
        | skip

theorem bbzvm_notes_pushf (V : bbzvm_t) (v : Nat) :
    bbzvm_notes V (bbzvm_pushf V v) := by
  unfold bbzvm_pushf
  repeat' (first | split | dsimp only)
  all_goals
    iterate 12
      first
        | exact bbzvm_notes_refl _
        | with_reducible refine bbzvm_notes_seterror _ (by decide) ?_
        | with_reducible apply bbzvm_notes_push
        | with_reducible apply bbzvm_notes_pop
        | with_reducible apply bbzvm_notes_pushnil
        | with_reducible apply bbzvm_notes_setvalue
        | with_reducible apply bbzvm_notes_setactrec
        | with_reducible apply bbzvm_notes_alloc1
        | refine bbzvm_notes_alloc (by assumption) ?_
        | with_reducible apply bbzvm_notes_heap
        | with_reducible refine bbzvm_notes_pc _ (fun _ => by assumption) ?_
        | skip

theorem bbzvm_notes_pushs (V : bbzvm_t) (v : Nat) :
    bbzvm_notes V (bbzvm_pushs V v) := by
  unfold bbzvm_pushs
  repeat' (first | split | dsimp only)
  all_goals
    iterate 12
      first
        | exact bbzvm_notes_refl _
        | with_reducible refine bbzvm_notes_seterror _ (by decide) ?_
        | with_reducible apply bbzvm_notes_push
        | with_reducible apply bbzvm_notes_pop
        | with_reducible apply bbzvm_notes_pushnil
        | with_reducible apply bbzvm_notes_setvalue
        | with_reducible apply bbzvm_notes_setactrec
        | with_reducible apply bbzvm_notes_alloc1
        | refine bbzvm_notes_alloc (by assumption) ?_
        | with_reducible apply bbzvm_notes_heap
        | with_reducible refine bbzvm_notes_pc _ (fun _ => by assumption) ?_
        | skip

theorem bbzvm_notes_pushl (V : bbzvm_t) (v : Int) :
    bbzvm_notes V (bbzvm_pushl V v) := by
  unfold bbzvm_pushl
  repeat' (first | split | dsimp only)
  all_goals
    iterate 12
      first
        | exact bbzvm_notes_refl _
        | with_reducible refine bbzvm_notes_seterror _ (by decide) ?_
        | with_reducible apply bbzvm_notes_push
        | with_reducible apply bbzvm_notes_pop
        | with_reducible apply bbzvm_notes_pushnil
        | with_reducible apply bbzvm_notes_setvalue
        | with_reducible apply bbzvm_notes_setactrec
        | with_reducible apply bbzvm_notes_alloc1
        | refine bbzvm_notes_alloc (by assumption) ?_
        | with_reducible apply bbzvm_notes_heap
        | with_reducible refine bbzvm_notes_pc _ (fun _ => by assumption) ?_
        | skip

theorem bbzvm_notes_pusht (V : bbzvm_t) :
    bbzvm_notes V (bbzvm_pusht V) := by
  unfold bbzvm_pusht
  repeat' (first | split | dsimp only)
  all_goals
    iterate 12
      first
        | exact bbzvm_notes_refl _
        | with_reducible refine bbzvm_notes_seterror _ (by decide) ?_
        | with_reducible apply bbzvm_notes_push
        | with_reducible apply bbzvm_notes_pop
        | with_reducible apply bbzvm_notes_pushnil
        | with_reducible apply bbzvm_notes_setvalue
        | with_reducible apply bbzvm_notes_setactrec
        | with_reducible apply bbzvm_notes_alloc1
        | refine bbzvm_notes_alloc (by assumption) ?_
        | with_reducible apply bbzvm_notes_heap
        | with_reducible refine bbzvm_notes_pc _ (fun _ => by assumption) ?_
        | skip

theorem bbzvm_notes_lload (V : bbzvm_t) (i : Nat) :
    bbzvm_notes V (bbzvm_lload V i) := by
  unfold bbzvm_lload
  repeat' (first | split | dsimp only)
  all_goals
    iterate 12
      first
        | exact bbzvm_notes_refl _
        | with_reducible refine bbzvm_notes_seterror _ (by decide) ?_
        | with_reducible apply bbzvm_notes_push
        | with_reducible apply bbzvm_notes_pop
        | with_reducible apply bbzvm_notes_pushnil
        | with_reducible apply bbzvm_notes_setvalue
        | with_reducible apply bbzvm_notes_setactrec
        | with_reducible apply bbzvm_notes_alloc1
        | refine bbzvm_notes_alloc (by assumption) ?_
        | with_reducible apply bbzvm_notes_heap
        | with_reducible refine bbzvm_notes_pc _ (fun _ => by assumption) ?_
        | skip

theorem bbzvm_notes_tput (V : bbzvm_t) :
    bbzvm_notes V (bbzvm_tput V) := by
  unfold bbzvm_tput
  repeat' (first | split | dsimp only)
  all_goals
    iterate 12
      first
        | exact bbzvm_notes_refl _
        | with_reducible refine bbzvm_notes_seterror _ (by decide) ?_
        | with_reducible apply bbzvm_notes_push
        | with_reducible apply bbzvm_notes_pop
        | with_reducible apply bbzvm_notes_pushnil
        | with_reducible apply bbzvm_notes_setvalue
        | with_reducible apply bbzvm_notes_setactrec
        | with_reducible apply bbzvm_notes_alloc1
        | refine bbzvm_notes_alloc (by assumption) ?_
        | with_reducible apply bbzvm_notes_heap
        | with_reducible refine bbzvm_notes_pc _ (fun _ => by assumption) ?_
        | skip

theorem bbzvm_notes_tget (V : bbzvm_t) :
    bbzvm_notes V (bbzvm_tget V) := by
  unfold bbzvm_tget
  repeat' (first | split | dsimp only)
  all_goals
    iterate 12
      first
        | exact bbzvm_notes_refl _
        | with_reducible refine bbzvm_notes_seterror _ (by decide) ?_
        | with_reducible apply bbzvm_notes_push
        | with_reducible apply bbzvm_notes_pop
        | with_reducible apply bbzvm_notes_pushnil
        | with_reducible apply bbzvm_notes_setvalue
        | with_reducible apply bbzvm_notes_setactrec
        | with_reducible apply bbzvm_notes_alloc1
        | refine bbzvm_notes_alloc (by assumption) ?_
        | with_reducible apply bbzvm_notes_heap
        | with_reducible refine bbzvm_notes_pc _ (fun _ => by assumption) ?_
        | skip

theorem bbzvm_notes_gload (V : bbzvm_t) :
    bbzvm_notes V (bbzvm_gload V) := by
  unfold bbzvm_gload
  repeat' (first | split | dsimp only)
  all_goals
    iterate 12
      first
        | exact bbzvm_notes_refl _
        | with_reducible refine bbzvm_notes_seterror _ (by decide) ?_
        | with_reducible apply bbzvm_notes_push
        | with_reducible apply bbzvm_notes_pop
        | with_reducible apply bbzvm_notes_pushnil
        | with_reducible apply bbzvm_notes_setvalue
        | with_reducible apply bbzvm_notes_setactrec
        | with_reducible apply bbzvm_notes_alloc1
        | refine bbzvm_notes_alloc (by assumption) ?_
        | with_reducible apply bbzvm_notes_heap
        | with_reducible refine bbzvm_notes_pc _ (fun _ => by assumption) ?_
        | skip

theorem bbzvm_notes_gstore (V : bbzvm_t) :
    bbzvm_notes V (bbzvm_gstore V) := by
  unfold bbzvm_gstore
  repeat' (first | split | dsimp only)
  all_goals
    iterate 12
      first
        | exact bbzvm_notes_refl _
        | with_reducible refine bbzvm_notes_seterror _ (by decide) ?_
        | with_reducible apply bbzvm_notes_push
        | with_reducible apply bbzvm_notes_pop
        | with_reducible apply bbzvm_notes_pushnil
        | with_reducible apply bbzvm_notes_setvalue
        | with_reducible apply bbzvm_notes_setactrec
        | with_reducible apply bbzvm_notes_alloc1
        | refine bbzvm_notes_alloc (by assumption) ?_
        | with_reducible apply bbzvm_notes_heap
        | with_reducible refine bbzvm_notes_pc _ (fun _ => by assumption) ?_
        | skip

theorem bbzvm_notes_lstore_fill (n : Nat) (V : bbzvm_t) :
    bbzvm_notes V (bbzvm_lstore_fill n V) := by
  induction n generalizing V with
  | zero => exact bbzvm_notes_refl _
  | succ k ih => exact bbzvm_notes_trans (bbzvm_notes_heap _ (bbzvm_notes_refl _)) (ih _)

theorem bbzvm_notes_lstore (V : bbzvm_t) (i : Nat) : bbzvm_notes V (bbzvm_lstore V i) := by
  unfold bbzvm_lstore
  exact bbzvm_notes_heap _ (bbzvm_notes_lstore_fill _ _)

theorem uint16_toNat_lt (x : Int) : (uint16 x).toNat < 65536 := by
  unfold uint16
  omega

theorem bbzvm_notes_ret_lsyms {U V : bbzvm_t} (h : bbzvm_notes U V) :
    bbzvm_notes U (bbzvm_ret_lsyms V) := by
  apply bbzvm_notes_trans h
  unfold bbzvm_ret_lsyms
  dsimp only
  split
  · exact bbzvm_notes_same rfl rfl rfl rfl rfl
  · exact bbzvm_notes_same rfl rfl rfl rfl rfl

theorem bbzvm_notes_ret_frame {U V : bbzvm_t} (h : bbzvm_notes U V) :
    bbzvm_notes U (bbzvm_ret_frame V) := by
  unfold bbzvm_ret_frame
  lift_lets
  intro vm1 vm2 vm3 vm4
  have k2 : bbzvm_notes U vm2 := bbzvm_notes_trans h (bbzvm_notes_same rfl rfl rfl rfl rfl)
  have k3 : bbzvm_notes U vm3 := bbzvm_notes_pop k2
  have k4 : bbzvm_notes U vm4 := bbzvm_notes_pc _ (fun _ => uint16_toNat_lt _) k3
  clear_value vm4 vm3 vm2 vm1
  split
  · exact bbzvm_notes_seterror _ (by decide) k3
  · split
    · exact bbzvm_notes_seterror _ (by decide) k3
    · exact bbzvm_notes_pop k4

theorem bbzvm_notes_ret0 {U V : bbzvm_t} (h : bbzvm_notes U V) :
    bbzvm_notes U (bbzvm_ret0 V) :=
  bbzvm_notes_ret_frame (bbzvm_notes_ret_lsyms h)

theorem bbzvm_notes_ret1 {U V : bbzvm_t} (h : bbzvm_notes U V) :
    bbzvm_notes U (bbzvm_ret1 V) := by
  unfold bbzvm_ret1
  lift_lets
  intro vm1 ret vm2 vm3 vm4 vm5
  have k1 : bbzvm_notes U vm1 := bbzvm_notes_ret_lsyms h
  have k3 : bbzvm_notes U vm3 := bbzvm_notes_trans k1 (bbzvm_notes_same rfl rfl rfl rfl rfl)
  have k4 : bbzvm_notes U vm4 := bbzvm_notes_pop k3
  have k5 : bbzvm_notes U vm5 := bbzvm_notes_pc _ (fun _ => uint16_toNat_lt _) k4
  clear_value vm5 vm4 vm3 vm2 ret vm1
  split
  · exact bbzvm_notes_seterror _ (by decide) k1
  · split
    · exact bbzvm_notes_seterror _ (by decide) k4
    · split
      · exact bbzvm_notes_seterror _ (by decide) k4
      · exact bbzvm_notes_push _ (bbzvm_notes_pop k5)

theorem bbzvm_notes_call_args (n : Nat) {U V : bbzvm_t} (h : bbzvm_notes U V) :
    bbzvm_notes U (bbzvm_call_args n V) := by
  induction n generalizing V with
  | zero => exact h
  | succ k ih =>
    exact ih (bbzvm_notes_trans h (bbzvm_notes_same rfl rfl rfl rfl rfl))

theorem bbzvm_notes_call_locals (isswrm : Bool) (V : bbzvm_t) (argn : Int) (a : Nat) :
    bbzvm_notes V (bbzvm_call_locals isswrm V argn a) := by
  obtain ⟨h, l, e⟩ := bbzvm_call_locals_eq isswrm V argn a
  rw [e]
  exact bbzvm_notes_same rfl rfl rfl rfl rfl

theorem bbzvm_notes_call_frame (V : bbzvm_t) : bbzvm_notes V (bbzvm_call_frame V) := by
  unfold bbzvm_call_frame
  exact bbzvm_notes_trans (bbzvm_notes_trans (bbzvm_notes_pushi _ _) (bbzvm_notes_pushi _ _))
    (bbzvm_notes_same rfl rfl rfl rfl rfl)

theorem bbzvm_notes_call_run (host : Nat → bbzvm_t → bbzvm_t)
    (hhost : ∀ p W, bbzvm_notes W (host p W)) (V : bbzvm_t) (c : Nat) :
    bbzvm_notes V (bbzvm_call_run host V c) := by
  unfold bbzvm_call_run
  dsimp only
  split
  · exact bbzvm_notes_pc _ (fun _ => uint16_toNat_lt _) (bbzvm_notes_refl _)
  split
  · split
    · exact hhost _ _
    · exact hhost _ _
  · exact hhost _ _

theorem bbzvm_notes_call (host : Nat → bbzvm_t → bbzvm_t)
    (hhost : ∀ p W, bbzvm_notes W (host p W)) (isswrm : Bool) (V : bbzvm_t) :
    bbzvm_notes V (bbzvm_call host isswrm V) := by
  have kp : bbzvm_notes V (bbzvm_pop V) := bbzvm_notes_pop (bbzvm_notes_refl _)
  by_cases h1 : bbzvm_stack_size V < 1
  · unfold bbzvm_call
    rw [if_pos h1]
    exact bbzvm_notes_raise _ _ (by decide)
  by_cases h2 : bbzvm_type_ok V 0 BBZTYPE_INT = true
  swap
  · unfold bbzvm_call
    rw [if_neg h1, if_pos (by simpa using h2)]
    exact bbzvm_notes_raise _ _ (by decide)
  by_cases h3 : bbzvm_stack_size (bbzvm_pop V)
      < uint16 (bbzobj_ivalue (bbzvm_obj_at V (bbzvm_stack_at V 0))) + 1
  · unfold bbzvm_call
    lift_lets
    intro argn vm1 c cref cactrec vm2 vm3 vm4 vm5 vm6 vm7 vm8 vm9
    rw [if_neg h1, if_neg (by simp [h2]), if_pos h3]
    exact bbzvm_notes_seterror _ (by decide) kp
  by_cases h4 : bbzvm_type_ok (bbzvm_pop V)
      (uint16 (bbzobj_ivalue (bbzvm_obj_at V (bbzvm_stack_at V 0)))) BBZTYPE_CLOSURE = true
  swap
  · unfold bbzvm_call
    lift_lets
    intro argn vm1 c cref cactrec vm2 vm3 vm4 vm5 vm6 vm7 vm8 vm9
    rw [if_neg h1, if_neg (by simp [h2]), if_neg h3, if_pos (by simpa [vm1, argn] using h4)]
    exact bbzvm_notes_seterror _ (by decide) kp
  rcases bbzvm_call_checked host isswrm V h1 h2 h3 h4 with e | ⟨a, e⟩
  · rw [e]
    exact bbzvm_notes_seterror _ (by decide) kp
  · rw [e]
    exact bbzvm_notes_trans kp
      (bbzvm_notes_trans (bbzvm_notes_call_locals _ _ _ _)
        (bbzvm_notes_trans (bbzvm_notes_call_frame _) (bbzvm_notes_call_run host hhost _ _)))

theorem bbzvm_notes_exec_end {U V : bbzvm_t} (o : Nat) (ho : U.pc < 65536 → o < 65536)
    (h : bbzvm_notes U V) : bbzvm_notes U (bbzvm_exec_end o V) := by
  unfold bbzvm_exec_end
  split
  · exact bbzvm_notes_pc _ ho h
  · exact h

theorem bbzvm_notes_exec_arg {U V : bbzvm_t} (o : Nat) (ho : U.pc < 65536 → o < 65536)
    (k : bbzvm_t → Nat → bbzvm_t) (hk : ∀ W a, bbzvm_notes W (k W a)) (h : bbzvm_notes U V) :
    bbzvm_notes U (bbzvm_exec_arg o V k) := by
  unfold bbzvm_exec_arg
  split
  · exact bbzvm_notes_seterror _ (by decide) h
  · exact bbzvm_notes_exec_end _ ho
      (bbzvm_notes_trans (bbzvm_notes_pc _ (fun _ => Nat.mod_lt _ (by decide)) h) (hk _ _))

theorem bbzvm_notes_exec_chk {U V : bbzvm_t} (o : Nat) (ho : U.pc < 65536 → o < 65536)
    (h : bbzvm_notes U V) : bbzvm_notes U (bbzvm_exec_chk o V) := by
  unfold bbzvm_exec_chk
  split
  · exact bbzvm_notes_seterror _ (by decide) h
  · exact bbzvm_notes_exec_end _ ho h

/-- Every arm of the `switch` of `bbzvm_exec_instr` records the errors it
raises, when the host functions do. -/
theorem bbzvm_notes_exec_switch (host : Nat → bbzvm_t → bbzvm_t)
    (hhost : ∀ p W, bbzvm_notes W (host p W)) (o : Nat) {U V : bbzvm_t}
    (ho : U.pc < 65536 → o < 65536) (h : bbzvm_notes U V) (i : Option bbzvm_instr) :
    bbzvm_notes U (bbzvm_exec_switch host o V i) := by
  have m : ∀ k : Nat, k % 65536 < 65536 := fun k => Nat.mod_lt _ (by decide)
  rcases i with _ | i
  · exact bbzvm_notes_exec_end _ ho (bbzvm_notes_seterror _ (by decide) h)
  cases i
  case RET0 => exact bbzvm_notes_exec_chk _ ho (bbzvm_notes_ret0 h)
  case RET1 => exact bbzvm_notes_exec_chk _ ho (bbzvm_notes_ret1 h)
  case CALLC =>
    exact bbzvm_notes_exec_chk _ ho (bbzvm_notes_trans h (bbzvm_notes_call host hhost _ _))
  case CALLS =>
    exact bbzvm_notes_exec_chk _ ho (bbzvm_notes_trans h (bbzvm_notes_call host hhost _ _))
  case NOP => exact bbzvm_notes_exec_end _ ho h
  case DONE => exact bbzvm_notes_exec_end _ ho (bbzvm_notes_done h)
  case PUSHNIL => exact bbzvm_notes_exec_end _ ho (bbzvm_notes_pushnil h)
  case DUP => exact bbzvm_notes_exec_end _ ho (bbzvm_notes_trans h (bbzvm_notes_dup _))
  case POP => exact bbzvm_notes_exec_end _ ho (bbzvm_notes_pop h)
  case ADD =>
    exact bbzvm_notes_exec_end _ ho (bbzvm_notes_trans h (bbzvm_notes_binary_op_arith _ _))
  case SUB =>
    exact bbzvm_notes_exec_end _ ho (bbzvm_notes_trans h (bbzvm_notes_binary_op_arith _ _))
  case MUL =>
    exact bbzvm_notes_exec_end _ ho (bbzvm_notes_trans h (bbzvm_notes_binary_op_arith _ _))
  case DIV =>
    exact bbzvm_notes_exec_end _ ho (bbzvm_notes_trans h (bbzvm_notes_binary_op_arith _ _))
  case MOD =>
    exact bbzvm_notes_exec_end _ ho (bbzvm_notes_trans h (bbzvm_notes_binary_op_arith _ _))
  case POW =>
    exact bbzvm_notes_exec_end _ ho (bbzvm_notes_trans h (bbzvm_notes_binary_op_arith _ _))
  case UNM => exact bbzvm_notes_exec_end _ ho (bbzvm_notes_trans h (bbzvm_notes_unm _))
  case AND =>
    exact bbzvm_notes_exec_end _ ho (bbzvm_notes_trans h (bbzvm_notes_binary_op_logic _ _))
  case OR =>
    exact bbzvm_notes_exec_end _ ho (bbzvm_notes_trans h (bbzvm_notes_binary_op_logic _ _))
  case NOT => exact bbzvm_notes_exec_end _ ho (bbzvm_notes_trans h (bbzvm_notes_not _))
  case EQ =>
    exact bbzvm_notes_exec_end _ ho (bbzvm_notes_trans h (bbzvm_notes_binary_op_cmp _ _))
  case NEQ =>
    exact bbzvm_notes_exec_end _ ho (bbzvm_notes_trans h (bbzvm_notes_binary_op_cmp _ _))
  case GT =>
    exact bbzvm_notes_exec_end _ ho (bbzvm_notes_trans h (bbzvm_notes_binary_op_cmp _ _))
  case GTE =>
    exact bbzvm_notes_exec_end _ ho (bbzvm_notes_trans h (bbzvm_notes_binary_op_cmp _ _))
  case LT =>
    exact bbzvm_notes_exec_end _ ho (bbzvm_notes_trans h (bbzvm_notes_binary_op_cmp _ _))
  case LTE =>
    exact bbzvm_notes_exec_end _ ho (bbzvm_notes_trans h (bbzvm_notes_binary_op_cmp _ _))
  case GLOAD => exact bbzvm_notes_exec_end _ ho (bbzvm_notes_trans h (bbzvm_notes_gload _))
  case GSTORE => exact bbzvm_notes_exec_end _ ho (bbzvm_notes_trans h (bbzvm_notes_gstore _))
  case PUSHT => exact bbzvm_notes_exec_end _ ho (bbzvm_notes_trans h (bbzvm_notes_pusht _))
  case TPUT => exact bbzvm_notes_exec_end _ ho (bbzvm_notes_trans h (bbzvm_notes_tput _))
  case TGET => exact bbzvm_notes_exec_end _ ho (bbzvm_notes_trans h (bbzvm_notes_tget _))
  case PUSHF =>
    exact bbzvm_notes_exec_arg _ ho _ (fun W a => bbzvm_notes_pushf W _) h
  case PUSHI =>
    exact bbzvm_notes_exec_arg _ ho (fun m arg => bbzvm_pushi m (int16 arg))
      (fun W a => bbzvm_notes_pushi W (int16 a)) h
  case PUSHS =>
    exact bbzvm_notes_exec_arg _ ho _ (fun W a => bbzvm_notes_pushs W _) h
  case PUSHCN =>
    exact bbzvm_notes_exec_arg _ ho (fun m arg => bbzvm_pushcn m (int16 arg))
      (fun W a => bbzvm_notes_pushc W (int16 a) 1) h
  case PUSHCC =>
    exact bbzvm_notes_exec_arg _ ho (fun m arg => bbzvm_pushcc m (int16 arg))
      (fun W a => bbzvm_notes_pushc W (int16 a) 0) h
  case PUSHL =>
    exact bbzvm_notes_exec_arg _ ho (fun m arg => bbzvm_pushl m (int16 arg))
      (fun W a => bbzvm_notes_pushl W (int16 a)) h
  case LLOAD =>
    exact bbzvm_notes_exec_arg _ ho _ (fun W a => bbzvm_notes_lload W _) h
  case LSTORE =>
    exact bbzvm_notes_exec_arg _ ho _ (fun W a => bbzvm_notes_lstore W _) h
  case JUMP =>
    exact bbzvm_notes_exec_arg _ ho _ (fun W a => bbzvm_notes_jump W _ (m a)) h
  case JUMPZ =>
    exact bbzvm_notes_exec_arg _ ho _ (fun W a => bbzvm_notes_jumpz W _ (m a)) h
  case JUMPNZ =>
    exact bbzvm_notes_exec_arg _ ho _ (fun W a => bbzvm_notes_jumpnz W _ (m a)) h

theorem bbzvm_notes_gc (vm : bbzvm_t) : bbzvm_notes vm (bbzvm_gc vm).2 := by
  unfold bbzvm_gc
  split
  · exact bbzvm_notes_refl _
  · lift_lets
    intro vm1 vm2 vm3 vm4 vm5 vm6 vm7
    have k6 : bbzvm_notes vm vm6 :=
      bbzvm_notes_push _ (bbzvm_notes_push _ (bbzvm_notes_push _ (bbzvm_notes_push _
        (bbzvm_notes_push _ (bbzvm_notes_push _ (bbzvm_notes_refl _))))))
    have k7 : bbzvm_notes vm vm7 := bbzvm_notes_heap _ k6
    clear_value vm7 vm6 vm5 vm4 vm3 vm2 vm1
    exact bbzvm_notes_pop (bbzvm_notes_pop (bbzvm_notes_pop (bbzvm_notes_pop
      (bbzvm_notes_pop (bbzvm_notes_pop k7)))))

theorem bbzvm_notes_exec_instr (host : Nat → bbzvm_t → bbzvm_t)
    (hhost : ∀ p W, bbzvm_notes W (host p W)) {U V : bbzvm_t} (h : bbzvm_notes U V) :
    bbzvm_notes U (bbzvm_exec_instr host V) := by
  have k : bbzvm_notes U { V with pc := (V.pc + 1) % 65536 } :=
    bbzvm_notes_pc _ (fun _ => Nat.mod_lt _ (by decide)) h
  unfold bbzvm_exec_instr
  lift_lets
  intro instrOffset instr W
  split
  · exact bbzvm_notes_seterror _ (by decide) k
  · exact bbzvm_notes_exec_switch host hhost _ h.2.1 k _

/-- A step records the errors it raises: the record of notifier calls grows
by them when a notifier is registered, and the error of the machine is the
last of them. -/
theorem bbzvm_notes_step (host : Nat → bbzvm_t → bbzvm_t)
    (hhost : ∀ p W, bbzvm_notes W (host p W)) (vm : bbzvm_t) :
    bbzvm_notes vm (bbzvm_step host vm) := by
  have kg := bbzvm_notes_gc vm
  unfold bbzvm_step
  split
  · generalize bbzvm_gc vm = g at kg
    obtain ⟨b, G⟩ := g
    cases b
    · exact bbzvm_notes_seterror _ (by decide) kg
    · exact bbzvm_notes_exec_instr host hhost kg
  · exact bbzvm_notes_refl _

/-- C34, counterexample: RET0 outside of any call, on the empty stack of a
Ready machine with a registered notifier.  The step ends in state Error and
the notifier was invoked twice with the Stack error: once by the
`bbzvm_pop` of the block pointer, once by the assertion that follows it. -/
theorem c34_exactly_once_counterexample :
    (test_vm 2 8384 [5, 0] []).state = BBZVM_STATE_READY ∧
    (test_vm 2 8384 [5, 0] []).error_notifier_fun = true ∧
    (test_vm 2 8384 [5, 0] []).notified = [] ∧
    (bbzvm_step test_host (test_vm 2 8384 [5, 0] [])).state = BBZVM_STATE_ERROR ∧
    (bbzvm_step test_host (test_vm 2 8384 [5, 0] [])).error = BBZVM_ERROR_STACK ∧
    (bbzvm_step test_host (test_vm 2 8384 [5, 0] [])).notified
      = [BBZVM_ERROR_STACK, BBZVM_ERROR_STACK] ∧
    ¬ (bbzvm_step test_host (test_vm 2 8384 [5, 0] [])).notified.length = 1 := by
  decide

/-- C34, amended: whenever a step takes the machine from state Ready to
state Error, errors `es` were raised during the step, at least one and none
of them the kind None; the last of them is the error stored in the machine
when the step returns.  With a registered notifier the record of notifier
calls grew by exactly `es`, one call per error raised; without one the
record is unchanged and the state and the error are set all the same.  The
host functions are assumed to raise their errors through
`bbzvm_seterror`. -/
theorem c34_notifier_per_error (host : Nat → bbzvm_t → bbzvm_t)
    (hhost : ∀ p W, bbzvm_notes W (host p W)) (vm : bbzvm_t)
    (hr : vm.state = BBZVM_STATE_READY)
    (he : (bbzvm_step host vm).state = BBZVM_STATE_ERROR) :
    (bbzvm_step host vm).error_notifier_fun = vm.error_notifier_fun ∧
    (bbzvm_step host vm).error ≠ BBZVM_ERROR_NONE ∧
    ∃ es : List bbzvm_error, es ≠ [] ∧ BBZVM_ERROR_NONE ∉ es ∧
      es.getLast? = some (bbzvm_step host vm).error ∧
      (bbzvm_step host vm).notified
        = vm.notified ++ (if vm.error_notifier_fun then es else []) := by
  obtain ⟨a1, -, es, a3, a4, a5, a6⟩ := bbzvm_notes_step host hhost vm
  have hne : es ≠ [] := by
    intro h
    obtain ⟨-, c⟩ := a5 h
    rw [he, hr] at c
    rcases c with c | c <;> exact absurd c (by decide)
  obtain ⟨b1, -⟩ := a6 hne
  refine ⟨a1, ?_, es, hne, a3, b1, a4⟩
  intro h
  rw [h] at b1
  exact a3 (List.mem_of_getLast?_eq_some b1)

/-- Witness of C34: POP on the empty stack notifies the Stack error
once. -/
theorem c34_notifier_per_error_witness :
    (bbzvm_step test_host (test_vm 2 8384 [4, 0] [])).notified = [BBZVM_ERROR_STACK] ∧
    (bbzvm_step test_host (test_vm 2 8384 [4, 0] [])).error ≠ BBZVM_ERROR_NONE :=
  ⟨by decide,
    (c34_notifier_per_error test_host (fun _ W => bbzvm_notes_refl W)
      (test_vm 2 8384 [4, 0] []) (by decide) (by decide)).2.1⟩

/-! ## The prelude of an image -/

theorem bbzvm_push_code {U V : bbzvm_t} (v : Nat)
    (h : V.pc = U.pc ∧ V.bcode_fetch_fun = U.bcode_fetch_fun ∧ V.bcode_size = U.bcode_size) :
    (bbzvm_push V v).pc = U.pc ∧ (bbzvm_push V v).bcode_fetch_fun = U.bcode_fetch_fun ∧
      (bbzvm_push V v).bcode_size = U.bcode_size := by
  unfold bbzvm_push
  split
  · exact h
  · exact h

theorem bbzvm_pop_code {U V : bbzvm_t}
    (h : V.pc = U.pc ∧ V.bcode_fetch_fun = U.bcode_fetch_fun ∧ V.bcode_size = U.bcode_size) :
    (bbzvm_pop V).pc = U.pc ∧ (bbzvm_pop V).bcode_fetch_fun = U.bcode_fetch_fun ∧
      (bbzvm_pop V).bcode_size = U.bcode_size := by
  unfold bbzvm_pop
  split
  · exact h
  · exact h

theorem bbzvm_gc_code (vm : bbzvm_t) :
    (bbzvm_gc vm).2.pc = vm.pc ∧ (bbzvm_gc vm).2.bcode_fetch_fun = vm.bcode_fetch_fun ∧
      (bbzvm_gc vm).2.bcode_size = vm.bcode_size := by
  unfold bbzvm_gc
  split
  · exact ⟨rfl, rfl, rfl⟩
  · lift_lets
    intro vm1 vm2 vm3 vm4 vm5 vm6 vm7
    have k6 : vm6.pc = vm.pc ∧ vm6.bcode_fetch_fun = vm.bcode_fetch_fun ∧
        vm6.bcode_size = vm.bcode_size :=
      bbzvm_push_code _ (bbzvm_push_code _ (bbzvm_push_code _ (bbzvm_push_code _
        (bbzvm_push_code _ (bbzvm_push_code _ ⟨rfl, rfl, rfl⟩)))))
    have k7 : vm7.pc = vm.pc ∧ vm7.bcode_fetch_fun = vm.bcode_fetch_fun ∧
        vm7.bcode_size = vm.bcode_size := k6
    clear_value vm7 vm6 vm5 vm4 vm3 vm2 vm1
    exact bbzvm_pop_code (bbzvm_pop_code (bbzvm_pop_code (bbzvm_pop_code
      (bbzvm_pop_code (bbzvm_pop_code k7)))))

/-- A step on a NOP that leaves the machine Ready advances the program
counter by one and keeps the bytecode. -/
theorem bbzvm_step_nop_ready (host : Nat → bbzvm_t → bbzvm_t) (P : bbzvm_t)
    (hb : P.bcode_fetch_fun P.pc % 256 = bbzvm_instr.NOP.code)
    (hr : (bbzvm_step host P).state = BBZVM_STATE_READY) :
    (bbzvm_step host P).pc = (P.pc + 1) % 65536 ∧
    (bbzvm_step host P).bcode_fetch_fun = P.bcode_fetch_fun := by
  have hc := bbzvm_gc_code P
  unfold bbzvm_step at hr ⊢
  split at hr
  swap
  · rename_i hn
    exact absurd hr hn
  rename_i hready
  rw [if_pos hready]
  generalize bbzvm_gc P = g at hc hr ⊢
  obtain ⟨b, G⟩ := g
  obtain ⟨c1, c2, c3⟩ := hc
  simp only [] at c1 c2 c3
  cases b
  · simp [bbzvm_seterror] at hr
  · simp only [] at hr ⊢
    have e : bbzvm_exec_instr host G =
        if bbzvm_pc_out { G with pc := (G.pc + 1) % 65536 } ((G.pc + 1) % 65536 : Nat) then
          bbzvm_seterror { G with pc := (G.pc + 1) % 65536 } BBZVM_ERROR_PC
        else bbzvm_exec_end G.pc { G with pc := (G.pc + 1) % 65536 } := by
      unfold bbzvm_exec_instr
      lift_lets
      intro instrOffset instr W
      have hi : instr = 0 := by
        show G.bcode_fetch_fun G.pc % 256 = 0
        rw [c2, c1]
        exact hb
      have hd : bbzvm_instr.decode instr = some .NOP := by
        rw [hi]; rfl
      rw [hd]
      rfl
    rw [e] at hr ⊢
    split at hr
    · simp [bbzvm_seterror] at hr
    · rename_i hout
      rw [if_neg hout]
      unfold bbzvm_exec_end at hr ⊢
      split at hr
      · rename_i hs
        exact absurd hr hs
      · rename_i hs
        rw [if_neg hs]
        exact ⟨by rw [← c1], c2⟩

theorem bbzvm_steps_succ (host : Nat → bbzvm_t → bbzvm_t) (n : Nat) (V : bbzvm_t) :
    bbzvm_steps host (n + 1) V = bbzvm_step host (bbzvm_steps host n V) := by
  induction n generalizing V with
  | zero => rfl
  | succ k ih =>
    show bbzvm_steps host (k + 1) (bbzvm_step host V) = _
    rw [ih]
    rfl

theorem bbzvm_notes_steps (host : Nat → bbzvm_t → bbzvm_t)
    (hhost : ∀ p W, bbzvm_notes W (host p W)) (n : Nat) (V : bbzvm_t) :
    bbzvm_notes V (bbzvm_steps host n V) := by
  induction n generalizing V with
  | zero => exact bbzvm_notes_refl _
  | succ k ih => exact bbzvm_notes_trans (bbzvm_notes_step host hhost V) (ih _)

/-- The prelude loop returns a Ready machine only after a step made on a
NOP: the steps before it were made on other bytes and left the machine
Ready. -/
theorem bbzvm_set_bcode_prelude_ready (host : Nat → bbzvm_t → bbzvm_t) (fuel : Nat)
    (V W : bbzvm_t) (h : bbzvm_set_bcode_prelude host fuel V = some W)
    (hr : W.state = BBZVM_STATE_READY) :
    ∃ n, W = bbzvm_steps host (n + 1) V ∧
      (bbzvm_steps host n V).bcode_fetch_fun (bbzvm_steps host n V).pc % 256
        = bbzvm_instr.NOP.code ∧
      ∀ j, j < n →
        (bbzvm_steps host j V).bcode_fetch_fun (bbzvm_steps host j V).pc % 256
          ≠ bbzvm_instr.NOP.code ∧
        (bbzvm_steps host (j + 1) V).state = BBZVM_STATE_READY := by
  induction fuel generalizing V with
  | zero => simp [bbzvm_set_bcode_prelude] at h
  | succ f ih =>
    unfold bbzvm_set_bcode_prelude at h
    split at h
    · rename_i hb
      simp only [] at h
      split at h
      · rename_i hs
        cases h
        exact absurd hr hs
      · rename_i hs
        have hs' : (bbzvm_step host V).state = BBZVM_STATE_READY := by
          by_contra hc
          exact hs hc
        obtain ⟨n, e, hnop, hj⟩ := ih _ h
        refine ⟨n + 1, e, hnop, ?_⟩
        intro j hjlt
        cases j with
        | zero => exact ⟨hb, hs'⟩
        | succ j => exact hj j (by omega)
    · rename_i hb
      cases h
      refine ⟨0, rfl, ?_, fun j hj => absurd hj (by omega)⟩
      by_contra hc
      exact hb hc

theorem bbzvm_set_bcode_scan_fuel (fetch : Nat → Nat) (f k : Nat) (c r : Nat)
    (h : bbzvm_set_bcode_scan fetch f c = some r) :
    bbzvm_set_bcode_scan fetch (f + k) c = some r := by
  induction f generalizing c with
  | zero => simp [bbzvm_set_bcode_scan] at h
  | succ n ih =>
    rw [Nat.add_right_comm]
    unfold bbzvm_set_bcode_scan at h ⊢
    split
    · rename_i hz
      rw [if_pos hz] at h
      exact h
    · rename_i hz
      rw [if_neg hz] at h
      exact ih _ h

theorem bbzvm_set_bcode_strings_fuel (f k : Nat) (n i c : Nat) (vm : bbzvm_t)
    (r : bbzvm_t × Nat) (h : bbzvm_set_bcode_strings f n i c vm = some r) :
    bbzvm_set_bcode_strings (f + k) n i c vm = some r := by
  induction n generalizing i c vm with
  | zero =>
    unfold bbzvm_set_bcode_strings at h ⊢
    exact h
  | succ m ih =>
    unfold bbzvm_set_bcode_strings at h ⊢
    cases hs : bbzvm_set_bcode_scan vm.bcode_fetch_fun f c with
    | none => rw [hs] at h; simp at h
    | some c1 =>
      rw [hs] at h
      rw [bbzvm_set_bcode_scan_fuel _ f k c c1 hs]
      exact ih _ _ _ h

theorem bbzvm_set_bcode_load_fuel (f k : Nat) (vm : bbzvm_t) (fetch : Nat → Nat) (size : Nat)
    (L : bbzvm_t) (h : bbzvm_set_bcode_load f vm fetch size = some L) :
    bbzvm_set_bcode_load (f + k) vm fetch size = some L ∧ L.pc < 65536 := by
  unfold bbzvm_set_bcode_load at h ⊢
  lift_lets at h ⊢
  intro vm1 strCount
  revert h
  intro h
  cases hs : bbzvm_set_bcode_strings f strCount 0 0 vm1 with
  | none => simp only [hs] at h; simp at h
  | some r =>
    simp only [hs] at h
    rw [bbzvm_set_bcode_strings_fuel f k _ _ _ _ r hs]
    obtain ⟨vm2, c⟩ := r
    refine ⟨h, ?_⟩
    simp only [Option.some.injEq] at h
    rw [← h]
    exact Nat.mod_lt _ (by decide)

theorem bbzvm_set_bcode_prelude_fuel (host : Nat → bbzvm_t → bbzvm_t) (f k : Nat)
    (V W : bbzvm_t) (h : bbzvm_set_bcode_prelude host f V = some W) :
    bbzvm_set_bcode_prelude host (f + k) V = some W := by
  induction f generalizing V with
  | zero => simp [bbzvm_set_bcode_prelude] at h
  | succ n ih =>
    rw [Nat.add_right_comm]
    unfold bbzvm_set_bcode_prelude at h ⊢
    split
    · rename_i hb
      rw [if_pos hb] at h
      simp only [] at h ⊢
      split
      · rename_i hs
        rw [if_pos hs] at h
        exact h
      · rename_i hs
        rw [if_neg hs] at h
        exact ih _ h
    · rename_i hb
      rw [if_neg hb] at h
      exact h

/-- C33: whenever `bbzvm_set_bcode` returns with the machine in state
Ready, the byte of the bytecode at `pc - 1` (taken as a `uint16_t`) is the
NOP opcode: the machine is the one the string section left, after `n + 1`
steps, where the first `n` steps were made on bytes at `pc` other than NOP
and left the machine Ready, and the last step was made on a NOP at `pc`;
nothing is executed after it.  The bytes of an operand are never at `pc` when
a step starts, so they do not end the prelude.  The result is the same with
any larger bound on the loops.  The host functions are assumed to raise
their errors through `bbzvm_seterror` and to leave `pc` a `uint16_t`. -/
theorem c33_prelude_ends_on_nop (host : Nat → bbzvm_t → bbzvm_t)
    (hhost : ∀ p W, bbzvm_notes W (host p W)) (fuel : Nat) (vm : bbzvm_t)
    (fetch : Nat → Nat) (size : Nat) (W : bbzvm_t)
    (h : bbzvm_set_bcode host fuel vm fetch size = some W)
    (hr : W.state = BBZVM_STATE_READY) :
    W.bcode_fetch_fun ((W.pc + 65535) % 65536) % 256 = bbzvm_instr.NOP.code ∧
    (∀ k, bbzvm_set_bcode host (fuel + k) vm fetch size = some W) ∧
    ∃ L n, bbzvm_set_bcode_load fuel vm fetch size = some L ∧
      W = bbzvm_steps host (n + 1) L ∧
      (bbzvm_steps host n L).bcode_fetch_fun (bbzvm_steps host n L).pc % 256
        = bbzvm_instr.NOP.code ∧
      ∀ j, j < n →
        (bbzvm_steps host j L).bcode_fetch_fun (bbzvm_steps host j L).pc % 256
          ≠ bbzvm_instr.NOP.code ∧
        (bbzvm_steps host (j + 1) L).state = BBZVM_STATE_READY := by
  unfold bbzvm_set_bcode at h
  cases hL : bbzvm_set_bcode_load fuel vm fetch size with
  | none => rw [hL] at h; simp at h
  | some L =>
    rw [hL] at h
    simp only [] at h
    obtain ⟨n, e, hnop, hj⟩ := bbzvm_set_bcode_prelude_ready host fuel L W h hr
    have hLpc : L.pc < 65536 := (bbzvm_set_bcode_load_fuel fuel 0 vm fetch size L hL).2
    have hP : (bbzvm_steps host n L).pc < 65536 := (bbzvm_notes_steps host hhost n L).2.1 hLpc
    have e' : W = bbzvm_step host (bbzvm_steps host n L) := by
      rw [e, bbzvm_steps_succ]
    obtain ⟨p1, p2⟩ := bbzvm_step_nop_ready host (bbzvm_steps host n L) hnop (by rw [← e']; exact hr)
    refine ⟨?_, ?_, L, n, rfl, e, hnop, hj⟩
    · rw [e', p1, p2]
      have e3 : (((bbzvm_steps host n L).pc + 1) % 65536 + 65535) % 65536
          = (bbzvm_steps host n L).pc := by omega
      rw [e3]
      exact hnop
    · intro k
      unfold bbzvm_set_bcode
      rw [(bbzvm_set_bcode_load_fuel fuel k vm fetch size L hL).1]
      exact bbzvm_set_bcode_prelude_fuel host fuel k L W h

/-- Witness of C33: the image with five strings, a PUSHI whose operand
bytes are zero, a NOP and a DONE: the prelude ends after the NOP at offset
17, with the Int pushed. -/
theorem c33_prelude_ends_on_nop_witness :
    ∃ W, bbzvm_set_bcode test_host 4 fresh_vm
        (fun n => [5, 0, 97, 0, 98, 0, 99, 0, 100, 0, 101, 0, 31, 0, 0, 0, 0, 0, 1].getD n 0) 19
        = some W ∧
      W.state = BBZVM_STATE_READY ∧ W.pc = 18 ∧ bbzvm_stack_size W = 1 ∧
      W.bcode_fetch_fun ((W.pc + 65535) % 65536) % 256 = bbzvm_instr.NOP.code := by
  refine ⟨_, rfl, by decide, by decide, by decide, ?_⟩
  refine (c33_prelude_ends_on_nop test_host (fun _ W => bbzvm_notes_refl W) 4 fresh_vm
    (fun n => [5, 0, 97, 0, 98, 0, 99, 0, 100, 0, 101, 0, 31, 0, 0, 0, 0, 0, 1].getD n 0) 19
    _ ?_ ?_).1
  · rfl
  · decide

end BittyBuzz
